import Mathlib

/-!
Kernel allocator: buddy layer

A shallow embedding of `Source/src/buddy.c` and `Source/h/buddy.h`.

Modelling conventions.

* The globals `mem_space` and `buddy_ctrl_struct` together with the part of the
  region the buddy layer reads and writes form one record, `buddy_state`
  (the field `alloc_space` is written once and never read; it is left out).
* `block_index_t`, `block_count_t` (`unsigned long`) and `unsigned int` are the
  32-bit words of the MSVC targets the sources are written for (`printf_s`,
  `_WIN64`).  Values are natural numbers; a reduction modulo `WORD` is written
  wherever the C text relies on, or can reach, wrap-around
  (`block_count--`, the signed step of `calc_buddy_index`, the pointer
  difference of `get_index`, the bump of `ctrl_offset`, the sum
  `free_block_count += block_count` of `buddy_free`).
* `free_heads` is an array of `MAX_ORDER_LIMIT` entries.  An access at an index
  outside the array has no defined result; the operations return `none` there.
  Entries that `buddy_init` does not write keep what the caller's region held.
* Memory is `words`, the machine word stored at an address; the buddy layer
  touches only the first word of a block, through the pointer `get_block i`.
  The product `BLOCK_SIZE * block_index` of `get_block` is a 32-bit product, so
  block pointers are exact for regions of at most `2 ^ 20` blocks (4 GiB).
* Loops that follow links stored in memory (`remove`) run on fuel
  `alloc_block_count + 1`; `none` stands for a walk that does not end.  The
  fuel is enough whenever the listed indices are distinct blocks of the region
  (`remove_spec`).

Contents: the definitions; arithmetic of words and bits; `buddy_init`; the
success path of `buddy_alloc`; allocation followed by the free of the same hook;
the failure path of `buddy_alloc`; `remove`, `put_first` and `buddy_free` on
well-formed lists; the invariant of the buddy layer (aligned, disjoint runs, no
free buddy pair, free count equal to the listed blocks) along call sequences in
which every allocation is served from a list of an order up to `max_order`; and
runs of the code on concrete call sequences, among them sequences in which the
upward scan of `buddy_alloc` passes `max_order`.
-/

namespace KernelAllocator

/-! ## Constants and macros of `buddy.h` -/

/-- Size of a block in bytes. -/
def BLOCK_SIZE : Nat := 4096

/-- L1 cache line size in bytes. -/
def CACHE_L1_LINE_SIZE : Nat := 64

/-- Number of entries of `free_heads`. -/
def MAX_ORDER_LIMIT : Nat := 25

/-- Null block index. -/
def NULL_INDEX : Nat := 0

/-- First index for allocation. -/
def FIRST_ALLOC_INDEX : Nat := 1

/-- The null pointer. -/
def NULL : Nat := 0

/-- Number of values of a 32-bit word. -/
def WORD : Nat := 2 ^ 32

/-- Bytes of `buddy_struct_t` with 32-bit pointers and words:
`4 + 4 + 4 + 25 * 4 + 4 + 4`.  With 64-bit pointers the size is 128; both give
the same initial `ctrl_offset`. -/
def SIZEOF_BUDDY_STRUCT : Nat := 120

/-- Macro `size_in_L1(size)`. -/
def size_in_L1 (size : Nat) : Nat :=
  size / CACHE_L1_LINE_SIZE + (if size % CACHE_L1_LINE_SIZE ≠ 0 then 1 else 0)

/-- Macro `size_in_blocks(size)`. -/
def size_in_blocks (size : Nat) : Nat :=
  size / BLOCK_SIZE + (if size % BLOCK_SIZE ≠ 0 then 1 else 0)

/-- Macro `power_of_two(order)`, `(unsigned int)(1 << order)`; exact for every
order that can index `free_heads`. -/
def power_of_two (order : Nat) : Nat := 2 ^ order

/-- Block area hook. -/
structure block_area where
  addr : Nat
  order : Nat
deriving DecidableEq, Repr

/-- The globals of `buddy.c` and the memory they govern: `mem_space`, the fields
of `buddy_struct_t`, and the word stored at each address. -/
structure buddy_state where
  mem_space : Nat
  alloc_block_count : Nat
  free_block_count : Nat
  free_heads : Nat → Nat
  max_order : Nat
  ctrl_offset : Nat
  words : Nat → Nat

/-- What the caller's region holds before `buddy_init`: its base address, the
words that will become `free_heads`, and the word stored at each address. -/
structure region where
  base : Nat
  heads : Nat → Nat
  words : Nat → Nat

/-- Macro `get_block(block_index)`. -/
def get_block (s : buddy_state) (block_index : Nat) : Nat :=
  s.mem_space + (BLOCK_SIZE * block_index) % WORD

/-- Macro `get_next_index(block_ptr)`. -/
def get_next_index (s : buddy_state) (block_ptr : Nat) : Nat :=
  s.words block_ptr

/-- Macro `set_next_index(cur_block_ptr, next_block_index)`. -/
def set_next_index (s : buddy_state) (cur_block_ptr next_block_index : Nat) : buddy_state :=
  { s with words := Function.update s.words cur_block_ptr next_block_index }

/-- Macro `null_next_index(block_ptr)`. -/
def null_next_index (s : buddy_state) (block_ptr : Nat) : buddy_state :=
  set_next_index s block_ptr NULL_INDEX

/-- Macro `get_index(block_ptr)`: the pointer difference converted to
`block_index_t`, divided by `BLOCK_SIZE`. -/
def get_index (s : buddy_state) (block_ptr : Nat) : Nat :=
  (((block_ptr : Int) - (s.mem_space : Int)) % (WORD : Int)).toNat / BLOCK_SIZE

/-! ## Calculations -/

/-- Loop of `calc_max_order`: `while (num) { m++; num >>= 1; }`. -/
def calc_max_order_loop : Nat → Nat → Int → Int
  | 0, _, m => m
  | fuel + 1, num, m =>
      if num ≠ 0 then calc_max_order_loop fuel (num / 2) (m + 1) else m

/-- Function `calc_max_order`: the `int` value `m` it returns for the
`unsigned int` argument. -/
def calc_max_order (num : Nat) : Int :=
  calc_max_order_loop 32 (num % WORD) (-1)

/-- Function `calc_buddy_index`. -/
def calc_buddy_index (block_index order : Nat) : Nat :=
  if block_index % power_of_two order ≠ 1 ∧ order ≠ 0 then NULL_INDEX
  else
    let left : Int := if block_index % power_of_two (order + 1) = 1 then 1 else 0
    let sign : Int := -1 * (1 - left) + left
    (((block_index : Int) + (sign * (power_of_two order : Int)) % (WORD : Int))
      % (WORD : Int)).toNat

/-! ## List operations -/

/-- Function `put_first`. -/
def put_first (s : buddy_state) (block_index order : Nat) : Option buddy_state :=
  if order < MAX_ORDER_LIMIT then
    let head_index := s.free_heads order
    let s1 := set_next_index s (get_block s block_index) head_index
    some { s1 with free_heads := Function.update s1.free_heads order block_index }
  else none

/-- Loop of `remove`.  The outer `none` is a walk that outlives the fuel, the
inner `none` is the `return NULL_INDEX` inside the loop, and `(prev, cur)` are
the locals when the loop ends. -/
def remove_walk (s : buddy_state) (block_index : Nat) :
    Nat → Nat → Nat → Option (Option (Nat × Nat))
  | 0, _, _ => none
  | fuel + 1, prev, cur =>
      if cur ≠ block_index then
        if get_next_index s (get_block s cur) = NULL_INDEX then some none
        else remove_walk s block_index fuel cur (get_next_index s (get_block s cur))
      else some (some (prev, cur))

/-- Function `remove`: the returned index and the state it leaves. -/
def remove (s : buddy_state) (block_index order : Nat) : Option (Nat × buddy_state) :=
  if order < MAX_ORDER_LIMIT then
    let cur := s.free_heads order
    if block_index = NULL_INDEX ∨ block_index > s.alloc_block_count
        ∨ order > s.max_order ∨ cur = NULL_INDEX then
      some (NULL_INDEX, s)
    else
      match remove_walk s block_index (s.alloc_block_count + 1) NULL_INDEX cur with
      | none => none
      | some none => some (NULL_INDEX, s)
      | some (some (prev, cur)) =>
          let s1 : buddy_state :=
            if prev ≠ NULL_INDEX then
              set_next_index s (get_block s prev) (get_next_index s (get_block s cur))
            else
              { s with free_heads :=
                  Function.update s.free_heads order (get_next_index s (get_block s cur)) }
          some (cur, null_next_index s1 (get_block s1 cur))
  else none

/-! ## Buddy allocator functions -/

/-- Loop of `buddy_init`, entered with `order = n - 1`; it runs `n` times. -/
def buddy_init_loop (block_count : Nat) : Nat → buddy_state → Nat → Option buddy_state
  | 0, s, _ => some s
  | order + 1, s, block_index =>
      if order < MAX_ORDER_LIMIT then
        if block_count &&& power_of_two order ≠ 0 then
          let s1 : buddy_state :=
            { s with free_heads := Function.update s.free_heads order block_index }
          buddy_init_loop block_count order (null_next_index s1 (get_block s1 block_index))
            (block_index + power_of_two order)
        else
          buddy_init_loop block_count order
            { s with free_heads := Function.update s.free_heads order NULL_INDEX }
            block_index
      else none

/-- Function `buddy_init`. -/
def buddy_init (space : region) (block_count : Nat) : Option buddy_state :=
  let block_count := (block_count + WORD - 1) % WORD
  let order : Int := calc_max_order block_count
  let s : buddy_state :=
    { mem_space := space.base
      alloc_block_count := block_count
      free_block_count := block_count
      free_heads := space.heads
      max_order := (order % (WORD : Int)).toNat
      ctrl_offset := size_in_L1 SIZEOF_BUDDY_STRUCT * CACHE_L1_LINE_SIZE
      words := space.words }
  buddy_init_loop block_count (order + 1).toNat s FIRST_ALLOC_INDEX

/-- Upward scan of `buddy_alloc`:
`while (free_heads[temp_order] == NULL_INDEX) temp_order++;`.
The result is the order at which the scan stops; `none` when it reads past the
end of `free_heads`. -/
def scan_heads (heads : Nat → Nat) : Nat → Nat → Option Nat
  | 0, _ => none
  | fuel + 1, temp_order =>
      if temp_order < MAX_ORDER_LIMIT then
        if heads temp_order = NULL_INDEX then scan_heads heads fuel (temp_order + 1)
        else some temp_order
      else none

/-- Splitting loop of `buddy_alloc`, entered with `temp_order = order + d`. -/
def split_loop (temp_index order : Nat) : Nat → buddy_state → Option buddy_state
  | 0, s => some s
  | d + 1, s =>
      (put_first s (temp_index + power_of_two (order + d)) (order + d)).bind
        (split_loop temp_index order d)

/-- Function `buddy_alloc`: the hook and the state it leaves. -/
def buddy_alloc (s : buddy_state) (order : Nat) : Option (block_area × buddy_state) :=
  let block_count := power_of_two order
  if s.free_block_count ≥ block_count ∧ order ≤ s.max_order then
    if order < MAX_ORDER_LIMIT then
      let head_index := s.free_heads order
      if head_index ≠ NULL_INDEX then
        (remove s head_index order).bind fun r =>
          some (⟨get_block r.2 r.1, order⟩,
            { r.2 with free_block_count := r.2.free_block_count - block_count })
      else
        (scan_heads s.free_heads (MAX_ORDER_LIMIT + 1) order).bind fun temp_order =>
        (remove s (s.free_heads temp_order) temp_order).bind fun r =>
        (split_loop r.1 order (temp_order - order) r.2).bind fun s2 =>
          some (⟨get_block s2 r.1, order⟩,
            { s2 with free_block_count := s2.free_block_count - block_count })
    else none
  else some (⟨NULL, order⟩, s)

/-- Coalescing loop of `buddy_free`; it returns the state and the locals
`index` and `order` when `buddy_index` is null. -/
def buddy_free_loop : Nat → buddy_state → Nat → Nat → Nat → Option (buddy_state × Nat × Nat)
  | 0, _, _, _, _ => none
  | fuel + 1, s, index, order, buddy_index =>
      if buddy_index ≠ NULL_INDEX then
        let index := if buddy_index < index then buddy_index else index
        let order := order + 1
        (remove s (calc_buddy_index index order) order).bind fun r =>
          buddy_free_loop fuel r.2 index order r.1
      else some (s, index, order)

/-- Function `buddy_free`: the returned status and the state it leaves. -/
def buddy_free (s : buddy_state) (area : block_area) : Option (Int × buddy_state) :=
  let index := get_index s area.addr
  let order := area.order
  let buddy_index := calc_buddy_index index order
  let block_count := power_of_two order
  if index > NULL_INDEX ∧ index ≤ s.alloc_block_count then
    (remove s buddy_index order).bind fun r =>
    (buddy_free_loop (MAX_ORDER_LIMIT + 1) r.2 index order r.1).bind fun l =>
    (put_first l.1 l.2.1 l.2.2).bind fun s3 =>
      some (0, { s3 with free_block_count := (s3.free_block_count + block_count) % WORD })
  else some (-1, s)

/-- Function `kernel_ctrl_alloc`: the returned pointer and the state it leaves. -/
def kernel_ctrl_alloc (s : buddy_state) (size : Nat) : Nat × buddy_state :=
  if s.ctrl_offset ≥ BLOCK_SIZE then (NULL, s)
  else
    (s.mem_space + s.ctrl_offset,
      { s with ctrl_offset := (s.ctrl_offset + size_in_L1 size * CACHE_L1_LINE_SIZE) % WORD })

/-! ## Observations used to state the properties -/

/-- Runs linked from `cur` through the next-index words, at most `fuel` of them
(a list of distinct blocks of the region has at most `alloc_block_count`). -/
def list_walk (s : buddy_state) : Nat → Nat → List Nat
  | 0, _ => []
  | fuel + 1, cur =>
      if cur = NULL_INDEX then []
      else cur :: list_walk s fuel (get_next_index s (get_block s cur))

/-- The order-`order` free list: the indices linked from `free_heads[order]`. -/
def free_list (s : buddy_state) (order : Nat) : List Nat :=
  list_walk s (s.alloc_block_count + 1) (s.free_heads order)

/-- Sum over the orders `0 .. max_order` of (runs on the list) times `2 ^ order`. -/
def free_list_blocks (s : buddy_state) : Nat :=
  ((List.range (s.max_order + 1)).map fun k => (free_list s k).length * 2 ^ k).sum

/-- The indices `l` are exactly the runs linked from `head`: each one is followed
through its next-index word by the next, and the last one by the null index. -/
def linked (s : buddy_state) : Nat → List Nat → Prop
  | head, [] => head = NULL_INDEX
  | head, a :: l =>
      head = a ∧ a ≠ NULL_INDEX ∧ linked s (get_next_index s (get_block s a)) l

/-- Well-formed free lists: `lists k` is the content of the order-`k` list for
every order up to `max_order`; every listed index is one of the blocks
`1 .. alloc_block_count`; no index is listed twice; `max_order` is the position
of a set bit of the block count; and the block count is within the reach of
block pointers. -/
structure lists_ok (s : buddy_state) (lists : Nat → List Nat) : Prop where
  top_bit : 2 ^ s.max_order ≤ s.alloc_block_count
  small : s.alloc_block_count < 2 ^ 20
  chain : ∀ k, k ≤ s.max_order → linked s (s.free_heads k) (lists k)
  inside : ∀ k, k ≤ s.max_order → ∀ a, a ∈ lists k → 1 ≤ a ∧ a ≤ s.alloc_block_count
  apart : ∀ k1 k2, k1 ≤ s.max_order → k2 ≤ s.max_order → ∀ a, a ∈ lists k1 → a ∈ lists k2 →
    k1 = k2
  nodup : ∀ k, k ≤ s.max_order → (lists k).Nodup

/-- Two runs `(index, order)` whose block ranges do not meet. -/
def apart_runs (r1 r2 : Nat × Nat) : Prop :=
  r1.1 + 2 ^ r1.2 ≤ r2.1 ∨ r2.1 + 2 ^ r2.2 ≤ r1.1

/-- A run `(index, order)` that starts `2 ^ order`-aligned from block 1 and lies
inside the blocks `1 .. m`. -/
def fits (m : Nat) (r : Nat × Nat) : Prop :=
  2 ^ r.2 ∣ (r.1 - 1) ∧ 1 ≤ r.1 ∧ r.1 + 2 ^ r.2 ≤ m + 1

/-- The runs of a buddy system with `m` blocks: `lists k` are the free runs of
order `k`, `outs` the runs handed out.  All of them are aligned and inside the
region, no two of them meet, and no free run has its buddy free at its order. -/
structure runs_ok (m max : Nat) (lists : Nat → List Nat) (outs : List (Nat × Nat)) :
    Prop where
  bound : m < 2 ^ (max + 1)
  free_fit : ∀ k, k ≤ max → ∀ a, a ∈ lists k → fits m (a, k)
  out_fit : ∀ r, r ∈ outs → fits m r
  free_free : ∀ k1 k2, k1 ≤ max → k2 ≤ max → ∀ a1 a2, a1 ∈ lists k1 → a2 ∈ lists k2 →
    a1 ≠ a2 → apart_runs (a1, k1) (a2, k2)
  free_out : ∀ k, k ≤ max → ∀ a, a ∈ lists k → ∀ r, r ∈ outs → apart_runs (a, k) r
  out_out : outs.Pairwise apart_runs
  no_pair : ∀ k, k ≤ max → ∀ a, a ∈ lists k → calc_buddy_index a k ∉ lists k

/-- Sum over the orders `0 .. max` of (length of `lists k`) times `2 ^ k`. -/
def listed_blocks (lists : Nat → List Nat) (max : Nat) : Nat :=
  ((List.range (max + 1)).map fun k => (lists k).length * 2 ^ k).sum

/-- The run a hook denotes: its block index and its order. -/
def hook_run (s : buddy_state) (h : block_area) : Nat × Nat :=
  (get_index s h.addr, h.order)

/-- The invariant of the buddy layer for a state and the hooks handed out:
well-formed free lists, runs that fit and do not meet, and a free count equal to
the blocks on the lists. -/
structure buddy_inv (s : buddy_state) (out : List block_area) (lists : Nat → List Nat) :
    Prop where
  ok : lists_ok s lists
  runs : runs_ok s.alloc_block_count s.max_order lists (out.map (hook_run s))
  count : s.free_block_count = listed_blocks lists s.max_order

/-- States reached from `buddy_init(space, n)` by `buddy_alloc` calls that pass
the guard and are served from a list of an order up to `max_order`, and by
`buddy_free` calls on hooks handed out and not yet freed; the list holds those
hooks.  (A call that fails the guard leaves the state as it is.) -/
inductive served_reach (space : region) (n : Nat) : buddy_state → List block_area → Prop
  | init (s : buddy_state) : buddy_init space n = some s → served_reach space n s []
  | alloc (s s1 : buddy_state) (out : List block_area) (order k : Nat) (h : block_area) :
      served_reach space n s out →
      s.free_block_count ≥ power_of_two order → order ≤ k → k ≤ s.max_order →
      s.free_heads k ≠ NULL_INDEX →
      buddy_alloc s order = some (h, s1) →
      served_reach space n s1 (h :: out)
  | free (s s1 : buddy_state) (out : List block_area) (h : block_area) (r : Int) :
      served_reach space n s out → h ∈ out →
      buddy_free s h = some (r, s1) →
      served_reach space n s1 (out.erase h)

/-- Sum of `2 ^ j` over the set bits `j` of `m` with `k < j < n`. -/
def bits_above (m k n : Nat) : Nat :=
  Finset.sum ((Finset.range n).filter fun j => k < j ∧ m.testBit j = true) fun j => 2 ^ j

/-! ## Concrete regions and call sequences -/

/-- The state `buddy_init` leaves on a zeroed region of four blocks at address
65536: the run of blocks 1 and 2 on the order-1 list, block 3 on the order-0
list. -/
def four_blocks : buddy_state :=
  { mem_space := 65536
    alloc_block_count := 3
    free_block_count := 3
    free_heads := fun k => if k = 0 then 3 else if k = 1 then 1 else 0
    max_order := 1
    ctrl_offset := 128
    words := fun _ => 0 }

/-- A region at address 65536 whose words are all zero. -/
def zero_region : region := { base := 65536, heads := fun _ => 0, words := fun _ => 0 }

/-- A region at address 65536 that holds the value `v` in the word that becomes
`free_heads[g]` and zero elsewhere. -/
def stale_region (g v : Nat) : region :=
  { base := 65536, heads := fun k => if k = g then v else 0, words := fun _ => 0 }

/-- The state `buddy_init` returns on a zeroed region of four blocks. -/
def four_init : buddy_state :=
  (buddy_init zero_region 4).getD four_blocks

/-- The state `buddy_init` returns on a zeroed region of five blocks: the run of
blocks 1 to 4 on the order-2 list, the lists of the orders 0 and 1 empty. -/
def five_init : buddy_state :=
  (buddy_init zero_region 5).getD four_blocks

/-- The state `four_blocks` after block 3 has been handed out: only the run of
blocks 1 and 2 is free, on the order-1 list. -/
def one_run : buddy_state :=
  { mem_space := 65536
    alloc_block_count := 3
    free_block_count := 2
    free_heads := fun k => if k = 1 then 1 else 0
    max_order := 1
    ctrl_offset := 128
    words := fun _ => 0 }

/-- The calls `buddy_init(space, 4)`, `h1 = buddy_alloc(0)`, `h2 = buddy_alloc(0)`,
`buddy_free(&h1)`: the two hooks, the status of the free and the state reached.
Blocks 2 and 3 are then free, and they are not buddies. -/
def fragmented (space : region) : Option (block_area × block_area × Int × buddy_state) :=
  (buddy_init space 4).bind fun s0 =>
  (buddy_alloc s0 0).bind fun a1 =>
  (buddy_alloc a1.2 0).bind fun a2 =>
  (buddy_free a2.2 a1.1).bind fun f =>
    some (a1.1, a2.1, f.1, f.2)

/-- The calls of `fragmented` followed by `h3 = buddy_alloc(1)`: the hook `h3`
and the state reached. -/
def fragmented_alloc (space : region) : Option (block_area × buddy_state) :=
  (fragmented space).bind fun t => buddy_alloc t.2.2.2 1

/-- The calls `buddy_init(space, 6)`, `h1 .. h5 = buddy_alloc(0)` five times,
`buddy_free(&h2)`, `buddy_free(&h1)`, `h6 = buddy_alloc(1)`, `buddy_free(&h5)`:
the six hooks, the three statuses and the state reached. -/
def crossed (space : region) : Option (List block_area × List Int × buddy_state) :=
  (buddy_init space 6).bind fun s0 =>
  (buddy_alloc s0 0).bind fun a1 =>
  (buddy_alloc a1.2 0).bind fun a2 =>
  (buddy_alloc a2.2 0).bind fun a3 =>
  (buddy_alloc a3.2 0).bind fun a4 =>
  (buddy_alloc a4.2 0).bind fun a5 =>
  (buddy_free a5.2 a2.1).bind fun f1 =>
  (buddy_free f1.2 a1.1).bind fun f2 =>
  (buddy_alloc f2.2 1).bind fun a6 =>
  (buddy_free a6.2 a5.1).bind fun f3 =>
    some ([a1.1, a2.1, a3.1, a4.1, a5.1, a6.1], [f1.1, f2.1, f3.1], f3.2)

/-- The calls `buddy_init(space, 2 ^ 20 + 2)`, `h = buddy_alloc(0)`,
`buddy_free(&h)`: the hook, the status of the free, the post-init state and the
state reached. -/
def wrapped_round_trip (space : region) :
    Option (block_area × Int × buddy_state × buddy_state) :=
  (buddy_init space (2 ^ 20 + 2)).bind fun s0 =>
  (buddy_alloc s0 0).bind fun a =>
  (buddy_free a.2 a.1).bind fun f =>
    some (a.1, f.1, s0, f.2)

/-!
Kernel allocator: slab layer

A shallow embedding of `Source/src/slab.c`, on top of the buddy layer.

Modelling conventions.

* The records of the slab layer are held by address and by type: `caches p` is
  the `kmem_cache_t` stored at `p`, `slabs p` the `slab_t` stored at `p`,
  `bitmaps a` the bitmap entry (an `unsigned char`) stored at `a`.  Records of
  different types that share bytes are not modelled; the layout computed by
  `kmem_cache_init` keeps header, bitmap and objects of a slab apart.
* Sizes of structures are those of the 32-bit target of the buddy layer
  (`MUTEX_SIZE` is 48 there); `size_t`, `index_t` and `unsigned int` are 32-bit
  words and a reduction modulo `WORD` is written where the C text can wrap.
* A dereference of the null pointer, a failed `assert`, a division by zero, a
  read of a local that was never written, an access outside `buffers` and a
  walk that does not end have no defined result; the operations return `none`
  there.  Walks along `next` run on fuel `walk_fuel`, the number of bytes of
  the region.
* The mutex calls and the diagnostic output of `print_error` are left out.
  Constructors and destructors act on object memory, which the model does not
  hold; the fields `ctor` and `dtor` only record the function pointers.  The
  field `index` of `slab_t` and the mutex fields of `kmem_cache_t` are never
  read by the code under study; they are left out.
* The enumerator `partial` of `slab_type` is written `part`.
-/

/-! ## Parameters, types and macros of `slab.c` -/

/-- Cache name length. -/
def CACHE_NAME_LEN : Nat := 32

/-- Smallest order of a size-N buffer. -/
def MIN_BUFF_ORDER : Nat := 5

/-- Largest order of a size-N buffer. -/
def MAX_BUFF_ORDER : Nat := 17

/-- Number of size-N buffer caches. -/
def SIZE_N_COUNT : Nat := MAX_BUFF_ORDER - MIN_BUFF_ORDER + 1

/-- Minimum number of objects per slab. -/
def MIN_OBJ_CNT : Nat := 1

/-- Size of a mutex object on the 32-bit target. -/
def MUTEX_SIZE : Nat := 48

/-- Bitmap entry with no object in use. -/
def BITMAP_EMPTY : Nat := 0

/-- Bitmap entry with every object in use. -/
def BITMAP_FULL : Nat := 255

/-- Bits of a bitmap entry. -/
def BITMAP_ENTRY_BITS : Nat := 8

/-- Number of values of a bitmap entry (`unsigned char`). -/
def BYTE : Nat := 256

/-- Enumeration `slab_type`; `part` is the enumerator `partial`. -/
inductive slab_type where
  | empty
  | part
  | full
deriving DecidableEq, Repr

/-- Error code `err_cache_expand`. -/
def err_cache_expand : Nat := 4

/-- Error code `err_cache_obj_alloc`. -/
def err_cache_obj_alloc : Nat := 6

/-- Error code `err_cache_obj_free`. -/
def err_cache_obj_free : Nat := 7

/-- Bytes of `slab_t` with 32-bit pointers and words: ten words. -/
def SIZEOF_SLAB : Nat := 40

/-- Bytes of `kmem_cache_t` on the 32-bit target:
`32 + 12 + 4 + 4 + 4 + 12 + 4 + 4 + 4 + 4 + 4 + 4 + 4 + 48 + 4 + 4`. -/
def SIZEOF_KMEM_CACHE : Nat := 152

/-- Bytes of `kmem_buff_t`: a cache and the `used` byte, padded to a word. -/
def SIZEOF_KMEM_BUFF : Nat := 156

/-- Bytes of `kmem_ctrl_t`: a cache and `SIZE_N_COUNT` buffers. -/
def SIZEOF_KMEM_CTRL : Nat := SIZEOF_KMEM_CACHE + SIZE_N_COUNT * SIZEOF_KMEM_BUFF

/-- Macro `calc_bitmap_size(obj_count)`; `obj_per_entry` is 8 and a bitmap entry
is one byte. -/
def calc_bitmap_size (obj_count : Nat) : Nat :=
  (obj_count / 8 + (if obj_count % 8 ≠ 0 then 1 else 0)) * 1

/-- Structure `slab_t`. -/
structure slab_t where
  cache : Nat
  type : slab_type
  my_hook : block_area
  used_count : Nat
  offset : Nat
  bitmap : Nat
  objects : Nat
  next : Nat

/-- Structure `kmem_cache_t`; the name is the list of its bytes before the
terminating zero, `extended` is a signed `char`. -/
structure kmem_cache_t where
  name : List Nat
  heads : slab_type → Nat
  object_size : Nat
  bitmap_length : Nat
  slab_order : Nat
  slab_count : slab_type → Nat
  next_offset : Nat
  obj_per_slab : Nat
  max_alignments : Nat
  ctor : Nat
  dtor : Nat
  extended : Int
  error : Nat
  next : Nat

/-- The globals of `slab.c` and the memory they govern: the buddy layer, the
pointer `kmem_ctrl`, the records stored at each address and the `used` byte of
each entry of `buffers`. -/
structure kmem_state where
  buddy : buddy_state
  kmem_ctrl : Nat
  caches : Nat → kmem_cache_t
  slabs : Nat → slab_t
  bitmaps : Nat → Nat
  used : Nat → Nat

/-- Fuel of the walks along `next`: the bytes of the region. -/
def walk_fuel (s : kmem_state) : Nat :=
  BLOCK_SIZE * (s.buddy.alloc_block_count + 1)

/-- Conversion of a 32-bit word to `int`. -/
def to_int (x : Nat) : Int :=
  if x < 2 ^ 31 then (x : Int) else (x : Int) - (WORD : Int)

/-- Macro `bitmap_set_used(bitmap, index)`. -/
def bitmap_set_used (m : Nat → Nat) (bitmap index : Nat) : Nat → Nat :=
  Function.update m (bitmap + index / BITMAP_ENTRY_BITS)
    ((m (bitmap + index / BITMAP_ENTRY_BITS) ||| (1 <<< (index % BITMAP_ENTRY_BITS))) % BYTE)

/-- Macro `bitmap_set_free(bitmap, index)`; `~(1 << k)` is the complement of a
32-bit word. -/
def bitmap_set_free (m : Nat → Nat) (bitmap index : Nat) : Nat → Nat :=
  Function.update m (bitmap + index / BITMAP_ENTRY_BITS)
    ((m (bitmap + index / BITMAP_ENTRY_BITS)
        &&& ((WORD - 1) ^^^ (1 <<< (index % BITMAP_ENTRY_BITS)))) % BYTE)

/-! ## Interface for the buddy system -/

/-- Function `block_alloc`. -/
def block_alloc (s : kmem_state) (order : Nat) : Option (block_area × kmem_state) :=
  (buddy_alloc s.buddy order).bind fun r => some (r.1, { s with buddy := r.2 })

/-- Function `mem_free`. -/
def mem_free (s : kmem_state) (area : block_area) : Option kmem_state :=
  (buddy_free s.buddy area).bind fun r => some { s with buddy := r.2 }

/-! ## Slab implementation -/

/-- Loop of `calc_block_order`: `while (power_of_two(order) < size_in_blocks(size)) order++;`. -/
def calc_block_order_loop (size : Nat) : Nat → Nat → Nat
  | 0, order => order
  | fuel + 1, order =>
      if power_of_two order < size_in_blocks size then calc_block_order_loop size fuel (order + 1)
      else order

/-- Function `calc_block_order` of `buddy.c`. -/
def calc_block_order (size : Nat) : Nat :=
  if size > BLOCK_SIZE then calc_block_order_loop size 32 1 else 0

/-- Function `calc_slab_order`. -/
def calc_slab_order (obj_size : Nat) : Nat :=
  calc_block_order ((SIZEOF_SLAB + (obj_size * MIN_OBJ_CNT) % WORD + 1) % WORD)

/-- Loop of `slab_alloc` that writes `BITMAP_EMPTY` to the first `n` entries. -/
def clear_bitmap (bitmap : Nat) : Nat → (Nat → Nat) → (Nat → Nat)
  | 0, m => m
  | n + 1, m => Function.update (clear_bitmap bitmap n m) (bitmap + n) BITMAP_EMPTY

/-- Function `slab_alloc`: the slab pointer and the state it leaves. -/
def slab_alloc (s : kmem_state) (cache index : Nat) : Option (Nat × kmem_state) :=
  if cache = NULL then none
  else
    let c := s.caches cache
    (block_alloc s c.slab_order).bind fun r =>
      let hook := r.1
      let s1 := r.2
      if hook.addr = NULL then some (NULL, s1)
      else if c.max_alignments = 0 then none
      else
        let offset := ((index % c.max_alignments) * CACHE_L1_LINE_SIZE) % WORD
        let slab := hook.addr + offset
        let bitmap := slab + SIZEOF_SLAB
        let rec_ : slab_t :=
          { cache := cache
            type := slab_type.empty
            my_hook := hook
            used_count := 0
            offset := offset
            bitmap := bitmap
            objects := bitmap + c.bitmap_length * 1
            next := NULL }
        some (slab,
          { s1 with
            slabs := Function.update s1.slabs slab rec_
            bitmaps := clear_bitmap bitmap c.bitmap_length s1.bitmaps })

/-- Function `slab_free`. -/
def slab_free (s : kmem_state) (slab : Nat) ( _call_dtor : Nat) : Option kmem_state :=
  if slab = NULL then none
  else if (s.slabs slab).cache = NULL then none
  else mem_free s (s.slabs slab).my_hook

/-- Function `slab_attach`. -/
def slab_attach (s : kmem_state) (slab : Nat) : Option kmem_state :=
  if slab = NULL then none
  else
    let cache := (s.slabs slab).cache
    let type := (s.slabs slab).type
    if cache = NULL then none
    else
      let c := s.caches cache
      let sl : slab_t := { s.slabs slab with next := c.heads type }
      let c1 : kmem_cache_t :=
        { c with
          heads := Function.update c.heads type slab
          slab_count := Function.update c.slab_count type ((c.slab_count type + 1) % WORD) }
      some { s with
        slabs := Function.update s.slabs slab sl
        caches := Function.update s.caches cache c1 }

/-- Loop of `slab_detach`.  The outer `none` is a walk that reads through the
null pointer or outlives the fuel, the inner `none` is the `return -1` inside
the loop, and `(prev, cur)` are the locals when the loop ends. -/
def slab_detach_walk (s : kmem_state) (slab : Nat) :
    Nat → Nat → Nat → Option (Option (Nat × Nat))
  | 0, _, _ => none
  | fuel + 1, prev, cur =>
      if cur ≠ slab then
        if cur = NULL then none
        else if (s.slabs cur).next = NULL then some none
        else slab_detach_walk s slab fuel cur (s.slabs cur).next
      else some (some (prev, cur))

/-- Function `slab_detach`: the returned status and the state it leaves. -/
def slab_detach (s : kmem_state) (slab : Nat) : Option (Int × kmem_state) :=
  if slab = NULL then none
  else
    let cache := (s.slabs slab).cache
    let type := (s.slabs slab).type
    if cache = NULL then none
    else
      match slab_detach_walk s slab (walk_fuel s) NULL ((s.caches cache).heads type) with
      | none => none
      | some none => some (-1, s)
      | some (some (prev, cur)) =>
          let p1 : slab_t := { s.slabs prev with next := (s.slabs cur).next }
          let c0 : kmem_cache_t :=
            { s.caches cache with
              heads := Function.update (s.caches cache).heads type (s.slabs cur).next }
          let s1 : kmem_state :=
            if prev ≠ NULL then { s with slabs := Function.update s.slabs prev p1 }
            else { s with caches := Function.update s.caches cache c0 }
          let c1 := s1.caches cache
          let c2 : kmem_cache_t :=
            { c1 with
              slab_count :=
                Function.update c1.slab_count type ((c1.slab_count type + WORD - 1) % WORD) }
          some (0, { s1 with caches := Function.update s1.caches cache c2 })

/-- Function `slab_change_type`: the returned status and the state it leaves. -/
def slab_change_type (s : kmem_state) (slab : Nat) (new_type : slab_type) :
    Option (Int × kmem_state) :=
  if slab = NULL then none
  else if (s.slabs slab).type = new_type then some (-1, s)
  else
    (slab_detach s slab).bind fun r =>
      if r.1 ≠ 0 then some (-1, r.2)
      else
        let sl : slab_t := { r.2.slabs slab with type := new_type }
        let s1 : kmem_state := { r.2 with slabs := Function.update r.2.slabs slab sl }
        (slab_attach s1 slab).bind fun s2 => some (0, s2)

/-- Loop `while (bitmap[i] & (1 << j)) j++;` of `slab_alloc_object`, entered with
`j`; `none` when the shift count reaches the width of an `int`. -/
def bit_scan (entry : Nat) : Nat → Nat → Option Nat
  | 0, _ => none
  | fuel + 1, j =>
      if entry &&& (1 <<< j) ≠ 0 then bit_scan entry fuel (j + 1) else some j

/-- Loop over the bitmap entries of `slab_alloc_object`, entered with `i` and
`n` entries to go: the value of `obj_index` after the loop, `none` when the
loop ends without writing it. -/
def entry_scan (m : Nat → Nat) (bitmap : Nat) : Nat → Nat → Option Nat
  | 0, _ => none
  | n + 1, i =>
      if m (bitmap + i) ≠ BITMAP_FULL then
        (bit_scan (m (bitmap + i)) 32 0).bind fun j => some ((i * BITMAP_ENTRY_BITS + j) % WORD)
      else entry_scan m bitmap n (i + 1)

/-- Function `slab_alloc_object`: the object pointer and the state it leaves. -/
def slab_alloc_object (s : kmem_state) (slab : Nat) : Option (Nat × kmem_state) :=
  if slab = NULL then none
  else
    let sl := s.slabs slab
    if sl.cache = NULL then none
    else
      let cache := s.caches sl.cache
      (entry_scan s.bitmaps sl.bitmap cache.bitmap_length 0).bind fun obj_index =>
        let used_count := (sl.used_count + 1) % WORD
        let sl1 : slab_t := { sl with used_count := used_count }
        let s1 : kmem_state :=
          { s with
            bitmaps := bitmap_set_used s.bitmaps sl.bitmap obj_index
            slabs := Function.update s.slabs slab sl1 }
        let changed : Option kmem_state :=
          if used_count < cache.obj_per_slab ∧ sl.type ≠ slab_type.part then
            (slab_change_type s1 slab slab_type.part).bind fun r => some r.2
          else if used_count = cache.obj_per_slab then
            (slab_change_type s1 slab slab_type.full).bind fun r => some r.2
          else some s1
        changed.bind fun s2 =>
          let sl2 := s2.slabs slab
          some (sl2.objects + (obj_index * (s2.caches sl2.cache).object_size) % WORD, s2)

/-- Function `slab_free_object`: the returned status and the state it leaves. -/
def slab_free_object (s : kmem_state) (slab obj : Nat) : Option (Int × kmem_state) :=
  if slab = NULL then none
  else
    let sl := s.slabs slab
    if sl.cache = NULL then none
    else
      let cache := s.caches sl.cache
      let start_addr := sl.objects
      let end_addr :=
        start_addr + (((cache.obj_per_slab + WORD - 1) % WORD) * cache.object_size) % WORD
      if ¬ (start_addr ≤ obj ∧ end_addr ≥ obj) then some (-1, s)
      else if cache.object_size = 0 then none
      else
        let obj_index := (((obj - start_addr) % WORD) / cache.object_size) % WORD
        let used_count := (sl.used_count + WORD - 1) % WORD
        let sl1 : slab_t := { sl with used_count := used_count }
        let s1 : kmem_state :=
          { s with
            bitmaps := bitmap_set_free s.bitmaps sl.bitmap obj_index
            slabs := Function.update s.slabs slab sl1 }
        let changed : Option kmem_state :=
          if used_count = 0 then
            (slab_change_type s1 slab slab_type.empty).bind fun r => some r.2
          else if sl.type ≠ slab_type.part then
            (slab_change_type s1 slab slab_type.part).bind fun r => some r.2
          else some s1
        changed.bind fun s2 => some (0, s2)

/-! ## Cache implementation -/

/-- Loop of `kmem_cache_init`:
`while (bitmap_size + obj_count*obj_size <= free) { obj_count++; bitmap_size = ...; }`;
the locals `obj_count` and `bitmap_size` after the loop, `none` when the fuel
runs out first. -/
def layout_loop (obj_size free : Nat) : Nat → Nat → Nat → Option (Nat × Nat)
  | 0, _, _ => none
  | fuel + 1, obj_count, bitmap_size =>
      if (bitmap_size + (obj_count * obj_size) % WORD) % WORD ≤ free then
        layout_loop obj_size free fuel ((obj_count + 1) % WORD)
          (calc_bitmap_size ((obj_count + 1) % WORD))
      else some (obj_count, bitmap_size)

/-- Function `kmem_cache_init`; the name is `none` for a null pointer. -/
def kmem_cache_init (s : kmem_state) (cache : Nat) (name : Option (List Nat))
    (obj_size ctor dtor : Nat) : Option kmem_state :=
  if cache = NULL then none
  else
    let slab_order := calc_slab_order obj_size
    let slab_size := (power_of_two slab_order * BLOCK_SIZE) % WORD
    let free := (slab_size + WORD - SIZEOF_SLAB) % WORD
    (layout_loop obj_size free (8 * free + 9) 0 0).bind fun l =>
      let obj_count := (l.1 + WORD - 1) % WORD
      let bitmap_size := calc_bitmap_size obj_count
      let waste :=
        (free + WORD - (bitmap_size + (obj_count * obj_size) % WORD) % WORD) % WORD
      match name with
      | none => none
      | some text =>
          if CACHE_NAME_LEN ≤ text.length then none
          else
            let c : kmem_cache_t :=
              { name := text
                heads := fun _ => NULL
                object_size := obj_size
                bitmap_length := bitmap_size / 1
                slab_order := slab_order
                slab_count := fun _ => 0
                next_offset := 0
                obj_per_slab := obj_count
                max_alignments := waste / CACHE_L1_LINE_SIZE + 1
                ctor := ctor
                dtor := dtor
                extended := -1
                error := 0
                next := NULL }
            some { s with caches := Function.update s.caches cache c }

/-- Function `kmem_cache_new_slab`: the returned status and the state it leaves. -/
def kmem_cache_new_slab (s : kmem_state) (cache : Nat) : Option (Int × kmem_state) :=
  if cache = NULL then none
  else
    (slab_alloc s cache (s.caches cache).next_offset).bind fun r =>
      let new_slab := r.1
      let c := r.2.caches cache
      if c.max_alignments = 0 then none
      else
        let c1 : kmem_cache_t :=
          { c with next_offset := ((c.next_offset + 1) % WORD) % c.max_alignments }
        let s1 : kmem_state := { r.2 with caches := Function.update r.2.caches cache c1 }
        if new_slab = NULL then
          let c2 : kmem_cache_t := { c1 with error := err_cache_expand }
          some (-1, { s1 with caches := Function.update s1.caches cache c2 })
        else (slab_attach s1 new_slab).bind fun s2 => some (0, s2)

/-- Function `kmem_cache_list_add`. -/
def kmem_cache_list_add (s : kmem_state) (cache : Nat) : Option kmem_state :=
  if cache = NULL ∨ s.kmem_ctrl = NULL then none
  else
    let c : kmem_cache_t := { s.caches cache with next := (s.caches s.kmem_ctrl).next }
    let s1 : kmem_state := { s with caches := Function.update s.caches cache c }
    let g : kmem_cache_t := { s1.caches s1.kmem_ctrl with next := cache }
    some { s1 with caches := Function.update s1.caches s1.kmem_ctrl g }

/-- Loop of `kmem_cache_list_remove`: the locals `(prev, cur)` when it ends;
`none` for a walk that reads through the null pointer or outlives the fuel. -/
def list_remove_walk (s : kmem_state) (cache : Nat) : Nat → Nat → Nat → Option (Nat × Nat)
  | 0, _, _ => none
  | fuel + 1, prev, cur =>
      if cur ≠ cache then
        if cur = NULL then none
        else list_remove_walk s cache fuel cur (s.caches cur).next
      else some (prev, cur)

/-- Function `kmem_cache_list_remove`: the returned status and the state it leaves. -/
def kmem_cache_list_remove (s : kmem_state) (cache : Nat) : Option (Int × kmem_state) :=
  if s.kmem_ctrl = NULL then none
  else
    (list_remove_walk s cache (walk_fuel s) NULL (s.caches s.kmem_ctrl).next).bind fun w =>
      let prev := w.1
      let cur := w.2
      if cur = NULL then some (-1, s)
      else
        let p1 : kmem_cache_t := { s.caches prev with next := (s.caches cur).next }
        let g1 : kmem_cache_t := { s.caches s.kmem_ctrl with next := (s.caches cur).next }
        let s1 : kmem_state :=
          if prev ≠ NULL then { s with caches := Function.update s.caches prev p1 }
          else { s with caches := Function.update s.caches s.kmem_ctrl g1 }
        let c1 : kmem_cache_t := { s1.caches cur with next := NULL }
        some (0, { s1 with caches := Function.update s1.caches cur c1 })

/-- Address of `kmem_ctrl->buffers[index].cache`. -/
def buffer_cache (s : kmem_state) (index : Nat) : Nat :=
  s.kmem_ctrl + SIZEOF_KMEM_CACHE + index * SIZEOF_KMEM_BUFF

/-- Bytes of the string `"kmem_cache"`. -/
def kmem_cache_name : List Nat := [107, 109, 101, 109, 95, 99, 97, 99, 104, 101]

/-- Bytes of the string that `sprintf(name, "Buffer_%d", order)` writes. -/
def buffer_name (order : Nat) : List Nat :=
  [66, 117, 102, 102, 101, 114, 95] ++ (Nat.toDigits 10 order).map Char.toNat

/-- Loop of `kmem_init` over the size-N buffers, entered with `order` and `n`
orders to go. -/
def init_buffers : Nat → Nat → kmem_state → Option kmem_state
  | 0, _, s => some s
  | n + 1, order, s =>
      (kmem_cache_init s (buffer_cache s (order - MIN_BUFF_ORDER)) (some (buffer_name order))
          (power_of_two order) NULL NULL).bind fun s1 =>
        init_buffers n (order + 1)
          { s1 with used := Function.update s1.used (order - MIN_BUFF_ORDER) 0 }

/-- Function `kmem_init`; `mem` holds the records of the region before the call. -/
def kmem_init (mem : kmem_state) (space : region) (block_num : Int) : Option kmem_state :=
  if space.base = NULL then none
  else
    (buddy_init space (block_num % (WORD : Int)).toNat).bind fun b0 =>
      let a1 := kernel_ctrl_alloc b0 SIZEOF_KMEM_CTRL
      let a2 := kernel_ctrl_alloc a1.2 MUTEX_SIZE
      if a2.1 = NULL then none
      else
        let a3 := kernel_ctrl_alloc a2.2 MUTEX_SIZE
        if a3.1 = NULL then none
        else
          let s0 : kmem_state := { mem with buddy := a3.2, kmem_ctrl := a1.1 }
          (kmem_cache_init s0 s0.kmem_ctrl (some kmem_cache_name) SIZEOF_KMEM_CACHE NULL NULL).bind
            fun s1 =>
          (kmem_cache_new_slab s1 s1.kmem_ctrl).bind fun r =>
            init_buffers SIZE_N_COUNT MIN_BUFF_ORDER r.2

/-- Function `kmem_cache_alloc_obj`: the object pointer and the state it leaves. -/
def kmem_cache_alloc_obj (s : kmem_state) (cachep : Nat) : Option (Nat × kmem_state) :=
  if cachep = NULL then none
  else
    let c := s.caches cachep
    if c.heads slab_type.part ≠ NULL then slab_alloc_object s (c.heads slab_type.part)
    else if c.heads slab_type.empty = NULL then
      (kmem_cache_new_slab s cachep).bind fun r =>
        if r.1 ≠ 0 then
          let c1 : kmem_cache_t := { r.2.caches cachep with error := err_cache_obj_alloc }
          some (NULL, { r.2 with caches := Function.update r.2.caches cachep c1 })
        else
          let c2 : kmem_cache_t := { r.2.caches cachep with extended := 1 }
          let s1 : kmem_state :=
            if (r.2.caches cachep).extended ≠ -1 then
              { r.2 with caches := Function.update r.2.caches cachep c2 }
            else r.2
          slab_alloc_object s1 ((s1.caches cachep).heads slab_type.empty)
    else slab_alloc_object s (c.heads slab_type.empty)

/-- Function `kmem_cache_alloc`. -/
def kmem_cache_alloc (s : kmem_state) (cachep : Nat) : Option (Nat × kmem_state) :=
  if cachep = NULL then some (NULL, s) else kmem_cache_alloc_obj s cachep

/-- Loop of `kmem_cache_find`; the name is `none` for a null pointer, which
`strcmp` reads through. -/
def find_walk (s : kmem_state) (name : Option (List Nat)) : Nat → Nat → Option Nat
  | 0, _ => none
  | fuel + 1, cur =>
      if cur ≠ NULL then
        match name with
        | none => none
        | some text =>
            if text = (s.caches cur).name then some cur
            else find_walk s name fuel (s.caches cur).next
      else some NULL

/-- Function `kmem_cache_find`. -/
def kmem_cache_find (s : kmem_state) (name : Option (List Nat)) : Option Nat :=
  if s.kmem_ctrl = NULL then none
  else find_walk s name (walk_fuel s) (s.caches s.kmem_ctrl).next

/-- Function `kmem_cache_create`.  The argument check is the expansion of
`arg_check_null(name != NULL && size != 0)`, that is
`if(!name != NULL && size != 0)`: it rejects a null name with a size that is
not zero. -/
def kmem_cache_create (s : kmem_state) (name : Option (List Nat)) (size ctor dtor : Nat) :
    Option (Nat × kmem_state) :=
  if name = none ∧ size ≠ 0 then some (NULL, s)
  else
    (kmem_cache_find s name).bind fun found =>
      if found = NULL then
        (kmem_cache_alloc_obj s s.kmem_ctrl).bind fun r =>
          if r.1 = NULL then some (NULL, r.2)
          else
            (kmem_cache_init r.2 r.1 name size ctor dtor).bind fun s1 =>
            (kmem_cache_list_add s1 r.1).bind fun s2 => some (r.1, s2)
      else some (found, s)

/-- Loop of `kmem_cache_shrink` and of `kmem_cache_destroy` over one list:
detach and free every slab from `slab` on; it returns the state and the count
of freed slabs added to `free_slabs`. -/
def free_slabs_loop (call_dtor : Nat) : Nat → kmem_state → Nat → Nat → Option (kmem_state × Nat)
  | 0, _, _, _ => none
  | fuel + 1, s, slab, free_slabs =>
      if slab ≠ NULL then
        let next := (s.slabs slab).next
        (slab_detach s slab).bind fun d =>
        (slab_free d.2 slab call_dtor).bind fun s1 =>
          free_slabs_loop call_dtor fuel s1 next ((free_slabs + 1) % WORD)
      else some (s, free_slabs)

/-- Function `kmem_cache_shrink`: the returned value and the state it leaves. -/
def kmem_cache_shrink (s : kmem_state) (cachep : Nat) : Option (Int × kmem_state) :=
  if cachep = NULL then some (0, s)
  else
    let c := s.caches cachep
    let freed : Option (kmem_state × Nat) :=
      if (c.extended = 0 ∧ c.heads slab_type.empty ≠ NULL) ∨ c.extended = -1 then
        free_slabs_loop 0 (walk_fuel s) s (c.heads slab_type.empty) 0
      else some (s, 0)
    freed.bind fun r =>
      let c1 : kmem_cache_t := { r.1.caches cachep with extended := 0 }
      some (to_int ((r.2 * power_of_two c1.slab_order) % WORD),
        { r.1 with caches := Function.update r.1.caches cachep c1 })

/-- Loop of `kmem_cache_free_obj` over one list: `some (some t)` when a slab took
the object and left the state `t`, `some none` when the list ends. -/
def free_walk (s : kmem_state) (objp : Nat) : Nat → Nat → Option (Option kmem_state)
  | 0, _ => none
  | fuel + 1, slab =>
      if slab ≠ NULL then
        (slab_free_object s slab objp).bind fun r =>
          if r.1 = 0 then some (some r.2)
          else free_walk s objp fuel (s.slabs slab).next
      else some none

/-- Function `kmem_cache_free_obj`: the returned status and the state it leaves. -/
def kmem_cache_free_obj (s : kmem_state) (cachep objp : Nat) : Option (Int × kmem_state) :=
  if cachep = NULL then none
  else
    let c := s.caches cachep
    (free_walk s objp (walk_fuel s) (c.heads slab_type.part)).bind fun w1 =>
      match w1 with
      | some t => some (0, t)
      | none =>
          (free_walk s objp (walk_fuel s) (c.heads slab_type.full)).bind fun w2 =>
            match w2 with
            | some t => some (0, t)
            | none =>
                let c1 : kmem_cache_t := { c with error := err_cache_obj_free }
                some (-1, { s with caches := Function.update s.caches cachep c1 })

/-- Function `kmem_cache_free`.  The argument check is the expansion of
`arg_check(cachep != NULL && objp != NULL)`, that is
`if(!cachep != NULL && objp != NULL)`. -/
def kmem_cache_free (s : kmem_state) (cachep objp : Nat) : Option kmem_state :=
  if cachep = NULL ∧ objp ≠ NULL then some s
  else (kmem_cache_free_obj s cachep objp).bind fun r => some r.2

/-- Function `kmem_cache_destroy`. -/
def kmem_cache_destroy (s : kmem_state) (cachep : Nat) : Option kmem_state :=
  if cachep = NULL then some s
  else
    (free_slabs_loop 1 (walk_fuel s) s ((s.caches cachep).heads slab_type.empty) 0).bind fun r1 =>
    (free_slabs_loop 1 (walk_fuel s) r1.1 ((r1.1.caches cachep).heads slab_type.part) 0).bind
      fun r2 =>
    (free_slabs_loop 1 (walk_fuel s) r2.1 ((r2.1.caches cachep).heads slab_type.full) 0).bind
      fun r3 =>
    (kmem_cache_list_remove r3.1 cachep).bind fun l =>
      if l.1 ≠ 0 then none
      else (kmem_cache_free_obj l.2 l.2.kmem_ctrl cachep).bind fun f => some f.2

/-- Loop of `kmalloc`: `while (power_of_two(order) < size) order++;`; `none` when
the shift count reaches the width of an `int`. -/
def kmalloc_order : Nat → Nat → Nat → Option Nat
  | 0, _, _ => none
  | fuel + 1, size, order =>
      if power_of_two order < size then kmalloc_order fuel size (order + 1) else some order

/-- Function `kmalloc`: the buffer pointer and the state it leaves. -/
def kmalloc (s : kmem_state) (size : Nat) : Option (Nat × kmem_state) :=
  if size = 0 then some (NULL, s)
  else
    (kmalloc_order 32 size 0).bind fun order =>
      let index := (order + WORD - MIN_BUFF_ORDER) % WORD
      if index < SIZE_N_COUNT then
        let s1 : kmem_state := { s with used := Function.update s.used index 1 }
        (kmem_cache_alloc_obj s1 (buffer_cache s1 index)).bind fun r =>
          if r.1 = NULL then some (NULL, r.2) else some (r.1, r.2)
      else none

/-- Function `kmem_cache_error`: the returned value and the state it leaves. -/
def kmem_cache_error (s : kmem_state) (cachep : Nat) : Int × kmem_state :=
  if cachep = NULL then (0, s) else (((s.caches cachep).error : Int), s)

/-! ## Concrete memories and call sequences of the slab layer -/

/-- A `kmem_cache_t` whose bytes are all zero. -/
def zero_cache : kmem_cache_t :=
  { name := []
    heads := fun _ => NULL
    object_size := 0
    bitmap_length := 0
    slab_order := 0
    slab_count := fun _ => 0
    next_offset := 0
    obj_per_slab := 0
    max_alignments := 0
    ctor := NULL
    dtor := NULL
    extended := 0
    error := 0
    next := NULL }

/-- A `slab_t` whose bytes are all zero. -/
def zero_slab : slab_t :=
  { cache := NULL
    type := slab_type.empty
    my_hook := ⟨NULL, 0⟩
    used_count := 0
    offset := 0
    bitmap := NULL
    objects := NULL
    next := NULL }

/-- A memory whose records are all zero. -/
def zero_mem : kmem_state :=
  { buddy := four_blocks
    kmem_ctrl := NULL
    caches := fun _ => zero_cache
    slabs := fun _ => zero_slab
    bitmaps := fun _ => 0
    used := fun _ => 0 }

/-- A memory whose records are all zero except for the cache at address 4096,
which has the error code `err_cache_obj_free` latched. -/
def latched_mem : kmem_state :=
  { zero_mem with
    caches := Function.update zero_mem.caches 4096
      { zero_cache with error := err_cache_obj_free } }

/-- The state `kmem_init` leaves on a zeroed region of 64 blocks at address
65536 (`none` if the call has no defined result). -/
def booted : Option kmem_state := kmem_init zero_mem zero_region 64

/-- The calls `kmem_init(space, 64)`, `kmalloc(size)`: the outer `none` is an
initialisation without result, the inner `none` a `kmalloc` without defined
result; otherwise the pointer returned and the list of `used` bytes of
`buffers`. -/
def boot_kmalloc (size : Nat) : Option (Option (Nat × List Nat)) :=
  booted.map fun s =>
    (kmalloc s size).map fun r => (r.1, (List.range SIZE_N_COUNT).map r.2.used)

/-- The used counts of the slabs linked from `slab`, at most `fuel` of them. -/
def used_counts (s : kmem_state) : Nat → Nat → List Nat
  | 0, _ => []
  | fuel + 1, slab =>
      if slab = NULL then []
      else (s.slabs slab).used_count :: used_counts s fuel (s.slabs slab).next

/-- What a state shows of the cache of caches: the head of the global cache
list, and the used counts of the slabs on its empty, partial and full lists. -/
def cache_of_caches (s : kmem_state) : List (List Nat) :=
  [[(s.caches s.kmem_ctrl).next],
    used_counts s 8 ((s.caches s.kmem_ctrl).heads slab_type.empty),
    used_counts s 8 ((s.caches s.kmem_ctrl).heads slab_type.part),
    used_counts s 8 ((s.caches s.kmem_ctrl).heads slab_type.full)]

/-- The calls `kmem_init(space, 64)`, `kmem_cache_create(name, size, NULL, NULL)`:
the cache of caches before the call (four lists), the pointer returned, and the
cache of caches after the call (four lists). -/
def boot_create (name : Option (List Nat)) (size : Nat) : Option (List (List Nat)) :=
  booted.bind fun s =>
    (kmem_cache_create s name size NULL NULL).map fun r =>
      cache_of_caches s ++ [[r.1]] ++ cache_of_caches r.2

/-- The calls `kmem_init(space, 64)`, `c = kmem_cache_create("T", 1000, NULL, NULL)`,
`kmem_cache_free(c, p)` with a pointer `p = 12345` that no slab holds,
`kmem_cache_error(c)`, `kmem_cache_error(c)`: the value of the first call, the
error field after it, and the value of the second call. -/
def error_twice : Option (Int × Nat × Int) :=
  booted.bind fun s =>
  (kmem_cache_create s (some [84]) 1000 NULL NULL).bind fun c =>
  (kmem_cache_free c.2 c.1 12345).map fun s1 =>
    let e1 := kmem_cache_error s1 c.1
    let e2 := kmem_cache_error e1.2 c.1
    (e1.1, (e1.2.caches c.1).error, e2.1)

/-! ## Observations used to state the properties of the slab layer -/

/-- Two states of the buddy layer over the same region: same base address, same
block count, same `max_order`, same scratch cursor, same free count. -/
def same_region (s t : buddy_state) : Prop :=
  t.mem_space = s.mem_space ∧ t.alloc_block_count = s.alloc_block_count
    ∧ t.max_order = s.max_order ∧ t.ctrl_offset = s.ctrl_offset
    ∧ t.free_block_count = s.free_block_count

/-- The slabs `l` are exactly those linked from `head`: each one is followed
through its `next` field by the next, and the last one by the null pointer. -/
def slab_chain (slabs : Nat → slab_t) : Nat → List Nat → Prop
  | head, [] => head = NULL
  | head, a :: l => head = a ∧ a ≠ NULL ∧ slab_chain slabs (slabs a).next l

/-- Slabs linked from `cur` through `next`, at most `fuel` of them. -/
def slab_walk (s : kmem_state) : Nat → Nat → List Nat
  | 0, _ => []
  | fuel + 1, cur =>
      if cur = NULL then [] else cur :: slab_walk s fuel (s.slabs cur).next

/-- The list of slabs of a cache in state `t`: the slabs linked from `heads[t]`. -/
def slab_list (s : kmem_state) (cachep : Nat) (t : slab_type) : List Nat :=
  slab_walk s (walk_fuel s) ((s.caches cachep).heads t)

/-- Two `slab_t` records that differ at most in `type` and `next`. -/
structure same_slab (x y : slab_t) : Prop where
  cache : y.cache = x.cache
  my_hook : y.my_hook = x.my_hook
  used_count : y.used_count = x.used_count
  offset : y.offset = x.offset
  bitmap : y.bitmap = x.bitmap
  objects : y.objects = x.objects

/-- Two `kmem_cache_t` records with the same name, layout, callbacks and link of
the cache list; they may differ in the list heads, the slab counts, the
colouring cursor, the flag `extended` and the error code. -/
structure same_cache (x y : kmem_cache_t) : Prop where
  name : y.name = x.name
  object_size : y.object_size = x.object_size
  bitmap_length : y.bitmap_length = x.bitmap_length
  slab_order : y.slab_order = x.slab_order
  obj_per_slab : y.obj_per_slab = x.obj_per_slab
  max_alignments : y.max_alignments = x.max_alignments
  ctor : y.ctor = x.ctor
  dtor : y.dtor = x.dtor
  next : y.next = x.next

/-- State `t` differs from `s` at most in the buddy layer, in the links and
types of slabs and in the fields of caches that `same_cache` leaves open. -/
structure same_records (s t : kmem_state) : Prop where
  kmem_ctrl : t.kmem_ctrl = s.kmem_ctrl
  bitmaps : t.bitmaps = s.bitmaps
  used : t.used = s.used
  slabs : ∀ q, same_slab (s.slabs q) (t.slabs q)
  caches : ∀ d, same_cache (s.caches d) (t.caches d)

/-- State `t` has the buddy layer of `s` and the same records. -/
structure relinked (s t : kmem_state) : Prop where
  buddy : t.buddy = s.buddy
  records : same_records s t

/-- The family of lists `L` with the list of cache `c` and type `t` replaced by `l`. -/
def set_list (L : Nat → slab_type → List Nat) (c : Nat) (t : slab_type) (l : List Nat) :
    Nat → slab_type → List Nat :=
  Function.update L c (Function.update (L c) t l)

/-- Well-formed slab lists of the caches `cs`: `L c t` is the content of the
list `heads[t]` of cache `c`; no slab is listed twice; the slabs on it belong to
`c` and have type `t`; `slab_count[t]` is its length; and a cache has no more
slabs than the region has blocks. -/
structure slab_lists (s : kmem_state) (cs : List Nat) (L : Nat → slab_type → List Nat) :
    Prop where
  small : s.buddy.alloc_block_count < 2 ^ 20
  cache_ne : ∀ c, c ∈ cs → c ≠ NULL
  chain : ∀ c, c ∈ cs → ∀ t, slab_chain s.slabs ((s.caches c).heads t) (L c t)
  nodup : ∀ c, c ∈ cs → ∀ t, (L c t).Nodup
  count : ∀ c, c ∈ cs → ∀ t, (s.caches c).slab_count t = (L c t).length
  owner : ∀ c, c ∈ cs → ∀ t p, p ∈ L c t → (s.slabs p).cache = c ∧ (s.slabs p).type = t
  short : ∀ c, c ∈ cs →
    (L c slab_type.empty).length + (L c slab_type.part).length + (L c slab_type.full).length
      ≤ s.buddy.alloc_block_count

/-- The layout of the slabs of a cache: at least one object of at least one
byte, a bitmap of `calc_bitmap_size(obj_per_slab)` entries, and room in the
`2 ^ slab_order` blocks for the largest colouring offset, the slab header, the
bitmap and the objects. -/
structure cache_layout (c : kmem_cache_t) : Prop where
  objs : 1 ≤ c.obj_per_slab
  size : 1 ≤ c.object_size
  bits : c.bitmap_length = calc_bitmap_size c.obj_per_slab
  aligns : 1 ≤ c.max_alignments
  room : (c.max_alignments - 1) * CACHE_L1_LINE_SIZE + SIZEOF_SLAB + c.bitmap_length
      + c.obj_per_slab * c.object_size ≤ 2 ^ c.slab_order * BLOCK_SIZE

/-- Where the listed slabs of the caches `cs` lie: each one has a hook of the
order of its cache that the buddy layer handed out (`out`), no two share a
hook, the header lies at the colouring offset inside the run of the hook, the
bitmap after the header and the objects after the bitmap. -/
structure slab_places (s : kmem_state) (cs : List Nat) (L : Nat → slab_type → List Nat)
    (out : List block_area) : Prop where
  layout : ∀ c, c ∈ cs → cache_layout (s.caches c)
  hook_out : ∀ c, c ∈ cs → ∀ t p, p ∈ L c t → (s.slabs p).my_hook ∈ out
  hook_order : ∀ c, c ∈ cs → ∀ t p, p ∈ L c t →
    (s.slabs p).my_hook.order = (s.caches c).slab_order
  hook_block : ∀ c, c ∈ cs → ∀ t p, p ∈ L c t →
    (s.slabs p).my_hook.addr
      = get_block s.buddy (get_index s.buddy (s.slabs p).my_hook.addr)
  hook_inj : ∀ c1 t1 p1 c2 t2 p2, c1 ∈ cs → c2 ∈ cs → p1 ∈ L c1 t1 → p2 ∈ L c2 t2 →
    (s.slabs p1).my_hook = (s.slabs p2).my_hook → p1 = p2
  place : ∀ c, c ∈ cs → ∀ t p, p ∈ L c t →
    p = (s.slabs p).my_hook.addr + (s.slabs p).offset
      ∧ (s.slabs p).offset ≤ ((s.caches c).max_alignments - 1) * CACHE_L1_LINE_SIZE
  fields : ∀ c, c ∈ cs → ∀ t p, p ∈ L c t →
    (s.slabs p).bitmap = p + SIZEOF_SLAB
      ∧ (s.slabs p).objects = p + SIZEOF_SLAB + (s.caches c).bitmap_length

/-- The type of each listed slab matches its used count: empty iff no object is
in use, full iff `obj_per_slab` objects are, partial otherwise. -/
structure slab_states (s : kmem_state) (cs : List Nat) (L : Nat → slab_type → List Nat) :
    Prop where
  used_le : ∀ c, c ∈ cs → ∀ t p, p ∈ L c t →
    (s.slabs p).used_count ≤ (s.caches c).obj_per_slab
  empty_iff : ∀ c, c ∈ cs → ∀ t p, p ∈ L c t →
    (t = slab_type.empty ↔ (s.slabs p).used_count = 0)
  full_iff : ∀ c, c ∈ cs → ∀ t p, p ∈ L c t →
    (t = slab_type.full ↔ (s.slabs p).used_count = (s.caches c).obj_per_slab)

/-! ## A small state of both layers -/

/-- The hook and the state that `buddy_alloc(0)` returns right after `buddy_init`
on a zeroed region of four blocks: block 3 at address 77824. -/
def demo_alloc : block_area × buddy_state :=
  (buddy_alloc four_init 0).getD (⟨NULL, 0⟩, four_blocks)

/-- A cache as `kmem_cache_init` lays it out for objects of 1000 bytes (four
objects and one bitmap entry in a slab of one block), with the slab at address
77824 on the list of type `t`, and with the given flag `extended`. -/
def demo_cache (t : slab_type) (flag : Int) : kmem_cache_t :=
  { name := [84]
    heads := fun t2 => if t2 = t then 77824 else NULL
    object_size := 1000
    bitmap_length := 1
    slab_order := 0
    slab_count := fun t2 => if t2 = t then 1 else 0
    next_offset := 0
    obj_per_slab := 4
    max_alignments := 1
    ctor := NULL
    dtor := NULL
    extended := flag
    error := 0
    next := NULL }

/-- The slab at address 77824 as `slab_alloc` places it in the run of
`demo_alloc`, with the given type and used count. -/
def demo_slab (t : slab_type) (used : Nat) : slab_t :=
  { cache := 66000
    type := t
    my_hook := demo_alloc.1
    used_count := used
    offset := 0
    bitmap := 77864
    objects := 77865
    next := NULL }

/-- The cache of caches as `kmem_cache_init` lays it out (26 objects of 152
bytes and four bitmap entries in a slab of one block), without slabs, with the
cache at address 66000 on the global cache list. -/
def demo_ctrl : kmem_cache_t :=
  { name := kmem_cache_name
    heads := fun _ => NULL
    object_size := SIZEOF_KMEM_CACHE
    bitmap_length := 4
    slab_order := 0
    slab_count := fun _ => 0
    next_offset := 0
    obj_per_slab := 26
    max_alignments := 2
    ctor := NULL
    dtor := NULL
    extended := -1
    error := 0
    next := 66000 }

/-- A state with the cache of caches at address 65664 and one cache at address
66000 that owns one slab at address 77824, in the run of `demo_alloc`: the slab
has type `t`, `used` objects in use and the bitmap entry `bits`; the cache has
the given flag `extended`. -/
def demo_state (t : slab_type) (used bits : Nat) (flag : Int) : kmem_state :=
  { buddy := demo_alloc.2
    kmem_ctrl := 65664
    caches := Function.update (Function.update zero_mem.caches 65664 demo_ctrl) 66000
      (demo_cache t flag)
    slabs := Function.update zero_mem.slabs 77824 (demo_slab t used)
    bitmaps := Function.update zero_mem.bitmaps 77864 bits
    used := zero_mem.used }

/-- The caches of `demo_state`. -/
def demo_caches : List Nat := [66000, 65664]

/-- The lists of `demo_state`: the slab 77824 on the list of type `t` of the
cache 66000. -/
def demo_lists (t : slab_type) : Nat → slab_type → List Nat :=
  fun c t2 => if c = 66000 ∧ t2 = t then [77824] else []

/-- The state `demo_state` with the slab on the partial list and object 0 in use. -/
def demo_part : kmem_state := demo_state slab_type.part 1 1 (-1)

/-- The call `kmem_cache_alloc(66000)` in state `demo_part`: the pointer returned
and the state it leaves. -/
def demo_step1 : Nat × kmem_state :=
  (kmem_cache_alloc demo_part 66000).getD (NULL, demo_part)

/-- The call `kmem_cache_free(66000, p)` that follows, with the pointer `p` that
`demo_step1` returned. -/
def demo_step2 : kmem_state :=
  (kmem_cache_free demo_step1.2 66000 demo_step1.1).getD demo_part

/-- The call `kmem_cache_shrink(66000)` that follows: the value returned and the
state it leaves. -/
def demo_step3 : Int × kmem_state :=
  (kmem_cache_shrink demo_step2 66000).getD (0, demo_part)

/-! ## Observations of bitmaps, of the cache list and of call sequences -/

/-- Bit `i` of the bitmap at address `bitmap`: bit `i % 8` of the entry `i / 8`. -/
def bit_at (m : Nat → Nat) (bitmap i : Nat) : Bool :=
  (m (bitmap + i / BITMAP_ENTRY_BITS)).testBit (i % BITMAP_ENTRY_BITS)

/-- Number of set bits among the bits `0 .. n - 1` of the bitmap at `bitmap`. -/
def set_bits (m : Nat → Nat) (bitmap n : Nat) : Nat :=
  (List.range n).countP fun i => bit_at m bitmap i

/-- Consistent bitmaps of the listed slabs of the caches `cs`: every entry is a
byte, no bit of a slab's bitmap at a position from `obj_per_slab` on is set, and
`used_count` is the number of set bits. -/
structure slab_bits (s : kmem_state) (cs : List Nat) (L : Nat → slab_type → List Nat) :
    Prop where
  bytes : ∀ a, s.bitmaps a < BYTE
  high : ∀ c, c ∈ cs → ∀ t p, p ∈ L c t → ∀ i, (s.caches c).obj_per_slab ≤ i →
    i < BITMAP_ENTRY_BITS * (s.caches c).bitmap_length →
    bit_at s.bitmaps (s.slabs p).bitmap i = false
  count : ∀ c, c ∈ cs → ∀ t p, p ∈ L c t →
    (s.slabs p).used_count = set_bits s.bitmaps (s.slabs p).bitmap (s.caches c).obj_per_slab

/-- The pointer `objp` is an object of cache `cachep` that is in use: it is the
address of object `i` of a listed slab whose bit `i` is set. -/
def allocated (s : kmem_state) (cachep objp : Nat) : Prop :=
  ∃ t p i, p ∈ slab_list s cachep t ∧ i < (s.caches cachep).obj_per_slab
    ∧ objp = (s.slabs p).objects + i * (s.caches cachep).object_size
    ∧ bit_at s.bitmaps (s.slabs p).bitmap i = true

/-- A request of `2 ^ order` blocks that passes the guard of `buddy_alloc` finds
a free run on a list of an order from `order` to `max_order`. -/
def served (b : buddy_state) (order : Nat) : Prop :=
  b.free_block_count ≥ power_of_two order → order ≤ b.max_order →
    ∃ k, order ≤ k ∧ k ≤ b.max_order ∧ b.free_heads k ≠ NULL_INDEX

/-- A `kmem_cache_alloc` on a cache without partial and without empty slab, which
asks the buddy layer for a new slab, is served. -/
def growth_served (s : kmem_state) (cachep : Nat) : Prop :=
  (s.caches cachep).heads slab_type.part = NULL →
    (s.caches cachep).heads slab_type.empty = NULL →
    served s.buddy (s.caches cachep).slab_order

/-- The invariant of both layers for the caches `cs`: well-formed slab lists,
types that match the used counts, slabs placed in runs that the buddy layer
handed out, and a well-formed buddy layer. -/
structure kmem_inv (s : kmem_state) (cs : List Nat) (L : Nat → slab_type → List Nat)
    (out : List block_area) (lists : Nat → List Nat) : Prop where
  slabs_ok : slab_lists s cs L
  states_ok : slab_states s cs L
  places_ok : slab_places s cs L out
  buddy_ok : buddy_inv s.buddy out lists

/-- States reached from `s0` by calls of `kmem_cache_alloc`, `kmem_cache_free` and
`kmem_cache_shrink` on the caches `cs` that return; `ok s c p` is what a sequence
asks of the pointer `p` passed to `kmem_cache_free(c, p)` in state `s`. -/
inductive calls_reach (cs : List Nat) (ok : kmem_state → Nat → Nat → Prop) (s0 : kmem_state) :
    kmem_state → Prop
  | start : calls_reach cs ok s0 s0
  | alloc (s s1 : kmem_state) (c p : Nat) :
      calls_reach cs ok s0 s → c ∈ cs → growth_served s c →
      kmem_cache_alloc s c = some (p, s1) → calls_reach cs ok s0 s1
  | free (s s1 : kmem_state) (c p : Nat) :
      calls_reach cs ok s0 s → c ∈ cs → ok s c p →
      kmem_cache_free s c p = some s1 → calls_reach cs ok s0 s1
  | shrink (s s1 : kmem_state) (c : Nat) (r : Int) :
      calls_reach cs ok s0 s → c ∈ cs →
      kmem_cache_shrink s c = some (r, s1) → calls_reach cs ok s0 s1

/-- The caches `l` are exactly those linked from `head` through `next`. -/
def cache_chain (caches : Nat → kmem_cache_t) : Nat → List Nat → Prop
  | head, [] => head = NULL
  | head, a :: l => head = a ∧ a ≠ NULL ∧ cache_chain caches (caches a).next l

/-- Caches linked from `cur` through `next`, at most `fuel` of them. -/
def cache_walk (s : kmem_state) : Nat → Nat → List Nat
  | 0, _ => []
  | fuel + 1, cur =>
      if cur = NULL then [] else cur :: cache_walk s fuel (s.caches cur).next

/-- The global cache list: the caches linked from `kmem_ctrl->cache_of_caches.next`. -/
def cache_list (s : kmem_state) : List Nat :=
  cache_walk s (walk_fuel s) (s.caches s.kmem_ctrl).next

/-- The lists `L` after slab `p` of cache `c` moved from the list of type `t` to
the head of the list of type `t1` (as they are when `t1 = t`). -/
def move_list (L : Nat → slab_type → List Nat) (c : Nat) (t t1 : slab_type) (p : Nat) :
    Nat → slab_type → List Nat :=
  if t1 = t then L else set_list (set_list L c t ((L c t).erase p)) c t1 (p :: L c t1)

/-- The state after `slab_alloc_object` or `slab_free_object` wrote the bitmap
and the used count of a slab, before the change of type. -/
def recount (s : kmem_state) (slab : Nat) (m : Nat → Nat) (u : Nat) : kmem_state :=
  { s with
    bitmaps := m
    slabs := Function.update s.slabs slab { s.slabs slab with used_count := u } }

/-- The range check of `slab_free_object`: `start_addr <= obj && end_addr >= obj`. -/
def in_range (s : kmem_state) (slab obj : Nat) : Prop :=
  (s.slabs slab).objects ≤ obj
    ∧ (s.slabs slab).objects
        + ((((s.caches (s.slabs slab).cache).obj_per_slab + WORD - 1) % WORD)
            * (s.caches (s.slabs slab).cache).object_size) % WORD ≥ obj

/-- The object index that `slab_free_object` computes for a pointer. -/
def free_index (s : kmem_state) (slab obj : Nat) : Nat :=
  (((obj - (s.slabs slab).objects) % WORD) / (s.caches (s.slabs slab).cache).object_size) % WORD

/-- State `s1` is state `s` with the bitmaps `m`, with the used count `u` and the
type `t1` in slab `p` of cache `c`; slabs keep their owner, hook and layout,
caches their parameters, and caches other than `c` are as they were. -/
structure rewritten (s s1 : kmem_state) (c p : Nat) (m : Nat → Nat) (u : Nat)
    (t1 : slab_type) : Prop where
  buddy : s1.buddy = s.buddy
  kmem_ctrl : s1.kmem_ctrl = s.kmem_ctrl
  used : s1.used = s.used
  bitmaps : s1.bitmaps = m
  frame : ∀ q, (s1.slabs q).cache = (s.slabs q).cache
    ∧ (s1.slabs q).my_hook = (s.slabs q).my_hook
    ∧ (s1.slabs q).offset = (s.slabs q).offset
    ∧ (s1.slabs q).bitmap = (s.slabs q).bitmap
    ∧ (s1.slabs q).objects = (s.slabs q).objects
  used_count : ∀ q, (s1.slabs q).used_count = if q = p then u else (s.slabs q).used_count
  type : ∀ q, (s1.slabs q).type = if q = p then t1 else (s.slabs q).type
  caches : ∀ d, same_cache (s.caches d) (s1.caches d)
  others : ∀ d, d ≠ c → s1.caches d = s.caches d

/-- What a state shows of the slab at the head of the list of type `t` of a
cache: its used count, the first entry of its bitmap and the number of set bits
among the first eight. -/
def head_slab (s : kmem_state) (cachep : Nat) (t : slab_type) : List Nat :=
  [(s.slabs ((s.caches cachep).heads t)).used_count,
    s.bitmaps (s.slabs ((s.caches cachep).heads t)).bitmap,
    set_bits s.bitmaps (s.slabs ((s.caches cachep).heads t)).bitmap BITMAP_ENTRY_BITS]

/-- The calls `kmem_init(space, 64)`, `c = kmem_cache_create("T", 1000, NULL, NULL)`,
`p1 = kmem_cache_alloc(c)`, `p2 = kmem_cache_alloc(c)`, `kmem_cache_free(c, p1)`,
`kmem_cache_free(c, p1)`: the slab at the head of the partial list after the
first free and the slab at the head of the empty list after the second. -/
def double_free : Option (List (List Nat)) :=
  booted.bind fun s =>
  (kmem_cache_create s (some [84]) 1000 NULL NULL).bind fun c =>
  (kmem_cache_alloc c.2 c.1).bind fun a1 =>
  (kmem_cache_alloc a1.2 c.1).bind fun a2 =>
  (kmem_cache_free a2.2 c.1 a1.1).bind fun f1 =>
  (kmem_cache_free f1 c.1 a1.1).map fun f2 =>
    [head_slab f1 c.1 slab_type.part, head_slab f2 c.1 slab_type.empty]

/-! ## Observations of the slab layout -/

/-- The layout that `kmem_cache_init` computes for objects of `obj_size` bytes
(in a memory whose records are all zero, for a cache at address 4096 named "T"):
`slab_order`, `obj_per_slab`, `bitmap_length` and `max_alignments`; `none` when
the call has no defined result. -/
def init_layout (obj_size : Nat) : Option (List Nat) :=
  (kmem_cache_init zero_mem 4096 (some [84]) obj_size NULL NULL).map fun s =>
    [(s.caches 4096).slab_order, (s.caches 4096).obj_per_slab, (s.caches 4096).bitmap_length,
      (s.caches 4096).max_alignments]

/-- Bytes of the slab header, the bitmap and the objects of the layout that
`kmem_cache_init` computes, placed at colouring index `index`. -/
def layout_bytes (c : kmem_cache_t) (index : Nat) : Nat :=
  index * CACHE_L1_LINE_SIZE + SIZEOF_SLAB + c.bitmap_length + c.obj_per_slab * c.object_size

/-- The layout that `kmem_cache_init` computes for objects of `obj_size` bytes
(as in `init_layout`): the bytes `layout_bytes` of a slab at colouring index
`index`, and the bytes of the `2 ^ slab_order` blocks of its run. -/
def init_fit (obj_size index : Nat) : Option (List Nat) :=
  (kmem_cache_init zero_mem 4096 (some [84]) obj_size NULL NULL).map fun s =>
    [layout_bytes (s.caches 4096) index, 2 ^ (s.caches 4096).slab_order * BLOCK_SIZE]

/-! ## A round trip on a cache without slabs -/

/-- What a state shows of the lists of a cache: the three slab counters and the
three list heads, for the types empty, partial, full. -/
def cache_counts (s : kmem_state) (cachep : Nat) : List Nat :=
  [(s.caches cachep).slab_count slab_type.empty, (s.caches cachep).slab_count slab_type.part,
    (s.caches cachep).slab_count slab_type.full, (s.caches cachep).heads slab_type.empty,
    (s.caches cachep).heads slab_type.part, (s.caches cachep).heads slab_type.full]

/-- The calls `kmem_init(space, 64)`, `c = kmem_cache_create("T", 1000, NULL, NULL)`,
`p = kmem_cache_alloc(c)`, `kmem_cache_free(c, p)`: the counters and list heads
of the cache before the allocation, the pointer, and the counters and list
heads after the free. -/
def grow_round_trip : Option (List (List Nat)) :=
  booted.bind fun s =>
  (kmem_cache_create s (some [84]) 1000 NULL NULL).bind fun c =>
  (kmem_cache_alloc c.2 c.1).bind fun a =>
  (kmem_cache_free a.2 c.1 a.1).map fun f =>
    [cache_counts c.2 c.1, [a.1], cache_counts f c.1]

/-! ## A cache destroyed with two slabs -/

/-- The calls `kmem_init(space, 64)`, `c = kmem_cache_create("T", 1000, NULL, NULL)`,
five calls `kmem_cache_alloc(c)`, which leave the cache with a full and a
partial slab, and `kmem_cache_destroy(c)`: the free block counts after
`kmem_init`, before and after the call of `kmem_cache_destroy`; the counters of
empty, partial and full slabs and `slab_order` before it; the first caches of
the global cache list before it and after it; and the cache. -/
def destroy_two_slabs : Option (List (List Nat)) :=
  booted.bind fun s =>
  (kmem_cache_create s (some [84]) 1000 NULL NULL).bind fun c =>
  (kmem_cache_alloc c.2 c.1).bind fun a1 =>
  (kmem_cache_alloc a1.2 c.1).bind fun a2 =>
  (kmem_cache_alloc a2.2 c.1).bind fun a3 =>
  (kmem_cache_alloc a3.2 c.1).bind fun a4 =>
  (kmem_cache_alloc a4.2 c.1).bind fun a5 =>
  (kmem_cache_destroy a5.2 c.1).map fun d =>
    [[s.buddy.free_block_count, a5.2.buddy.free_block_count, d.buddy.free_block_count],
      [(a5.2.caches c.1).slab_count slab_type.empty, (a5.2.caches c.1).slab_count slab_type.part,
        (a5.2.caches c.1).slab_count slab_type.full, (a5.2.caches c.1).slab_order],
      cache_walk a5.2 8 (a5.2.caches a5.2.kmem_ctrl).next,
      cache_walk d 8 (d.caches d.kmem_ctrl).next, [c.1]]

/-! ## A slab handed to two caches -/

/-- The calls `kmem_cache_alloc(c)`, `n` times: the pointers returned, in the
order of the calls, and the state reached. -/
def alloc_run (c : Nat) : Nat → kmem_state → Option (List Nat × kmem_state)
  | 0, s => some ([], s)
  | n + 1, s =>
      (kmem_cache_alloc s c).bind fun r =>
        (alloc_run c n r.2).map fun t => (r.1 :: t.1, t.2)

/-- The calls `kmem_cache_free(c, p)` for the pointers `p` of a list, in its order. -/
def free_run (c : Nat) : List Nat → kmem_state → Option kmem_state
  | [], s => some s
  | p :: l, s => (kmem_cache_free s c p).bind (free_run c l)

/-- The calls `kmem_init(space, 14)`, `a = kmem_cache_create("A", 3000, NULL, NULL)`
(slabs of one block with one object), `b = kmem_cache_create("B", 5000, NULL, NULL)`
and `c = kmem_cache_create("C", 5000, NULL, NULL)` (slabs of two blocks with one
object): the state reached and the three caches. -/
def three_caches (space : region) : Option (kmem_state × List Nat) :=
  (kmem_init zero_mem space 14).bind fun s =>
  (kmem_cache_create s (some [65]) 3000 NULL NULL).bind fun a =>
  (kmem_cache_create a.2 (some [66]) 5000 NULL NULL).bind fun b =>
  (kmem_cache_create b.2 (some [67]) 5000 NULL NULL).map fun c =>
    (c.2, [a.1, b.1, c.1])

/-- After `three_caches`, the calls `kmem_cache_alloc(b)` and `kmem_cache_alloc(c)`,
which take the blocks 9 to 12, eight calls `p1 .. p8 = kmem_cache_alloc(a)`,
which take the blocks 1 to 8, `kmem_cache_free(a, p)` for `p1`, `p3`, `p5`, `p7`,
`kmem_cache_shrink(a)`, which returns the blocks 1, 3, 5, 7 to the buddy layer,
`q1 = kmem_cache_alloc(c)` and `q2 = kmem_cache_alloc(b)`.  The result holds: the
free block counts after the shrink, after `q1` and after `q2`; the pointers
`p1 .. p8`; the pointers `q1`, `q2`; the counter `slab_count[full]` of `a`; the
first slabs linked from `heads[full]` of `a` (at most eight); the `cache` field
of each of them; the first slabs linked from `heads[full]` of `b`; and the
caches `a`, `b`, `c`. -/
def slab_taken_twice (space : region) : Option (List (List Nat)) :=
  (three_caches space).bind fun t =>
  (kmem_cache_alloc t.1 (t.2.getD 1 0)).bind fun b1 =>
  (kmem_cache_alloc b1.2 (t.2.getD 2 0)).bind fun c1 =>
  (alloc_run (t.2.getD 0 0) 8 c1.2).bind fun p =>
  (free_run (t.2.getD 0 0) [p.1.getD 0 0, p.1.getD 2 0, p.1.getD 4 0, p.1.getD 6 0] p.2).bind
    fun f =>
  (kmem_cache_shrink f (t.2.getD 0 0)).bind fun h =>
  (kmem_cache_alloc h.2 (t.2.getD 2 0)).bind fun q1 =>
  (kmem_cache_alloc q1.2 (t.2.getD 1 0)).map fun q2 =>
    [[h.2.buddy.free_block_count, q1.2.buddy.free_block_count, q2.2.buddy.free_block_count],
      p.1, [q1.1, q2.1],
      [(q2.2.caches (t.2.getD 0 0)).slab_count slab_type.full],
      slab_walk q2.2 8 ((q2.2.caches (t.2.getD 0 0)).heads slab_type.full),
      (slab_walk q2.2 8 ((q2.2.caches (t.2.getD 0 0)).heads slab_type.full)).map fun x =>
        (q2.2.slabs x).cache,
      slab_walk q2.2 8 ((q2.2.caches (t.2.getD 1 0)).heads slab_type.full),
      t.2]

/-! ## Arithmetic of words and bits -/

theorem land_two_pow_ne_zero (m k : Nat) : m &&& 2 ^ k ≠ 0 ↔ m.testBit k = true := by
  constructor
  · intro h
    by_contra hb
    apply h
    apply Nat.eq_of_testBit_eq
    intro i
    rw [Nat.testBit_and, Nat.testBit_two_pow, Nat.zero_testBit]
    by_cases hi : k = i
    · subst hi
      simp [hb]
    · simp [hi]
  · intro hb h
    have : (m &&& 2 ^ k).testBit k = true := by
      rw [Nat.testBit_and, Nat.testBit_two_pow, hb]
      simp
    rw [h, Nat.zero_testBit] at this
    exact Bool.noConfusion this

theorem calc_max_order_loop_spec : ∀ (fuel num : Nat) (m : Int), num < 2 ^ fuel → num ≠ 0 →
    ∃ r : Nat, calc_max_order_loop fuel num m = m + 1 + r ∧ 2 ^ r ≤ num ∧ num < 2 ^ (r + 1) := by
  intro fuel
  induction fuel with
  | zero =>
      intro num m h h0
      simp at h
      omega
  | succ fuel ih =>
      intro num m h h0
      unfold calc_max_order_loop
      simp only [h0, ne_eq, not_false_eq_true, if_true]
      by_cases h1 : num / 2 = 0
      · refine ⟨0, ?_, ?_, ?_⟩
        · cases fuel with
          | zero => simp [calc_max_order_loop]
          | succ f => simp [calc_max_order_loop, h1]
        · simp; omega
        · simp; omega
      · have hlt : num / 2 < 2 ^ fuel := by
          rw [Nat.pow_succ] at h
          omega
        obtain ⟨r, hr, hlo, hhi⟩ := ih (num / 2) (m + 1) hlt h1
        refine ⟨r + 1, ?_, ?_, ?_⟩
        · rw [hr]; push_cast; ring
        · rw [Nat.pow_succ]; omega
        · rw [Nat.pow_succ] at hhi ⊢; omega

theorem calc_max_order_eq (num : Nat) (h0 : num ≠ 0) (h : num < WORD) :
    calc_max_order num = (Nat.log2 num : Int) := by
  unfold calc_max_order
  have hmod : num % WORD = num := Nat.mod_eq_of_lt h
  rw [hmod]
  obtain ⟨r, hr, hlo, hhi⟩ := calc_max_order_loop_spec 32 num (-1) h h0
  rw [hr]
  have h1 : ¬ (Nat.log2 num < r) := by
    rw [Nat.log2_lt h0]; omega
  have h2 : ¬ (r < Nat.log2 num) := by
    intro hlt
    have := Nat.log2_self_le h0
    have hp : 2 ^ (r + 1) ≤ 2 ^ Nat.log2 num := Nat.pow_le_pow_right (by decide) hlt
    omega
  have : r = Nat.log2 num := by omega
  rw [this]; ring

theorem mod_two_pow_succ_bit (m n : Nat) :
    m % 2 ^ (n + 1) = m % 2 ^ n + (if m.testBit n = true then 2 ^ n else 0) := by
  rw [Nat.mod_pow_succ, Nat.testBit_to_div_mod]
  have h2 : m / 2 ^ n % 2 = 0 ∨ m / 2 ^ n % 2 = 1 := by omega
  rcases h2 with h | h
  · simp [h]
  · simp [h]

theorem testBit_log2 (m : Nat) (h0 : m ≠ 0) : m.testBit (Nat.log2 m) = true := by
  have hlo := Nat.log2_self_le h0
  have hhi := @Nat.lt_log2_self m
  rw [Nat.testBit_to_div_mod]
  have hd : m / 2 ^ Nat.log2 m = 1 := by
    apply Nat.div_eq_of_lt_le
    · simpa using hlo
    · rw [Nat.pow_succ] at hhi
      omega
  simp [hd]

/-- For `k ≤ l` with bit `l` of `m` set there is a smallest set bit from `k` up. -/
theorem exists_first_set_bit (m k l : Nat) (hkl : k ≤ l) (hl : m.testBit l = true) :
    ∃ k1, k ≤ k1 ∧ k1 ≤ l ∧ m.testBit k1 = true
      ∧ ∀ j, k ≤ j → j < k1 → m.testBit j = false := by
  have hex : ∃ j, k ≤ j ∧ m.testBit j = true := ⟨l, hkl, hl⟩
  refine ⟨Nat.find hex, (Nat.find_spec hex).1, Nat.find_min' hex ⟨hkl, hl⟩,
    (Nat.find_spec hex).2, ?_⟩
  intro j hj hlt
  have := Nat.find_min hex hlt
  simp only [not_and, Bool.not_eq_true] at this
  exact this hj

theorem calc_buddy_index_left (i j k1 : Nat) (hj : j ≤ k1) (hi : i % 2 ^ (k1 + 1) = 1)
    (hlt : i + 2 ^ j < WORD) : calc_buddy_index i j = i + 2 ^ j := by
  have hd1 : 2 ^ (j + 1) ∣ 2 ^ (k1 + 1) := Nat.pow_dvd_pow 2 (by omega)
  have h1 : i % 2 ^ (j + 1) = 1 := by
    have := Nat.mod_mod_of_dvd i hd1
    rw [hi] at this
    rw [← this]
    apply Nat.mod_eq_of_lt
    calc 1 < 2 ^ 1 := by decide
      _ ≤ 2 ^ (j + 1) := Nat.pow_le_pow_right (by decide) (by omega)
  have h2 : i % 2 ^ j = 1 ∨ j = 0 := by
    by_cases hj0 : j = 0
    · exact Or.inr hj0
    · left
      have hd2 : 2 ^ j ∣ 2 ^ (k1 + 1) := Nat.pow_dvd_pow 2 (by omega)
      have := Nat.mod_mod_of_dvd i hd2
      rw [hi] at this
      rw [← this]
      apply Nat.mod_eq_of_lt
      calc 1 < 2 ^ 1 := by decide
        _ ≤ 2 ^ j := Nat.pow_le_pow_right (by decide) (by omega)
  unfold calc_buddy_index power_of_two
  have hg : ¬ (i % 2 ^ j ≠ 1 ∧ j ≠ 0) := by
    rcases h2 with h | h
    · simp [h]
    · simp [h]
  rw [if_neg hg]
  simp only [h1, if_true]
  have hW : WORD = 4294967296 := rfl
  rw [hW] at hlt ⊢
  generalize 2 ^ j = p at hlt ⊢
  omega

theorem get_index_get_block (s : buddy_state) (i : Nat) (hi : i < 2 ^ 20) :
    get_index s (get_block s i) = i := by
  unfold get_index get_block
  have hW : WORD = 4294967296 := rfl
  have hB : BLOCK_SIZE = 4096 := rfl
  have h20 : (2 : Nat) ^ 20 = 1048576 := by norm_num
  rw [hW, hB]
  omega

theorem get_block_inj (s : buddy_state) (i j : Nat) (hi : i < 2 ^ 20) (hj : j < 2 ^ 20)
    (h : get_block s i = get_block s j) : i = j := by
  unfold get_block at h
  have hW : WORD = 4294967296 := rfl
  have hB : BLOCK_SIZE = 4096 := rfl
  have h20 : (2 : Nat) ^ 20 = 1048576 := by norm_num
  rw [hW, hB] at h
  omega

theorem bits_above_succ (m k n : Nat) :
    bits_above m k (n + 1)
      = bits_above m k n + (if k < n ∧ m.testBit n = true then 2 ^ n else 0) := by
  unfold bits_above
  rw [Finset.range_succ, Finset.filter_insert]
  split
  · rw [Finset.sum_insert (by simp)]
    omega
  · simp

theorem bits_above_of_le (m k n : Nat) (h : n ≤ k + 1) : bits_above m k n = 0 := by
  unfold bits_above
  apply Finset.sum_eq_zero
  intro j hj
  simp only [Finset.mem_filter, Finset.mem_range] at hj
  omega

theorem bits_above_dvd (m k : Nat) : ∀ n, 2 ^ (k + 1) ∣ bits_above m k n := by
  intro n
  unfold bits_above
  apply Finset.dvd_sum
  intro j hj
  simp only [Finset.mem_filter, Finset.mem_range] at hj
  exact Nat.pow_dvd_pow 2 (by omega)

theorem bits_above_add_le_mod (m k : Nat) (hb : m.testBit k = true) : ∀ n, k < n →
    bits_above m k n + 2 ^ k ≤ m % 2 ^ n := by
  intro n
  induction n with
  | zero => intro h; omega
  | succ n ih =>
      intro hk
      rw [mod_two_pow_succ_bit, bits_above_succ]
      by_cases hkn : k = n
      · subst hkn
        rw [bits_above_of_le m k k (by omega)]
        simp [hb]
      · have := ih (by omega)
        have hlt : k < n := by omega
        by_cases hbn : m.testBit n = true
        · simp only [hlt, hbn, and_self, if_true]
          omega
        · simp only [Bool.not_eq_true] at hbn
          simp only [hbn, Bool.false_eq_true, and_false, if_false]
          omega

theorem bits_above_step (m j1 j2 : Nat) (h12 : j1 < j2) (hb : m.testBit j2 = true) :
    ∀ n, j2 < n → bits_above m j2 n + 2 ^ j2 ≤ bits_above m j1 n := by
  intro n
  induction n with
  | zero => intro h; omega
  | succ n ih =>
      intro hk
      rw [bits_above_succ, bits_above_succ]
      by_cases hkn : j2 = n
      · subst hkn
        rw [bits_above_of_le m j2 j2 (by omega)]
        simp [hb, h12]
      · have := ih (by omega)
        have hlt2 : j2 < n := by omega
        have hlt1 : j1 < n := by omega
        by_cases hbn : m.testBit n = true
        · simp only [hlt1, hlt2, hbn, and_self, if_true]
          omega
        · simp only [Bool.not_eq_true] at hbn
          simp only [hbn, Bool.false_eq_true, and_false, if_false]
          omega

theorem calc_buddy_index_near (i b k : Nat) (hk : k < MAX_ORDER_LIMIT) (hi : i < 2 ^ 20)
    (hb : calc_buddy_index i k = b) (hb0 : b ≠ NULL_INDEX) (hbs : b < 2 ^ 20) :
    b = i + 2 ^ k ∨ b + 2 ^ k = i := by
  have hW : WORD = 4294967296 := rfl
  have h20 : (2 : Nat) ^ 20 = 1048576 := by norm_num
  have h25 : (2 : Nat) ^ 25 = 33554432 := by norm_num
  have hp : (2 : Nat) ^ k < 2 ^ 25 := Nat.pow_lt_pow_right (by decide) hk
  have hp0 : 0 < 2 ^ k := Nat.pow_pos (by decide)
  unfold calc_buddy_index power_of_two at hb
  by_cases hg : i % 2 ^ k ≠ 1 ∧ k ≠ 0
  · rw [if_pos hg] at hb
    exact absurd hb.symm hb0
  · rw [if_neg hg] at hb
    rw [hW] at hb
    by_cases hl : i % 2 ^ (k + 1) = 1
    · simp only [hl, if_true] at hb
      generalize 2 ^ k = p at hb hp hp0 ⊢
      omega
    · simp only [hl, if_false] at hb
      generalize 2 ^ k = p at hb hp hp0 ⊢
      omega

/-- The buddy of an aligned run: the run above when the pair starts at the run
itself, the run below otherwise. -/
theorem calc_buddy_index_fit (i k : Nat) (hd : 2 ^ k ∣ (i - 1)) (h1 : 1 ≤ i)
    (hlt : i + 2 ^ k < WORD) :
    (2 ^ (k + 1) ∣ (i - 1) ∧ calc_buddy_index i k = i + 2 ^ k)
    ∨ (2 ^ (k + 1) ∣ (i - 1 - 2 ^ k) ∧ 2 ^ k + 1 ≤ i ∧ calc_buddy_index i k + 2 ^ k = i) := by
  have hW : WORD = 4294967296 := rfl
  have hp0 : 0 < 2 ^ k := Nat.pow_pos (by decide)
  have hpow : (2 : Nat) ^ (k + 1) = 2 ^ k * 2 := Nat.pow_succ 2 k
  obtain ⟨q, hq⟩ := hd
  have hi : i = 2 ^ k * q + 1 := by omega
  have hguard : ¬ (i % 2 ^ k ≠ 1 ∧ k ≠ 0) := by
    intro ⟨h, hk0⟩
    apply h
    rw [hi, Nat.mul_add_mod]
    apply Nat.mod_eq_of_lt
    calc 1 < 2 ^ 1 := by decide
      _ ≤ 2 ^ k := Nat.pow_le_pow_right (by decide) (by omega)
  have h2 : 1 < 2 ^ (k + 1) :=
    calc 1 < 2 ^ 1 := by decide
      _ ≤ 2 ^ (k + 1) := Nat.pow_le_pow_right (by decide) (by omega)
  unfold calc_buddy_index power_of_two
  rw [if_neg hguard]
  rcases Nat.even_or_odd' q with ⟨c, hc | hc⟩
  · left
    have hi2 : i = 2 ^ (k + 1) * c + 1 := by
      rw [hi, hc, hpow]; ring
    have hmod : i % 2 ^ (k + 1) = 1 := by
      rw [hi2, Nat.mul_add_mod]
      exact Nat.mod_eq_of_lt h2
    refine ⟨⟨c, by omega⟩, ?_⟩
    simp only [hmod, if_true]
    rw [hW] at hlt ⊢
    generalize 2 ^ k = p at hlt hp0 ⊢
    omega
  · right
    have hi2 : i = 2 ^ (k + 1) * c + (2 ^ k + 1) := by
      rw [hi, hc, hpow]; ring
    have hmod : i % 2 ^ (k + 1) ≠ 1 := by
      rw [hi2, Nat.mul_add_mod]
      by_cases hk0 : k = 0
      · subst hk0
        decide
      · have : 2 ^ k + 1 < 2 ^ (k + 1) := by
          have : 1 < 2 ^ k :=
            calc 1 < 2 ^ 1 := by decide
              _ ≤ 2 ^ k := Nat.pow_le_pow_right (by decide) (by omega)
          omega
        rw [Nat.mod_eq_of_lt this]
        omega
    have hge : 2 ^ k + 1 ≤ i := by
      rw [hi2]; omega
    refine ⟨⟨c, by rw [hi2]; omega⟩, hge, ?_⟩
    simp only [hmod, if_false]
    rw [hW] at hlt ⊢
    generalize 2 ^ k = p at hlt hp0 hge ⊢
    omega

/-! ## Initialisation -/

/-- Loop of `buddy_init`: from any state, with `n` entries of `free_heads` to
write, the loop ends and leaves the heads and next-index words described. -/
theorem buddy_init_loop_spec (m : Nat) : ∀ (n : Nat) (s : buddy_state) (b : Nat),
    n ≤ MAX_ORDER_LIMIT →
    ∃ s1, buddy_init_loop m n s b = some s1
      ∧ s1.mem_space = s.mem_space
      ∧ s1.alloc_block_count = s.alloc_block_count
      ∧ s1.free_block_count = s.free_block_count
      ∧ s1.max_order = s.max_order
      ∧ s1.ctrl_offset = s.ctrl_offset
      ∧ (∀ k, n ≤ k → s1.free_heads k = s.free_heads k)
      ∧ (∀ k, k < n → s1.free_heads k
            = if m.testBit k = true then b + bits_above m k n else NULL_INDEX)
      ∧ (∀ a, s.words a = NULL_INDEX → s1.words a = NULL_INDEX)
      ∧ (∀ k, k < n → m.testBit k = true →
            s1.words (get_block s (b + bits_above m k n)) = NULL_INDEX) := by
  intro n
  induction n with
  | zero =>
      intro s b _
      exact ⟨s, rfl, rfl, rfl, rfl, rfl, rfl, fun _ _ => rfl, fun k hk => absurd hk (by omega),
        fun _ h => h, fun k hk => absurd hk (by omega)⟩
  | succ n ih =>
      intro s b hn
      have hlt : n < MAX_ORDER_LIMIT := by omega
      unfold buddy_init_loop
      simp only [hlt, if_true]
      by_cases hb : m.testBit n = true
      · have hne : m &&& power_of_two n ≠ 0 := (land_two_pow_ne_zero m n).2 hb
        simp only [hne, ne_eq, not_false_eq_true, if_true]
        obtain ⟨s1, h1, hm, ha, hf, hmo, hc, hge, hlo, hw, hz⟩ :=
          ih (null_next_index
              { s with free_heads := Function.update s.free_heads n b }
              (get_block { s with free_heads := Function.update s.free_heads n b } b))
            (b + power_of_two n) (by omega)
        refine ⟨s1, h1, hm, ha, hf, hmo, hc, ?_, ?_, ?_, ?_⟩
        · intro k hk
          rw [hge k (by omega)]
          simp only [null_next_index, set_next_index]
          rw [Function.update_noteq (by omega)]
        · intro k hk
          by_cases hkn : k = n
          · subst hkn
            rw [hge k (Nat.le_refl k)]
            simp only [null_next_index, set_next_index, Function.update_same, hb, if_true]
            rw [bits_above_of_le m k (k + 1) (Nat.le_refl _)]
            rfl
          · rw [hlo k (by omega), bits_above_succ]
            have : k < n := by omega
            simp only [this, hb, and_self, if_true, power_of_two]
            split
            · omega
            · rfl
        · intro a h0
          apply hw
          simp only [null_next_index, set_next_index]
          by_cases hab : a = get_block { s with free_heads := Function.update s.free_heads n b } b
          · rw [hab, Function.update_same]
          · rw [Function.update_noteq hab]; exact h0
        · intro k hk hbk
          by_cases hkn : k = n
          · subst hkn
            apply hw
            rw [bits_above_of_le m k (k + 1) (Nat.le_refl _)]
            simp only [null_next_index, set_next_index, get_block, Nat.add_zero,
              Function.update_same]
          · have hkl : k < n := by omega
            have := hz k hkl hbk
            rw [bits_above_succ]
            simp only [hkl, hb, and_self, if_true]
            simp only [get_block, null_next_index, set_next_index, power_of_two] at this ⊢
            have e : b + (bits_above m k n + 2 ^ n) = b + 2 ^ n + bits_above m k n := by omega
            rw [e]
            exact this
      · have hne : ¬ (m &&& power_of_two n ≠ 0) := fun h => hb ((land_two_pow_ne_zero m n).1 h)
        simp only [hne, if_false]
        obtain ⟨s1, h1, hm, ha, hf, hmo, hc, hge, hlo, hw, hz⟩ :=
          ih { s with free_heads := Function.update s.free_heads n NULL_INDEX } b (by omega)
        refine ⟨s1, h1, hm, ha, hf, hmo, hc, ?_, ?_, ?_, ?_⟩
        · intro k hk
          rw [hge k (by omega)]
          simp only []
          rw [Function.update_noteq (by omega)]
        · intro k hk
          by_cases hkn : k = n
          · subst hkn
            rw [hge k (Nat.le_refl k)]
            simp only [Function.update_same, hb]
            rfl
          · have e : bits_above m k (n + 1) = bits_above m k n := by
              rw [bits_above_succ]; simp [hb]
            rw [hlo k (by omega), e]
        · intro a h0
          exact hw a h0
        · intro k hk hbk
          have hkl : k < n := by
            by_cases hkn : k = n
            · subst hkn; exact absurd hbk hb
            · omega
          have e : bits_above m k (n + 1) = bits_above m k n := by
            rw [bits_above_succ]; simp [hb]
          rw [e]
          exact hz k hkl hbk

theorem block_count_dec (N : Nat) (h2 : 2 ≤ N) (hN : N ≤ 2 ^ 25) :
    (N + WORD - 1) % WORD = N - 1 := by
  have : WORD = 4294967296 := rfl
  rw [this]
  have h25 : (2 : Nat) ^ 25 = 33554432 := by norm_num
  omega

theorem log2_lt_limit (N : Nat) (h2 : 2 ≤ N) (hN : N ≤ 2 ^ 25) :
    Nat.log2 (N - 1) < MAX_ORDER_LIMIT := by
  rw [Nat.log2_lt (by omega)]
  have h25 : (2 : Nat) ^ 25 = 33554432 := by norm_num
  have : (2 : Nat) ^ MAX_ORDER_LIMIT = 33554432 := by norm_num [MAX_ORDER_LIMIT]
  omega

/-- Unfolding of `buddy_init` for a block count in `2 .. 2 ^ 25`. -/
theorem buddy_init_eq (space : region) (N : Nat) (h2 : 2 ≤ N) (hN : N ≤ 2 ^ 25) :
    buddy_init space N
      = buddy_init_loop (N - 1) (Nat.log2 (N - 1) + 1)
          { mem_space := space.base
            alloc_block_count := N - 1
            free_block_count := N - 1
            free_heads := space.heads
            max_order := Nat.log2 (N - 1)
            ctrl_offset := size_in_L1 SIZEOF_BUDDY_STRUCT * CACHE_L1_LINE_SIZE
            words := space.words }
          FIRST_ALLOC_INDEX := by
  have h25 : (2 : Nat) ^ 25 = 33554432 := by norm_num
  have hW : WORD = 4294967296 := rfl
  have hlim := log2_lt_limit N h2 hN
  have hM : calc_max_order (N - 1) = (Nat.log2 (N - 1) : Int) :=
    calc_max_order_eq (N - 1) (by omega) (by omega)
  unfold buddy_init
  simp only [block_count_dec N h2 hN, hM]
  have e1 : (((Nat.log2 (N - 1) : Int)) % (WORD : Int)).toNat = Nat.log2 (N - 1) := by
    have : MAX_ORDER_LIMIT = 25 := rfl
    rw [hW]
    omega
  have e2 : ((Nat.log2 (N - 1) : Int) + 1).toNat = Nat.log2 (N - 1) + 1 := by omega
  rw [e1, e2]

/-- C7 (amended): for every block count `N` with `2 ≤ N ≤ 2 ^ 25`, `buddy_init`
returns a state with `alloc_block_count = free_block_count = N - 1` and
`max_order` the position of the top set bit of `N - 1`; for every order
`k ≤ max_order`, if bit `k` of `N - 1` is set the head of list `k` is
`1 + (sum of 2 ^ j over the set bits j > k of N - 1)` and the next-index word of
that run is null, and if bit `k` is clear the list is empty. -/
theorem buddy_init_layout (space : region) (N : Nat) (h2 : 2 ≤ N) (hN : N ≤ 2 ^ 25) :
    ∃ s, buddy_init space N = some s
      ∧ s.alloc_block_count = N - 1
      ∧ s.free_block_count = N - 1
      ∧ s.max_order = Nat.log2 (N - 1)
      ∧ ∀ k, k ≤ s.max_order →
          ((N - 1).testBit k = true →
              s.free_heads k = 1 + bits_above (N - 1) k (s.max_order + 1)
              ∧ get_next_index s (get_block s (s.free_heads k)) = NULL_INDEX)
          ∧ ((N - 1).testBit k = false → s.free_heads k = NULL_INDEX) := by
  rw [buddy_init_eq space N h2 hN]
  obtain ⟨s, hs, hm, ha, hf, hmo, _, _, hlo, _, hz⟩ :=
    buddy_init_loop_spec (N - 1) (Nat.log2 (N - 1) + 1)
      { mem_space := space.base
        alloc_block_count := N - 1
        free_block_count := N - 1
        free_heads := space.heads
        max_order := Nat.log2 (N - 1)
        ctrl_offset := size_in_L1 SIZEOF_BUDDY_STRUCT * CACHE_L1_LINE_SIZE
        words := space.words }
      FIRST_ALLOC_INDEX (log2_lt_limit N h2 hN)
  refine ⟨s, hs, ha, hf, hmo, ?_⟩
  intro k hk
  rw [hmo] at hk ⊢
  simp only at hk
  have hk1 : k < Nat.log2 (N - 1) + 1 := by omega
  constructor
  · intro hb
    have hh := hlo k hk1
    rw [if_pos hb] at hh
    refine ⟨hh, ?_⟩
    have hw := hz k hk1 hb
    rw [hh]
    simp only [get_next_index, get_block, hm]
    simp only [get_block] at hw
    exact hw
  · intro hb
    have hh := hlo k hk1
    rw [if_neg (by simp [hb])] at hh
    exact hh

/-- Witness of C7 (amended) on a zeroed region of 64 blocks. -/
theorem buddy_init_layout_witness :
    2 ≤ 64 ∧ 64 ≤ 2 ^ 25 ∧
    ∃ s, buddy_init zero_region 64 = some s
      ∧ s.alloc_block_count = 64 - 1
      ∧ s.free_block_count = 64 - 1
      ∧ s.max_order = Nat.log2 (64 - 1)
      ∧ ∀ k, k ≤ s.max_order →
          ((64 - 1).testBit k = true →
              s.free_heads k = 1 + bits_above (64 - 1) k (s.max_order + 1)
              ∧ get_next_index s (get_block s (s.free_heads k)) = NULL_INDEX)
          ∧ ((64 - 1).testBit k = false → s.free_heads k = NULL_INDEX) :=
  ⟨by decide, by decide, buddy_init_layout zero_region 64 (by decide) (by decide)⟩

/-- C7: with `2 ^ 25 + 1` blocks the top set bit of `N - 1` is bit 25 and the
first write of the loop is to `free_heads[25]`, outside the array. -/
theorem buddy_init_beyond_limit :
    calc_max_order (2 ^ 25 + 1 - 1) = 25 ∧ buddy_init zero_region (2 ^ 25 + 1) = none :=
  ⟨rfl, rfl⟩

/-- The state `buddy_init` leaves for a block count in `2 .. 2 ^ 25`, with every
field. -/
theorem buddy_init_state (space : region) (N : Nat) (h2 : 2 ≤ N) (hN : N ≤ 2 ^ 25) :
    ∃ s, buddy_init space N = some s
      ∧ s.mem_space = space.base
      ∧ s.alloc_block_count = N - 1
      ∧ s.free_block_count = N - 1
      ∧ s.max_order = Nat.log2 (N - 1)
      ∧ (∀ k, k ≤ Nat.log2 (N - 1) → s.free_heads k
            = if (N - 1).testBit k = true
              then 1 + bits_above (N - 1) k (Nat.log2 (N - 1) + 1) else NULL_INDEX)
      ∧ (∀ k, k ≤ Nat.log2 (N - 1) → (N - 1).testBit k = true →
            s.words (get_block s (1 + bits_above (N - 1) k (Nat.log2 (N - 1) + 1)))
              = NULL_INDEX) := by
  rw [buddy_init_eq space N h2 hN]
  obtain ⟨s, hs, hm, ha, hf, hmo, _, _, hlo, _, hz⟩ :=
    buddy_init_loop_spec (N - 1) (Nat.log2 (N - 1) + 1)
      { mem_space := space.base
        alloc_block_count := N - 1
        free_block_count := N - 1
        free_heads := space.heads
        max_order := Nat.log2 (N - 1)
        ctrl_offset := size_in_L1 SIZEOF_BUDDY_STRUCT * CACHE_L1_LINE_SIZE
        words := space.words }
      FIRST_ALLOC_INDEX (log2_lt_limit N h2 hN)
  refine ⟨s, hs, hm, ha, hf, hmo, ?_, ?_⟩
  · intro k hk
    exact hlo k (by omega)
  · intro k hk hb
    have := hz k (by omega) hb
    simp only [get_block, hm] at this ⊢
    exact this

/-! ## The success path of `buddy_alloc` -/

theorem scan_heads_finds (heads : Nat → Nat) : ∀ (d fuel order : Nat),
    d < fuel → order + d < MAX_ORDER_LIMIT →
    (∀ j, order ≤ j → j < order + d → heads j = NULL_INDEX) →
    heads (order + d) ≠ NULL_INDEX →
    scan_heads heads fuel order = some (order + d) := by
  intro d
  induction d with
  | zero =>
      intro fuel order hf hlim _ hne
      obtain ⟨f, rfl⟩ : ∃ f, fuel = f + 1 := ⟨fuel - 1, by omega⟩
      unfold scan_heads
      have hl : order < MAX_ORDER_LIMIT := by omega
      simp only [Nat.add_zero] at hne ⊢
      simp only [hl, if_true, hne, if_false]
  | succ d ih =>
      intro fuel order hf hlim hz hne
      obtain ⟨f, rfl⟩ : ∃ f, fuel = f + 1 := ⟨fuel - 1, by omega⟩
      unfold scan_heads
      have hl : order < MAX_ORDER_LIMIT := by omega
      have h0 : heads order = NULL_INDEX := hz order (Nat.le_refl _) (by omega)
      simp only [hl, if_true, h0]
      have e : order + (d + 1) = order + 1 + d := by omega
      rw [e] at hlim hne ⊢
      exact ih f (order + 1) (by omega) hlim (fun j h1 h2 => hz j (by omega) (by omega)) hne

/-- Removing the head of a list: `remove` returns it at once, makes its
successor the head and nulls its next-index word. -/
theorem remove_head (s : buddy_state) (order i : Nat)
    (hlim : order < MAX_ORDER_LIMIT) (hord : order ≤ s.max_order)
    (hi : s.free_heads order = i) (h0 : i ≠ NULL_INDEX) (hM : i ≤ s.alloc_block_count) :
    remove s i order
      = some (i, null_next_index
          { s with free_heads :=
              Function.update s.free_heads order (get_next_index s (get_block s i)) }
          (get_block s i)) := by
  unfold remove
  have hg : ¬ (i = NULL_INDEX ∨ i > s.alloc_block_count ∨ order > s.max_order
      ∨ i = NULL_INDEX) := by
    omega
  simp only [hlim, if_true, hi, hg, if_false]
  simp only [remove_walk, ne_eq, not_true_eq_false, if_false]
  rfl

/-- Splitting loop: it ends, writes `temp_index + 2 ^ j` into `free_heads[j]`
for the `d` orders `j` from `order` on, and leaves the other heads and the
counters alone. -/
theorem split_loop_spec (i order : Nat) : ∀ (d : Nat) (s : buddy_state),
    order + d ≤ MAX_ORDER_LIMIT →
    ∃ s1, split_loop i order d s = some s1
      ∧ s1.mem_space = s.mem_space
      ∧ s1.alloc_block_count = s.alloc_block_count
      ∧ s1.free_block_count = s.free_block_count
      ∧ s1.max_order = s.max_order
      ∧ s1.ctrl_offset = s.ctrl_offset
      ∧ (∀ j, order ≤ j → j < order + d → s1.free_heads j = i + 2 ^ j)
      ∧ (∀ j, ¬ (order ≤ j ∧ j < order + d) → s1.free_heads j = s.free_heads j) := by
  intro d
  induction d with
  | zero =>
      intro s _
      exact ⟨s, rfl, rfl, rfl, rfl, rfl, rfl, fun j h1 h2 => absurd h2 (by omega),
        fun _ _ => rfl⟩
  | succ d ih =>
      intro s hlim
      have hl : order + d < MAX_ORDER_LIMIT := by omega
      unfold split_loop
      simp only [put_first, hl, if_true, Option.some_bind]
      obtain ⟨s1, h1, hm, ha, hf, hmo, hc, hin, hout⟩ :=
        ih { set_next_index s (get_block s (i + power_of_two (order + d))) (s.free_heads (order + d)) with
              free_heads := Function.update
                (set_next_index s (get_block s (i + power_of_two (order + d)))
                  (s.free_heads (order + d))).free_heads (order + d) (i + power_of_two (order + d)) }
          (by omega)
      refine ⟨s1, h1, hm, ha, hf, hmo, hc, ?_, ?_⟩
      · intro j h1 h2
        by_cases hj : j = order + d
        · subst hj
          rw [hout _ (by omega)]
          simp only [set_next_index, Function.update_same, power_of_two]
        · exact hin j h1 (by omega)
      · intro j hj
        rw [hout j (by omega)]
        simp only [set_next_index]
        rw [Function.update_noteq (by omega)]

/-- Splitting loop, memory: the next-index word of each run it pushes receives
the former head of its list, and no other word changes. -/
theorem split_loop_words (i order : Nat) : ∀ (d : Nat) (s : buddy_state),
    order + d ≤ MAX_ORDER_LIMIT → i + 2 ^ (order + d) ≤ 2 ^ 20 →
    ∃ s1, split_loop i order d s = some s1
      ∧ (∀ j, order ≤ j → j < order + d →
          s1.words (get_block s (i + 2 ^ j)) = s.free_heads j)
      ∧ (∀ a, (∀ j, order ≤ j → j < order + d → a ≠ get_block s (i + 2 ^ j)) →
          s1.words a = s.words a) := by
  intro d
  induction d with
  | zero =>
      intro s _ _
      exact ⟨s, rfl, fun j h1 h2 => absurd h2 (by omega), fun _ _ => rfl⟩
  | succ d ih =>
      intro s hlim h20
      have hl : order + d < MAX_ORDER_LIMIT := by omega
      have hpow : (2 : Nat) ^ (order + d) < 2 ^ (order + (d + 1)) :=
        Nat.pow_lt_pow_right (by decide) (by omega)
      unfold split_loop
      simp only [put_first, hl, if_true, Option.some_bind]
      obtain ⟨s1, h1, hin, hout⟩ :=
        ih { set_next_index s (get_block s (i + power_of_two (order + d))) (s.free_heads (order + d)) with
              free_heads := Function.update
                (set_next_index s (get_block s (i + power_of_two (order + d)))
                  (s.free_heads (order + d))).free_heads (order + d) (i + power_of_two (order + d)) }
          (by omega) (by omega)
      refine ⟨s1, h1, ?_, ?_⟩
      · intro j h1 h2
        by_cases hj : j = order + d
        · subst hj
          rw [hout]
          · simp only [set_next_index, power_of_two, Function.update_same]
          · intro j2 h3 h4 heq
            have hlt2 : (2 : Nat) ^ j2 < 2 ^ (order + d) :=
              Nat.pow_lt_pow_right (by decide) h4
            have := get_block_inj s _ _ (by omega) (by omega) heq
            omega
        · have := hin j h1 (by omega)
          simp only [get_block, set_next_index] at this ⊢
          rw [this, Function.update_noteq hj]
      · intro a ha
        rw [hout a (fun j h1 h2 => ha j h1 (by omega))]
        simp only [set_next_index, power_of_two]
        rw [Function.update_noteq (ha (order + d) (by omega) (by omega))]

/-- The whole effect of a successful `buddy_alloc` in a region of at most
`2 ^ 20` blocks. -/
theorem buddy_alloc_full (s : buddy_state) (order k1 i : Nat)
    (hcount : s.free_block_count ≥ 2 ^ order) (hord : order ≤ k1)
    (hk : k1 ≤ s.max_order) (hmax : s.max_order < MAX_ORDER_LIMIT)
    (hempty : ∀ j, order ≤ j → j < k1 → s.free_heads j = NULL_INDEX)
    (hi : s.free_heads k1 = i) (h0 : i ≠ NULL_INDEX) (hM : i ≤ s.alloc_block_count)
    (h20 : i + 2 ^ k1 ≤ 2 ^ 20) :
    ∃ s1, buddy_alloc s order = some (⟨get_block s i, order⟩, s1)
      ∧ s1.mem_space = s.mem_space
      ∧ s1.alloc_block_count = s.alloc_block_count
      ∧ s1.max_order = s.max_order
      ∧ s1.ctrl_offset = s.ctrl_offset
      ∧ s1.free_block_count + 2 ^ order = s.free_block_count
      ∧ s1.free_heads k1 = get_next_index s (get_block s i)
      ∧ (∀ j, order ≤ j → j < k1 → s1.free_heads j = i + 2 ^ j)
      ∧ (∀ j, ¬ (order ≤ j ∧ j ≤ k1) → s1.free_heads j = s.free_heads j)
      ∧ s1.words (get_block s i) = NULL_INDEX
      ∧ (∀ j, order ≤ j → j < k1 → s1.words (get_block s (i + 2 ^ j)) = NULL_INDEX)
      ∧ (∀ a, a ≠ get_block s i →
          (∀ j, order ≤ j → j < k1 → a ≠ get_block s (i + 2 ^ j)) →
          s1.words a = s.words a) := by
  have hguard : s.free_block_count ≥ power_of_two order ∧ order ≤ s.max_order :=
    ⟨hcount, by omega⟩
  have hl : order < MAX_ORDER_LIMIT := by omega
  have hkl : k1 < MAX_ORDER_LIMIT := by omega
  have hc : 2 ^ order ≤ s.free_block_count := hcount
  obtain ⟨d, rfl⟩ : ∃ d, k1 = order + d := ⟨k1 - order, by omega⟩
  have hrem := remove_head s (order + d) i hkl hk hi h0 hM
  obtain ⟨s2, h2, hm, ha, hf, hmo, hct, hin, hout⟩ :=
    split_loop_spec i order d
      (null_next_index
        { s with free_heads :=
            Function.update s.free_heads (order + d) (get_next_index s (get_block s i)) }
        (get_block s i)) (by omega)
  obtain ⟨s3, h3, hwin, hwout⟩ :=
    split_loop_words i order d
      (null_next_index
        { s with free_heads :=
            Function.update s.free_heads (order + d) (get_next_index s (get_block s i)) }
        (get_block s i)) (by omega) h20
  rw [h2] at h3
  have e32 : s3 = s2 := (Option.some.inj h3).symm
  subst e32
  have halloc : buddy_alloc s order
      = some (⟨get_block s i, order⟩,
          { s3 with free_block_count := s3.free_block_count - power_of_two order }) := by
    unfold buddy_alloc
    simp only [hguard, and_self, if_true, hl]
    by_cases hd : d = 0
    · subst hd
      simp only [Nat.add_zero] at hi hrem h2 ⊢
      simp only [hi, ne_eq, h0, not_false_eq_true, if_true]
      rw [hrem]
      simp only [Option.some_bind]
      simp only [split_loop] at h2
      have := Option.some.inj h2
      subst this
      rfl
    · have hz : s.free_heads order = NULL_INDEX := hempty order (Nat.le_refl _) (by omega)
      have hne : ¬ (s.free_heads order ≠ NULL_INDEX) := by simp [hz]
      simp only [hne, if_false]
      have hscan : scan_heads s.free_heads (MAX_ORDER_LIMIT + 1) order = some (order + d) :=
        scan_heads_finds s.free_heads d (MAX_ORDER_LIMIT + 1) order (by omega) hkl hempty
          (by rw [hi]; exact h0)
      rw [hscan]
      simp only [Option.some_bind, hi]
      rw [hrem]
      simp only [Option.some_bind, Nat.add_sub_cancel_left]
      rw [h2]
      simp only [Option.some_bind]
      simp only [get_block, hm, null_next_index, set_next_index]
  refine ⟨_, halloc, ?_, ?_, ?_, ?_, ?_, ?_, ?_, ?_, ?_, ?_, ?_⟩
  · exact hm
  · exact ha
  · exact hmo
  · exact hct
  · simp only [hf, null_next_index, set_next_index, power_of_two]
    omega
  · simp only []
    rw [hout (order + d) (by omega)]
    simp only [null_next_index, set_next_index, Function.update_same]
  · intro j h1 h2
    exact hin j h1 h2
  · intro j hj
    simp only []
    rw [hout j (by omega)]
    simp only [null_next_index, set_next_index]
    rw [Function.update_noteq (by omega)]
  · simp only []
    have hfr := hwout (get_block s i) (by
      intro j h1 h2 heq
      have hlt2 : (2 : Nat) ^ j < 2 ^ (order + d) := Nat.pow_lt_pow_right (by decide) h2
      have hp : 0 < 2 ^ j := Nat.pow_pos (by decide)
      have e : get_block s i = get_block s (i + 2 ^ j) := by
        simpa only [get_block, null_next_index, set_next_index] using heq
      have := get_block_inj s _ _ (by omega) (by omega) e
      omega)
    rw [hfr]
    simp only [null_next_index, set_next_index, Function.update_same]
  · intro j h1 h2
    simp only []
    have := hwin j h1 h2
    simp only [get_block, null_next_index, set_next_index] at this ⊢
    rw [this, Function.update_noteq (by omega)]
    exact hempty j h1 h2
  · intro a ha1 ha2
    simp only []
    rw [hwout a (fun j h1 h2 => by
      simpa only [get_block, null_next_index, set_next_index] using ha2 j h1 h2)]
    simp only [null_next_index, set_next_index]
    rw [Function.update_noteq ha1]

/-- Coalescing in `buddy_free` when the upper halves of a split run sit alone on
their lists: every one is taken back, the heads of their lists become null and
the loop ends at the order of the split run with no word of memory changed. -/
theorem buddy_free_rejoins (i k1 : Nat) (hi : i % 2 ^ (k1 + 1) = 1)
    (h20 : i + 2 ^ k1 ≤ 2 ^ 20) : ∀ (d fuel j : Nat) (t : buddy_state),
    j + d = k1 → d < fuel → k1 ≤ t.max_order → t.max_order < MAX_ORDER_LIMIT →
    i + 2 ^ k1 ≤ t.alloc_block_count + 1 →
    (∀ j1, j ≤ j1 → j1 < k1 →
      t.free_heads j1 = i + 2 ^ j1 ∧ t.words (get_block t (i + 2 ^ j1)) = NULL_INDEX) →
    t.free_heads k1 = NULL_INDEX →
    ∃ t1, (remove t (calc_buddy_index i j) j).bind
          (fun r => buddy_free_loop fuel r.2 i j r.1) = some (t1, i, k1)
      ∧ t1.mem_space = t.mem_space
      ∧ t1.alloc_block_count = t.alloc_block_count
      ∧ t1.free_block_count = t.free_block_count
      ∧ t1.max_order = t.max_order
      ∧ t1.ctrl_offset = t.ctrl_offset
      ∧ (∀ j1, j ≤ j1 → j1 < k1 → t1.free_heads j1 = NULL_INDEX)
      ∧ (∀ j1, ¬ (j ≤ j1 ∧ j1 < k1) → t1.free_heads j1 = t.free_heads j1)
      ∧ (∀ a, t1.words a = t.words a) := by
  have hW : WORD = 4294967296 := rfl
  have hpw : (2 : Nat) ^ 20 = 1048576 := by norm_num
  intro d
  induction d with
  | zero =>
      intro fuel j t hjd hf hk hmax _ _ hz
      simp only [Nat.add_zero] at hjd
      subst hjd
      have hb : calc_buddy_index i j = i + 2 ^ j :=
        calc_buddy_index_left i j j (Nat.le_refl _) hi (by omega)
      obtain ⟨f, rfl⟩ : ∃ f, fuel = f + 1 := ⟨fuel - 1, by omega⟩
      have hl : j < MAX_ORDER_LIMIT := by omega
      refine ⟨t, ?_, rfl, rfl, rfl, rfl, rfl, fun j1 h1 h2 => absurd h2 (by omega),
        fun _ _ => rfl, fun _ => rfl⟩
      rw [hb]
      unfold remove
      simp only [hl, if_true, hz, or_true, Option.some_bind]
      simp only [buddy_free_loop, ne_eq, not_true_eq_false, if_false]
  | succ d ih =>
      intro fuel j t hjd hf hk hmax hrange hrun hz
      have hjk : j < k1 := by omega
      have hb : calc_buddy_index i j = i + 2 ^ j :=
        calc_buddy_index_left i j k1 (by omega) hi (by
          have : (2 : Nat) ^ j < 2 ^ k1 := Nat.pow_lt_pow_right (by decide) hjk
          omega)
      have hpj : (2 : Nat) ^ j < 2 ^ k1 := Nat.pow_lt_pow_right (by decide) hjk
      have hp0 : 0 < 2 ^ j := Nat.pow_pos (by decide)
      obtain ⟨f, rfl⟩ : ∃ f, fuel = f + 1 := ⟨fuel - 1, by omega⟩
      obtain ⟨hhead, hword⟩ := hrun j (Nat.le_refl _) hjk
      have hrem := remove_head t j (i + 2 ^ j) (by omega) (by omega) hhead
        (by unfold NULL_INDEX; omega) (by omega)
      rw [hb, hrem]
      simp only [Option.some_bind]
      have hne : i + 2 ^ j ≠ NULL_INDEX := by unfold NULL_INDEX; omega
      have hnlt : ¬ (i + 2 ^ j < i) := by omega
      unfold buddy_free_loop
      simp only [hne, ne_eq, not_false_eq_true, if_true, hnlt, if_false]
      have hwords : ∀ a, (null_next_index
          { t with free_heads :=
              Function.update t.free_heads j (get_next_index t (get_block t (i + 2 ^ j))) }
          (get_block t (i + 2 ^ j))).words a = t.words a := by
        intro a
        simp only [null_next_index, set_next_index, get_block]
        by_cases ha : a = t.mem_space + BLOCK_SIZE * (i + 2 ^ j) % WORD
        · rw [ha, Function.update_same]
          simp only [get_block] at hword
          exact hword.symm
        · rw [Function.update_noteq ha]
      obtain ⟨t1, h1, hm, ha, hfc, hmo, hc, hin, hout, hw⟩ :=
        ih f (j + 1)
          (null_next_index
            { t with free_heads :=
                Function.update t.free_heads j (get_next_index t (get_block t (i + 2 ^ j))) }
            (get_block t (i + 2 ^ j)))
          (by omega) (by omega) hk hmax hrange
          (by
            intro j1 h1 h2
            obtain ⟨hh, hwd⟩ := hrun j1 (by omega) h2
            constructor
            · simp only [null_next_index, set_next_index]
              rw [Function.update_noteq (by omega)]
              exact hh
            · rw [hwords]
              simpa only [get_block] using hwd)
          (by
            simp only [null_next_index, set_next_index]
            rw [Function.update_noteq (by omega)]
            exact hz)
      refine ⟨t1, h1, hm, ha, hfc, hmo, hc, ?_, ?_, ?_⟩
      · intro j1 h1 h2
        by_cases hj1 : j1 = j
        · subst hj1
          rw [hout j1 (by omega)]
          simp only [null_next_index, set_next_index, Function.update_same, get_next_index]
          exact hword
        · exact hin j1 (by omega) h2
      · intro j1 hj1
        rw [hout j1 (by omega)]
        simp only [null_next_index, set_next_index]
        rw [Function.update_noteq (by omega)]
      · intro a
        rw [hw a, hwords a]

/-- Allocation of order `k` served by the single run of list `k1`, followed by
the free of the returned hook, in a region of at most `2 ^ 20` blocks: both
calls return, the free returns 0, and the free count, every entry of
`free_heads` and every word of memory outside the upper halves pushed by the
split are as before. -/
theorem alloc_free_restores (s : buddy_state) (k k1 i : Nat)
    (hcount : s.free_block_count ≥ 2 ^ k) (hk : k ≤ k1) (hk1 : k1 ≤ s.max_order)
    (hmax : s.max_order < MAX_ORDER_LIMIT)
    (hempty : ∀ j, k ≤ j → j < k1 → s.free_heads j = NULL_INDEX)
    (hhead : s.free_heads k1 = i)
    (hnext : get_next_index s (get_block s i) = NULL_INDEX)
    (hi : i % 2 ^ (k1 + 1) = 1) (hrange : i + 2 ^ k1 ≤ s.alloc_block_count + 1)
    (hM : s.alloc_block_count < 2 ^ 20) (hfw : s.free_block_count < WORD) :
    ∃ s1 s2, buddy_alloc s k = some (⟨get_block s i, k⟩, s1)
      ∧ s1.free_block_count + 2 ^ k = s.free_block_count
      ∧ buddy_free s1 ⟨get_block s i, k⟩ = some (0, s2)
      ∧ s2.mem_space = s.mem_space
      ∧ s2.alloc_block_count = s.alloc_block_count
      ∧ s2.max_order = s.max_order
      ∧ s2.ctrl_offset = s.ctrl_offset
      ∧ s2.free_block_count = s.free_block_count
      ∧ (∀ j, s2.free_heads j = s.free_heads j)
      ∧ (∀ a, (∀ j, k ≤ j → j < k1 → a ≠ get_block s (i + 2 ^ j)) →
          s2.words a = s.words a) := by
  have hpw : (2 : Nat) ^ 20 = 1048576 := by norm_num
  have hp1 : 0 < 2 ^ k1 := Nat.pow_pos (by decide)
  have hi1 : 1 ≤ i := by
    by_contra h
    have : i = 0 := by omega
    rw [this, Nat.zero_mod] at hi
    exact absurd hi (by decide)
  have h0 : i ≠ NULL_INDEX := by unfold NULL_INDEX; omega
  have hiM : i ≤ s.alloc_block_count := by omega
  have h20 : i + 2 ^ k1 ≤ 2 ^ 20 := by omega
  obtain ⟨s1, halloc, hm, ha, hmo, hc, hfc, hh1, hin, hout, hw0, hwin, hwout⟩ :=
    buddy_alloc_full s k k1 i hcount hk hk1 hmax hempty hhead h0 hiM h20
  have hgb : ∀ x, get_block s1 x = get_block s x := by
    intro x
    simp only [get_block, hm]
  have hidx : get_index s1 (get_block s i) = i := by
    rw [← hgb i]
    exact get_index_get_block s1 i (by omega)
  obtain ⟨d, hd⟩ : ∃ d, k + d = k1 := ⟨k1 - k, by omega⟩
  obtain ⟨t1, hloop, tm, ta, tfc, tmo, tc, tin, tout, tw⟩ :=
    buddy_free_rejoins i k1 hi h20 d (MAX_ORDER_LIMIT + 1) k s1 hd
      (by have : MAX_ORDER_LIMIT = 25 := rfl
          omega)
      (by omega) (by omega) (by omega)
      (by
        intro j1 h1 h2
        refine ⟨hin j1 h1 h2, ?_⟩
        rw [hgb]
        exact hwin j1 h1 h2)
      (by rw [hh1]; exact hnext)
  have hfree : buddy_free s1 ⟨get_block s i, k⟩
      = some (0, { set_next_index t1 (get_block t1 i) (t1.free_heads k1) with
          free_heads := Function.update t1.free_heads k1 i
          free_block_count := (t1.free_block_count + power_of_two k) % WORD }) := by
    unfold buddy_free
    have hg : i > NULL_INDEX ∧ i ≤ s1.alloc_block_count := by
      rw [ha]
      exact ⟨by unfold NULL_INDEX; omega, hiM⟩
    simp only [hidx, hg, and_self, if_true]
    cases hr : remove s1 (calc_buddy_index i k) k with
    | none =>
        rw [hr] at hloop
        exact absurd hloop (by simp)
    | some r =>
        rw [hr] at hloop
        simp only [Option.some_bind] at hloop ⊢
        rw [hloop]
        have hl : k1 < MAX_ORDER_LIMIT := by omega
        simp only [Option.some_bind, put_first, hl, if_true]
        rfl
  refine ⟨s1, _, halloc, hfc, hfree, ?_, ?_, ?_, ?_, ?_, ?_, ?_⟩
  · simp only [set_next_index, tm, hm]
  · simp only [set_next_index, ta, ha]
  · simp only [set_next_index, tmo, hmo]
  · simp only [set_next_index, tc, hc]
  · simp only [tfc, power_of_two]
    rw [hfc]
    exact Nat.mod_eq_of_lt hfw
  · intro j
    simp only []
    by_cases hj : j = k1
    · subst hj
      rw [Function.update_same, hhead]
    · rw [Function.update_noteq hj]
      by_cases hjr : k ≤ j ∧ j < k1
      · rw [tin j hjr.1 hjr.2, hempty j hjr.1 hjr.2]
      · rw [tout j hjr, hout j (by omega)]
  · intro a ha2
    simp only [set_next_index]
    have hk1h : t1.free_heads k1 = NULL_INDEX := by
      rw [tout k1 (by omega), hh1]
      exact hnext
    by_cases hai : a = get_block t1 i
    · rw [hai, Function.update_same, hk1h]
      have : get_block t1 i = get_block s i := by simp only [get_block, tm, hm]
      rw [this]
      exact hnext.symm
    · rw [Function.update_noteq hai, tw a]
      apply hwout a
      · intro h
        apply hai
        rw [h]
        simp only [get_block, tm, hm]
      · exact ha2

/-- C5 (amended): for every block count `N` with `2 ≤ N ≤ 2 ^ 20` and every
order `k ≤ max_order`, from the state `buddy_init` leaves, `h = buddy_alloc(k)`
returns a hook with a non-null address and order `k` and lowers the free count
by `2 ^ k`, and `buddy_free(&h)` returns 0 and restores the post-init snapshot:
the same free count, the same entry in every slot of `free_heads`, and the same
next-index word in every free run. -/
theorem buddy_alloc_free_round_trip (space : region) (N k : Nat)
    (h2 : 2 ≤ N) (hN : N ≤ 2 ^ 20) (hk : k ≤ Nat.log2 (N - 1)) :
    ∃ s0 h s1 s2, buddy_init space N = some s0
      ∧ s0.max_order = Nat.log2 (N - 1)
      ∧ buddy_alloc s0 k = some (h, s1)
      ∧ h.addr ≠ NULL ∧ h.order = k
      ∧ s1.free_block_count + 2 ^ k = s0.free_block_count
      ∧ buddy_free s1 h = some (0, s2)
      ∧ s2.free_block_count = s0.free_block_count
      ∧ (∀ j, s2.free_heads j = s0.free_heads j)
      ∧ (∀ j, j ≤ s0.max_order → s0.free_heads j ≠ NULL_INDEX →
          get_next_index s2 (get_block s2 (s0.free_heads j))
            = get_next_index s0 (get_block s0 (s0.free_heads j))) := by
  have hp20 : (2 : Nat) ^ 20 = 1048576 := by norm_num
  have hp25 : (2 : Nat) ^ 25 = 33554432 := by norm_num
  have hN25 : N ≤ 2 ^ 25 := by omega
  have hM0 : N - 1 ≠ 0 := by omega
  obtain ⟨s0, hinit, hm, ha, hf, hmo, hheads, hwords⟩ := buddy_init_state space N h2 hN25
  have hlim := log2_lt_limit N h2 hN25
  have hlo := Nat.log2_self_le hM0
  have hhi := @Nat.lt_log2_self (N - 1)
  have hmod : (N - 1) % 2 ^ (Nat.log2 (N - 1) + 1) = N - 1 := Nat.mod_eq_of_lt hhi
  obtain ⟨k1, hkk1, hk1L, hb1, hclear⟩ :=
    exists_first_set_bit (N - 1) k (Nat.log2 (N - 1)) hk (testBit_log2 (N - 1) hM0)
  have hhead : s0.free_heads k1 = 1 + bits_above (N - 1) k1 (Nat.log2 (N - 1) + 1) := by
    rw [hheads k1 hk1L, if_pos hb1]
  have hsum := bits_above_add_le_mod (N - 1) k1 hb1 (Nat.log2 (N - 1) + 1) (by omega)
  rw [hmod] at hsum
  have hpk : (2 : Nat) ^ k ≤ 2 ^ Nat.log2 (N - 1) := Nat.pow_le_pow_right (by decide) hk
  have hcong : (1 + bits_above (N - 1) k1 (Nat.log2 (N - 1) + 1)) % 2 ^ (k1 + 1) = 1 := by
    obtain ⟨q, hq⟩ := bits_above_dvd (N - 1) k1 (Nat.log2 (N - 1) + 1)
    rw [hq, Nat.add_mul_mod_self_left]
    apply Nat.mod_eq_of_lt
    calc 1 < 2 ^ 1 := by decide
      _ ≤ 2 ^ (k1 + 1) := Nat.pow_le_pow_right (by decide) (by omega)
  obtain ⟨s1, s2, halloc, hcnt, hfree, sm, _, _, _, sfc, sheads, swords⟩ :=
    alloc_free_restores s0 k k1 (1 + bits_above (N - 1) k1 (Nat.log2 (N - 1) + 1))
      (by rw [hf]; omega) hkk1 (by omega) (by omega)
      (by
        intro j h1 h2
        rw [hheads j (by omega)]
        have := hclear j h1 h2
        simp [this])
      hhead
      (hwords k1 hk1L hb1)
      hcong (by omega) (by omega)
      (by
        have hW : WORD = 4294967296 := rfl
        rw [hf, hW]
        omega)
  refine ⟨s0, _, s1, s2, hinit, hmo, halloc, ?_, rfl, hcnt, hfree, sfc, sheads, ?_⟩
  · simp only [get_block, NULL]
    have hW : WORD = 4294967296 := rfl
    have hB : BLOCK_SIZE = 4096 := rfl
    rw [hW, hB]
    omega
  · intro j hj hne
    rw [hmo] at hj
    have hbj : (N - 1).testBit j = true := by
      by_contra hc
      apply hne
      rw [hheads j hj, if_neg hc]
    have hxj : s0.free_heads j = 1 + bits_above (N - 1) j (Nat.log2 (N - 1) + 1) := by
      rw [hheads j hj, if_pos hbj]
    have hsumj := bits_above_add_le_mod (N - 1) j hbj (Nat.log2 (N - 1) + 1) (by omega)
    rw [hmod] at hsumj
    have hpj : 0 < 2 ^ j := Nat.pow_pos (by decide)
    have hgb : get_block s2 (s0.free_heads j) = get_block s0 (s0.free_heads j) := by
      simp only [get_block, sm]
    rw [hgb]
    simp only [get_next_index]
    apply swords
    intro j1 h1 h2 heq
    have hp1 : (2 : Nat) ^ j1 < 2 ^ k1 := Nat.pow_lt_pow_right (by decide) h2
    have hp0 : 0 < 2 ^ j1 := Nat.pow_pos (by decide)
    rw [hxj] at heq
    have hidx := get_block_inj s0 _ _ (by omega) (by omega) heq
    rcases Nat.lt_trichotomy j k1 with hlt | heq1 | hgt
    · have := bits_above_step (N - 1) j k1 hlt hb1 (Nat.log2 (N - 1) + 1) (by omega)
      omega
    · subst heq1
      omega
    · have := bits_above_step (N - 1) k1 j hgt hbj (Nat.log2 (N - 1) + 1) (by omega)
      omega

/-- Witness of C5 (amended): 64 blocks and order 3. -/
theorem buddy_alloc_free_round_trip_witness :
    2 ≤ 64 ∧ 64 ≤ 2 ^ 20 ∧ 3 ≤ Nat.log2 (64 - 1) ∧
    ∃ s0 h s1 s2, buddy_init zero_region 64 = some s0
      ∧ s0.max_order = Nat.log2 (64 - 1)
      ∧ buddy_alloc s0 3 = some (h, s1)
      ∧ h.addr ≠ NULL ∧ h.order = 3
      ∧ s1.free_block_count + 2 ^ 3 = s0.free_block_count
      ∧ buddy_free s1 h = some (0, s2)
      ∧ s2.free_block_count = s0.free_block_count
      ∧ (∀ j, s2.free_heads j = s0.free_heads j)
      ∧ (∀ j, j ≤ s0.max_order → s0.free_heads j ≠ NULL_INDEX →
          get_next_index s2 (get_block s2 (s0.free_heads j))
            = get_next_index s0 (get_block s0 (s0.free_heads j))) :=
  ⟨by decide, by decide, (Nat.le_log2 (by decide)).2 (by decide),
    buddy_alloc_free_round_trip zero_region 64 3 (by decide) (by decide)
      ((Nat.le_log2 (by decide)).2 (by decide))⟩

/-- C5: with `2 ^ 25 + 1` blocks `buddy_init` writes `free_heads[25]`, outside
the array, and there is no post-init state to allocate from.  With
`2 ^ 20 + 2` blocks the order-0 run is block `2 ^ 20 + 1`, whose pointer
`get_block` computes with a 32-bit product as that of block 1: the free of the
hook returns 0 and leaves index 1, not `2 ^ 20 + 1`, at the head of the order-0
list. -/
theorem round_trip_beyond_limit :
    (buddy_init zero_region (2 ^ 25 + 1)).isNone = true
    ∧ (wrapped_round_trip zero_region).map (fun t =>
          (t.1, t.2.1, t.2.2.1.max_order, t.2.2.1.free_heads 0, t.2.2.2.free_heads 0))
        = some (⟨zero_region.base + BLOCK_SIZE, 0⟩, 0, 20, 2 ^ 20 + 1, 1) :=
  ⟨rfl, rfl⟩

/-! ## The failure path of `buddy_alloc` -/

/-- C2: when `2 ^ order > free_block_count` or `order > max_order`, `buddy_alloc`
returns the hook with a null address and the requested order, and the state it
leaves is the state it was called in: the free count, every head of
`free_heads` and every word of memory are unchanged. -/
theorem buddy_alloc_null (s : buddy_state) (order : Nat)
    (h : 2 ^ order > s.free_block_count ∨ order > s.max_order) :
    buddy_alloc s order = some (⟨NULL, order⟩, s) := by
  unfold buddy_alloc
  have hguard : ¬ (s.free_block_count ≥ power_of_two order ∧ order ≤ s.max_order) := by
    unfold power_of_two
    omega
  simp only [hguard, if_false]

/-- Witness of C2: with three free blocks an order-2 request is refused. -/
theorem buddy_alloc_null_witness :
    (2 ^ 2 > four_blocks.free_block_count ∨ 2 > four_blocks.max_order) ∧
      buddy_alloc four_blocks 2 = some (⟨NULL, 2⟩, four_blocks) :=
  ⟨by decide, buddy_alloc_null four_blocks 2 (by decide)⟩

/-! ## `remove` on well-formed lists -/

theorem linked_congr (s t : buddy_state) (hm : t.mem_space = s.mem_space) :
    ∀ (l : List Nat) (head : Nat),
    (∀ a, a ∈ l → t.words (get_block s a) = s.words (get_block s a)) →
    linked s head l → linked t head l := by
  intro l
  induction l with
  | nil =>
      intro head _ h
      exact h
  | cons a l ih =>
      intro head hw h
      obtain ⟨h1, h2, h3⟩ := h
      refine ⟨h1, h2, ?_⟩
      have e : get_next_index t (get_block t a) = get_next_index s (get_block s a) := by
        simp only [get_next_index, get_block, hm]
        exact hw a (List.mem_cons_self a l)
      rw [e]
      exact ih _ (fun x hx => hw x (List.mem_cons_of_mem a hx)) h3

theorem linked_head_ne (s : buddy_state) (l : List Nat) (head : Nat)
    (h : linked s head l) (hne : head ≠ NULL_INDEX) : ∃ l1, l = head :: l1 := by
  cases l with
  | nil => exact absurd h hne
  | cons a l1 => exact ⟨l1, by rw [h.1]⟩

/-- The walk of `remove` along a linked list: it ends within `length` steps,
with the null result when the index is not listed and at the index, with its
predecessor, when it is. -/
theorem remove_walk_spec (s : buddy_state) (b : Nat) : ∀ (l : List Nat) (fuel prev cur : Nat),
    linked s cur l → l ≠ [] → l.length ≤ fuel →
    (b ∉ l → remove_walk s b fuel prev cur = some none)
    ∧ (b ∈ l → ∃ l1 l2, l = l1 ++ b :: l2 ∧ b ∉ l1
        ∧ remove_walk s b fuel prev cur = some (some (l1.getLastD prev, b))) := by
  intro l
  induction l with
  | nil =>
      intro fuel prev cur _ hne _
      exact absurd rfl hne
  | cons a l ih =>
      intro fuel prev cur hl _ hfuel
      obtain ⟨h1, h2, h3⟩ := hl
      subst h1
      obtain ⟨f, rfl⟩ : ∃ f, fuel = f + 1 := ⟨fuel - 1, by
        simp only [List.length_cons] at hfuel; omega⟩
      simp only [List.length_cons] at hfuel
      by_cases hcb : cur = b
      · subst hcb
        constructor
        · intro hn
          exact absurd (List.mem_cons_self cur l) hn
        · intro _
          refine ⟨[], l, rfl, List.not_mem_nil cur, ?_⟩
          simp only [remove_walk, ne_eq, not_true_eq_false, if_false, List.getLastD]
      · unfold remove_walk
        simp only [ne_eq, hcb, not_false_eq_true, if_true]
        cases l with
        | nil =>
            have hz : get_next_index s (get_block s cur) = NULL_INDEX := h3
            simp only [hz, if_true]
            constructor
            · intro _; trivial
            · intro hm
              simp only [List.mem_singleton] at hm
              exact absurd hm.symm hcb
        | cons a2 l2 =>
            have hnz : get_next_index s (get_block s cur) ≠ NULL_INDEX := by
              rw [h3.1]; exact h3.2.1
            simp only [hnz, if_false]
            obtain ⟨ihn, ihm⟩ := ih f cur (get_next_index s (get_block s cur)) h3
              (List.cons_ne_nil a2 l2) (by omega)
            constructor
            · intro hn
              exact ihn (fun hm => hn (List.mem_cons_of_mem cur hm))
            · intro hm
              have hm2 : b ∈ a2 :: l2 := by
                rcases List.mem_cons.1 hm with h | h
                · exact absurd h.symm hcb
                · exact h
              obtain ⟨l1, l3, e, hnot, hw⟩ := ihm hm2
              refine ⟨cur :: l1, l3, by rw [e]; rfl, ?_, ?_⟩
              · intro hmem
                rcases List.mem_cons.1 hmem with h | h
                · exact hcb h.symm
                · exact hnot h
              · rw [hw]
                cases l1 with
                | nil => rfl
                | cons x xs => rfl

theorem length_le_of_nodup_lt (l : List Nat) (n : Nat) (hn : l.Nodup)
    (hlt : ∀ a, a ∈ l → a < n) : l.length ≤ n := by
  have hsub : l.toFinset ⊆ Finset.range n := by
    intro a ha
    rw [List.mem_toFinset] at ha
    exact Finset.mem_range.2 (hlt a ha)
  have hc := Finset.card_le_card hsub
  rw [List.toFinset_card_of_nodup hn, Finset.card_range] at hc
  exact hc

/-- Unlinking behind a predecessor: when the word of `p` receives the successor
of `b`, the list without `b` is linked from the same head. -/
theorem linked_skip (s t : buddy_state) (hm : t.mem_space = s.mem_space) (p b : Nat)
    (l2 : List Nat)
    (hp : t.words (get_block s p) = s.words (get_block s b))
    (hother : ∀ a, a ≠ get_block s p → a ≠ get_block s b → t.words a = s.words a) :
    ∀ (l0 : List Nat) (head : Nat),
    linked s head (l0 ++ p :: b :: l2) → (l0 ++ p :: b :: l2).Nodup →
    (∀ a, a ∈ l0 ++ p :: b :: l2 → a < 2 ^ 20) →
    linked t head (l0 ++ p :: l2) := by
  intro l0
  induction l0 with
  | nil =>
      intro head hl hnd hlt
      simp only [List.nil_append] at hl hnd hlt ⊢
      obtain ⟨h1, h2, h3⟩ := hl
      obtain ⟨_, _, h6⟩ := h3
      refine ⟨h1, h2, ?_⟩
      have e : get_next_index t (get_block t p) = get_next_index s (get_block s b) := by
        simp only [get_next_index, get_block, hm]
        exact hp
      rw [e]
      apply linked_congr s t hm l2 _ _ h6
      intro x hx
      have hxp : x ≠ p := by
        intro h
        subst h
        exact (List.nodup_cons.1 hnd).1 (List.mem_cons_of_mem b hx)
      have hxb : x ≠ b := by
        intro h
        subst h
        exact (List.nodup_cons.1 (List.nodup_cons.1 hnd).2).1 hx
      apply hother
      · intro h
        exact hxp (get_block_inj s x p (hlt x (by simp [hx])) (hlt p (by simp)) h)
      · intro h
        exact hxb (get_block_inj s x b (hlt x (by simp [hx])) (hlt b (by simp)) h)
  | cons a l0 ih =>
      intro head hl hnd hlt
      simp only [List.cons_append] at hl hnd hlt ⊢
      obtain ⟨h1, h2, h3⟩ := hl
      refine ⟨h1, h2, ?_⟩
      have hnd2 := List.nodup_cons.1 hnd
      have hap : a ≠ p := by
        intro h
        subst h
        exact hnd2.1 (by simp)
      have hab : a ≠ b := by
        intro h
        subst h
        exact hnd2.1 (by simp)
      have e : get_next_index t (get_block t a) = get_next_index s (get_block s a) := by
        simp only [get_next_index, get_block, hm]
        apply hother
        · intro h
          exact hap (get_block_inj s a p (hlt a (by simp)) (hlt p (by simp)) h)
        · intro h
          exact hab (get_block_inj s a b (hlt a (by simp)) (hlt b (by simp)) h)
      rw [e]
      exact ih _ h3 hnd2.2 (fun x hx => hlt x (List.mem_cons_of_mem a hx))

/-- Well-formedness is kept when one index leaves list `k` and the other lists
read the words they read before. -/
theorem lists_ok_erase (s t : buddy_state) (lists : Nat → List Nat) (ok : lists_ok s lists)
    (b k : Nat) (hm : t.mem_space = s.mem_space)
    (ha : t.alloc_block_count = s.alloc_block_count) (hmo : t.max_order = s.max_order)
    (hk : linked t (t.free_heads k) ((lists k).erase b))
    (hheads : ∀ k2, k2 ≠ k → t.free_heads k2 = s.free_heads k2)
    (hwords : ∀ k2, k2 ≠ k → k2 ≤ s.max_order → ∀ a, a ∈ lists k2 →
      t.words (get_block s a) = s.words (get_block s a)) :
    lists_ok t (Function.update lists k ((lists k).erase b)) := by
  have hsub : ∀ k2 a, a ∈ Function.update lists k ((lists k).erase b) k2 → a ∈ lists k2 := by
    intro k2 a h
    by_cases h2 : k2 = k
    · subst h2
      rw [Function.update_same] at h
      exact List.mem_of_mem_erase h
    · rw [Function.update_noteq h2] at h
      exact h
  refine ⟨by rw [ha, hmo]; exact ok.top_bit, by rw [ha]; exact ok.small, ?_, ?_, ?_, ?_⟩
  · intro k2 hk2
    rw [hmo] at hk2
    by_cases h2 : k2 = k
    · subst h2
      rw [Function.update_same]
      exact hk
    · rw [Function.update_noteq h2, hheads k2 h2]
      exact linked_congr s t hm _ _ (hwords k2 h2 hk2) (ok.chain k2 hk2)
  · intro k2 hk2 a h
    rw [hmo] at hk2
    rw [ha]
    exact ok.inside k2 hk2 a (hsub k2 a h)
  · intro k1 k2 h1 h2 a m1 m2
    rw [hmo] at h1 h2
    exact ok.apart k1 k2 h1 h2 a (hsub k1 a m1) (hsub k2 a m2)
  · intro k2 hk2
    rw [hmo] at hk2
    by_cases h2 : k2 = k
    · subst h2
      rw [Function.update_same]
      exact (ok.nodup k2 hk2).erase b
    · rw [Function.update_noteq h2]
      exact ok.nodup k2 hk2

/-- Function `remove` on well-formed lists: it returns; either it returns the
null index and changes nothing, or the index was on the list of that order and
is taken off it, the lists staying well formed. -/
theorem remove_spec (s : buddy_state) (lists : Nat → List Nat) (ok : lists_ok s lists)
    (b k : Nat) (hk : k < MAX_ORDER_LIMIT) :
    (remove s b k = some (NULL_INDEX, s) ∧ (k ≤ s.max_order → b ∉ lists k))
    ∨ (b ≠ NULL_INDEX ∧ k ≤ s.max_order ∧ b ∈ lists k
        ∧ ∃ s1, remove s b k = some (b, s1)
          ∧ lists_ok s1 (Function.update lists k ((lists k).erase b))
          ∧ s1.mem_space = s.mem_space
          ∧ s1.alloc_block_count = s.alloc_block_count
          ∧ s1.free_block_count = s.free_block_count
          ∧ s1.max_order = s.max_order) := by
  unfold remove
  simp only [hk, if_true]
  by_cases hg : b = NULL_INDEX ∨ b > s.alloc_block_count ∨ k > s.max_order
      ∨ s.free_heads k = NULL_INDEX
  · left
    simp only [hg, if_true, true_and]
    intro hkm hmem
    have hin := ok.inside k hkm b hmem
    rcases hg with h | h | h | h
    · unfold NULL_INDEX at h; omega
    · omega
    · omega
    · have hch := ok.chain k hkm
      rw [h] at hch
      cases hl : lists k with
      | nil => rw [hl] at hmem; exact absurd hmem (List.not_mem_nil b)
      | cons x l =>
          rw [hl] at hch
          exact hch.2.1 hch.1.symm
  · simp only [hg, if_false]
    have hb0 : b ≠ NULL_INDEX := fun h => hg (Or.inl h)
    have hkm : k ≤ s.max_order := by
      by_contra h
      exact hg (Or.inr (Or.inr (Or.inl (by omega))))
    have hh0 : s.free_heads k ≠ NULL_INDEX := fun h => hg (Or.inr (Or.inr (Or.inr h)))
    have hch := ok.chain k hkm
    obtain ⟨l', hl'⟩ := linked_head_ne s _ _ hch hh0
    have hne : lists k ≠ [] := by rw [hl']; exact List.cons_ne_nil _ _
    have hlen : (lists k).length ≤ s.alloc_block_count + 1 :=
      length_le_of_nodup_lt _ _ (ok.nodup k hkm) (fun a ha => by
        have := ok.inside k hkm a ha
        omega)
    have hsmall : ∀ k2, k2 ≤ s.max_order → ∀ a, a ∈ lists k2 → a < 2 ^ 20 := by
      intro k2 hk2 a ha
      have := ok.inside k2 hk2 a ha
      have := ok.small
      omega
    obtain ⟨hnot, hin⟩ := remove_walk_spec s b (lists k) (s.alloc_block_count + 1)
      NULL_INDEX (s.free_heads k) hch hne hlen
    by_cases hb : b ∈ lists k
    · right
      refine ⟨hb0, hkm, hb, ?_⟩
      obtain ⟨l1, l2, e, hnl1, hw⟩ := hin hb
      rw [hw]
      simp only []
      have herase : (lists k).erase b = l1 ++ l2 := by
        rw [e, List.erase_append_right _ hnl1, List.erase_cons_head]
      have hnd := ok.nodup k hkm
      rw [e] at hnd hch
      have hbl2 : b ∉ l2 := by
        have := (List.nodup_append.1 hnd).2.1
        exact (List.nodup_cons.1 this).1
      have hlt : ∀ a, a ∈ l1 ++ b :: l2 → a < 2 ^ 20 := by
        intro a ha
        rw [← e] at ha
        exact hsmall k hkm a ha
      have hother : ∀ k2, k2 ≠ k → k2 ≤ s.max_order → ∀ a, a ∈ lists k2 → ∀ x, x ∈ lists k →
          get_block s a ≠ get_block s x := by
        intro k2 h2 hk2 a ha x hx heq
        have := get_block_inj s a x (hsmall k2 hk2 a ha) (hsmall k hkm x hx) heq
        subst this
        exact h2 (ok.apart k2 k hk2 hkm a ha hx)
      rcases List.eq_nil_or_concat l1 with hl1 | ⟨l0, p, hl1⟩
      · subst hl1
        simp only [List.getLastD, ne_eq, not_true_eq_false, if_false]
        simp only [List.nil_append] at hch herase hnd e
        refine ⟨_, rfl, ?_, rfl, rfl, rfl, rfl⟩
        refine lists_ok_erase s _ lists ok b k ?_ ?_ ?_ ?_ ?_ ?_
        · rfl
        · rfl
        · rfl
        · rw [herase]
          simp only [null_next_index, set_next_index, Function.update_same]
          refine linked_congr s _ ?_ l2 _ ?_ hch.2.2
          · rfl
          intro a ha
          simp only [get_block]
          rw [Function.update_noteq]
          intro h
          have := get_block_inj s a b (hlt a (List.mem_cons_of_mem b ha))
            (hlt b (List.mem_cons_self b l2)) h
          subst this
          exact hbl2 ha
        · intro k2 h2
          simp only [null_next_index, set_next_index]
          rw [Function.update_noteq h2]
        · intro k2 h2 hk2 a ha
          simp only [null_next_index, set_next_index, get_block]
          rw [Function.update_noteq]
          exact hother k2 h2 hk2 a ha b hb
      · rw [List.concat_eq_append] at hl1
        subst hl1
        have hpm : p ∈ lists k := by rw [e]; simp
        have hp1 : p ≠ NULL_INDEX := by
          have := ok.inside k hkm p hpm
          unfold NULL_INDEX
          omega
        have hpb : p ≠ b := by
          intro h
          subst h
          exact hnl1 (by simp)
        simp only [List.getLastD_concat, ne_eq, hp1, not_false_eq_true, if_true]
        refine ⟨_, rfl, ?_, rfl, rfl, rfl, rfl⟩
        have hgpb : get_block s p ≠ get_block s b := by
          intro h
          exact hpb (get_block_inj s p b (hsmall k hkm p hpm) (hsmall k hkm b hb) h)
        refine lists_ok_erase s _ lists ok b k ?_ ?_ ?_ ?_ ?_ ?_
        · rfl
        · rfl
        · rfl
        · rw [herase]
          simp only [List.append_assoc, List.singleton_append] at hch hnd hlt ⊢
          refine linked_skip s _ ?_ p b l2 ?_ ?_ l0 _ hch hnd hlt
          · rfl
          · have hgpb2 := hgpb
            simp only [get_block] at hgpb2
            simp only [null_next_index, set_next_index, get_block, get_next_index]
            rw [Function.update_noteq hgpb2, Function.update_same]
          · intro a ha1 ha2
            simp only [null_next_index, set_next_index, get_block]
            simp only [get_block] at ha1 ha2
            rw [Function.update_noteq ha2, Function.update_noteq ha1]
        · intro k2 h2
          rfl
        · intro k2 h2 hk2 a ha
          simp only [null_next_index, set_next_index, get_block]
          have h1 := hother k2 h2 hk2 a ha b hb
          have h3 := hother k2 h2 hk2 a ha p hpm
          simp only [get_block] at h1 h3
          rw [Function.update_noteq h1, Function.update_noteq h3]
    · left
      rw [hnot hb]
      exact ⟨rfl, fun _ => hb⟩

/-- Function `put_first` on well-formed lists, for a block of the region that
is on no list: it returns and the index heads the list of its order. -/
theorem put_first_spec (s : buddy_state) (lists : Nat → List Nat) (ok : lists_ok s lists)
    (a k : Nat) (hk : k ≤ s.max_order) (ha1 : 1 ≤ a) (ha2 : a ≤ s.alloc_block_count)
    (hnew : ∀ k2, k2 ≤ s.max_order → a ∉ lists k2) :
    ∃ s1, put_first s a k = some s1
      ∧ lists_ok s1 (Function.update lists k (a :: lists k))
      ∧ s1.mem_space = s.mem_space
      ∧ s1.alloc_block_count = s.alloc_block_count
      ∧ s1.free_block_count = s.free_block_count
      ∧ s1.max_order = s.max_order := by
  have hmax : s.max_order < 20 := by
    by_contra h
    have h1 : (2 : Nat) ^ 20 ≤ 2 ^ s.max_order := Nat.pow_le_pow_right (by decide) (by omega)
    have := ok.top_bit
    have := ok.small
    omega
  have hl : k < MAX_ORDER_LIMIT := by
    have : MAX_ORDER_LIMIT = 25 := rfl
    omega
  have hsm := ok.small
  have hwords : ∀ k2, k2 ≤ s.max_order → ∀ x, x ∈ lists k2 →
      Function.update s.words (get_block s a) (s.free_heads k) (get_block s x)
        = s.words (get_block s x) := by
    intro k2 hk2 x hx
    rw [Function.update_noteq]
    intro heq
    have hin := ok.inside k2 hk2 x hx
    have := get_block_inj s x a (by omega) (by omega) heq
    subst this
    exact hnew k2 hk2 hx
  unfold put_first
  simp only [hl, if_true]
  refine ⟨_, rfl, ?_, rfl, rfl, rfl, rfl⟩
  refine ⟨ok.top_bit, ok.small, ?_, ?_, ?_, ?_⟩
  · intro k2 hk2
    have hk2s : k2 ≤ s.max_order := hk2
    by_cases h2 : k2 = k
    · subst h2
      simp only [set_next_index, Function.update_same]
      refine ⟨rfl, by unfold NULL_INDEX; omega, ?_⟩
      have e : get_next_index
          { mem_space := s.mem_space, alloc_block_count := s.alloc_block_count,
            free_block_count := s.free_block_count,
            free_heads := Function.update s.free_heads k2 a, max_order := s.max_order,
            ctrl_offset := s.ctrl_offset,
            words := Function.update s.words (get_block s a) (s.free_heads k2) }
          (get_block
            { mem_space := s.mem_space, alloc_block_count := s.alloc_block_count,
              free_block_count := s.free_block_count,
              free_heads := Function.update s.free_heads k2 a, max_order := s.max_order,
              ctrl_offset := s.ctrl_offset,
              words := Function.update s.words (get_block s a) (s.free_heads k2) } a)
          = s.free_heads k2 := by
        simp only [get_next_index, get_block, Function.update_same]
      rw [e]
      refine linked_congr s _ ?_ _ _ ?_ (ok.chain k2 hk2s)
      · rfl
      · intro x hx
        exact hwords k2 hk2s x hx
    · simp only [set_next_index]
      rw [Function.update_noteq h2, Function.update_noteq h2]
      refine linked_congr s _ ?_ _ _ ?_ (ok.chain k2 hk2s)
      · rfl
      · intro x hx
        exact hwords k2 hk2s x hx
  · intro k2 hk2 x hx
    have hk2s : k2 ≤ s.max_order := hk2
    by_cases h2 : k2 = k
    · subst h2
      rw [Function.update_same] at hx
      rcases List.mem_cons.1 hx with e | hx
      · subst e
        exact ⟨ha1, ha2⟩
      · exact ok.inside k2 hk2s x hx
    · rw [Function.update_noteq h2] at hx
      exact ok.inside k2 hk2s x hx
  · intro k1 k2 h1 h2 x m1 m2
    have h1s : k1 ≤ s.max_order := h1
    have h2s : k2 ≤ s.max_order := h2
    by_cases e1 : k1 = k
    · by_cases e2 : k2 = k
      · rw [e1, e2]
      · exfalso
        subst e1
        rw [Function.update_same] at m1
        rw [Function.update_noteq e2] at m2
        rcases List.mem_cons.1 m1 with e | m1
        · subst e
          exact hnew k2 h2s m2
        · exact e2 (ok.apart k2 k1 h2s h1s x m2 m1)
    · by_cases e2 : k2 = k
      · exfalso
        subst e2
        rw [Function.update_same] at m2
        rw [Function.update_noteq e1] at m1
        rcases List.mem_cons.1 m2 with e | m2
        · subst e
          exact hnew k1 h1s m1
        · exact e1 (ok.apart k1 k2 h1s h2s x m1 m2)
      · rw [Function.update_noteq e1] at m1
        rw [Function.update_noteq e2] at m2
        exact ok.apart k1 k2 h1s h2s x m1 m2
  · intro k2 hk2
    have hk2s : k2 ≤ s.max_order := hk2
    by_cases h2 : k2 = k
    · subst h2
      rw [Function.update_same]
      exact List.nodup_cons.2 ⟨hnew k2 hk2s, ok.nodup k2 hk2s⟩
    · rw [Function.update_noteq h2]
      exact ok.nodup k2 hk2s

/-! ## `buddy_free` -/

theorem max_order_lt_of_ok (s : buddy_state) (lists : Nat → List Nat) (ok : lists_ok s lists) :
    s.max_order < 20 := by
  by_contra h
  have h1 : (2 : Nat) ^ 20 ≤ 2 ^ s.max_order := Nat.pow_le_pow_right (by decide) (by omega)
  have := ok.top_bit
  have := ok.small
  omega

/-- Coalescing on well-formed lists: the first `remove` and the loop return, the
order they end at indexes `free_heads`, and the free count is untouched. -/
theorem buddy_free_loop_returns : ∀ (fuel : Nat) (s : buddy_state) (lists : Nat → List Nat)
    (i k : Nat), lists_ok s lists → k < MAX_ORDER_LIMIT → s.max_order + 1 < k + fuel →
    1 ≤ fuel →
    ∃ s1 i1 k1, (remove s (calc_buddy_index i k) k).bind
          (fun r => buddy_free_loop fuel r.2 i k r.1) = some (s1, i1, k1)
      ∧ k1 < MAX_ORDER_LIMIT
      ∧ s1.free_block_count = s.free_block_count := by
  intro fuel
  induction fuel with
  | zero =>
      intro s lists i k ok hk hf h1
      omega
  | succ f ih =>
      intro s lists i k ok hk hf _
      rcases remove_spec s lists ok (calc_buddy_index i k) k hk with ⟨h, _⟩ | h
      · refine ⟨s, i, k, ?_, hk, rfl⟩
        rw [h]
        simp only [Option.some_bind, buddy_free_loop, ne_eq, not_true_eq_false, if_false]
      · obtain ⟨hb0, hkm, _, s1, hrem, ok1, _, _, hf1, hmo1⟩ := h
        rw [hrem]
        simp only [Option.some_bind]
        unfold buddy_free_loop
        simp only [ne_eq, hb0, not_false_eq_true, if_true]
        have hlim : k + 1 < MAX_ORDER_LIMIT := by
          have := max_order_lt_of_ok s lists ok
          have : MAX_ORDER_LIMIT = 25 := rfl
          omega
        obtain ⟨s2, i2, k2, h2, hk2, hf2⟩ :=
          ih s1 _ (if calc_buddy_index i k < i then calc_buddy_index i k else i) (k + 1) ok1
            hlim (by rw [hmo1]; omega) (by omega)
        exact ⟨s2, i2, k2, h2, hk2, by rw [hf2, hf1]⟩

/-- C6 (amended): for every hook whose block index is 0 or greater than
`alloc_block_count`, `buddy_free` returns -1 and leaves the whole state, the
free count and every free list with it, unchanged; and on well-formed free
lists, for every hook whose index is in `1 .. alloc_block_count` and whose
order is below `MAX_ORDER_LIMIT`, `buddy_free` returns 0 and adds `2 ^ order` to
the free count as a 32-bit word: the count increases by exactly `2 ^ order`
when the sum is below `2 ^ 32`, and wraps otherwise. -/
theorem buddy_free_status (s : buddy_state) (area : block_area) :
    ((get_index s area.addr = NULL_INDEX ∨ get_index s area.addr > s.alloc_block_count) →
        buddy_free s area = some (-1, s))
    ∧ (∀ lists, lists_ok s lists → 1 ≤ get_index s area.addr →
        get_index s area.addr ≤ s.alloc_block_count → area.order < MAX_ORDER_LIMIT →
        ∃ s1, buddy_free s area = some (0, s1)
          ∧ s1.free_block_count = (s.free_block_count + 2 ^ area.order) % WORD
          ∧ (s.free_block_count + 2 ^ area.order < WORD →
              s1.free_block_count = s.free_block_count + 2 ^ area.order)) := by
  constructor
  · intro h
    unfold buddy_free
    have hg : ¬ (get_index s area.addr > NULL_INDEX
        ∧ get_index s area.addr ≤ s.alloc_block_count) := by
      unfold NULL_INDEX at h ⊢
      omega
    simp only [hg, if_false]
  · intro lists ok h1 hr ho
    obtain ⟨s1, i1, k1, hloop, hk1, hf1⟩ :=
      buddy_free_loop_returns (MAX_ORDER_LIMIT + 1) s lists (get_index s area.addr) area.order
        ok ho (by
          have := max_order_lt_of_ok s lists ok
          have : MAX_ORDER_LIMIT = 25 := rfl
          omega) (by omega)
    unfold buddy_free
    have hg : get_index s area.addr > NULL_INDEX
        ∧ get_index s area.addr ≤ s.alloc_block_count := by
      unfold NULL_INDEX
      omega
    simp only [hg, and_self, if_true]
    cases hrm : remove s (calc_buddy_index (get_index s area.addr) area.order) area.order with
    | none =>
        rw [hrm] at hloop
        exact absurd hloop (by simp)
    | some r =>
        rw [hrm] at hloop
        simp only [Option.some_bind] at hloop ⊢
        rw [hloop]
        simp only [Option.some_bind, put_first, hk1, if_true]
        have hcnt : ((set_next_index s1 (get_block s1 i1) (s1.free_heads k1)).free_block_count
            + power_of_two area.order) % WORD
            = (s.free_block_count + 2 ^ area.order) % WORD := by
          simp only [set_next_index, power_of_two, hf1]
        refine ⟨_, rfl, hcnt, ?_⟩
        intro hlt
        rw [← Nat.mod_eq_of_lt hlt]
        exact hcnt

/-- Witness of C6 (amended): with block 3 handed out and the run of blocks 1
and 2 on the order-1 list, the hook of block 0 is refused and the hook of
block 3 is taken back. -/
theorem buddy_free_status_witness :
    (get_index one_run (get_block one_run 0) = NULL_INDEX
      ∧ buddy_free one_run ⟨get_block one_run 0, 0⟩ = some (-1, one_run))
    ∧ (lists_ok one_run (fun k => if k = 1 then [1] else [])
      ∧ get_index one_run (get_block one_run 3) = 3
      ∧ 3 ≤ one_run.alloc_block_count
      ∧ (0 : Nat) < MAX_ORDER_LIMIT
      ∧ ∃ s1, buddy_free one_run ⟨get_block one_run 3, 0⟩ = some (0, s1)
          ∧ s1.free_block_count = (one_run.free_block_count + 2 ^ 0) % WORD
          ∧ (one_run.free_block_count + 2 ^ 0 < WORD →
              s1.free_block_count = one_run.free_block_count + 2 ^ 0)) := by
  have ok : lists_ok one_run (fun k => if k = 1 then [1] else []) := by
    refine ⟨by decide, by decide, ?_, ?_, ?_, ?_⟩
    · intro k hk
      have hk1 : k ≤ 1 := hk
      interval_cases k
      · rfl
      · exact ⟨rfl, by decide, rfl⟩
    · intro k hk a ha
      have hk1 : k ≤ 1 := hk
      interval_cases k
      · simp at ha
      · simp at ha
        subst ha
        decide
    · intro k1 k2 h1 h2 a m1 m2
      have hk1 : k1 ≤ 1 := h1
      have hk2 : k2 ≤ 1 := h2
      interval_cases k1 <;> interval_cases k2 <;> simp at m1 m2 ⊢
    · intro k hk
      have hk1 : k ≤ 1 := hk
      interval_cases k <;> simp
  exact ⟨⟨rfl, (buddy_free_status one_run ⟨get_block one_run 0, 0⟩).1 (Or.inl rfl)⟩,
    ok, rfl, by decide, by decide,
    (buddy_free_status one_run ⟨get_block one_run 3, 0⟩).2 _ ok (by decide) (by decide)
      (by decide)⟩

/-- C6: the hook of block 1 with order 32 has its index in
`1 .. alloc_block_count`, but `power_of_two(32)` is not a 32-bit value and
`free_heads[32]` is outside the array: the call has no defined result. -/
theorem buddy_free_order_out_of_range :
    get_index four_blocks (get_block four_blocks 1) = 1
      ∧ 1 ≤ four_blocks.alloc_block_count
      ∧ (buddy_free four_blocks ⟨get_block four_blocks 1, 32⟩).isNone = true :=
  ⟨rfl, by decide, rfl⟩

/-! ## Runs: alignment, disjointness and buddies -/

theorem two_pow_succ_eq (k : Nat) : (2 : Nat) ^ (k + 1) = 2 ^ k + 2 ^ k := by
  rw [Nat.pow_succ]; omega

theorem not_dvd_both (k x : Nat) (hx : 2 ^ k ≤ x) (h1 : 2 ^ (k + 1) ∣ x)
    (h2 : 2 ^ (k + 1) ∣ x - 2 ^ k) : False := by
  have h3 : 2 ^ (k + 1) ∣ x - (x - 2 ^ k) := Nat.dvd_sub' h1 h2
  have e : x - (x - 2 ^ k) = 2 ^ k := by omega
  rw [e] at h3
  have hp0 : 0 < 2 ^ k := Nat.pow_pos (by decide)
  have := Nat.le_of_dvd hp0 h3
  have := two_pow_succ_eq k
  omega

theorem calc_buddy_index_involutive (m a b k : Nat) (hm : m < 2 ^ 20)
    (ha : fits m (a, k)) (hb : fits m (b, k)) (h : calc_buddy_index a k = b) :
    calc_buddy_index b k = a := by
  have hW : WORD = 4294967296 := rfl
  have h20 : (2 : Nat) ^ 20 = 1048576 := by norm_num
  have hp0 : 0 < 2 ^ k := Nat.pow_pos (by decide)
  obtain ⟨ha1, ha2, ha3⟩ := ha
  obtain ⟨hb1, hb2, hb3⟩ := hb
  simp only at ha1 ha2 ha3 hb1 hb2 hb3
  rcases calc_buddy_index_fit a k ha1 ha2 (by omega) with ⟨hd, he⟩ | ⟨hd, hge, he⟩
  · rw [h] at he
    rcases calc_buddy_index_fit b k hb1 hb2 (by omega) with ⟨hd2, _⟩ | ⟨_, _, he2⟩
    · exfalso
      have e : b - 1 - 2 ^ k = a - 1 := by omega
      exact not_dvd_both k (b - 1) (by omega) hd2 (by rw [e]; exact hd)
    · omega
  · rw [h] at he
    rcases calc_buddy_index_fit b k hb1 hb2 (by omega) with ⟨_, he2⟩ | ⟨hd2, hge2, _⟩
    · omega
    · exfalso
      have e : a - 1 - 2 ^ k = b - 1 := by omega
      rw [e] at hd
      exact not_dvd_both k (b - 1) (by omega) hd hd2

theorem calc_buddy_index_ne_self (m a k : Nat) (hm : m < 2 ^ 20) (ha : fits m (a, k)) :
    calc_buddy_index a k ≠ a := by
  have hW : WORD = 4294967296 := rfl
  have h20 : (2 : Nat) ^ 20 = 1048576 := by norm_num
  have hp0 : 0 < 2 ^ k := Nat.pow_pos (by decide)
  obtain ⟨ha1, ha2, ha3⟩ := ha
  simp only at ha1 ha2 ha3
  rcases calc_buddy_index_fit a k ha1 ha2 (by omega) with ⟨_, he⟩ | ⟨_, _, he⟩ <;> omega

theorem apart_runs_symm (r1 r2 : Nat × Nat) (h : apart_runs r1 r2) : apart_runs r2 r1 :=
  Or.symm h

theorem listed_blocks_update (lists : Nat → List Nat) (k : Nat) (l : List Nat) :
    ∀ max, k ≤ max →
    listed_blocks (Function.update lists k l) max + (lists k).length * 2 ^ k
      = listed_blocks lists max + l.length * 2 ^ k := by
  have hlow : ∀ n, n ≤ k →
      ((List.range n).map fun j => (Function.update lists k l j).length * 2 ^ j).sum
        = ((List.range n).map fun j => (lists j).length * 2 ^ j).sum := by
    intro n
    induction n with
    | zero => intro _; rfl
    | succ n ih =>
        intro hn
        rw [List.range_succ, List.map_append, List.map_append, List.sum_append,
          List.sum_append, ih (by omega)]
        simp only [List.map_cons, List.map_nil, List.sum_cons, List.sum_nil]
        rw [Function.update_noteq (by omega)]
  have hhigh : ∀ n, k < n →
      ((List.range n).map fun j => (Function.update lists k l j).length * 2 ^ j).sum
          + (lists k).length * 2 ^ k
        = ((List.range n).map fun j => (lists j).length * 2 ^ j).sum + l.length * 2 ^ k := by
    intro n
    induction n with
    | zero => intro h; omega
    | succ n ih =>
        intro hn
        rw [List.range_succ, List.map_append, List.map_append, List.sum_append,
          List.sum_append]
        simp only [List.map_cons, List.map_nil, List.sum_cons, List.sum_nil, Nat.add_zero]
        by_cases hkn : k = n
        · subst hkn
          rw [hlow k (Nat.le_refl k), Function.update_same]
          omega
        · rw [Function.update_noteq (Ne.symm hkn)]
          have := ih (by omega)
          omega
  intro max hk
  exact hhigh (max + 1) (by omega)

theorem mem_update_erase (lists : Nat → List Nat) (k a k2 x : Nat)
    (h : x ∈ Function.update lists k ((lists k).erase a) k2) : x ∈ lists k2 := by
  by_cases h2 : k2 = k
  · subst h2
    rw [Function.update_same] at h
    exact List.mem_of_mem_erase h
  · rw [Function.update_noteq h2] at h
    exact h

theorem mem_update_cons (lists : Nat → List Nat) (k a k2 x : Nat)
    (h : x ∈ Function.update lists k (a :: lists k) k2) :
    (k2 = k ∧ x = a) ∨ x ∈ lists k2 := by
  by_cases h2 : k2 = k
  · subst h2
    rw [Function.update_same] at h
    rcases List.mem_cons.1 h with h | h
    · exact Or.inl ⟨rfl, h⟩
    · exact Or.inr h
  · rw [Function.update_noteq h2] at h
    exact Or.inr h

/-- A free run leaves its list and joins the runs handed out. -/
theorem runs_take (m max : Nat) (lists : Nat → List Nat) (outs : List (Nat × Nat))
    (h : runs_ok m max lists outs)
    (hapart : ∀ k1 k2, k1 ≤ max → k2 ≤ max → ∀ a, a ∈ lists k1 → a ∈ lists k2 → k1 = k2)
    (hnodup : ∀ k, k ≤ max → (lists k).Nodup)
    (k a : Nat) (hk : k ≤ max) (ha : a ∈ lists k) :
    runs_ok m max (Function.update lists k ((lists k).erase a)) ((a, k) :: outs) := by
  have hne : ∀ k2, k2 ≤ max → ∀ x, x ∈ Function.update lists k ((lists k).erase a) k2 →
      x ≠ a := by
    intro k2 hk2 x hx hxa
    subst hxa
    by_cases h2 : k2 = k
    · subst h2
      rw [Function.update_same] at hx
      exact ((hnodup k2 hk).mem_erase_iff.1 hx).1 rfl
    · rw [Function.update_noteq h2] at hx
      exact h2 (hapart k2 k hk2 hk x hx ha)
  refine ⟨h.bound, ?_, ?_, ?_, ?_, ?_, ?_⟩
  · intro k2 hk2 x hx
    exact h.free_fit k2 hk2 x (mem_update_erase lists k a k2 x hx)
  · intro r hr
    rcases List.mem_cons.1 hr with hr | hr
    · rw [hr]
      exact h.free_fit k hk a ha
    · exact h.out_fit r hr
  · intro k1 k2 h1 h2 a1 a2 m1 m2 hne12
    exact h.free_free k1 k2 h1 h2 a1 a2 (mem_update_erase lists k a k1 a1 m1)
      (mem_update_erase lists k a k2 a2 m2) hne12
  · intro k2 hk2 x hx r hr
    rcases List.mem_cons.1 hr with hr | hr
    · rw [hr]
      exact h.free_free k2 k hk2 hk x a (mem_update_erase lists k a k2 x hx) ha
        (hne k2 hk2 x hx)
    · exact h.free_out k2 hk2 x (mem_update_erase lists k a k2 x hx) r hr
  · rw [List.pairwise_cons]
    exact ⟨fun r hr => h.free_out k hk a ha r hr, h.out_out⟩
  · intro k2 hk2 x hx hb
    exact h.no_pair k2 hk2 x (mem_update_erase lists k a k2 x hx)
      (mem_update_erase lists k a k2 _ hb)

/-- A run handed out whose buddy is not free at its order joins the free list of
its order. -/
theorem runs_give (m max : Nat) (lists : Nat → List Nat) (outs : List (Nat × Nat))
    (a k : Nat) (hm : m < 2 ^ 20) (h : runs_ok m max lists ((a, k) :: outs)) (hk : k ≤ max)
    (hb : calc_buddy_index a k ∉ lists k) :
    runs_ok m max (Function.update lists k (a :: lists k)) outs := by
  have hfa : fits m (a, k) := h.out_fit (a, k) (List.mem_cons_self _ _)
  have hpw := List.pairwise_cons.1 h.out_out
  refine ⟨h.bound, ?_, ?_, ?_, ?_, ?_, ?_⟩
  · intro k2 hk2 x hx
    rcases mem_update_cons lists k a k2 x hx with ⟨e1, e2⟩ | hx
    · rw [e1, e2]; exact hfa
    · exact h.free_fit k2 hk2 x hx
  · intro r hr
    exact h.out_fit r (List.mem_cons_of_mem _ hr)
  · intro k1 k2 h1 h2 a1 a2 m1 m2 hne12
    rcases mem_update_cons lists k a k1 a1 m1 with ⟨e1, e2⟩ | m1
    · rcases mem_update_cons lists k a k2 a2 m2 with ⟨e3, e4⟩ | m2
      · exact absurd (e2.trans e4.symm) hne12
      · rw [e1, e2]
        exact apart_runs_symm _ _ (h.free_out k2 h2 a2 m2 (a, k) (List.mem_cons_self _ _))
    · rcases mem_update_cons lists k a k2 a2 m2 with ⟨e3, e4⟩ | m2
      · rw [e3, e4]
        exact h.free_out k1 h1 a1 m1 (a, k) (List.mem_cons_self _ _)
      · exact h.free_free k1 k2 h1 h2 a1 a2 m1 m2 hne12
  · intro k2 hk2 x hx r hr
    rcases mem_update_cons lists k a k2 x hx with ⟨e1, e2⟩ | hx
    · rw [e1, e2]
      exact hpw.1 r hr
    · exact h.free_out k2 hk2 x hx r (List.mem_cons_of_mem _ hr)
  · exact hpw.2
  · intro k2 hk2 x hx hbx
    rcases mem_update_cons lists k a k2 x hx with ⟨e1, e2⟩ | hx2
    · subst e1
      subst e2
      rcases mem_update_cons lists k2 x k2 _ hbx with ⟨_, e4⟩ | hbx2
      · exact calc_buddy_index_ne_self m x k2 hm hfa e4
      · exact hb hbx2
    · rcases mem_update_cons lists k a k2 _ hbx with ⟨e3, e4⟩ | hbx2
      · subst e3
        have hfx := h.free_fit k2 hk2 x hx2
        have := calc_buddy_index_involutive m x a k2 hm hfx hfa e4
        rw [this] at hb
        exact hb hx2
      · exact h.no_pair k2 hk2 x hx2 hbx2

/-- The run handed out first is split in two halves. -/
theorem runs_split (m max : Nat) (lists : Nat → List Nat) (outs : List (Nat × Nat))
    (i j : Nat) (h : runs_ok m max lists ((i, j + 1) :: outs)) :
    runs_ok m max lists ((i + 2 ^ j, j) :: (i, j) :: outs) := by
  have hpow := two_pow_succ_eq j
  have hp0 : 0 < 2 ^ j := Nat.pow_pos (by decide)
  obtain ⟨hd, h1, hr⟩ := h.out_fit (i, j + 1) (List.mem_cons_self _ _)
  simp only at hd h1 hr
  have hdj : 2 ^ j ∣ i - 1 := Nat.dvd_trans (Nat.pow_dvd_pow 2 (by omega)) hd
  have hpw := List.pairwise_cons.1 h.out_out
  have hlo : fits m (i, j) := ⟨hdj, h1, by simp only; omega⟩
  have hup : fits m (i + 2 ^ j, j) := by
    refine ⟨?_, by simp only; omega, by simp only; omega⟩
    simp only
    have e : i + 2 ^ j - 1 = (i - 1) + 2 ^ j := by omega
    rw [e]
    exact Nat.dvd_add hdj (Nat.dvd_refl _)
  refine ⟨h.bound, h.free_fit, ?_, h.free_free, ?_, ?_, h.no_pair⟩
  · intro r hr2
    rcases List.mem_cons.1 hr2 with e | hr2
    · rw [e]; exact hup
    · rcases List.mem_cons.1 hr2 with e | hr2
      · rw [e]; exact hlo
      · exact h.out_fit r (List.mem_cons_of_mem _ hr2)
  · intro k hk a ha r hr2
    have hbig := h.free_out k hk a ha (i, j + 1) (List.mem_cons_self _ _)
    simp only [apart_runs] at hbig
    rcases List.mem_cons.1 hr2 with e | hr2
    · rw [e]
      simp only [apart_runs]
      omega
    · rcases List.mem_cons.1 hr2 with e | hr2
      · rw [e]
        simp only [apart_runs]
        omega
      · exact h.free_out k hk a ha r (List.mem_cons_of_mem _ hr2)
  · rw [List.pairwise_cons, List.pairwise_cons]
    refine ⟨?_, ?_, hpw.2⟩
    · intro r hr2
      rcases List.mem_cons.1 hr2 with e | hr2
      · rw [e]
        simp only [apart_runs]
        omega
      · have := hpw.1 r hr2
        simp only [apart_runs] at this ⊢
        omega
    · intro r hr2
      have := hpw.1 r hr2
      simp only [apart_runs] at this ⊢
      omega

/-- Two buddies handed out are joined into the run of the next order. -/
theorem runs_merge (m max : Nat) (lists : Nat → List Nat) (outs : List (Nat × Nat))
    (x k : Nat) (hd : 2 ^ (k + 1) ∣ x - 1)
    (h : runs_ok m max lists ((x + 2 ^ k, k) :: (x, k) :: outs)) :
    runs_ok m max lists ((x, k + 1) :: outs) := by
  have hpow := two_pow_succ_eq k
  have hp0 : 0 < 2 ^ k := Nat.pow_pos (by decide)
  obtain ⟨_, _, hr1⟩ := h.out_fit (x + 2 ^ k, k) (List.mem_cons_self _ _)
  obtain ⟨_, h1, _⟩ := h.out_fit (x, k) (List.mem_cons_of_mem _ (List.mem_cons_self _ _))
  simp only at hr1 h1
  have hpw := List.pairwise_cons.1 h.out_out
  have hpw2 := List.pairwise_cons.1 hpw.2
  refine ⟨h.bound, h.free_fit, ?_, h.free_free, ?_, ?_, h.no_pair⟩
  · intro r hr2
    rcases List.mem_cons.1 hr2 with e | hr2
    · rw [e]
      exact ⟨hd, h1, by simp only; omega⟩
    · exact h.out_fit r (List.mem_cons_of_mem _ (List.mem_cons_of_mem _ hr2))
  · intro j hj a ha r hr2
    rcases List.mem_cons.1 hr2 with e | hr2
    · rw [e]
      have h3 := h.free_out j hj a ha (x + 2 ^ k, k) (List.mem_cons_self _ _)
      have h4 := h.free_out j hj a ha (x, k)
        (List.mem_cons_of_mem _ (List.mem_cons_self _ _))
      have hpj : 0 < 2 ^ j := Nat.pow_pos (by decide)
      simp only [apart_runs] at h3 h4 ⊢
      omega
    · exact h.free_out j hj a ha r (List.mem_cons_of_mem _ (List.mem_cons_of_mem _ hr2))
  · rw [List.pairwise_cons]
    refine ⟨?_, hpw2.2⟩
    intro r hr2
    have h3 := hpw.1 r (List.mem_cons_of_mem _ hr2)
    have h4 := hpw2.1 r hr2
    have hfr := h.out_fit r (List.mem_cons_of_mem _ (List.mem_cons_of_mem _ hr2))
    have hpj : 0 < 2 ^ r.2 := Nat.pow_pos (by decide)
    simp only [apart_runs] at h3 h4 ⊢
    omega

theorem runs_perm (m max : Nat) (lists : Nat → List Nat) (outs outs2 : List (Nat × Nat))
    (hp : outs.Perm outs2) (h : runs_ok m max lists outs) : runs_ok m max lists outs2 := by
  refine ⟨h.bound, h.free_fit, ?_, h.free_free, ?_, ?_, h.no_pair⟩
  · intro r hr
    exact h.out_fit r (hp.mem_iff.2 hr)
  · intro k hk a ha r hr
    exact h.free_out k hk a ha r (hp.mem_iff.2 hr)
  · exact (hp.pairwise_iff (fun {a b} hab => apart_runs_symm a b hab)).1 h.out_out

/-! ## Blocks held by runs -/

/-- Runs that fit into the blocks `1 .. m` and do not meet hold at most `m`
blocks. -/
theorem runs_sum_le (m : Nat) : ∀ (l : List (Nat × Nat)), l.Pairwise apart_runs →
    (∀ r, r ∈ l → fits m r) →
    ∃ S : Finset Nat, S.card = (l.map fun r => 2 ^ r.2).sum
      ∧ (∀ x, x ∈ S → ∃ r, r ∈ l ∧ r.1 ≤ x ∧ x < r.1 + 2 ^ r.2)
      ∧ S ⊆ Finset.Ico 1 (m + 1) := by
  intro l
  induction l with
  | nil =>
    intro _ _
    exact ⟨∅, by simp, by simp, by simp⟩
  | cons r l ih =>
    intro hp hf
    obtain ⟨hr, hl⟩ := List.pairwise_cons.1 hp
    obtain ⟨S, hcard, hcov, hsub⟩ := ih hl (fun x hx => hf x (List.mem_cons_of_mem _ hx))
    have hdisj : Disjoint (Finset.Ico r.1 (r.1 + 2 ^ r.2)) S := by
      rw [Finset.disjoint_left]
      intro x hx hxs
      obtain ⟨r2, hr2, h1, h2⟩ := hcov x hxs
      have hap := hr r2 hr2
      simp only [Finset.mem_Ico] at hx
      unfold apart_runs at hap
      omega
    refine ⟨Finset.Ico r.1 (r.1 + 2 ^ r.2) ∪ S, ?_, ?_, ?_⟩
    · rw [Finset.card_union_of_disjoint hdisj, hcard]
      simp
    · intro x hx
      rcases Finset.mem_union.1 hx with h | h
      · simp only [Finset.mem_Ico] at h
        exact ⟨r, List.mem_cons_self _ _, h.1, h.2⟩
      · obtain ⟨r2, hr2, h1, h2⟩ := hcov x h
        exact ⟨r2, List.mem_cons_of_mem _ hr2, h1, h2⟩
    · intro x hx
      rcases Finset.mem_union.1 hx with h | h
      · obtain ⟨_, f2, f3⟩ := hf r (List.mem_cons_self _ _)
        simp only [Finset.mem_Ico] at h ⊢
        omega
      · exact hsub h

theorem runs_total_le (m : Nat) (l : List (Nat × Nat)) (hp : l.Pairwise apart_runs)
    (hf : ∀ r, r ∈ l → fits m r) : (l.map fun r => 2 ^ r.2).sum ≤ m := by
  obtain ⟨S, hcard, _, hsub⟩ := runs_sum_le m l hp hf
  rw [← hcard]
  have := Finset.card_le_card hsub
  simpa using this

/-- The free runs of well-formed lists hold at most `alloc_block_count` blocks. -/
theorem listed_blocks_le (s : buddy_state) (lists : Nat → List Nat) (outs : List (Nat × Nat))
    (ok : lists_ok s lists) (runs : runs_ok s.alloc_block_count s.max_order lists outs) :
    listed_blocks lists s.max_order ≤ s.alloc_block_count := by
  have key : ∀ n, n ≤ s.max_order + 1 →
      ∃ l : List (Nat × Nat), l.Pairwise apart_runs
        ∧ (∀ r, r ∈ l → r.2 < n ∧ r.1 ∈ lists r.2)
        ∧ (l.map fun r => 2 ^ r.2).sum
            = ((List.range n).map fun k => (lists k).length * 2 ^ k).sum := by
    intro n
    induction n with
    | zero =>
      intro _
      exact ⟨[], List.Pairwise.nil, by simp, by simp⟩
    | succ n ih =>
      intro hn
      obtain ⟨l, h1, h2, h3⟩ := ih (by omega)
      have hnm : n ≤ s.max_order := by omega
      refine ⟨l ++ (lists n).map (fun a => (a, n)), ?_, ?_, ?_⟩
      · rw [List.pairwise_append]
        refine ⟨h1, ?_, ?_⟩
        · rw [List.pairwise_map]
          have hnd : (lists n).Pairwise (fun a b => a ≠ b) := ok.nodup n hnm
          refine hnd.imp_of_mem ?_
          intro a b ha hb hab
          exact runs.free_free n n hnm hnm a b ha hb hab
        · intro r hr r2 hr2
          obtain ⟨b, hb, rfl⟩ := List.mem_map.1 hr2
          obtain ⟨g1, g2⟩ := h2 r hr
          have hne : r.1 ≠ b := by
            intro e
            have := ok.apart r.2 n (by omega) hnm r.1 g2 (by rw [e]; exact hb)
            omega
          exact runs.free_free r.2 n (by omega) hnm r.1 b g2 hb hne
      · intro r hr
        rcases List.mem_append.1 hr with h | h
        · obtain ⟨g1, g2⟩ := h2 r h
          exact ⟨by omega, g2⟩
        · obtain ⟨b, hb, rfl⟩ := List.mem_map.1 h
          exact ⟨by simp, hb⟩
      · have hconst : ∀ xs : List Nat,
            (xs.map ((fun r : Nat × Nat => 2 ^ r.2) ∘ fun a => (a, n))).sum
              = xs.length * 2 ^ n := by
          intro xs
          induction xs with
          | nil => simp
          | cons a xs ihx =>
            rw [List.map_cons, List.sum_cons, ihx, List.length_cons, Nat.add_mul, Nat.one_mul,
              Nat.add_comm]
            rfl
        rw [List.map_append, List.sum_append, h3, List.range_succ, List.map_append,
          List.sum_append, List.map_map, hconst]
        simp
  obtain ⟨l, h1, h2, h3⟩ := key (s.max_order + 1) (Nat.le_refl _)
  unfold listed_blocks
  rw [← h3]
  apply runs_total_le s.alloc_block_count l h1
  intro r hr
  obtain ⟨g1, g2⟩ := h2 r hr
  exact runs.free_fit r.2 (by omega) r.1 g2

/-! ## The invariant is kept by `buddy_free` -/

theorem order_le_of_fits (m max i k : Nat) (hb : m < 2 ^ (max + 1)) (hf : fits m (i, k)) :
    k ≤ max := by
  obtain ⟨_, h1, h2⟩ := hf
  simp only at h1 h2
  by_contra h
  have : (2 : Nat) ^ (max + 1) ≤ 2 ^ k := Nat.pow_le_pow_right (by decide) (by omega)
  omega

theorem not_mem_of_out (m max : Nat) (lists : Nat → List Nat) (outs : List (Nat × Nat))
    (i k : Nat) (h : runs_ok m max lists ((i, k) :: outs)) :
    ∀ k2, k2 ≤ max → i ∉ lists k2 := by
  intro k2 hk2 hmem
  have := h.free_out k2 hk2 i hmem (i, k) (List.mem_cons_self _ _)
  have hp1 : 0 < 2 ^ k := Nat.pow_pos (by decide)
  have hp2 : 0 < 2 ^ k2 := Nat.pow_pos (by decide)
  simp only [apart_runs] at this
  omega

theorem hook_run_congr (s t : buddy_state) (hm : t.mem_space = s.mem_space) :
    hook_run t = hook_run s := by
  funext h
  simp only [hook_run, get_index, hm]

/-- Coalescing keeps the invariant: the loop returns with a run whose buddy is
not free at its order, and the blocks on the lists plus that run are the blocks
on the lists plus the run it started with. -/
theorem coalesce_inv (outs : List (Nat × Nat)) : ∀ (fuel : Nat) (s : buddy_state)
    (lists : Nat → List Nat) (i k : Nat), lists_ok s lists →
    runs_ok s.alloc_block_count s.max_order lists ((i, k) :: outs) →
    s.max_order + 1 < k + fuel → 1 ≤ fuel →
    ∃ s1 lists1 i1 k1, (remove s (calc_buddy_index i k) k).bind
          (fun r => buddy_free_loop fuel r.2 i k r.1) = some (s1, i1, k1)
      ∧ lists_ok s1 lists1
      ∧ runs_ok s1.alloc_block_count s1.max_order lists1 ((i1, k1) :: outs)
      ∧ calc_buddy_index i1 k1 ∉ lists1 k1
      ∧ listed_blocks lists1 s1.max_order + 2 ^ k1 = listed_blocks lists s.max_order + 2 ^ k
      ∧ s1.mem_space = s.mem_space
      ∧ s1.alloc_block_count = s.alloc_block_count
      ∧ s1.free_block_count = s.free_block_count
      ∧ s1.max_order = s.max_order := by
  intro fuel
  induction fuel with
  | zero =>
      intro s lists i k _ _ _ h1
      omega
  | succ f ih =>
      intro s lists i k ok runs hf _
      have hfit : fits s.alloc_block_count (i, k) := runs.out_fit _ (List.mem_cons_self _ _)
      have hkm : k ≤ s.max_order := order_le_of_fits _ _ i k runs.bound hfit
      have hmax := max_order_lt_of_ok s lists ok
      have hk : k < MAX_ORDER_LIMIT := by
        have : MAX_ORDER_LIMIT = 25 := rfl
        omega
      have hsm := ok.small
      have h20 : (2 : Nat) ^ 20 = 1048576 := by norm_num
      have hW : WORD = 4294967296 := rfl
      have hp0 : 0 < 2 ^ k := Nat.pow_pos (by decide)
      rcases remove_spec s lists ok (calc_buddy_index i k) k hk with ⟨h, hnot⟩ | h
      · refine ⟨s, lists, i, k, ?_, ok, runs, hnot hkm, rfl, rfl, rfl, rfl, rfl⟩
        rw [h]
        simp only [Option.some_bind, buddy_free_loop, ne_eq, not_true_eq_false, if_false]
      · obtain ⟨hb0, _, hmem, s1, hrem, ok1, hm1, ha1, hf1, hmo1⟩ := h
        rw [hrem]
        simp only [Option.some_bind]
        unfold buddy_free_loop
        simp only [ne_eq, hb0, not_false_eq_true, if_true]
        have htake := runs_take _ _ lists ((i, k) :: outs) runs ok.apart ok.nodup k
          (calc_buddy_index i k) hkm hmem
        obtain ⟨hd1, hi1, hi2⟩ := hfit
        simp only at hd1 hi1 hi2
        have hlen : (lists k).length = ((lists k).erase (calc_buddy_index i k)).length + 1 := by
          rw [List.length_erase_of_mem hmem]
          have := List.length_pos_of_mem hmem
          omega
        have hsum := listed_blocks_update lists k ((lists k).erase (calc_buddy_index i k))
          s.max_order hkm
        rw [hlen] at hsum
        have hpow := two_pow_succ_eq k
        have hmerged : runs_ok s1.alloc_block_count s1.max_order
            (Function.update lists k ((lists k).erase (calc_buddy_index i k)))
            ((if calc_buddy_index i k < i then calc_buddy_index i k else i, k + 1) :: outs) := by
          rw [ha1, hmo1]
          have hcases := calc_buddy_index_fit i k hd1 hi1 (by omega)
          generalize calc_buddy_index i k = b at htake hcases ⊢
          rcases hcases with ⟨hd2, he⟩ | ⟨hd2, hge, he⟩
          · subst he
            have hlt : ¬ (i + 2 ^ k < i) := by omega
            rw [if_neg hlt]
            exact runs_merge _ _ _ outs i k hd2 htake
          · have hlt : b < i := by omega
            rw [if_pos hlt]
            have hd3 : 2 ^ (k + 1) ∣ b - 1 := by
              have e2 : i - 1 - 2 ^ k = b - 1 := by omega
              rw [← e2]
              exact hd2
            have hswap := runs_perm _ _ _ _ _ (List.Perm.swap (i, k) (b, k) outs) htake
            rw [← he] at hswap
            exact runs_merge _ _ _ outs b k hd3 hswap
        obtain ⟨s2, lists2, i2, k2, h2, ok2, runs2, hb2, hsum2, hm2, ha2, hf2, hmo2⟩ :=
          ih s1 _ (if calc_buddy_index i k < i then calc_buddy_index i k else i) (k + 1) ok1
            hmerged (by rw [hmo1]; omega) (by omega)
        refine ⟨s2, lists2, i2, k2, h2, ok2, runs2, hb2, ?_, by rw [hm2, hm1],
          by rw [ha2, ha1], by rw [hf2, hf1], by rw [hmo2, hmo1]⟩
        rw [hsum2, hmo1]
        have hmul : ((lists k).erase (calc_buddy_index i k)).length * 2 ^ k
            + 2 ^ k = (((lists k).erase (calc_buddy_index i k)).length + 1) * 2 ^ k := by
          rw [Nat.add_mul]; omega
        omega

theorem lists_ok_count (s : buddy_state) (lists : Nat → List Nat) (c : Nat)
    (ok : lists_ok s lists) : lists_ok { s with free_block_count := c } lists := by
  refine ⟨ok.top_bit, ok.small, ?_, ok.inside, ok.apart, ok.nodup⟩
  intro k hk
  refine linked_congr s _ ?_ _ _ ?_ (ok.chain k hk)
  · rfl
  · intro _ _
    rfl

/-- The invariant is kept by `buddy_free` of a hook handed out, and the call
returns 0. -/
theorem buddy_free_inv (s : buddy_state) (out : List block_area) (lists : Nat → List Nat)
    (inv : buddy_inv s out lists) (h : block_area) (hmem : h ∈ out) :
    ∃ s1 lists1, buddy_free s h = some (0, s1) ∧ buddy_inv s1 (out.erase h) lists1 := by
  have hperm : (out.map (hook_run s)).Perm
      ((get_index s h.addr, h.order) :: (out.erase h).map (hook_run s)) := by
    have := (List.perm_cons_erase hmem).map (hook_run s)
    simpa only [List.map_cons, hook_run] using this
  have runs0 := runs_perm _ _ _ _ _ hperm inv.runs
  have hfit := runs0.out_fit _ (List.mem_cons_self _ _)
  obtain ⟨_, hi1, hi2⟩ := hfit
  simp only at hi1 hi2
  have hp0 : 0 < 2 ^ h.order := Nat.pow_pos (by decide)
  have hmax := max_order_lt_of_ok s lists inv.ok
  have hlim : MAX_ORDER_LIMIT = 25 := rfl
  obtain ⟨s1, lists1, i1, k1, hloop, ok1, runs1, hb1, hsum1, hm1, ha1, hf1, hmo1⟩ :=
    coalesce_inv ((out.erase h).map (hook_run s)) (MAX_ORDER_LIMIT + 1) s lists
      (get_index s h.addr) h.order inv.ok runs0 (by omega) (by omega)
  have hfit1 := runs1.out_fit _ (List.mem_cons_self _ _)
  have hk1 : k1 ≤ s1.max_order := order_le_of_fits _ _ i1 k1 runs1.bound hfit1
  obtain ⟨_, hj1, hj2⟩ := hfit1
  simp only at hj1 hj2
  have hq0 : 0 < 2 ^ k1 := Nat.pow_pos (by decide)
  obtain ⟨s2, hput, ok2, hm2, ha2, hf2, hmo2⟩ :=
    put_first_spec s1 lists1 ok1 i1 k1 hk1 hj1 (by omega)
      (not_mem_of_out _ _ lists1 _ i1 k1 runs1)
  have runs2 := runs_give _ _ lists1 _ i1 k1 ok1.small runs1 hk1 hb1
  have hsum2 := listed_blocks_update lists1 k1 (i1 :: lists1 k1) s1.max_order hk1
  rw [List.length_cons, Nat.add_mul] at hsum2
  have hle := listed_blocks_le s2 _ _ ok2 (by rw [ha2, hmo2]; exact runs2)
  have hsmall := ok2.small
  have hnew : (s2.free_block_count + power_of_two h.order) % WORD
      = listed_blocks (Function.update lists1 k1 (i1 :: lists1 k1)) s2.max_order := by
    have hW : WORD = 4294967296 := rfl
    have hp20 : (2 : Nat) ^ 20 = 1048576 := by norm_num
    have hc := inv.count
    rw [hmo2] at hle ⊢
    rw [hf2, hf1, hc]
    simp only [power_of_two]
    rw [Nat.mod_eq_of_lt (by rw [hW]; omega)]
    omega
  refine ⟨{ s2 with free_block_count := (s2.free_block_count + power_of_two h.order) % WORD },
    Function.update lists1 k1 (i1 :: lists1 k1), ?_, ?_, ?_, ?_⟩
  · unfold buddy_free
    have hg : get_index s h.addr > NULL_INDEX ∧ get_index s h.addr ≤ s.alloc_block_count := by
      unfold NULL_INDEX
      omega
    simp only [hg, and_self, if_true]
    cases hrm : remove s (calc_buddy_index (get_index s h.addr) h.order) h.order with
    | none =>
        rw [hrm] at hloop
        exact absurd hloop (by simp)
    | some r =>
        rw [hrm] at hloop
        simp only [Option.some_bind] at hloop ⊢
        rw [hloop]
        simp only [Option.some_bind]
        rw [hput]
        simp only [Option.some_bind]
  · exact lists_ok_count s2 _ _ ok2
  · have e : hook_run
          { s2 with free_block_count := (s2.free_block_count + power_of_two h.order) % WORD }
        = hook_run s :=
      hook_run_congr s _ (by simp only [hm2, hm1])
    rw [e]
    simp only [ha2, hmo2]
    exact runs2
  · exact hnew

/-! ## The invariant is kept by a served `buddy_alloc` -/

theorem linked_null (s : buddy_state) (l : List Nat) (h : linked s NULL_INDEX l) : l = [] := by
  cases l with
  | nil => rfl
  | cons a l => exact absurd h.1.symm h.2.1

/-- Unfolding of `buddy_alloc` when its guard holds and `k1` is the first
non-empty list from `order` up. -/
theorem buddy_alloc_eq (s : buddy_state) (order k1 i : Nat)
    (hcount : s.free_block_count ≥ power_of_two order) (hord : order ≤ k1)
    (hk : k1 ≤ s.max_order) (hmax : s.max_order < MAX_ORDER_LIMIT)
    (hempty : ∀ j, order ≤ j → j < k1 → s.free_heads j = NULL_INDEX)
    (hi : s.free_heads k1 = i) (h0 : i ≠ NULL_INDEX) :
    buddy_alloc s order
      = (remove s i k1).bind fun r =>
          (split_loop r.1 order (k1 - order) r.2).bind fun s2 =>
            some (⟨get_block s2 r.1, order⟩,
              { s2 with free_block_count := s2.free_block_count - power_of_two order }) := by
  have hguard : s.free_block_count ≥ power_of_two order ∧ order ≤ s.max_order :=
    ⟨hcount, by omega⟩
  have hl : order < MAX_ORDER_LIMIT := by omega
  have hkl : k1 < MAX_ORDER_LIMIT := by omega
  unfold buddy_alloc
  simp only [hguard, and_self, if_true, hl]
  by_cases hko : k1 = order
  · subst hko
    simp only [hi, ne_eq, h0, not_false_eq_true, if_true, Nat.sub_self, split_loop,
      Option.some_bind]
  · have hz : s.free_heads order = NULL_INDEX := hempty order (Nat.le_refl _) (by omega)
    have hne : ¬ (s.free_heads order ≠ NULL_INDEX) := by simp [hz]
    simp only [hne, if_false]
    obtain ⟨d, rfl⟩ : ∃ d, k1 = order + d := ⟨k1 - order, by omega⟩
    have hscan : scan_heads s.free_heads (MAX_ORDER_LIMIT + 1) order = some (order + d) :=
      scan_heads_finds s.free_heads d (MAX_ORDER_LIMIT + 1) order (by omega) hkl hempty
        (by rw [hi]; exact h0)
    rw [hscan]
    simp only [Option.some_bind, hi]

/-- The splitting loop keeps the invariant: the run in hand shrinks to the
requested order and its upper halves go to their lists. -/
theorem split_loop_inv (outs : List (Nat × Nat)) (i order : Nat) : ∀ (d : Nat)
    (t : buddy_state) (lists : Nat → List Nat), lists_ok t lists →
    runs_ok t.alloc_block_count t.max_order lists ((i, order + d) :: outs) →
    (∀ j, order ≤ j → j < order + d → lists j = []) →
    ∃ t1 lists1, split_loop i order d t = some t1
      ∧ lists_ok t1 lists1
      ∧ runs_ok t1.alloc_block_count t1.max_order lists1 ((i, order) :: outs)
      ∧ listed_blocks lists1 t1.max_order + 2 ^ order
          = listed_blocks lists t.max_order + 2 ^ (order + d)
      ∧ t1.mem_space = t.mem_space
      ∧ t1.alloc_block_count = t.alloc_block_count
      ∧ t1.free_block_count = t.free_block_count
      ∧ t1.max_order = t.max_order := by
  intro d
  induction d with
  | zero =>
      intro t lists ok runs _
      exact ⟨t, lists, rfl, ok, runs, rfl, rfl, rfl, rfl, rfl⟩
  | succ d ih =>
      intro t lists ok runs hempty
      have hsplit := runs_split _ _ lists outs i (order + d) runs
      have hfit := hsplit.out_fit _ (List.mem_cons_self _ _)
      have hj : order + d ≤ t.max_order := order_le_of_fits _ _ _ _ hsplit.bound hfit
      obtain ⟨_, hf1, hf2⟩ := hfit
      simp only at hf1 hf2
      have hp0 : 0 < 2 ^ (order + d) := Nat.pow_pos (by decide)
      obtain ⟨t1, hput, ok1, hm1, ha1, hc1, hmo1⟩ :=
        put_first_spec t lists ok (i + 2 ^ (order + d)) (order + d) hj hf1 (by omega)
          (not_mem_of_out _ _ lists _ _ _ hsplit)
      have hnil : lists (order + d) = [] := hempty (order + d) (by omega) (by omega)
      have hgive := runs_give _ _ lists _ (i + 2 ^ (order + d)) (order + d) ok.small hsplit hj
        (by rw [hnil]; exact List.not_mem_nil _)
      obtain ⟨t2, lists2, h2, ok2, runs2, hsum2, hm2, ha2, hc2, hmo2⟩ :=
        ih t1 (Function.update lists (order + d) ((i + 2 ^ (order + d)) :: lists (order + d)))
          ok1 (by rw [ha1, hmo1]; exact hgive)
          (by
            intro j h1 h2
            rw [Function.update_noteq (by omega)]
            exact hempty j h1 (by omega))
      refine ⟨t2, lists2, ?_, ok2, runs2, ?_, by rw [hm2, hm1], by rw [ha2, ha1],
        by rw [hc2, hc1], by rw [hmo2, hmo1]⟩
      · unfold split_loop
        simp only [power_of_two]
        rw [hput]
        exact h2
      · rw [hsum2, hmo1]
        have hs := listed_blocks_update lists (order + d)
          ((i + 2 ^ (order + d)) :: lists (order + d)) t.max_order hj
        rw [hnil] at hs
        simp only [List.length_cons, List.length_nil, Nat.zero_mul, Nat.zero_add,
          Nat.one_mul, Nat.add_zero] at hs
        have hpow : (2 : Nat) ^ (order + (d + 1)) = 2 ^ (order + d) + 2 ^ (order + d) :=
          two_pow_succ_eq (order + d)
        rw [hnil]
        omega

/-- The invariant is kept by a `buddy_alloc` call whose guard holds and that
finds a non-empty list of an order up to `max_order`: the call returns a hook
for a run taken from the free lists. -/
theorem buddy_alloc_inv (s : buddy_state) (out : List block_area) (lists : Nat → List Nat)
    (inv : buddy_inv s out lists) (order k : Nat)
    (hcount : s.free_block_count ≥ power_of_two order) (hord : order ≤ k)
    (hk : k ≤ s.max_order) (hne : s.free_heads k ≠ NULL_INDEX) :
    ∃ h s1 lists1, buddy_alloc s order = some (h, s1) ∧ h.addr ≠ NULL ∧ h.order = order
      ∧ buddy_inv s1 (h :: out) lists1 := by
  have hlim : MAX_ORDER_LIMIT = 25 := rfl
  have h20 : (2 : Nat) ^ 20 = 1048576 := by norm_num
  have hmax := max_order_lt_of_ok s lists inv.ok
  have hsm := inv.ok.small
  have hex : ∃ j, order ≤ j ∧ s.free_heads j ≠ NULL_INDEX := ⟨k, hord, hne⟩
  have hk1 : Nat.find hex ≤ s.max_order := Nat.le_trans (Nat.find_min' hex ⟨hord, hne⟩) hk
  have hord1 : order ≤ Nat.find hex := (Nat.find_spec hex).1
  have hne1 : s.free_heads (Nat.find hex) ≠ NULL_INDEX := (Nat.find_spec hex).2
  have hempty : ∀ j, order ≤ j → j < Nat.find hex → s.free_heads j = NULL_INDEX := by
    intro j h1 h2
    by_contra hc
    exact Nat.find_min hex h2 ⟨h1, hc⟩
  generalize Nat.find hex = k1 at hk1 hord1 hne1 hempty
  obtain ⟨l1, hl1⟩ := linked_head_ne s _ _ (inv.ok.chain k1 hk1) hne1
  have hmem : s.free_heads k1 ∈ lists k1 := by rw [hl1]; exact List.mem_cons_self _ _
  have hin := inv.ok.inside k1 hk1 _ hmem
  have hnil : ∀ j, order ≤ j → j < order + (k1 - order) → lists j = [] := by
    intro j h1 h2
    have hj : j < k1 := by omega
    have hch := inv.ok.chain j (by omega)
    rw [hempty j h1 hj] at hch
    exact linked_null s _ hch
  have heq := buddy_alloc_eq s order k1 (s.free_heads k1) hcount hord1 hk1 (by omega) hempty
    rfl hne1
  have hhead := remove_head s k1 (s.free_heads k1) (by omega) hk1 rfl hne1 hin.2
  rcases remove_spec s lists inv.ok (s.free_heads k1) k1 (by omega) with ⟨h, _⟩ | h
  · exfalso
    rw [hhead] at h
    exact hne1 (Prod.mk.inj (Option.some.inj h)).1
  · obtain ⟨_, _, _, t, hrem, okt, hmt, hat, hct, hmot⟩ := h
    have htake := runs_take _ _ lists _ inv.runs inv.ok.apart inv.ok.nodup k1 _ hk1 hmem
    have e1 : k1 = order + (k1 - order) := by omega
    obtain ⟨t1, lists1, hsplit, ok1, runs1, hsum1, hm1, ha1, hc1, hmo1⟩ :=
      split_loop_inv (out.map (hook_run s)) (s.free_heads k1) order (k1 - order) t _ okt
        (by rw [hat, hmot, ← e1]; exact htake)
        (by
          intro j h1 h2
          rw [Function.update_noteq (by omega)]
          exact hnil j h1 h2)
    refine ⟨⟨get_block t1 (s.free_heads k1), order⟩,
      { t1 with free_block_count := t1.free_block_count - power_of_two order }, lists1,
      ?_, ?_, rfl, ?_, ?_, ?_⟩
    · rw [heq, hrem]
      simp only [Option.some_bind]
      rw [hsplit]
      simp only [Option.some_bind]
    · simp only [get_block, NULL]
      have hW : WORD = 4294967296 := rfl
      have hB : BLOCK_SIZE = 4096 := rfl
      rw [hW, hB]
      omega
    · exact lists_ok_count t1 _ _ ok1
    · have e : hook_run { t1 with free_block_count := t1.free_block_count - power_of_two order }
          = hook_run s :=
        hook_run_congr s _ (by simp only [hm1, hmt])
      rw [List.map_cons, e]
      have e2 : hook_run s ⟨get_block t1 (s.free_heads k1), order⟩
          = (s.free_heads k1, order) := by
        simp only [hook_run]
        have : get_block t1 (s.free_heads k1) = get_block s (s.free_heads k1) := by
          simp only [get_block, hm1, hmt]
        rw [this, get_index_get_block s _ (by omega)]
      rw [e2]
      exact runs1
    · simp only [hc1, hct, power_of_two]
      have hlen : (lists k1).length = ((lists k1).erase (s.free_heads k1)).length + 1 := by
        rw [List.length_erase_of_mem hmem]
        have := List.length_pos_of_mem hmem
        omega
      have hsum := listed_blocks_update lists k1 ((lists k1).erase (s.free_heads k1))
        s.max_order hk1
      rw [hlen, Nat.add_mul, Nat.one_mul] at hsum
      rw [hmot, ← e1] at hsum1
      have hc := inv.count
      have hcnt : 2 ^ order ≤ s.free_block_count := hcount
      rw [hmo1, hmot]
      rw [hmo1, hmot] at hsum1
      generalize listed_blocks lists1 s.max_order = x1 at hsum1 ⊢
      generalize listed_blocks (Function.update lists k1
        ((lists k1).erase (s.free_heads k1))) s.max_order = x2 at hsum hsum1
      generalize listed_blocks lists s.max_order = x3 at hsum hc
      generalize ((lists k1).erase (s.free_heads k1)).length * 2 ^ k1 = x4 at hsum
      generalize (2 : Nat) ^ k1 = q at hsum hsum1
      generalize (2 : Nat) ^ order = p at hsum1 hcnt ⊢
      omega

/-! ## The invariant holds after `buddy_init` and along served call sequences -/

theorem bit_sum_eq_mod (m : Nat) : ∀ n,
    ((List.range n).map fun k =>
        (if m.testBit k = true then [1 + bits_above m k n] else ([] : List Nat)).length
          * 2 ^ k).sum = m % 2 ^ n := by
  have hcongr : ∀ n n2, ((List.range n).map fun k =>
        (if m.testBit k = true then [1 + bits_above m k n2] else ([] : List Nat)).length
          * 2 ^ k).sum
      = ((List.range n).map fun k => (if m.testBit k = true then 2 ^ k else 0)).sum := by
    intro n n2
    congr 1
    apply List.map_congr_left
    intro k _
    split <;> simp
  intro n
  rw [hcongr]
  induction n with
  | zero => simp [Nat.mod_one]
  | succ n ih =>
      rw [List.range_succ, List.map_append, List.sum_append, ih, mod_two_pow_succ_bit]
      simp

/-- The invariant holds in the state `buddy_init` leaves, with no hook handed
out. -/
theorem buddy_init_inv (space : region) (N : Nat) (h2 : 2 ≤ N) (hN : N ≤ 2 ^ 20)
    (s : buddy_state) (hs : buddy_init space N = some s) :
    ∃ lists, buddy_inv s [] lists := by
  have hp20 : (2 : Nat) ^ 20 = 1048576 := by norm_num
  have hp25 : (2 : Nat) ^ 25 = 33554432 := by norm_num
  have hM0 : N - 1 ≠ 0 := by omega
  obtain ⟨s0, hinit, hm, ha, hf, hmo, hheads, hwords⟩ :=
    buddy_init_state space N h2 (by omega)
  rw [hs] at hinit
  have e := Option.some.inj hinit
  subst e
  have hlo := Nat.log2_self_le hM0
  have hhi := @Nat.lt_log2_self (N - 1)
  have hmod : (N - 1) % 2 ^ (Nat.log2 (N - 1) + 1) = N - 1 := Nat.mod_eq_of_lt hhi
  have hsum : ∀ k, k ≤ Nat.log2 (N - 1) → (N - 1).testBit k = true →
      bits_above (N - 1) k (Nat.log2 (N - 1) + 1) + 2 ^ k ≤ N - 1 := by
    intro k hk hb
    have := bits_above_add_le_mod (N - 1) k hb (Nat.log2 (N - 1) + 1) (by omega)
    rw [hmod] at this
    exact this
  have hmemb : ∀ k a, a ∈ (if (N - 1).testBit k = true
      then [1 + bits_above (N - 1) k (Nat.log2 (N - 1) + 1)] else ([] : List Nat)) →
      (N - 1).testBit k = true ∧ a = 1 + bits_above (N - 1) k (Nat.log2 (N - 1) + 1) := by
    intro k a h
    by_cases hb : (N - 1).testBit k = true
    · rw [if_pos hb] at h
      exact ⟨hb, List.mem_singleton.1 h⟩
    · rw [if_neg hb] at h
      exact absurd h (List.not_mem_nil a)
  have hfit : ∀ k, k ≤ Nat.log2 (N - 1) → (N - 1).testBit k = true →
      fits (N - 1) (1 + bits_above (N - 1) k (Nat.log2 (N - 1) + 1), k) := by
    intro k hk hb
    have := hsum k hk hb
    refine ⟨?_, by simp only; omega, by simp only; omega⟩
    simp only
    have e : 1 + bits_above (N - 1) k (Nat.log2 (N - 1) + 1) - 1
        = bits_above (N - 1) k (Nat.log2 (N - 1) + 1) := by omega
    rw [e]
    exact Nat.dvd_trans (Nat.pow_dvd_pow 2 (by omega)) (bits_above_dvd (N - 1) k _)
  have hapart : ∀ k1 k2, k1 ≤ Nat.log2 (N - 1) → k2 ≤ Nat.log2 (N - 1) → k1 < k2 →
      (N - 1).testBit k1 = true → (N - 1).testBit k2 = true →
      1 + bits_above (N - 1) k2 (Nat.log2 (N - 1) + 1) + 2 ^ k2
        ≤ 1 + bits_above (N - 1) k1 (Nat.log2 (N - 1) + 1) := by
    intro k1 k2 _ h2 hlt _ hb2
    have := bits_above_step (N - 1) k1 k2 hlt hb2 (Nat.log2 (N - 1) + 1) (by omega)
    omega
  refine ⟨fun k => if (N - 1).testBit k = true
      then [1 + bits_above (N - 1) k (Nat.log2 (N - 1) + 1)] else [], ?_, ?_, ?_⟩
  · refine ⟨by rw [hmo, ha]; exact hlo, by rw [ha]; omega, ?_, ?_, ?_, ?_⟩
    · intro k hk
      rw [hmo] at hk
      rw [hheads k hk]
      by_cases hb : (N - 1).testBit k = true
      · simp only [hb, if_true]
        refine ⟨rfl, by unfold NULL_INDEX; omega, ?_⟩
        exact hwords k hk hb
      · simp only [hb, if_false]
        rfl
    · intro k hk a hmem
      rw [hmo] at hk
      obtain ⟨hb, e⟩ := hmemb k a hmem
      have := hsum k hk hb
      have hp0 : 0 < 2 ^ k := Nat.pow_pos (by decide)
      rw [ha, e]
      omega
    · intro k1 k2 h1 h2 a m1 m2
      rw [hmo] at h1 h2
      obtain ⟨hb1, e1⟩ := hmemb k1 a m1
      obtain ⟨hb2, e2⟩ := hmemb k2 a m2
      have hp1 : 0 < 2 ^ k1 := Nat.pow_pos (by decide)
      have hp2 : 0 < 2 ^ k2 := Nat.pow_pos (by decide)
      rcases Nat.lt_trichotomy k1 k2 with hlt | heq | hgt
      · have := hapart k1 k2 h1 h2 hlt hb1 hb2
        omega
      · exact heq
      · have := hapart k2 k1 h2 h1 hgt hb2 hb1
        omega
    · intro k _
      split
      · exact List.nodup_singleton _
      · exact List.nodup_nil
  · rw [ha, hmo]
    refine ⟨hhi, ?_, ?_, ?_, ?_, ?_, ?_⟩
    · intro k hk a hmem
      obtain ⟨hb, e⟩ := hmemb k a hmem
      rw [e]
      exact hfit k hk hb
    · intro r hr
      exact absurd hr (List.not_mem_nil r)
    · intro k1 k2 h1 h2 a1 a2 m1 m2 hne
      obtain ⟨hb1, e1⟩ := hmemb k1 a1 m1
      obtain ⟨hb2, e2⟩ := hmemb k2 a2 m2
      simp only [apart_runs]
      rcases Nat.lt_trichotomy k1 k2 with hlt | heq | hgt
      · have := hapart k1 k2 h1 h2 hlt hb1 hb2
        omega
      · exfalso
        subst heq
        exact hne (e1.trans e2.symm)
      · have := hapart k2 k1 h2 h1 hgt hb2 hb1
        omega
    · intro k _ a _ r hr
      exact absurd hr (List.not_mem_nil r)
    · exact List.Pairwise.nil
    · intro k hk a hmem hb
      obtain ⟨hb1, e1⟩ := hmemb k a hmem
      obtain ⟨_, e2⟩ := hmemb k _ hb
      rw [← e1] at e2
      have hf1 := hfit k hk hb1
      rw [← e1] at hf1
      exact calc_buddy_index_ne_self (N - 1) a k (by omega) hf1 e2
  · rw [hf, hmo]
    unfold listed_blocks
    rw [bit_sum_eq_mod, hmod]

/-- Along served call sequences from `buddy_init` on at most `2 ^ 20` blocks the
invariant holds. -/
theorem served_reach_inv (space : region) (N : Nat) (h2 : 2 ≤ N) (hN : N ≤ 2 ^ 20)
    (s : buddy_state) (out : List block_area) (hr : served_reach space N s out) :
    ∃ lists, buddy_inv s out lists := by
  induction hr with
  | init s hs => exact buddy_init_inv space N h2 hN s hs
  | alloc s s1 out order k h _ hcount hord hk hne halloc ih =>
      obtain ⟨lists, inv⟩ := ih
      obtain ⟨h', s1', lists1, halloc', _, _, inv1⟩ :=
        buddy_alloc_inv s out lists inv order k hcount hord hk hne
      rw [halloc] at halloc'
      have e := Prod.mk.inj (Option.some.inj halloc')
      rw [e.1, e.2]
      exact ⟨lists1, inv1⟩
  | free s s1 out h r _ hmem hfree ih =>
      obtain ⟨lists, inv⟩ := ih
      obtain ⟨s1', lists1, hfree', inv1⟩ := buddy_free_inv s out lists inv h hmem
      rw [hfree] at hfree'
      have e := Prod.mk.inj (Option.some.inj hfree')
      rw [e.2]
      exact ⟨lists1, inv1⟩

/-! ## What holds along served call sequences -/

theorem list_walk_linked (s : buddy_state) : ∀ (l : List Nat) (fuel head : Nat),
    linked s head l → l.length ≤ fuel → list_walk s fuel head = l := by
  intro l
  induction l with
  | nil =>
      intro fuel head h _
      have h0 : head = NULL_INDEX := h
      cases fuel with
      | zero => rfl
      | succ f => simp only [list_walk, h0, if_true]
  | cons a l ih =>
      intro fuel head h hlen
      obtain ⟨h1, h2, h3⟩ := h
      subst h1
      obtain ⟨f, rfl⟩ : ∃ f, fuel = f + 1 := ⟨fuel - 1, by
        simp only [List.length_cons] at hlen; omega⟩
      simp only [List.length_cons] at hlen
      simp only [list_walk, h2, if_false]
      rw [ih f _ h3 (by omega)]

theorem free_list_eq (s : buddy_state) (lists : Nat → List Nat) (ok : lists_ok s lists)
    (k : Nat) (hk : k ≤ s.max_order) : free_list s k = lists k := by
  unfold free_list
  apply list_walk_linked s _ _ _ (ok.chain k hk)
  exact length_le_of_nodup_lt _ _ (ok.nodup k hk) (fun a ha => by
    have := ok.inside k hk a ha
    omega)

theorem free_list_blocks_eq (s : buddy_state) (lists : Nat → List Nat) (ok : lists_ok s lists) :
    free_list_blocks s = listed_blocks lists s.max_order := by
  unfold free_list_blocks listed_blocks
  congr 1
  apply List.map_congr_left
  intro k hk
  rw [free_list_eq s lists ok k (by
    have := List.mem_range.1 hk
    omega)]

/-- Free-count conservation along served call sequences: the free count is the
number of blocks on the free lists. -/
theorem served_free_count (space : region) (N : Nat) (h2 : 2 ≤ N) (hN : N ≤ 2 ^ 20)
    (s : buddy_state) (out : List block_area) (hr : served_reach space N s out) :
    s.free_block_count = free_list_blocks s := by
  obtain ⟨lists, inv⟩ := served_reach_inv space N h2 hN s out hr
  rw [free_list_blocks_eq s lists inv.ok]
  exact inv.count

/-- Along served call sequences every free run is aligned and inside the region,
and no two free runs meet. -/
theorem served_free_runs (space : region) (N : Nat) (h2 : 2 ≤ N) (hN : N ≤ 2 ^ 20)
    (s : buddy_state) (out : List block_area) (hr : served_reach space N s out) :
    (∀ k, k ≤ s.max_order → ∀ a, a ∈ free_list s k →
        1 ≤ a ∧ a + 2 ^ k ≤ s.alloc_block_count + 1)
    ∧ (∀ k1 k2, k1 ≤ s.max_order → k2 ≤ s.max_order → ∀ a1 a2,
        a1 ∈ free_list s k1 → a2 ∈ free_list s k2 → (a1, k1) ≠ (a2, k2) →
        a1 + 2 ^ k1 ≤ a2 ∨ a2 + 2 ^ k2 ≤ a1) := by
  obtain ⟨lists, inv⟩ := served_reach_inv space N h2 hN s out hr
  constructor
  · intro k hk a ha
    rw [free_list_eq s lists inv.ok k hk] at ha
    have := inv.runs.free_fit k hk a ha
    exact ⟨this.2.1, this.2.2⟩
  · intro k1 k2 h1 hk2 a1 a2 m1 m2 hne
    rw [free_list_eq s lists inv.ok k1 h1] at m1
    rw [free_list_eq s lists inv.ok k2 hk2] at m2
    have hne2 : a1 ≠ a2 := by
      intro e
      subst e
      exact hne (by rw [inv.ok.apart k1 k2 h1 hk2 a1 m1 m2])
    exact inv.runs.free_free k1 k2 h1 hk2 a1 a2 m1 m2 hne2

/-- Along served call sequences no free run has its buddy on the free list of
its order. -/
theorem served_no_buddies (space : region) (N : Nat) (h2 : 2 ≤ N) (hN : N ≤ 2 ^ 20)
    (s : buddy_state) (out : List block_area) (hr : served_reach space N s out) :
    ∀ k, k ≤ s.max_order → ∀ a, a ∈ free_list s k → calc_buddy_index a k ∉ free_list s k := by
  obtain ⟨lists, inv⟩ := served_reach_inv space N h2 hN s out hr
  intro k hk a ha
  rw [free_list_eq s lists inv.ok k hk] at ha ⊢
  exact inv.runs.no_pair k hk a ha

/-- Along served call sequences `buddy_free` of a hook handed out returns 0 and
the sequence stays served. -/
theorem served_free_returns (space : region) (N : Nat) (h2 : 2 ≤ N) (hN : N ≤ 2 ^ 20)
    (s : buddy_state) (out : List block_area) (hr : served_reach space N s out)
    (h : block_area) (hmem : h ∈ out) :
    ∃ s1, buddy_free s h = some (0, s1) ∧ served_reach space N s1 (out.erase h) := by
  obtain ⟨lists, inv⟩ := served_reach_inv space N h2 hN s out hr
  obtain ⟨s1, _, hfree, _⟩ := buddy_free_inv s out lists inv h hmem
  exact ⟨s1, hfree, served_reach.free s s1 out h 0 hr hmem hfree⟩

/-- C1 (amended): in every state reached from `buddy_init(region, N)` with
`2 ≤ N ≤ 2 ^ 20` by served `buddy_alloc` calls and `buddy_free` calls on hooks
returned earlier and not yet freed, whenever `free_block_count ≥ 2 ^ order`,
`order ≤ max_order` and some free list of an order `k` in `order .. max_order` is
non-empty, the upward scan of `buddy_alloc(order)` stops at an order `k1` with
`order ≤ k1 ≤ k`, the call returns a hook with a non-null address and the
requested order, and the sequence stays served. -/
theorem buddy_alloc_served (space : region) (N : Nat) (h2 : 2 ≤ N) (hN : N ≤ 2 ^ 20)
    (s : buddy_state) (out : List block_area) (hr : served_reach space N s out)
    (order k : Nat) (hcount : s.free_block_count ≥ 2 ^ order) (hord : order ≤ k)
    (hk : k ≤ s.max_order) (hne : s.free_heads k ≠ NULL_INDEX) :
    (∃ k1, order ≤ k1 ∧ k1 ≤ k
        ∧ scan_heads s.free_heads (MAX_ORDER_LIMIT + 1) order = some k1)
    ∧ ∃ h s1, buddy_alloc s order = some (h, s1) ∧ h.addr ≠ NULL ∧ h.order = order
        ∧ served_reach space N s1 (h :: out) := by
  obtain ⟨lists, inv⟩ := served_reach_inv space N h2 hN s out hr
  constructor
  · have hmax := max_order_lt_of_ok s lists inv.ok
    have hlim : MAX_ORDER_LIMIT = 25 := rfl
    have hex : ∃ j, order ≤ j ∧ s.free_heads j ≠ NULL_INDEX := ⟨k, hord, hne⟩
    have hk1 : Nat.find hex ≤ k := Nat.find_min' hex ⟨hord, hne⟩
    have hord1 : order ≤ Nat.find hex := (Nat.find_spec hex).1
    have hne1 : s.free_heads (Nat.find hex) ≠ NULL_INDEX := (Nat.find_spec hex).2
    have hempty : ∀ j, order ≤ j → j < Nat.find hex → s.free_heads j = NULL_INDEX := by
      intro j h1 h2
      by_contra hc
      exact Nat.find_min hex h2 ⟨h1, hc⟩
    generalize Nat.find hex = k1 at hk1 hord1 hne1 hempty
    refine ⟨k1, hord1, hk1, ?_⟩
    obtain ⟨d, rfl⟩ : ∃ d, k1 = order + d := ⟨k1 - order, by omega⟩
    exact scan_heads_finds s.free_heads d (MAX_ORDER_LIMIT + 1) order (by omega) (by omega)
      hempty hne1
  · obtain ⟨h, s1, _, halloc, hnull, hor, _⟩ :=
      buddy_alloc_inv s out lists inv order k hcount hord hk hne
    exact ⟨h, s1, halloc, hnull, hor,
      served_reach.alloc s s1 out order k h hr hcount hord hk hne halloc⟩

/-- Witness of C1 (amended): right after `buddy_init` on a zeroed region of four
blocks an order-0 request is served from the order-0 list; and right after
`buddy_init` on a zeroed region of five blocks, where the lists of the orders 0
and 1 are empty, an order-0 request is served from the order-2 list, which the
upward scan reaches. -/
theorem buddy_alloc_served_witness :
    (four_init.free_block_count ≥ 2 ^ 0 ∧ 0 ≤ four_init.max_order
      ∧ four_init.free_heads 0 ≠ NULL_INDEX
      ∧ (∃ k1, 0 ≤ k1 ∧ k1 ≤ 0
          ∧ scan_heads four_init.free_heads (MAX_ORDER_LIMIT + 1) 0 = some k1)
      ∧ ∃ h s1, buddy_alloc four_init 0 = some (h, s1) ∧ h.addr ≠ NULL ∧ h.order = 0
          ∧ served_reach zero_region 4 s1 (h :: []))
    ∧ (five_init.free_block_count ≥ 2 ^ 0 ∧ 2 ≤ five_init.max_order
      ∧ five_init.free_heads 0 = NULL_INDEX ∧ five_init.free_heads 1 = NULL_INDEX
      ∧ five_init.free_heads 2 ≠ NULL_INDEX
      ∧ scan_heads five_init.free_heads (MAX_ORDER_LIMIT + 1) 0 = some 2
      ∧ (∃ k1, 0 ≤ k1 ∧ k1 ≤ 2
          ∧ scan_heads five_init.free_heads (MAX_ORDER_LIMIT + 1) 0 = some k1)
      ∧ ∃ h s1, buddy_alloc five_init 0 = some (h, s1) ∧ h.addr ≠ NULL ∧ h.order = 0
          ∧ served_reach zero_region 5 s1 (h :: [])) :=
  ⟨⟨by decide, by decide, by decide,
      buddy_alloc_served zero_region 4 (by decide) (by decide) four_init []
        (served_reach.init four_init rfl) 0 0 (by decide) (by decide) (by decide) (by decide)⟩,
    ⟨by decide, by decide, by decide, by decide, by decide, by decide,
      buddy_alloc_served zero_region 5 (by decide) (by decide) five_init []
        (served_reach.init five_init rfl) 0 2 (by decide) (by decide) (by decide) (by decide)⟩⟩

/-! ## Runs of the code on concrete call sequences -/

/-- C1: after `buddy_init` on four blocks, two order-0 allocations and the free
of the first hook, two blocks are free and `max_order` is 1, yet the order-1
list is empty: the scan of `buddy_alloc(1)` finds no list up to `max_order`.
On a zeroed region it runs off the end of `free_heads`; on a region that held 5
where `free_heads[2]` lies it stops at order 2, above `max_order`, and the call
returns the address of block 0. -/
theorem buddy_alloc_scan_passes_max_order :
    (fragmented zero_region).map (fun t =>
        (t.2.2.1, t.2.2.2.free_block_count, t.2.2.2.max_order, t.2.2.2.free_heads 1,
          scan_heads t.2.2.2.free_heads (MAX_ORDER_LIMIT + 1) 1))
      = some (0, 2, 1, NULL_INDEX, none)
    ∧ (fragmented_alloc zero_region).isNone = true
    ∧ (fragmented (stale_region 2 5)).map (fun t =>
        (t.2.2.1, t.2.2.2.free_block_count, t.2.2.2.max_order, t.2.2.2.free_heads 1,
          scan_heads t.2.2.2.free_heads (MAX_ORDER_LIMIT + 1) 1))
      = some (0, 2, 1, NULL_INDEX, some 2)
    ∧ (fragmented_alloc (stale_region 2 5)).map (fun t => (t.1, get_index t.2 t.1.addr))
      = some (⟨(stale_region 2 5).base, 1⟩, 0) :=
  ⟨rfl, rfl, rfl, rfl⟩

/-- C4: on a region that held 5 where `free_heads[3]` lies, the call sequence
`crossed` ends with a `buddy_free` that returns 0, and in the state it leaves
the order-2 free list holds both index 5 and its buddy, index 1. -/
theorem buddy_free_leaves_buddies :
    (crossed (stale_region 3 5)).map (fun t =>
        (t.2.1, free_list t.2.2 2, calc_buddy_index 5 2, t.2.2.max_order))
      = some ([0, 0, 0], [4, 5, 1], 1, 2) :=
  rfl

/-- C8: on a region that held 5 where `free_heads[2]` lies, the call sequence
`fragmented_alloc` reaches a state whose free count is 0 while the free lists of
orders 0 and 1 hold runs of 4 blocks in all. -/
theorem free_count_not_conserved :
    (fragmented_alloc (stale_region 2 5)).map (fun t =>
        (t.2.free_block_count, free_list t.2 0, free_list t.2 1, t.2.max_order,
          free_list_blocks t.2))
      = some (0, [3, 2], [2], 1, 4) :=
  rfl

/-- C9: on a region that held 5 where `free_heads[2]` lies, the call sequence
`fragmented_alloc` reaches a state in which the order-1 free list holds the run
at index 2, blocks 2 and 3, while the order-0 free list holds the runs at
indices 3 and 2. -/
theorem free_runs_overlap :
    (fragmented_alloc (stale_region 2 5)).map (fun t =>
        (free_list t.2 1, free_list t.2 0, t.2.alloc_block_count))
      = some ([2], [3, 2], 3)
    ∧ (2 ≤ 3 ∧ 3 < 2 + 2 ^ 1) :=
  ⟨rfl, by decide⟩

/-- C10: after `buddy_init` the cursor is 128; `kernel_ctrl_alloc(BLOCK_SIZE)`
returns the non-null address `mem_space + 128`, a region of 4096 bytes that ends
at offset 4224, beyond block 0, and leaves the cursor at 4224. -/
theorem kernel_ctrl_alloc_passes_block_zero :
    (buddy_init zero_region 4).map (fun s =>
        (s.ctrl_offset, (kernel_ctrl_alloc s BLOCK_SIZE).1,
          (kernel_ctrl_alloc s BLOCK_SIZE).2.ctrl_offset))
      = some (128, zero_region.base + 128, BLOCK_SIZE + 128) :=
  rfl

/-! ## The buddy pairing rule -/

theorem dvd_pred_of_guard (i k : Nat) (hg : ¬ (k ≠ 0 ∧ i % 2 ^ k ≠ 1)) : 2 ^ k ∣ (i - 1) := by
  by_cases hk : k = 0
  · subst hk
    simp
  · have hm : i % 2 ^ k = 1 := by
      by_contra hc
      exact hg ⟨hk, hc⟩
    refine ⟨i / 2 ^ k, ?_⟩
    have := Nat.div_add_mod i (2 ^ k)
    rw [hm] at this
    omega

/-- C20: for a block index `i ≥ 1` and an order `k` with `i + 2 ^ k` inside the
32-bit words, `calc_buddy_index i k` is the null index when `k ≠ 0` and
`i mod 2 ^ k ≠ 1`; otherwise it is `i + 2 ^ k` if `i mod 2 ^ (k + 1) = 1` and
`i - 2 ^ k` (with `2 ^ k ≤ i`) if not. -/
theorem calc_buddy_index_rule (i k : Nat) (h1 : 1 ≤ i) (hlt : i + 2 ^ k < WORD) :
    ((k ≠ 0 ∧ i % 2 ^ k ≠ 1) → calc_buddy_index i k = NULL_INDEX)
    ∧ (¬ (k ≠ 0 ∧ i % 2 ^ k ≠ 1) → i % 2 ^ (k + 1) = 1 → calc_buddy_index i k = i + 2 ^ k)
    ∧ (¬ (k ≠ 0 ∧ i % 2 ^ k ≠ 1) → i % 2 ^ (k + 1) ≠ 1 →
        2 ^ k ≤ i ∧ calc_buddy_index i k = i - 2 ^ k) := by
  have hp0 : 0 < 2 ^ k := Nat.pow_pos (by decide)
  have h2 : 1 < 2 ^ (k + 1) :=
    calc 1 < 2 ^ 1 := by decide
      _ ≤ 2 ^ (k + 1) := Nat.pow_le_pow_right (by decide) (by omega)
  refine ⟨?_, ?_, ?_⟩
  · intro hg
    unfold calc_buddy_index power_of_two
    rw [if_pos ⟨hg.2, hg.1⟩]
  · intro hg hm
    rcases calc_buddy_index_fit i k (dvd_pred_of_guard i k hg) h1 hlt with ⟨_, h⟩ | ⟨⟨c, hc⟩, hge, _⟩
    · exact h
    · exfalso
      have hpow : (2 : Nat) ^ (k + 1) = 2 ^ k * 2 := Nat.pow_succ 2 k
      have hi : i = 2 ^ (k + 1) * c + (2 ^ k + 1) := by omega
      rw [hi, Nat.mul_add_mod] at hm
      by_cases hk0 : k = 0
      · subst hk0
        simp at hm
      · have h3 : 1 < 2 ^ k :=
          calc 1 < 2 ^ 1 := by decide
            _ ≤ 2 ^ k := Nat.pow_le_pow_right (by decide) (by omega)
        rw [Nat.mod_eq_of_lt (by omega)] at hm
        omega
  · intro hg hm
    rcases calc_buddy_index_fit i k (dvd_pred_of_guard i k hg) h1 hlt with ⟨⟨c, hc⟩, _⟩ | ⟨_, hge, h⟩
    · exfalso
      apply hm
      have hi : i = 2 ^ (k + 1) * c + 1 := by omega
      rw [hi, Nat.mul_add_mod]
      exact Nat.mod_eq_of_lt h2
    · exact ⟨by omega, by omega⟩

theorem calc_buddy_index_rule_witness :
    1 ≤ 5 ∧ 5 + 2 ^ 2 < WORD
    ∧ ((2 ≠ 0 ∧ 5 % 2 ^ 2 ≠ 1) → calc_buddy_index 5 2 = NULL_INDEX)
    ∧ (¬ (2 ≠ 0 ∧ 5 % 2 ^ 2 ≠ 1) → 5 % 2 ^ (2 + 1) = 1 → calc_buddy_index 5 2 = 5 + 2 ^ 2)
    ∧ (¬ (2 ≠ 0 ∧ 5 % 2 ^ 2 ≠ 1) → 5 % 2 ^ (2 + 1) ≠ 1 →
        2 ^ 2 ≤ 5 ∧ calc_buddy_index 5 2 = 5 - 2 ^ 2) :=
  ⟨by decide, by decide, calc_buddy_index_rule 5 2 (by decide) (by decide)⟩

/-! ## The facade: `kmalloc`, `kmem_cache_create`, `kmem_cache_error` -/

theorem kmalloc_order_spec (size : Nat) : ∀ (fuel order : Nat), size ≤ 2 ^ (order + fuel - 1) →
    1 ≤ fuel → (order ≠ 0 → 2 ^ (order - 1) < size) →
    ∃ k, kmalloc_order fuel size order = some k ∧ order ≤ k ∧ size ≤ 2 ^ k
      ∧ (k ≠ 0 → 2 ^ (k - 1) < size) := by
  intro fuel
  induction fuel with
  | zero => intro order _ h; omega
  | succ n ih =>
    intro order hs _ hlow
    unfold kmalloc_order
    by_cases hlt : power_of_two order < size
    · rw [if_pos hlt]
      have hn : 1 ≤ n := by
        rcases Nat.eq_zero_or_pos n with h0 | h0
        · subst h0
          simp only [power_of_two] at hlt
          simp only [Nat.add_zero, Nat.add_sub_cancel] at hs
          omega
        · exact h0
      obtain ⟨k, hk, hle, hsz, hl⟩ := ih (order + 1) (by
        have : order + 1 + n - 1 = order + (n + 1) - 1 := by omega
        rw [this]; exact hs) hn (by
        intro _
        simp only [power_of_two] at hlt
        simpa using hlt)
      exact ⟨k, hk, by omega, hsz, hl⟩
    · rw [if_neg hlt]
      simp only [power_of_two] at hlt
      exact ⟨order, rfl, le_refl _, by omega, hlow⟩

/-- For a request of 17 to `2 ^ 17` bytes `kmalloc` marks the class of the least
order `k` in 5 .. 17 with `2 ^ k ≥ size` and allocates from its cache. -/
theorem kmalloc_class (s : kmem_state) (size : Nat) (h1 : 17 ≤ size) (h2 : size ≤ 2 ^ 17) :
    ∃ k, MIN_BUFF_ORDER ≤ k ∧ k ≤ MAX_BUFF_ORDER ∧ size ≤ 2 ^ k ∧ 2 ^ (k - 1) < size
      ∧ k - MIN_BUFF_ORDER < SIZE_N_COUNT
      ∧ kmalloc s size
          = (kmem_cache_alloc_obj
              { s with used := Function.update s.used (k - MIN_BUFF_ORDER) 1 }
              (buffer_cache s (k - MIN_BUFF_ORDER))).bind fun r =>
              if r.1 = NULL then some (NULL, r.2) else some (r.1, r.2) := by
  obtain ⟨k, hk, _, hsz, hl⟩ := kmalloc_order_spec size 32 0
    (by have : (2:Nat) ^ 17 ≤ 2 ^ (0 + 32 - 1) := Nat.pow_le_pow_right (by norm_num) (by norm_num)
        omega) (by norm_num) (by intro h; exact absurd rfl h)
  have hk5 : 5 ≤ k := by
    by_contra hc
    have : (2:Nat) ^ k ≤ 2 ^ 4 := Nat.pow_le_pow_right (by norm_num) (by omega)
    norm_num at this; omega
  have hk17 : k ≤ 17 := by
    by_contra hc
    have h3 : (2:Nat) ^ 17 ≤ 2 ^ (k - 1) := Nat.pow_le_pow_right (by norm_num) (by omega)
    have := hl (by omega)
    omega
  have hidx : (k + WORD - MIN_BUFF_ORDER) % WORD = k - MIN_BUFF_ORDER := by
    simp only [WORD, MIN_BUFF_ORDER]; omega
  refine ⟨k, hk5, hk17, hsz, hl (by omega), ?_, ?_⟩
  · simp only [MIN_BUFF_ORDER, SIZE_N_COUNT, MAX_BUFF_ORDER]; omega
  · unfold kmalloc
    rw [if_neg (by omega), hk, Option.some_bind]
    show (if (k + WORD - MIN_BUFF_ORDER) % WORD < SIZE_N_COUNT then _ else _) = _
    rw [hidx, if_pos (by simp only [MIN_BUFF_ORDER, SIZE_N_COUNT, MAX_BUFF_ORDER]; omega)]
    rfl

/-- C11: after `kmem_init` on 64 blocks, `kmalloc(70)` marks class 2 (`Buffer_7`)
and returns an object, while `kmalloc(16)` and `kmalloc(1)` leave the loop with
an order below `MIN_BUFF_ORDER` and index `buffers` outside its 13 entries. -/
theorem kmalloc_below_min_order :
    boot_kmalloc 70 = some (some (315436, [0, 0, 1, 0, 0, 0, 0, 0, 0, 0, 0, 0, 0]))
    ∧ kmalloc_order 32 16 0 = some 4
    ∧ (4 + WORD - MIN_BUFF_ORDER) % WORD = 4294967295
    ∧ boot_kmalloc 16 = some none
    ∧ kmalloc_order 32 1 0 = some 0
    ∧ (0 + WORD - MIN_BUFF_ORDER) % WORD = 4294967291
    ∧ boot_kmalloc 1 = some none := by
  decide!

/-- C12: after `kmem_init` on 64 blocks the global cache list is empty and the
slab of the cache of caches holds no object; `kmem_cache_create("T", 0, NULL, NULL)`
returns the non-null pointer 323628, takes an object from that slab and puts the
cache at the head of the global list.  A null name with size 5 is rejected. -/
theorem kmem_cache_create_accepts_size_zero :
    boot_create (some [84]) 0
      = some [[0], [0], [], [], [323628], [323628], [], [1], []]
    ∧ boot_create none 5 = some [[0], [0], [], [], [0], [0], [0], [], []] := by
  decide!

/-- C13 (amended): `kmem_cache_error` returns the error code latched on the
cache and leaves the state as it is, the error field included; a call that
follows it returns the same code. -/
theorem kmem_cache_error_keeps (s : kmem_state) (cachep : Nat) (h : cachep ≠ NULL) :
    kmem_cache_error s cachep = (((s.caches cachep).error : Int), s)
    ∧ kmem_cache_error (kmem_cache_error s cachep).2 cachep
        = (((s.caches cachep).error : Int), s) := by
  have h1 : kmem_cache_error s cachep = (((s.caches cachep).error : Int), s) := by
    unfold kmem_cache_error
    rw [if_neg h]
  rw [h1]
  exact ⟨rfl, h1⟩

/-- Witness of C13 (amended): the cache at address 4096 of a memory whose
records are all zero, and of `latched_mem`, where it has the error code 7
latched: both calls return 7 there and leave the code latched. -/
theorem kmem_cache_error_keeps_witness :
    (4096 : Nat) ≠ NULL
    ∧ kmem_cache_error zero_mem 4096 = (((zero_mem.caches 4096).error : Int), zero_mem)
    ∧ kmem_cache_error (kmem_cache_error zero_mem 4096).2 4096
        = (((zero_mem.caches 4096).error : Int), zero_mem)
    ∧ (latched_mem.caches 4096).error = 7
    ∧ kmem_cache_error latched_mem 4096
        = (((latched_mem.caches 4096).error : Int), latched_mem)
    ∧ kmem_cache_error (kmem_cache_error latched_mem 4096).2 4096
        = (((latched_mem.caches 4096).error : Int), latched_mem) :=
  ⟨by decide, (kmem_cache_error_keeps zero_mem 4096 (by decide)).1,
    (kmem_cache_error_keeps zero_mem 4096 (by decide)).2, rfl,
    kmem_cache_error_keeps latched_mem 4096 (by decide)⟩

/-- C13 (counterexample): after a `kmem_cache_free` of a pointer that no slab
of the cache holds, `kmem_cache_error` returns 7 (`err_cache_obj_free`), the
error field is still 7, and the next call returns 7, not 0. -/
theorem kmem_cache_error_not_cleared : error_twice = some (7, 7, 7) := by
  decide!

/-! ## What the buddy operations leave unchanged -/

theorem same_region_refl (s : buddy_state) : same_region s s :=
  ⟨rfl, rfl, rfl, rfl, rfl⟩

theorem same_region_trans (s t u : buddy_state) (h1 : same_region s t) (h2 : same_region t u) :
    same_region s u := by
  obtain ⟨a1, a2, a3, a4, a5⟩ := h1
  obtain ⟨b1, b2, b3, b4, b5⟩ := h2
  exact ⟨b1.trans a1, b2.trans a2, b3.trans a3, b4.trans a4, b5.trans a5⟩

theorem remove_region (s s1 : buddy_state) (b k r : Nat) (h : remove s b k = some (r, s1)) :
    same_region s s1 := by
  unfold remove at h
  split at h
  · simp only at h
    split at h
    · cases h
      exact same_region_refl s
    · split at h
      · cases h
      · cases h
        exact same_region_refl s
      · cases h
        unfold same_region null_next_index set_next_index
        split_ifs <;> exact ⟨rfl, rfl, rfl, rfl, rfl⟩
  · cases h

theorem put_first_region (s s1 : buddy_state) (b k : Nat) (h : put_first s b k = some s1) :
    same_region s s1 := by
  unfold put_first at h
  split_ifs at h
  cases h
  exact ⟨rfl, rfl, rfl, rfl, rfl⟩

theorem buddy_free_loop_region : ∀ (fuel : Nat) (s s1 : buddy_state) (i k b i1 k1 : Nat),
    buddy_free_loop fuel s i k b = some (s1, i1, k1) → same_region s s1 := by
  intro fuel
  induction fuel with
  | zero => intro s s1 i k b i1 k1 h; simp [buddy_free_loop] at h
  | succ n ih =>
    intro s s1 i k b i1 k1 h
    unfold buddy_free_loop at h
    by_cases hb : b ≠ NULL_INDEX
    · rw [if_pos hb] at h
      simp only at h
      cases hr : remove s (calc_buddy_index (if b < i then b else i) (k + 1)) (k + 1) with
      | none => rw [hr] at h; simp at h
      | some r =>
        rw [hr] at h
        simp only [Option.some_bind] at h
        exact same_region_trans _ _ _ (remove_region s r.2 _ _ r.1 hr) (ih _ _ _ _ _ _ _ h)
    · rw [if_neg hb] at h
      cases h
      exact same_region_refl s

theorem split_loop_region (i order : Nat) : ∀ (d : Nat) (s s1 : buddy_state),
    split_loop i order d s = some s1 → same_region s s1 := by
  intro d
  induction d with
  | zero => intro s s1 h; simp [split_loop] at h; subst h; exact same_region_refl s
  | succ n ih =>
    intro s s1 h
    unfold split_loop at h
    cases hp : put_first s (i + power_of_two (order + n)) (order + n) with
    | none => rw [hp] at h; simp at h
    | some t =>
      rw [hp] at h
      simp only [Option.some_bind] at h
      exact same_region_trans _ _ _ (put_first_region s t _ _ hp) (ih _ _ h)

/-- A `buddy_free` that returns leaves the region as it is; with status 0 it
adds `2 ^ order` to the free count, a 32-bit word, with another status it
changes nothing. -/
theorem buddy_free_region (s s1 : buddy_state) (h : block_area) (r : Int)
    (hf : buddy_free s h = some (r, s1)) :
    s1.mem_space = s.mem_space ∧ s1.alloc_block_count = s.alloc_block_count
    ∧ s1.max_order = s.max_order ∧ s1.ctrl_offset = s.ctrl_offset
    ∧ (r = 0 → s1.free_block_count = (s.free_block_count + 2 ^ h.order) % WORD)
    ∧ (r ≠ 0 → s1 = s) := by
  unfold buddy_free at hf
  simp only at hf
  by_cases hg : get_index s h.addr > NULL_INDEX ∧ get_index s h.addr ≤ s.alloc_block_count
  · rw [if_pos hg] at hf
    cases h1 : remove s (calc_buddy_index (get_index s h.addr) h.order) h.order with
    | none => rw [h1] at hf; simp at hf
    | some r1 =>
      rw [h1] at hf
      simp only [Option.some_bind] at hf
      cases h2 : buddy_free_loop (MAX_ORDER_LIMIT + 1) r1.2 (get_index s h.addr) h.order r1.1 with
      | none => rw [h2] at hf; simp at hf
      | some l =>
        rw [h2] at hf
        simp only [Option.some_bind] at hf
        cases h3 : put_first l.1 l.2.1 l.2.2 with
        | none => rw [h3] at hf; simp at hf
        | some s3 =>
          rw [h3] at hf
          simp only [Option.some_bind, Option.some.injEq, Prod.mk.injEq] at hf
          obtain ⟨hr, hs⟩ := hf
          have e1 := remove_region s r1.2 _ _ r1.1 h1
          have e2 := buddy_free_loop_region _ r1.2 l.1 _ _ _ l.2.1 l.2.2 h2
          have e3 := put_first_region l.1 s3 _ _ h3
          obtain ⟨a1, a2, a3, a4, a5⟩ :=
            same_region_trans _ _ _ (same_region_trans _ _ _ e1 e2) e3
          subst hs
          refine ⟨a1, a2, a3, a4, ?_, ?_⟩
          · intro _
            simp only [power_of_two, a5]
          · intro hne
            exact absurd hr.symm hne
  · rw [if_neg hg] at hf
    simp only [Option.some.injEq, Prod.mk.injEq] at hf
    obtain ⟨hr, hs⟩ := hf
    subst hs
    refine ⟨rfl, rfl, rfl, rfl, ?_, fun _ => rfl⟩
    intro h0
    rw [h0] at hr
    exact absurd hr (by decide)

/-- A `buddy_alloc` that returns leaves the region as it is; the address of its
hook is null or the address of a block, and a hook that is not null takes
`2 ^ order` from a free count that holds as much. -/
theorem buddy_alloc_region (s s1 : buddy_state) (order : Nat) (h : block_area)
    (ha : buddy_alloc s order = some (h, s1)) :
    s1.mem_space = s.mem_space ∧ s1.alloc_block_count = s.alloc_block_count
    ∧ s1.max_order = s.max_order ∧ s1.ctrl_offset = s.ctrl_offset
    ∧ h.order = order
    ∧ ((h.addr = NULL ∧ s1 = s)
      ∨ ((∃ i, h.addr = get_block s1 i) ∧ 2 ^ order ≤ s.free_block_count
          ∧ order ≤ s.max_order
          ∧ s1.free_block_count = s.free_block_count - 2 ^ order)) := by
  unfold buddy_alloc at ha
  simp only at ha
  by_cases hg : s.free_block_count ≥ power_of_two order ∧ order ≤ s.max_order
  swap
  · rw [if_neg hg] at ha
    simp only [Option.some.injEq, Prod.mk.injEq] at ha
    obtain ⟨hh, hs⟩ := ha
    subst hs hh
    exact ⟨rfl, rfl, rfl, rfl, rfl, Or.inl ⟨rfl, rfl⟩⟩
  rw [if_pos hg] at ha
  by_cases hlim : order < MAX_ORDER_LIMIT
  swap
  · rw [if_neg hlim] at ha
    simp at ha
  rw [if_pos hlim] at ha
  by_cases hhead : s.free_heads order ≠ NULL_INDEX
  · rw [if_pos hhead] at ha
    cases h1 : remove s (s.free_heads order) order with
    | none => rw [h1] at ha; simp at ha
    | some r =>
      rw [h1] at ha
      simp only [Option.some_bind, Option.some.injEq, Prod.mk.injEq] at ha
      obtain ⟨hh, hs⟩ := ha
      obtain ⟨a1, a2, a3, a4, a5⟩ := remove_region s r.2 _ _ r.1 h1
      subst hs hh
      refine ⟨a1, a2, a3, a4, rfl, Or.inr ⟨⟨r.1, rfl⟩, hg.1, hg.2, ?_⟩⟩
      show r.2.free_block_count - power_of_two order = _
      rw [a5]; rfl
  · rw [if_neg hhead] at ha
    cases h0 : scan_heads s.free_heads (MAX_ORDER_LIMIT + 1) order with
    | none => rw [h0] at ha; simp at ha
    | some k =>
      rw [h0] at ha
      simp only [Option.some_bind] at ha
      cases h1 : remove s (s.free_heads k) k with
      | none => rw [h1] at ha; simp at ha
      | some r =>
        rw [h1] at ha
        simp only [Option.some_bind] at ha
        cases h2 : split_loop r.1 order (k - order) r.2 with
        | none => rw [h2] at ha; simp at ha
        | some s2 =>
          rw [h2] at ha
          simp only [Option.some_bind, Option.some.injEq, Prod.mk.injEq] at ha
          obtain ⟨hh, hs⟩ := ha
          obtain ⟨a1, a2, a3, a4, a5⟩ := same_region_trans _ _ _
            (remove_region s r.2 _ _ r.1 h1) (split_loop_region _ _ _ r.2 s2 h2)
          subst hs hh
          refine ⟨a1, a2, a3, a4, rfl, Or.inr ⟨⟨r.1, rfl⟩, hg.1, hg.2, ?_⟩⟩
          show s2.free_block_count - power_of_two order = _
          rw [a5]; rfl

/-! ## Slab lists: `slab_detach`, `slab_attach`, `slab_change_type` -/

theorem same_slab_refl (x : slab_t) : same_slab x x := ⟨rfl, rfl, rfl, rfl, rfl, rfl⟩

theorem same_cache_refl (x : kmem_cache_t) : same_cache x x :=
  ⟨rfl, rfl, rfl, rfl, rfl, rfl, rfl, rfl, rfl⟩

theorem same_slab_trans (x y z : slab_t) (h1 : same_slab x y) (h2 : same_slab y z) :
    same_slab x z :=
  ⟨h2.cache.trans h1.cache, h2.my_hook.trans h1.my_hook, h2.used_count.trans h1.used_count,
    h2.offset.trans h1.offset, h2.bitmap.trans h1.bitmap, h2.objects.trans h1.objects⟩

theorem same_cache_trans (x y z : kmem_cache_t) (h1 : same_cache x y) (h2 : same_cache y z) :
    same_cache x z :=
  ⟨h2.name.trans h1.name, h2.object_size.trans h1.object_size,
    h2.bitmap_length.trans h1.bitmap_length, h2.slab_order.trans h1.slab_order,
    h2.obj_per_slab.trans h1.obj_per_slab, h2.max_alignments.trans h1.max_alignments,
    h2.ctor.trans h1.ctor, h2.dtor.trans h1.dtor, h2.next.trans h1.next⟩

theorem same_records_refl (s : kmem_state) : same_records s s :=
  ⟨rfl, rfl, rfl, fun _ => same_slab_refl _, fun _ => same_cache_refl _⟩

theorem same_records_trans (s t u : kmem_state) (h1 : same_records s t)
    (h2 : same_records t u) : same_records s u :=
  ⟨h2.kmem_ctrl.trans h1.kmem_ctrl, h2.bitmaps.trans h1.bitmaps, h2.used.trans h1.used,
    fun q => same_slab_trans _ _ _ (h1.slabs q) (h2.slabs q),
    fun d => same_cache_trans _ _ _ (h1.caches d) (h2.caches d)⟩

theorem relinked_refl (s : kmem_state) : relinked s s := ⟨rfl, same_records_refl s⟩

theorem relinked_trans (s t u : kmem_state) (h1 : relinked s t) (h2 : relinked t u) :
    relinked s u :=
  ⟨h2.buddy.trans h1.buddy, same_records_trans s t u h1.records h2.records⟩

/-- Records of slabs that differ at one address only, in `next` and `type`. -/
theorem same_slab_update (m : Nat → slab_t) (p : Nat) (v : slab_t) (hv : same_slab (m p) v)
    (q : Nat) : same_slab (m q) (Function.update m p v q) := by
  by_cases hq : q = p
  · subst hq
    rw [Function.update_same]
    exact hv
  · rw [Function.update_noteq hq]
    exact same_slab_refl _

theorem same_cache_update (m : Nat → kmem_cache_t) (c : Nat) (v : kmem_cache_t)
    (hv : same_cache (m c) v) (d : Nat) : same_cache (m d) (Function.update m c v d) := by
  by_cases hd : d = c
  · subst hd
    rw [Function.update_same]
    exact hv
  · rw [Function.update_noteq hd]
    exact same_cache_refl _

theorem slab_chain_congr (m m1 : Nat → slab_t) : ∀ (l : List Nat) (head : Nat),
    (∀ a, a ∈ l → (m1 a).next = (m a).next) → slab_chain m head l → slab_chain m1 head l := by
  intro l
  induction l with
  | nil => intro head _ h; exact h
  | cons a l ih =>
    intro head hn h
    obtain ⟨h1, h2, h3⟩ := h
    refine ⟨h1, h2, ?_⟩
    rw [hn a (List.mem_cons_self a l)]
    exact ih _ (fun b hb => hn b (List.mem_cons_of_mem a hb)) h3

theorem slab_chain_ne_null (m : Nat → slab_t) : ∀ (l : List Nat) (head : Nat),
    slab_chain m head l → ∀ a, a ∈ l → a ≠ NULL := by
  intro l
  induction l with
  | nil => intro head _ a ha; cases ha
  | cons b l ih =>
    intro head h a ha
    obtain ⟨_, h2, h3⟩ := h
    rcases List.mem_cons.1 ha with rfl | hm
    · exact h2
    · exact ih _ h3 a hm

theorem slab_chain_null (m : Nat → slab_t) (l : List Nat) (h : slab_chain m NULL l) :
    l = [] := by
  cases l with
  | nil => rfl
  | cons a l =>
    obtain ⟨h1, h2, _⟩ := h
    exact absurd h1.symm h2

theorem slab_chain_head (m : Nat → slab_t) (l : List Nat) (head : Nat)
    (h : slab_chain m head l) (hne : head ≠ NULL) :
    ∃ l1, l = head :: l1 ∧ slab_chain m (m head).next l1 := by
  cases l with
  | nil => exact absurd h hne
  | cons a l =>
    obtain ⟨h1, _, h3⟩ := h
    subst h1
    exact ⟨l, rfl, h3⟩

theorem slab_chain_unique (m : Nat → slab_t) : ∀ (l1 l2 : List Nat) (head : Nat),
    slab_chain m head l1 → slab_chain m head l2 → l1 = l2 := by
  intro l1
  induction l1 with
  | nil =>
    intro l2 head h1 h2
    have : head = NULL := h1
    subst this
    exact (slab_chain_null m l2 h2).symm
  | cons a l ih =>
    intro l2 head h1 h2
    obtain ⟨e1, e2, e3⟩ := h1
    subst e1
    obtain ⟨l3, hl3, h3⟩ := slab_chain_head m l2 head h2 e2
    subst hl3
    rw [ih l3 _ e3 h3]

theorem slab_walk_chain (s : kmem_state) : ∀ (l : List Nat) (fuel head : Nat),
    slab_chain s.slabs head l → l.length ≤ fuel → slab_walk s fuel head = l := by
  intro l
  induction l with
  | nil =>
    intro fuel head h _
    have : head = NULL := h
    subst this
    cases fuel <;> simp [slab_walk]
  | cons a l ih =>
    intro fuel head h hlen
    obtain ⟨h1, h2, h3⟩ := h
    subst h1
    cases fuel with
    | zero => simp at hlen
    | succ n =>
      unfold slab_walk
      rw [if_neg h2, ih n _ h3 (by simpa using hlen)]

/-- The walk of `slab_detach` along a list that holds the slab ends at the slab,
with `prev` the slab before it (or the initial `prev` for the first slab). -/
theorem slab_detach_walk_spec (s : kmem_state) (p : Nat) : ∀ (pre post : List Nat)
    (fuel prev cur : Nat), slab_chain s.slabs cur (pre ++ p :: post) → p ∉ pre →
    pre.length < fuel →
    slab_detach_walk s p fuel prev cur = some (some (pre.getLastD prev, p)) := by
  intro pre
  induction pre with
  | nil =>
    intro post fuel prev cur h _ hf
    obtain ⟨h1, _, _⟩ := h
    subst h1
    cases fuel with
    | zero => simp at hf
    | succ n =>
      unfold slab_detach_walk
      rw [if_neg (by simp)]
      rfl
  | cons a pre ih =>
    intro post fuel prev cur h hp hf
    obtain ⟨h1, h2, h3⟩ := h
    subst h1
    cases fuel with
    | zero => simp at hf
    | succ n =>
      have hne : cur ≠ p := by
        intro e
        exact hp (by rw [e]; exact List.mem_cons_self _ _)
      have hnext : (s.slabs cur).next ≠ NULL := by
        intro e
        rw [e] at h3
        have := slab_chain_null s.slabs _ h3
        cases pre <;> simp at this
      unfold slab_detach_walk
      rw [if_pos hne, if_neg h2, if_neg hnext]
      rw [ih post n cur _ h3 (fun hm => hp (List.mem_cons_of_mem _ hm))
        (by simpa using hf)]
      cases pre <;> rfl

/-- Unlinking the slab `p` from a chain: the slab before it takes over its
`next` link (or the head becomes that link), and the chain holds the other
slabs. -/
theorem slab_chain_skip (m m1 : Nat → slab_t) (p : Nat) (post : List Nat) :
    ∀ (pre : List Nat) (head : Nat),
    slab_chain m head (pre ++ p :: post) → (pre ++ p :: post).Nodup →
    (∀ a, a ∈ pre ++ post → a ≠ pre.getLastD NULL → (m1 a).next = (m a).next) →
    (pre ≠ [] → (m1 (pre.getLastD NULL)).next = (m p).next) →
    slab_chain m1 (if pre = [] then (m p).next else head) (pre ++ post) := by
  intro pre
  induction pre with
  | nil =>
    intro head h hn hother _
    obtain ⟨_, _, h3⟩ := h
    simp only [List.nil_append, if_true]
    refine slab_chain_congr m m1 post _ ?_ h3
    intro a ha
    apply hother a (by simpa using ha)
    intro e
    simp only [List.getLastD_nil] at e
    have hnn := slab_chain_ne_null m post _ h3 a ha
    exact hnn e
  | cons a pre ih =>
    intro head h hn hother hlast
    obtain ⟨h1, h2, h3⟩ := h
    subst h1
    have hn2 : (pre ++ p :: post).Nodup := (List.nodup_cons.1 hn).2
    have hnotin : head ∉ pre ++ p :: post := (List.nodup_cons.1 hn).1
    simp only [List.cons_append, reduceCtorEq, if_false]
    refine ⟨rfl, h2, ?_⟩
    cases pre with
    | nil =>
      simp only [List.nil_append]
      have e1 : (m1 head).next = (m p).next := by
        have := hlast (by simp)
        simpa using this
      rw [e1]
      obtain ⟨_, _, h4⟩ := h3
      refine slab_chain_congr m m1 post _ ?_ h4
      intro b hb
      apply hother b (by simp [hb])
      simp only [List.getLastD_cons, List.getLastD_nil]
      intro e
      apply hnotin
      rw [← e]
      simp [hb]
    | cons b pre =>
      have hne : head ≠ (b :: pre).getLastD NULL := by
        intro e
        apply hnotin
        rw [e]
        have : (b :: pre).getLastD NULL ∈ b :: pre := by
          rw [List.getLastD_cons]
          exact List.getLastD_mem_cons pre b
        exact List.mem_append_left _ this
      have e1 : (m1 head).next = (m head).next := by
        apply hother head (by simp)
        simpa using hne
      rw [e1]
      have := ih (m head).next h3 hn2 (by
        intro c hc hcl
        apply hother c (by
          simp only [List.cons_append, List.mem_cons] at hc ⊢
          exact Or.inr hc)
        simpa using hcl) (by
        intro _
        have := hlast (by simp)
        simpa using this)
      simpa using this

theorem set_list_same (L : Nat → slab_type → List Nat) (c : Nat) (t : slab_type)
    (l : List Nat) : set_list L c t l c t = l := by
  simp [set_list]

theorem set_list_other_type (L : Nat → slab_type → List Nat) (c : Nat) (t t2 : slab_type)
    (l : List Nat) (h : t2 ≠ t) : set_list L c t l c t2 = L c t2 := by
  simp [set_list, h]

theorem set_list_other_cache (L : Nat → slab_type → List Nat) (c d : Nat) (t t2 : slab_type)
    (l : List Nat) (h : d ≠ c) : set_list L c t l d t2 = L d t2 := by
  simp [set_list, h]

theorem set_list_cases (L : Nat → slab_type → List Nat) (c d : Nat) (t t2 : slab_type)
    (l : List Nat) :
    (d = c ∧ t2 = t ∧ set_list L c t l d t2 = l)
    ∨ ((d ≠ c ∨ t2 ≠ t) ∧ set_list L c t l d t2 = L d t2) := by
  by_cases hd : d = c
  · by_cases ht : t2 = t
    · subst hd ht
      exact Or.inl ⟨rfl, rfl, set_list_same L d t2 l⟩
    · subst hd
      exact Or.inr ⟨Or.inr ht, set_list_other_type L d t t2 l ht⟩
  · exact Or.inr ⟨Or.inl hd, set_list_other_cache L c d t t2 l hd⟩

theorem total_length_set (L : Nat → slab_type → List Nat) (c : Nat) (t : slab_type)
    (l : List Nat) :
    (set_list L c t l c slab_type.empty).length + (set_list L c t l c slab_type.part).length
        + (set_list L c t l c slab_type.full).length + (L c t).length
      = (L c slab_type.empty).length + (L c slab_type.part).length
        + (L c slab_type.full).length + l.length := by
  cases t <;> simp [set_list] <;> omega

/-- The lists stay well formed when the slab `p` leaves the list of cache `c` and
type `t`: the state `s1` links the slabs around it. -/
theorem slab_lists_detached (s s1 : kmem_state) (cs : List Nat) (L : Nat → slab_type → List Nat)
    (hl : slab_lists s cs L) (c : Nat) (t : slab_type) (p : Nat) (pre post : List Nat)
    (hc : c ∈ cs) (hsplit : L c t = pre ++ p :: post)
    (hb : s1.buddy = s.buddy)
    (hcache : ∀ d, d ≠ c → s1.caches d = s.caches d)
    (hheads : ∀ t2, t2 ≠ t → (s1.caches c).heads t2 = (s.caches c).heads t2)
    (hhead : (s1.caches c).heads t
      = if pre = [] then (s.slabs p).next else (s.caches c).heads t)
    (hcounts : ∀ t2, t2 ≠ t → (s1.caches c).slab_count t2 = (s.caches c).slab_count t2)
    (hcount : (s1.caches c).slab_count t = (pre ++ post).length)
    (hslabs : ∀ q, pre = [] ∨ q ≠ pre.getLastD NULL → s1.slabs q = s.slabs q)
    (hlast : pre ≠ [] →
      s1.slabs (pre.getLastD NULL)
        = { s.slabs (pre.getLastD NULL) with next := (s.slabs p).next }) :
    slab_lists s1 cs (set_list L c t (pre ++ post)) := by
  have hnd : (pre ++ p :: post).Nodup := hsplit ▸ hl.nodup c hc t
  have hch : slab_chain s.slabs ((s.caches c).heads t) (pre ++ p :: post) :=
    hsplit ▸ hl.chain c hc t
  have hlastmem : pre ≠ [] → pre.getLastD NULL ∈ L c t := by
    intro hne
    rw [hsplit]
    apply List.mem_append_left
    cases pre with
    | nil => exact absurd rfl hne
    | cons b pre =>
      rw [List.getLastD_cons]
      exact List.getLastD_mem_cons pre b
  have hfix : ∀ q, (s1.slabs q).cache = (s.slabs q).cache
      ∧ (s1.slabs q).type = (s.slabs q).type := by
    intro q
    by_cases e : pre = [] ∨ q ≠ pre.getLastD NULL
    · rw [hslabs q e]
      exact ⟨rfl, rfl⟩
    · have e1 : pre ≠ [] := fun h => e (Or.inl h)
      have e2 : q = pre.getLastD NULL := by
        by_contra h
        exact e (Or.inr h)
      rw [e2, hlast e1]
      exact ⟨rfl, rfl⟩
  have hother : ∀ d t2, d ∈ cs → (d ≠ c ∨ t2 ≠ t) → ∀ a, a ∈ L d t2 →
      s1.slabs a = s.slabs a := by
    intro d t2 hd hne a ha
    apply hslabs
    by_cases e : pre = []
    · exact Or.inl e
    · right
      intro e2
      have h1 := hl.owner d hd t2 a ha
      have h2 := hl.owner c hc t a (e2 ▸ hlastmem e)
      rcases hne with h | h
      · exact h (h1.1.symm.trans h2.1)
      · exact h (h1.2.symm.trans h2.2)
  refine ⟨hb ▸ hl.small, hl.cache_ne, ?_, ?_, ?_, ?_, ?_⟩
  · intro d hd t2
    rcases set_list_cases L c d t t2 (pre ++ post) with ⟨e1, e2, e3⟩ | ⟨hne, e3⟩
    · subst e1 e2
      rw [e3, hhead]
      apply slab_chain_skip s.slabs s1.slabs p post pre _ hch hnd
      · intro a _ hne
        rw [hslabs a (Or.inr hne)]
      · intro hne
        rw [hlast hne]
    · rw [e3]
      have hh : (s1.caches d).heads t2 = (s.caches d).heads t2 := by
        by_cases e : d = c
        · subst e
          rcases hne with h | h
          · exact absurd rfl h
          · exact hheads t2 h
        · rw [hcache d e]
      rw [hh]
      refine slab_chain_congr s.slabs s1.slabs _ _ ?_ (hl.chain d hd t2)
      intro a ha
      rw [hother d t2 hd hne a ha]
  · intro d hd t2
    rcases set_list_cases L c d t t2 (pre ++ post) with ⟨e1, e2, e3⟩ | ⟨_, e3⟩
    · rw [e3]
      exact hnd.sublist (List.Sublist.append_left (List.sublist_cons_self p post) pre)
    · rw [e3]
      exact hl.nodup d hd t2
  · intro d hd t2
    rcases set_list_cases L c d t t2 (pre ++ post) with ⟨e1, e2, e3⟩ | ⟨hne, e3⟩
    · subst e1 e2
      rw [e3, hcount]
    · rw [e3, ← hl.count d hd t2]
      by_cases e : d = c
      · subst e
        rcases hne with h | h
        · exact absurd rfl h
        · exact hcounts t2 h
      · rw [hcache d e]
  · intro d hd t2 q hq
    have hq2 : q ∈ L d t2 := by
      rcases set_list_cases L c d t t2 (pre ++ post) with ⟨e1, e2, e3⟩ | ⟨_, e3⟩
      · subst e1 e2
        rw [e3] at hq
        rw [hsplit]
        rcases List.mem_append.1 hq with h | h
        · exact List.mem_append_left _ h
        · exact List.mem_append_right _ (List.mem_cons_of_mem _ h)
      · rw [e3] at hq
        exact hq
    rw [(hfix q).1, (hfix q).2]
    exact hl.owner d hd t2 q hq2
  · intro d hd
    rw [hb]
    by_cases e : d = c
    · subst e
      have h1 := total_length_set L d t (pre ++ post)
      have h2 := hl.short d hd
      rw [hsplit] at h1
      simp only [List.length_append, List.length_cons] at h1 ⊢
      omega
    · rw [set_list_other_cache L c d t _ _ e, set_list_other_cache L c d t _ _ e,
        set_list_other_cache L c d t _ _ e]
      exact hl.short d hd

theorem slab_detach_spec (s : kmem_state) (cs : List Nat) (L : Nat → slab_type → List Nat)
    (hl : slab_lists s cs L) (c : Nat) (t : slab_type) (p : Nat) (hc : c ∈ cs)
    (hp : p ∈ L c t) :
    ∃ s1, slab_detach s p = some (0, s1)
      ∧ slab_lists s1 cs (set_list L c t ((L c t).erase p))
      ∧ relinked s s1
      ∧ (∀ q, (s1.slabs q).type = (s.slabs q).type)
      ∧ s1.slabs p = s.slabs p
      ∧ (∀ d, d ≠ c → s1.caches d = s.caches d) := by
  obtain ⟨pre, post, hsplit⟩ := List.append_of_mem hp
  have hnd : (pre ++ p :: post).Nodup := hsplit ▸ hl.nodup c hc t
  have hnotin : p ∉ pre ++ post := (List.nodup_cons.1 (List.nodup_middle.1 hnd)).1
  have hpre : p ∉ pre := fun h => hnotin (List.mem_append_left _ h)
  have herase : (L c t).erase p = pre ++ post := by
    rw [hsplit, List.erase_append_right _ hpre, List.erase_cons_head]
  have hch : slab_chain s.slabs ((s.caches c).heads t) (pre ++ p :: post) :=
    hsplit ▸ hl.chain c hc t
  have hpne : p ≠ NULL := slab_chain_ne_null _ _ _ hch p (by simp)
  have hown := hl.owner c hc t p hp
  have hcne : c ≠ NULL := hl.cache_ne c hc
  have hlen : (L c t).length ≤ s.buddy.alloc_block_count := by
    have := hl.short c hc
    cases t <;> omega
  have hfuel : pre.length < walk_fuel s := by
    rw [hsplit] at hlen
    simp only [List.length_append, List.length_cons] at hlen
    simp only [walk_fuel, BLOCK_SIZE]
    omega
  have hwalk := slab_detach_walk_spec s p pre post (walk_fuel s) NULL _ hch hpre hfuel
  have hcnt : (s.caches c).slab_count t = pre.length + post.length + 1 := by
    rw [hl.count c hc t, hsplit]
    simp only [List.length_append, List.length_cons]
    omega
  have hW : (pre.length + post.length + 1 + WORD - 1) % WORD = (pre ++ post).length := by
    rw [hsplit] at hlen
    simp only [List.length_append, List.length_cons] at hlen ⊢
    have := hl.small
    simp only [WORD]
    omega
  rw [herase]
  unfold slab_detach
  rw [if_neg hpne]
  simp only [hown.1, hown.2]
  rw [if_neg hcne, hwalk]
  simp only []
  by_cases hpe : pre = []
  · subst hpe
    simp only [List.getLastD_nil, ne_eq, not_true_eq_false, if_false]
    refine ⟨_, rfl, ?_, ?_, ?_, ?_, ?_⟩
    · apply slab_lists_detached s _ cs L hl c t p [] post hc hsplit
      · rfl
      · intro d hd
        simp [Function.update_noteq hd]
      · intro t2 ht2
        simp [Function.update_noteq ht2]
      · simp
      · intro t2 ht2
        simp [Function.update_noteq ht2]
      · simp only [Function.update_same, hcnt]
        exact hW
      · intro q _
        rfl
      · intro h
        exact absurd rfl h
    · refine ⟨rfl, rfl, rfl, rfl, fun q => same_slab_refl _, ?_⟩
      intro d
      by_cases hd : d = c
      · subst hd
        simp only [Function.update_same]
        exact ⟨rfl, rfl, rfl, rfl, rfl, rfl, rfl, rfl, rfl⟩
      · simp only [Function.update_noteq hd, ne_eq, not_false_eq_true]
        exact same_cache_refl _
    · intro q
      rfl
    · rfl
    · intro d hd
      simp [Function.update_noteq hd]
  · have hlast : pre.getLastD NULL ∈ pre := by
      cases pre with
      | nil => exact absurd rfl hpe
      | cons b pre =>
        rw [List.getLastD_cons]
        exact List.getLastD_mem_cons pre b
    have hlne : pre.getLastD NULL ≠ NULL :=
      slab_chain_ne_null _ _ _ hch _ (List.mem_append_left _ hlast)
    have hlp : pre.getLastD NULL ≠ p := fun e => hpre (e ▸ hlast)
    rw [if_pos hlne]
    refine ⟨_, rfl, ?_, ?_, ?_, ?_, ?_⟩
    · apply slab_lists_detached s _ cs L hl c t p pre post hc hsplit
      · rfl
      · intro d hd
        simp [Function.update_noteq hd]
      · intro t2 ht2
        simp
      · simp [hpe]
      · intro t2 ht2
        simp [Function.update_noteq ht2]
      · simp only [Function.update_same, hcnt]
        exact hW
      · intro q hq
        rcases hq with h | h
        · exact absurd h hpe
        · simp [Function.update_noteq h]
      · intro _
        simp
    · refine ⟨rfl, rfl, rfl, rfl, ?_, ?_⟩
      · intro q
        show same_slab (s.slabs q) (Function.update s.slabs _ _ q)
        refine same_slab_update s.slabs _ _ ?_ q
        exact ⟨rfl, rfl, rfl, rfl, rfl, rfl⟩
      · intro d
        show same_cache (s.caches d) (Function.update s.caches c _ d)
        refine same_cache_update s.caches c _ ?_ d
        exact ⟨rfl, rfl, rfl, rfl, rfl, rfl, rfl, rfl, rfl⟩
    · intro q
      by_cases hq : q = pre.getLastD NULL
      · subst hq
        simp
      · simp [Function.update_noteq hq]
    · simp [Function.update_noteq hlp.symm]
    · intro d hd
      simp [Function.update_noteq hd]

/-- Attaching a slab that is on no list puts it at the head of the list of its
cache and type. -/
theorem slab_attach_spec (s : kmem_state) (cs : List Nat) (L : Nat → slab_type → List Nat)
    (hl : slab_lists s cs L) (c : Nat) (t : slab_type) (p : Nat) (hc : c ∈ cs)
    (hpne : p ≠ NULL) (hown : (s.slabs p).cache = c) (htype : (s.slabs p).type = t)
    (hnew : ∀ d, d ∈ cs → ∀ t2, p ∉ L d t2)
    (hroom : (L c slab_type.empty).length + (L c slab_type.part).length
      + (L c slab_type.full).length + 1 ≤ s.buddy.alloc_block_count) :
    ∃ s1, slab_attach s p = some s1
      ∧ slab_lists s1 cs (set_list L c t (p :: L c t))
      ∧ relinked s s1
      ∧ (∀ q, (s1.slabs q).type = (s.slabs q).type)
      ∧ (∀ q, q ≠ p → s1.slabs q = s.slabs q)
      ∧ (∀ d, d ≠ c → s1.caches d = s.caches d) := by
  have hcne : c ≠ NULL := hl.cache_ne c hc
  have hlen : (L c t).length + 1 ≤ s.buddy.alloc_block_count := by
    cases t <;> omega
  have hW : ((s.caches c).slab_count t + 1) % WORD = (p :: L c t).length := by
    rw [hl.count c hc t]
    have := hl.small
    simp only [List.length_cons, WORD]
    omega
  have hstate : slab_attach s p = some
      { s with
        slabs := Function.update s.slabs p { s.slabs p with next := (s.caches c).heads t }
        caches := Function.update s.caches c
          { s.caches c with
            heads := Function.update (s.caches c).heads t p
            slab_count := Function.update (s.caches c).slab_count t
              (((s.caches c).slab_count t + 1) % WORD) } } := by
    subst hown htype
    unfold slab_attach
    rw [if_neg hpne]
    simp only []
    rw [if_neg hcne]
  refine ⟨_, hstate, ?_, ?_, ?_, ?_, ?_⟩
  · have hslabs : ∀ (v : slab_t) d, d ∈ cs → ∀ t2 a, a ∈ L d t2 →
        (Function.update s.slabs p v) a = s.slabs a := by
      intro v d hd t2 a ha
      have : a ≠ p := fun e => hnew d hd t2 (e ▸ ha)
      simp [Function.update_noteq this]
    refine ⟨hl.small, hl.cache_ne, ?_, ?_, ?_, ?_, ?_⟩
    · intro d hd t2
      rcases set_list_cases L c d t t2 (p :: L c t) with ⟨e1, e2, e3⟩ | ⟨hne, e3⟩
      · subst e1 e2
        rw [e3]
        refine ⟨by simp, hpne, ?_⟩
        simp only [Function.update_same]
        refine slab_chain_congr s.slabs _ _ _ ?_ (hl.chain d hd t2)
        intro a ha
        rw [hslabs _ d hd t2 a ha]
      · rw [e3]
        have hh : ∀ (v : kmem_cache_t), (d = c → v.heads t2 = (s.caches c).heads t2) →
            ((Function.update s.caches c v) d).heads t2 = (s.caches d).heads t2 := by
          intro v hv
          by_cases e : d = c
          · have := hv e
            subst e
            simp [this]
          · simp [Function.update_noteq e]
        show slab_chain _ ((Function.update s.caches c _ d).heads t2) _
        rw [hh]
        · refine slab_chain_congr s.slabs _ _ _ ?_ (hl.chain d hd t2)
          intro a ha
          show (Function.update s.slabs p _ a).next = _
          rw [hslabs _ d hd t2 a ha]
        · intro e
          rcases hne with h | h
          · exact absurd e h
          · simp [Function.update_noteq h]
    · intro d hd t2
      rcases set_list_cases L c d t t2 (p :: L c t) with ⟨e1, e2, e3⟩ | ⟨_, e3⟩
      · subst e1 e2
        rw [e3]
        exact List.nodup_cons.2 ⟨hnew d hd t2, hl.nodup d hd t2⟩
      · rw [e3]
        exact hl.nodup d hd t2
    · intro d hd t2
      rcases set_list_cases L c d t t2 (p :: L c t) with ⟨e1, e2, e3⟩ | ⟨hne, e3⟩
      · subst e1 e2
        rw [e3]
        simp only [Function.update_same]
        exact hW
      · rw [e3, ← hl.count d hd t2]
        by_cases e : d = c
        · subst e
          rcases hne with h | h
          · exact absurd rfl h
          · simp [Function.update_noteq h]
        · simp [Function.update_noteq e]
    · intro d hd t2 q hq
      have hq2 : q = p ∧ d = c ∧ t2 = t ∨ q ∈ L d t2 := by
        rcases set_list_cases L c d t t2 (p :: L c t) with ⟨e1, e2, e3⟩ | ⟨_, e3⟩
        · rw [e3] at hq
          rcases List.mem_cons.1 hq with h | h
          · exact Or.inl ⟨h, e1, e2⟩
          · subst e1 e2
            exact Or.inr h
        · rw [e3] at hq
          exact Or.inr hq
      rcases hq2 with ⟨e1, e2, e3⟩ | h
      · subst e1 e2 e3
        simp only [Function.update_same]
        exact ⟨hown, htype⟩
      · show (Function.update s.slabs p _ q).cache = d ∧ (Function.update s.slabs p _ q).type = t2
        rw [hslabs _ d hd t2 q h]
        exact hl.owner d hd t2 q h
    · intro d hd
      by_cases e : d = c
      · subst e
        have h1 := total_length_set L d t (p :: L d t)
        simp only [List.length_cons] at h1 ⊢
        show _ ≤ s.buddy.alloc_block_count
        omega
      · rw [set_list_other_cache L c d t _ _ e, set_list_other_cache L c d t _ _ e,
          set_list_other_cache L c d t _ _ e]
        exact hl.short d hd
  · refine ⟨rfl, rfl, rfl, rfl, ?_, ?_⟩
    · intro q
      show same_slab (s.slabs q) (Function.update s.slabs p _ q)
      refine same_slab_update s.slabs p _ ?_ q
      exact ⟨rfl, rfl, rfl, rfl, rfl, rfl⟩
    · intro d
      show same_cache (s.caches d) (Function.update s.caches c _ d)
      refine same_cache_update s.caches c _ ?_ d
      exact ⟨rfl, rfl, rfl, rfl, rfl, rfl, rfl, rfl, rfl⟩
  · intro q
    by_cases hq : q = p
    · subst hq
      simp
    · simp [Function.update_noteq hq]
  · intro q hq
    simp [Function.update_noteq hq]
  · intro d hd
    simp [Function.update_noteq hd]

/-- The lists stay well formed when records of slabs that are on no list change. -/
theorem slab_lists_off_list (s s1 : kmem_state) (cs : List Nat)
    (L : Nat → slab_type → List Nat) (hl : slab_lists s cs L)
    (hb : s1.buddy.alloc_block_count = s.buddy.alloc_block_count)
    (hcaches : ∀ d, d ∈ cs → (s1.caches d).heads = (s.caches d).heads
      ∧ (s1.caches d).slab_count = (s.caches d).slab_count)
    (hslabs : ∀ d, d ∈ cs → ∀ t q, q ∈ L d t →
      (s1.slabs q).next = (s.slabs q).next ∧ (s1.slabs q).cache = (s.slabs q).cache
        ∧ (s1.slabs q).type = (s.slabs q).type) :
    slab_lists s1 cs L := by
  refine ⟨hb ▸ hl.small, hl.cache_ne, ?_, hl.nodup, ?_, ?_, ?_⟩
  · intro d hd t
    rw [(hcaches d hd).1]
    exact slab_chain_congr s.slabs s1.slabs _ _ (fun a ha => (hslabs d hd t a ha).1)
      (hl.chain d hd t)
  · intro d hd t
    rw [(hcaches d hd).2]
    exact hl.count d hd t
  · intro d hd t q hq
    obtain ⟨_, h2, h3⟩ := hslabs d hd t q hq
    rw [h2, h3]
    exact hl.owner d hd t q hq
  · intro d hd
    rw [hb]
    exact hl.short d hd

/-- Changing the type of a listed slab moves it to the head of the list of the
new type. -/
theorem slab_change_type_spec (s : kmem_state) (cs : List Nat) (L : Nat → slab_type → List Nat)
    (hl : slab_lists s cs L) (c : Nat) (t t1 : slab_type) (p : Nat) (hc : c ∈ cs)
    (hp : p ∈ L c t) (hne : t1 ≠ t) :
    ∃ s1, slab_change_type s p t1 = some (0, s1)
      ∧ slab_lists s1 cs (set_list (set_list L c t ((L c t).erase p)) c t1 (p :: L c t1))
      ∧ relinked s s1
      ∧ (∀ q, (s1.slabs q).type = if q = p then t1 else (s.slabs q).type)
      ∧ (∀ d, d ≠ c → s1.caches d = s.caches d) := by
  have hch := hl.chain c hc t
  have hpne : p ≠ NULL := slab_chain_ne_null _ _ _ hch p hp
  have hown := hl.owner c hc t p hp
  obtain ⟨s2, hd2, hl2, hr2, ht2, hp2, hc2⟩ := slab_detach_spec s cs L hl c t p hc hp
  have hnotin : ∀ d, d ∈ cs → ∀ t2, p ∉ set_list L c t ((L c t).erase p) d t2 := by
    intro d hd t2 hm
    rcases set_list_cases L c d t t2 ((L c t).erase p) with ⟨e1, e2, e3⟩ | ⟨hne2, e3⟩
    · rw [e3] at hm
      exact (List.Nodup.not_mem_erase (hl.nodup c hc t)) hm
    · rw [e3] at hm
      have h1 := hl.owner d hd t2 p hm
      rcases hne2 with h | h
      · exact h (h1.1.symm.trans hown.1)
      · exact h (h1.2.symm.trans hown.2)
  let s3 : kmem_state :=
    { s2 with slabs := Function.update s2.slabs p { s2.slabs p with type := t1 } }
  have hl3 : slab_lists s3 cs (set_list L c t ((L c t).erase p)) := by
    apply slab_lists_off_list s2 s3 cs _ hl2 rfl
    · intro d _
      exact ⟨rfl, rfl⟩
    · intro d hd t2 q hq
      have : q ≠ p := fun e => hnotin d hd t2 (e ▸ hq)
      simp [s3, Function.update_noteq this]
  have hlenp : 1 ≤ (L c t).length := List.length_pos_of_mem hp
  have hroom : (set_list L c t ((L c t).erase p) c slab_type.empty).length
      + (set_list L c t ((L c t).erase p) c slab_type.part).length
      + (set_list L c t ((L c t).erase p) c slab_type.full).length + 1
        ≤ s3.buddy.alloc_block_count := by
    have h1 := total_length_set L c t ((L c t).erase p)
    have h2 := hl.short c hc
    have h3 : ((L c t).erase p).length = (L c t).length - 1 := List.length_erase_of_mem hp
    have h4 : s3.buddy = s.buddy := hr2.buddy
    rw [h4]
    omega
  obtain ⟨s4, ha4, hl4, hr4, ht4, hq4, hc4⟩ := slab_attach_spec s3 cs _ hl3 c t1 p hc hpne
    (by simp [s3, hp2, hown.1]) (by simp [s3]) hnotin hroom
  rw [set_list_other_type L c t t1 _ hne] at hl4
  refine ⟨s4, ?_, hl4, ?_, ?_, ?_⟩
  · unfold slab_change_type
    rw [if_neg hpne, if_neg (by rw [hown.2]; exact fun e => hne e.symm), hd2]
    simp only [Option.some_bind, ne_eq, not_true_eq_false, if_false]
    show (slab_attach s3 p).bind _ = _
    rw [ha4]
    rfl
  · refine relinked_trans s s3 s4 (relinked_trans s s2 s3 hr2 ?_) hr4
    refine ⟨rfl, rfl, rfl, rfl, ?_, fun d => same_cache_refl _⟩
    intro q
    show same_slab (s2.slabs q) (Function.update s2.slabs p _ q)
    refine same_slab_update s2.slabs p _ ?_ q
    exact ⟨rfl, rfl, rfl, rfl, rfl, rfl⟩
  · intro q
    rw [ht4 q]
    by_cases hq : q = p
    · subst hq
      simp [s3]
    · rw [if_neg hq]
      simp only [s3, Function.update_noteq hq]
      exact ht2 q
  · intro d hd
    rw [hc4 d hd]
    exact hc2 d hd

/-! ## Blocks held by hooks -/

/-- Distinct hooks that are handed out hold at most `alloc_block_count` blocks. -/
theorem held_le (s : buddy_state) (out : List block_area) (lists : Nat → List Nat)
    (inv : buddy_inv s out lists) (hs : List block_area) (hn : hs.Nodup)
    (hsub : ∀ h, h ∈ hs → h ∈ out) :
    (hs.map fun h => 2 ^ h.order).sum ≤ s.alloc_block_count := by
  have hsp : hs.Subperm out := List.subperm_of_subset hn hsub
  obtain ⟨l, hperm, hsl⟩ := hsp
  have h1 : (l.map (hook_run s)).Pairwise apart_runs :=
    inv.runs.out_out.sublist (hsl.map _)
  have h2 : ∀ r, r ∈ l.map (hook_run s) → fits s.alloc_block_count r := by
    intro r hr
    obtain ⟨h, hh, rfl⟩ := List.mem_map.1 hr
    exact inv.runs.out_fit _ (List.mem_map.2 ⟨h, hsl.subset hh, rfl⟩)
  have h3 := runs_total_le s.alloc_block_count _ h1 h2
  have h4 : ((l.map (hook_run s)).map fun r => 2 ^ r.2).sum
      = (l.map fun h => 2 ^ h.order).sum := by
    rw [List.map_map]
    rfl
  rw [h4] at h3
  have h5 : (l.map fun h : block_area => 2 ^ h.order).sum
      = (hs.map fun h => 2 ^ h.order).sum := (hperm.map _).sum_eq
  rw [← h5]
  exact h3

theorem sum_const_order (k : Nat) : ∀ (hs : List block_area), (∀ h, h ∈ hs → h.order = k) →
    (hs.map fun h => 2 ^ h.order).sum = hs.length * 2 ^ k := by
  intro hs
  induction hs with
  | nil => intro _; simp
  | cons a l ih =>
    intro h
    rw [List.map_cons, List.sum_cons, ih (fun x hx => h x (List.mem_cons_of_mem _ hx)),
      h a (List.mem_cons_self _ _), List.length_cons]
    ring

theorem length_le_sum_pow : ∀ (hs : List block_area),
    hs.length ≤ (hs.map fun h => 2 ^ h.order).sum := by
  intro hs
  induction hs with
  | nil => simp
  | cons a l ih =>
    rw [List.map_cons, List.sum_cons, List.length_cons]
    have : 0 < 2 ^ a.order := Nat.pow_pos (by decide)
    omega

/-! ## Freeing the slabs of a list: `kmem_cache_shrink` -/

theorem slab_chain_head_eq (m m1 : Nat → slab_t) (l : List Nat) (h h1 : Nat)
    (c : slab_chain m h l) (c1 : slab_chain m1 h1 l) : h = h1 := by
  cases l with
  | nil =>
    have e : h = NULL := c
    have e1 : h1 = NULL := c1
    rw [e, e1]
  | cons a l => exact c.1.trans c1.1.symm

/-- The places of the slabs carry over to a state whose slabs have the same
hooks and layout and whose caches have the same parameters, over the same
region, for lists that hold slabs listed before whose hooks are still handed
out. -/
theorem slab_places_frame (s s1 : kmem_state) (cs : List Nat)
    (L L1 : Nat → slab_type → List Nat) (out out1 : List block_area)
    (hp : slab_places s cs L out)
    (hs : ∀ q, (s1.slabs q).my_hook = (s.slabs q).my_hook
      ∧ (s1.slabs q).offset = (s.slabs q).offset ∧ (s1.slabs q).bitmap = (s.slabs q).bitmap
      ∧ (s1.slabs q).objects = (s.slabs q).objects)
    (hcs : ∀ d, (s1.caches d).object_size = (s.caches d).object_size
      ∧ (s1.caches d).bitmap_length = (s.caches d).bitmap_length
      ∧ (s1.caches d).slab_order = (s.caches d).slab_order
      ∧ (s1.caches d).obj_per_slab = (s.caches d).obj_per_slab
      ∧ (s1.caches d).max_alignments = (s.caches d).max_alignments)
    (hm : s1.buddy.mem_space = s.buddy.mem_space)
    (hmem : ∀ d, d ∈ cs → ∀ t q, q ∈ L1 d t → ∃ t0, q ∈ L d t0)
    (hout : ∀ d, d ∈ cs → ∀ t q, q ∈ L1 d t → (s.slabs q).my_hook ∈ out1) :
    slab_places s1 cs L1 out1 := by
  have hg : ∀ a, get_block s1.buddy a = get_block s.buddy a := by
    intro a; simp only [get_block, hm]
  have hi : ∀ a, get_index s1.buddy a = get_index s.buddy a := by
    intro a; simp only [get_index, hm]
  refine ⟨?_, ?_, ?_, ?_, ?_, ?_, ?_⟩
  · intro c hc
    have h := hcs c
    have := hp.layout c hc
    obtain ⟨h1, h2, h3, h4, h5⟩ := h
    exact ⟨by rw [h4]; exact this.objs, by rw [h1]; exact this.size,
      by rw [h4, h2]; exact this.bits,
      by rw [h5]; exact this.aligns,
      by rw [h5, h2, h4, h1, h3]
         exact this.room⟩
  · intro c hc t p hq
    rw [(hs p).1]
    exact hout c hc t p hq
  · intro c hc t p hq
    obtain ⟨t0, h0⟩ := hmem c hc t p hq
    rw [(hs p).1, (hcs c).2.2.1]
    exact hp.hook_order c hc t0 p h0
  · intro c hc t p hq
    obtain ⟨t0, h0⟩ := hmem c hc t p hq
    rw [(hs p).1, hg, hi]
    exact hp.hook_block c hc t0 p h0
  · intro c1 t1 p1 c2 t2 p2 hc1 hc2 h1 h2 he
    obtain ⟨t01, h01⟩ := hmem c1 hc1 t1 p1 h1
    obtain ⟨t02, h02⟩ := hmem c2 hc2 t2 p2 h2
    rw [(hs p1).1, (hs p2).1] at he
    exact hp.hook_inj c1 t01 p1 c2 t02 p2 hc1 hc2 h01 h02 he
  · intro c hc t p hq
    obtain ⟨t0, h0⟩ := hmem c hc t p hq
    rw [(hs p).1, (hs p).2.1, (hcs c).2.2.2.2]
    exact hp.place c hc t0 p h0
  · intro c hc t p hq
    obtain ⟨t0, h0⟩ := hmem c hc t p hq
    rw [(hs p).2.2.1, (hs p).2.2.2, (hcs c).2.1]
    exact hp.fields c hc t0 p h0

/-- The places of the slabs carry over to a state with the same records and the
same region, for lists that hold slabs listed before whose hooks are still
handed out. -/
theorem slab_places_move (s s1 : kmem_state) (cs : List Nat)
    (L L1 : Nat → slab_type → List Nat) (out out1 : List block_area)
    (hp : slab_places s cs L out) (hr : same_records s s1)
    (hm : s1.buddy.mem_space = s.buddy.mem_space)
    (hmem : ∀ d, d ∈ cs → ∀ t q, q ∈ L1 d t → ∃ t0, q ∈ L d t0)
    (hout : ∀ d, d ∈ cs → ∀ t q, q ∈ L1 d t → (s.slabs q).my_hook ∈ out1) :
    slab_places s1 cs L1 out1 :=
  slab_places_frame s s1 cs L L1 out out1 hp
    (fun q => ⟨(hr.slabs q).my_hook, (hr.slabs q).offset, (hr.slabs q).bitmap,
      (hr.slabs q).objects⟩)
    (fun d => ⟨(hr.caches d).object_size, (hr.caches d).bitmap_length,
      (hr.caches d).slab_order, (hr.caches d).obj_per_slab, (hr.caches d).max_alignments⟩)
    hm hmem hout

theorem set_list_self (L : Nat → slab_type → List Nat) (c : Nat) (t : slab_type) :
    set_list L c t (L c t) = L := by
  unfold set_list
  rw [Function.update_eq_self, Function.update_eq_self]

theorem set_list_set (L : Nat → slab_type → List Nat) (c : Nat) (t : slab_type)
    (l1 l2 : List Nat) : set_list (set_list L c t l1) c t l2 = set_list L c t l2 := by
  unfold set_list
  simp only [Function.update_same, Function.update_idem]

theorem mem_set_list_sub (L : Nat → slab_type → List Nat) (c : Nat) (t : slab_type)
    (l : List Nat) (hsub : ∀ a, a ∈ l → a ∈ L c t) (d : Nat) (t2 : slab_type) (q : Nat)
    (hq : q ∈ set_list L c t l d t2) : q ∈ L d t2 := by
  rcases set_list_cases L c d t t2 l with ⟨e1, e2, e3⟩ | ⟨_, e3⟩
  · subst e1 e2
    rw [e3] at hq
    exact hsub q hq
  · rw [e3] at hq
    exact hq

/-- The loop that detaches and frees the slabs of one list: it frees every slab
of the list, returns each hook to the buddy layer and leaves the list empty. -/
theorem free_slabs_loop_spec (cs : List Nat) (c : Nat) (t : slab_type) (hc : c ∈ cs)
    (dt : Nat) :
    ∀ (l : List Nat) (fuel : Nat) (s : kmem_state) (L : Nat → slab_type → List Nat)
      (out : List block_area) (lists : Nat → List Nat) (n : Nat),
    slab_lists s cs L → slab_places s cs L out → buddy_inv s.buddy out lists →
    L c t = l → l.length < fuel → n + l.length < WORD →
    ∃ s1 lists1,
      free_slabs_loop dt fuel s ((s.caches c).heads t) n = some (s1, n + l.length)
      ∧ slab_lists s1 cs (set_list L c t [])
      ∧ slab_places s1 cs (set_list L c t []) (out.diff (l.map fun p => (s.slabs p).my_hook))
      ∧ buddy_inv s1.buddy (out.diff (l.map fun p => (s.slabs p).my_hook)) lists1
      ∧ s1.buddy.free_block_count
          = s.buddy.free_block_count + l.length * 2 ^ (s.caches c).slab_order
      ∧ s1.buddy.mem_space = s.buddy.mem_space
      ∧ s1.buddy.alloc_block_count = s.buddy.alloc_block_count
      ∧ s1.buddy.max_order = s.buddy.max_order
      ∧ s1.buddy.ctrl_offset = s.buddy.ctrl_offset
      ∧ same_records s s1
      ∧ (∀ q, (s1.slabs q).type = (s.slabs q).type)
      ∧ (∀ d, d ≠ c → s1.caches d = s.caches d) := by
  intro l
  induction l with
  | nil =>
    intro fuel s L out lists n hl hp hb hL hf hn
    have hhead : (s.caches c).heads t = NULL := by
      have := hl.chain c hc t
      rw [hL] at this
      exact this
    have e0 : set_list L c t [] = L := by
      have := set_list_self L c t
      rw [hL] at this
      exact this
    cases fuel with
    | zero => simp at hf
    | succ f =>
      refine ⟨s, lists, ?_, ?_, ?_, ?_, ?_, rfl, rfl, rfl, rfl, same_records_refl s,
        fun _ => rfl, fun _ _ => rfl⟩
      · unfold free_slabs_loop
        rw [hhead, if_neg (by simp)]
        rfl
      · rw [e0]
        exact hl
      · rw [e0]
        simpa using hp
      · simpa using hb
      · simp
  | cons p rest ih =>
    intro fuel s L out lists n hl hp hb hL hf hn
    have hch := hl.chain c hc t
    rw [hL] at hch
    obtain ⟨hhead, hpne, hrest⟩ := hch
    have hpm : p ∈ L c t := by rw [hL]; exact List.mem_cons_self _ _
    have hnd : (p :: rest).Nodup := hL ▸ hl.nodup c hc t
    have hprest : p ∉ rest := (List.nodup_cons.1 hnd).1
    have herase : (L c t).erase p = rest := by rw [hL, List.erase_cons_head]
    obtain ⟨s2, hd2, hl2, hr2, ht2, hp2, hc2⟩ := slab_detach_spec s cs L hl c t p hc hpm
    rw [herase] at hl2
    have hown := hl.owner c hc t p hpm
    have hcne : c ≠ NULL := hl.cache_ne c hc
    have hhook : (s2.slabs p).my_hook = (s.slabs p).my_hook := by rw [hp2]
    have hout := hp.hook_out c hc t p hpm
    obtain ⟨b3, lists3, hf3, hb3⟩ := buddy_free_inv s.buddy out lists hb _ hout
    obtain ⟨r1, r2, r3, r4, r5m, _⟩ := buddy_free_region s.buddy b3 _ 0 hf3
    have r5 : (0 : Int) = 0 → b3.free_block_count
        = s.buddy.free_block_count + 2 ^ (s.slabs p).my_hook.order := by
      intro h0
      have hle := listed_blocks_le s.buddy lists _ hb.ok hb.runs
      have hfit := hb.runs.out_fit _ (List.mem_map.2 ⟨_, hout, rfl⟩)
      obtain ⟨_, _, hfit3⟩ := hfit
      simp only [hook_run] at hfit3
      have hsm := hb.ok.small
      have hcnt := hb.count
      have hW : WORD = 4294967296 := rfl
      have hp20 : (2 : Nat) ^ 20 = 1048576 := by norm_num
      rw [r5m h0]
      apply Nat.mod_eq_of_lt
      rw [hW]
      omega
    have hbud2 : s2.buddy = s.buddy := hr2.buddy
    let s3 : kmem_state := { s2 with buddy := b3 }
    have hrec3 : same_records s s3 := ⟨hr2.records.kmem_ctrl, hr2.records.bitmaps, hr2.records.used, hr2.records.slabs, hr2.records.caches⟩
    have hl3 : slab_lists s3 cs (set_list L c t rest) := by
      apply slab_lists_off_list s2 s3 cs _ hl2
      · show b3.alloc_block_count = s2.buddy.alloc_block_count
        rw [hbud2, r2]
      · intro d _
        exact ⟨rfl, rfl⟩
      · intro d _ t2 q _
        exact ⟨rfl, rfl, rfl⟩
    have hsub : ∀ a, a ∈ rest → a ∈ L c t := by
      intro a ha
      rw [hL]
      exact List.mem_cons_of_mem _ ha
    have hqne : ∀ d, d ∈ cs → ∀ t2 q, q ∈ set_list L c t rest d t2 → q ≠ p := by
      intro d hd t2 q hq e
      subst e
      rcases set_list_cases L c d t t2 rest with ⟨e1, e2, e3⟩ | ⟨hne, e3⟩
      · rw [e3] at hq
        exact hprest hq
      · rw [e3] at hq
        have h1 := hl.owner d hd t2 q hq
        rcases hne with h | h
        · exact h (h1.1.symm.trans hown.1)
        · exact h (h1.2.symm.trans hown.2)
    have hp3 : slab_places s3 cs (set_list L c t rest) (out.erase (s.slabs p).my_hook) := by
      apply slab_places_move s s3 cs L _ out _ hp hrec3
      · show b3.mem_space = s.buddy.mem_space
        exact r1
      · intro d hd t2 q hq
        exact ⟨t2, mem_set_list_sub L c t rest hsub d t2 q hq⟩
      · intro d hd t2 q hq
        have hq0 := mem_set_list_sub L c t rest hsub d t2 q hq
        apply (List.mem_erase_of_ne ?_).2 (hp.hook_out d hd t2 q hq0)
        intro e
        exact hqne d hd t2 q hq (hp.hook_inj d t2 q c t p hd hc hq0 hpm e)
    cases fuel with
    | zero => simp at hf
    | succ f =>
      have hnext : (s.slabs p).next = (s3.caches c).heads t := by
        have c3 := hl3.chain c hc t
        rw [set_list_same] at c3
        exact slab_chain_head_eq s.slabs s3.slabs rest _ _ hrest c3
      obtain ⟨s1, lists1, e1, e2, e3, e4, e5, e6, e7, e8, e8b, e9, e10, e11⟩ :=
        ih f s3 (set_list L c t rest) (out.erase (s.slabs p).my_hook) lists3 (n + 1)
          hl3 hp3 hb3 (set_list_same L c t rest) (by simpa using hf)
          (by simp only [List.length_cons] at hn; omega)
      have hmap : (rest.map fun q => (s3.slabs q).my_hook)
          = rest.map fun q => (s.slabs q).my_hook := by
        apply List.map_congr_left
        intro q _
        exact (hrec3.slabs q).my_hook
      rw [set_list_set] at e2 e3
      rw [hmap] at e3 e4
      have hord3 : (s3.caches c).slab_order = (s.caches c).slab_order :=
        (hrec3.caches c).slab_order
      refine ⟨s1, lists1, ?_, e2, ?_, ?_, ?_, ?_, ?_, ?_, ?_, ?_, ?_, ?_⟩
      · rw [hhead]
        unfold free_slabs_loop
        rw [if_pos hpne, hd2]
        simp only [Option.some_bind]
        have hfree : slab_free s2 p dt = some s3 := by
          unfold slab_free
          rw [if_neg hpne, hp2, if_neg (by rw [hown.1]; exact hcne)]
          unfold mem_free
          rw [hbud2, hf3]
          rfl
        rw [hfree]
        simp only [Option.some_bind]
        have hn1 : (n + 1) % WORD = n + 1 := by
          apply Nat.mod_eq_of_lt
          simp only [List.length_cons] at hn
          omega
        rw [hn1, hnext, e1]
        simp only [List.length_cons]
        congr 2
        omega
      · simpa [List.map_cons, List.diff_cons] using e3
      · simpa [List.map_cons, List.diff_cons] using e4
      · rw [e5, hord3]
        show b3.free_block_count + _ = _
        rw [r5 rfl, hp.hook_order c hc t p hpm]
        simp only [List.length_cons]
        ring
      · rw [e6]; exact r1
      · rw [e7]; exact r2
      · rw [e8]; exact r3
      · rw [e8b]; exact r4
      · exact same_records_trans s s3 s1 hrec3 e9
      · intro q
        rw [e10 q]
        exact ht2 q
      · intro d hd
        rw [e11 d hd]
        exact hc2 d hd

theorem slab_list_eq (s : kmem_state) (cs : List Nat) (L : Nat → slab_type → List Nat)
    (hl : slab_lists s cs L) (c : Nat) (hc : c ∈ cs) (t : slab_type) :
    slab_list s c t = L c t := by
  unfold slab_list
  apply slab_walk_chain s _ _ _ (hl.chain c hc t)
  have := hl.short c hc
  simp only [walk_fuel, BLOCK_SIZE]
  cases t <;> omega

theorem to_int_small (x : Nat) (h : x < 2 ^ 31) : to_int x = (x : Int) := by
  unfold to_int
  rw [if_pos h]

/-- The hooks of the slabs of one list are distinct hooks that are handed out. -/
theorem list_hooks (s : kmem_state) (cs : List Nat) (L : Nat → slab_type → List Nat)
    (out : List block_area) (hl : slab_lists s cs L) (hp : slab_places s cs L out)
    (c : Nat) (hc : c ∈ cs) (t : slab_type) :
    ((L c t).map fun p => (s.slabs p).my_hook).Nodup
    ∧ (∀ h, h ∈ (L c t).map (fun p => (s.slabs p).my_hook) → h ∈ out)
    ∧ (∀ h, h ∈ (L c t).map (fun p => (s.slabs p).my_hook) →
        h.order = (s.caches c).slab_order) := by
  refine ⟨?_, ?_, ?_⟩
  · apply List.Nodup.map_on _ (hl.nodup c hc t)
    intro p1 h1 p2 h2 e
    exact hp.hook_inj c t p1 c t p2 hc hc h1 h2 e
  · intro h hh
    obtain ⟨p, hpm, rfl⟩ := List.mem_map.1 hh
    exact hp.hook_out c hc t p hpm
  · intro h hh
    obtain ⟨p, hpm, rfl⟩ := List.mem_map.1 hh
    exact hp.hook_order c hc t p hpm

/-- The slabs of one list hold at most `alloc_block_count` blocks. -/
theorem list_blocks_le (s : kmem_state) (cs : List Nat) (L : Nat → slab_type → List Nat)
    (out : List block_area) (lists : Nat → List Nat) (hl : slab_lists s cs L)
    (hp : slab_places s cs L out) (hb : buddy_inv s.buddy out lists)
    (c : Nat) (hc : c ∈ cs) (t : slab_type) :
    (L c t).length * 2 ^ (s.caches c).slab_order ≤ s.buddy.alloc_block_count := by
  obtain ⟨h1, h2, h3⟩ := list_hooks s cs L out hl hp c hc t
  have h4 := held_le s.buddy out lists hb _ h1 h2
  rw [sum_const_order (s.caches c).slab_order _ h3, List.length_map] at h4
  exact h4

/-- A `kmem_cache_shrink` that reclaims: every slab of the empty list is detached
and its hook returned to the buddy layer. -/
theorem shrink_reclaim (s : kmem_state) (cs : List Nat)
    (L : Nat → slab_type → List Nat) (out : List block_area) (lists : Nat → List Nat)
    (c : Nat) (hl : slab_lists s cs L) (hp : slab_places s cs L out)
    (hb : buddy_inv s.buddy out lists) (hc : c ∈ cs)
    (hcond : ((s.caches c).extended = 0 ∧ L c slab_type.empty ≠ [])
        ∨ (s.caches c).extended = -1) :
    ∃ s1 lists1,
      kmem_cache_shrink s c
        = some ((((L c slab_type.empty).length * 2 ^ (s.caches c).slab_order : Nat) : Int), s1)
      ∧ slab_lists s1 cs (set_list L c slab_type.empty [])
      ∧ slab_places s1 cs (set_list L c slab_type.empty [])
          (out.diff ((L c slab_type.empty).map fun p => (s.slabs p).my_hook))
      ∧ buddy_inv s1.buddy
          (out.diff ((L c slab_type.empty).map fun p => (s.slabs p).my_hook)) lists1
      ∧ s1.buddy.free_block_count = s.buddy.free_block_count
          + (L c slab_type.empty).length * 2 ^ (s.caches c).slab_order
      ∧ (s1.caches c).extended = 0
      ∧ same_records s s1
      ∧ (∀ q, (s1.slabs q).type = (s.slabs q).type)
      ∧ (∀ d, d ≠ c → s1.caches d = s.caches d) := by
  have hcne : c ≠ NULL := hl.cache_ne c hc
  have hhead : L c slab_type.empty ≠ [] → (s.caches c).heads slab_type.empty ≠ NULL := by
    have hch := hl.chain c hc slab_type.empty
    intro h e
    rw [e] at hch
    exact h (slab_chain_null _ _ hch)
  have hcond2 : ((s.caches c).extended = 0 ∧ (s.caches c).heads slab_type.empty ≠ NULL)
      ∨ (s.caches c).extended = -1 := by
    rcases hcond with ⟨h1, h2⟩ | h
    · exact Or.inl ⟨h1, hhead h2⟩
    · exact Or.inr h
  have hblocks := list_blocks_le s cs L out lists hl hp hb c hc slab_type.empty
  have hsmall := hl.small
  have hlen : (L c slab_type.empty).length ≤ s.buddy.alloc_block_count := by
    have := hl.short c hc
    omega
  obtain ⟨s1, lists1, e1, e2, e3, e4, e5, e6, _, _, _, e9, e10, e11⟩ :=
    free_slabs_loop_spec cs c slab_type.empty hc 0 (L c slab_type.empty) (walk_fuel s) s L
      out lists 0 hl hp hb rfl (by simp only [walk_fuel, BLOCK_SIZE]; omega)
      (by simp only [WORD]; omega)
  have hord : (s1.caches c).slab_order = (s.caches c).slab_order := (e9.caches c).slab_order
  let s2 : kmem_state :=
    { s1 with caches := Function.update s1.caches c { s1.caches c with extended := 0 } }
  have hrec : same_records s1 s2 := by
    refine ⟨rfl, rfl, rfl, fun _ => same_slab_refl _, ?_⟩
    intro d
    show same_cache (s1.caches d) (Function.update s1.caches c _ d)
    refine same_cache_update s1.caches c _ ?_ d
    exact ⟨rfl, rfl, rfl, rfl, rfl, rfl, rfl, rfl, rfl⟩
  have hl2 : slab_lists s2 cs (set_list L c slab_type.empty []) := by
    apply slab_lists_off_list s1 s2 cs _ e2 rfl
    · intro d _
      by_cases hd : d = c
      · subst hd
        simp [s2]
      · simp [s2, Function.update_noteq hd]
    · intro d _ t q _
      exact ⟨rfl, rfl, rfl⟩
  have hp2 : slab_places s2 cs (set_list L c slab_type.empty [])
      (out.diff ((L c slab_type.empty).map fun p => (s.slabs p).my_hook)) := by
    apply slab_places_move s1 s2 cs _ _ _ _ e3 hrec rfl
    · intro d _ t q hq
      exact ⟨t, hq⟩
    · intro d hd t q hq
      exact e3.hook_out d hd t q hq
  refine ⟨s2, lists1, ?_, hl2, hp2, e4, e5, ?_, same_records_trans s s1 s2 e9 hrec, e10, ?_⟩
  · unfold kmem_cache_shrink
    rw [if_neg hcne]
    simp only []
    rw [if_pos hcond2, e1]
    simp only [Option.some_bind, Nat.zero_add, power_of_two]
    show some (to_int (((L c slab_type.empty).length * 2 ^ (s1.caches c).slab_order) % WORD),
      s2) = _
    rw [hord]
    have hlt : (L c slab_type.empty).length * 2 ^ (s.caches c).slab_order < 2 ^ 31 := by
      have : (2:Nat) ^ 20 < 2 ^ 31 := by norm_num
      omega
    have hmod : ((L c slab_type.empty).length * 2 ^ (s.caches c).slab_order) % WORD
        = (L c slab_type.empty).length * 2 ^ (s.caches c).slab_order := by
      apply Nat.mod_eq_of_lt
      have : (2:Nat) ^ 31 < WORD := by simp only [WORD]; norm_num
      omega
    rw [hmod, to_int_small _ hlt]
  · simp [s2]
  · intro d hd
    simp only [s2, Function.update_noteq hd]
    exact e11 d hd

/-- A `kmem_cache_shrink` that does not reclaim only sets the flag `extended`. -/
theorem shrink_skip (s : kmem_state) (cs : List Nat) (L : Nat → slab_type → List Nat)
    (c : Nat) (hl : slab_lists s cs L) (hc : c ∈ cs)
    (hcond : ¬ (((s.caches c).extended = 0 ∧ L c slab_type.empty ≠ [])
        ∨ (s.caches c).extended = -1)) :
    kmem_cache_shrink s c = some (0,
      { s with caches := Function.update s.caches c { s.caches c with extended := 0 } }) := by
  have hcne : c ≠ NULL := hl.cache_ne c hc
  have hcond2 : ¬ (((s.caches c).extended = 0 ∧ (s.caches c).heads slab_type.empty ≠ NULL)
      ∨ (s.caches c).extended = -1) := by
    intro h
    apply hcond
    rcases h with ⟨h1, h2⟩ | h
    · refine Or.inl ⟨h1, ?_⟩
      intro e
      have hch := hl.chain c hc slab_type.empty
      rw [e] at hch
      exact h2 hch
    · exact Or.inr h
  unfold kmem_cache_shrink
  rw [if_neg hcne]
  simp only []
  rw [if_neg hcond2]
  simp only [Option.some_bind, Nat.zero_mul, Nat.zero_mod]
  rfl

theorem set_extended_same (x : kmem_cache_t) (h : x.extended = 0) :
    { x with extended := 0 } = x := by
  cases x
  simp only at h
  subst h
  rfl

theorem update_caches_same (s : kmem_state) (c : Nat) :
    { s with caches := Function.update s.caches c (s.caches c) } = s := by
  rw [Function.update_eq_self]

/-! ## The small state `demo_state` satisfies the invariants -/

theorem demo_alloc_eq : buddy_alloc four_init 0 = some demo_alloc := rfl

theorem demo_buddy_inv : ∃ lists, buddy_inv demo_alloc.2 [demo_alloc.1] lists :=
  served_reach_inv zero_region 4 (by decide) (by decide) demo_alloc.2 [demo_alloc.1]
    (served_reach.alloc four_init demo_alloc.2 [] 0 0 demo_alloc.1
      (served_reach.init four_init rfl) (by decide) (by decide) (by decide) (by decide)
      demo_alloc_eq)

theorem demo_blocks : demo_alloc.2.alloc_block_count = 3 := by decide!

theorem demo_caches_cases (c : Nat) (hc : c ∈ demo_caches) : c = 66000 ∨ c = 65664 := by
  simpa [demo_caches] using hc

theorem demo_cache_at (t : slab_type) (used bits : Nat) (flag : Int) :
    (demo_state t used bits flag).caches 66000 = demo_cache t flag := by
  simp [demo_state]

theorem demo_ctrl_at (t : slab_type) (used bits : Nat) (flag : Int) :
    (demo_state t used bits flag).caches 65664 = demo_ctrl := by
  simp [demo_state]

theorem demo_slab_at (t : slab_type) (used bits : Nat) (flag : Int) :
    (demo_state t used bits flag).slabs 77824 = demo_slab t used := by
  simp [demo_state]

theorem demo_lists_mem (t : slab_type) (c : Nat) (t2 : slab_type) (p : Nat)
    (hp : p ∈ demo_lists t c t2) : c = 66000 ∧ t2 = t ∧ p = 77824 := by
  simp only [demo_lists] at hp
  split_ifs at hp with h
  · simp only [List.mem_singleton] at hp
    exact ⟨h.1, h.2, hp⟩
  · simp at hp

theorem demo_slab_lists (t : slab_type) (used bits : Nat) (flag : Int) :
    slab_lists (demo_state t used bits flag) demo_caches (demo_lists t) := by
  refine ⟨?_, ?_, ?_, ?_, ?_, ?_, ?_⟩
  · show demo_alloc.2.alloc_block_count < 2 ^ 20
    rw [demo_blocks]
    norm_num
  · intro c hc
    rcases demo_caches_cases c hc with rfl | rfl <;> decide
  · intro c hc t2
    rcases demo_caches_cases c hc with rfl | rfl
    · rw [demo_cache_at]
      by_cases e : t2 = t
      · subst e
        simp [demo_lists, demo_cache, slab_chain, NULL, demo_slab_at, demo_slab]
      · simp [demo_lists, demo_cache, slab_chain, e]
    · rw [demo_ctrl_at]
      simp [demo_lists, demo_ctrl, slab_chain]
  · intro c hc t2
    simp only [demo_lists]
    split_ifs <;> simp
  · intro c hc t2
    rcases demo_caches_cases c hc with rfl | rfl
    · rw [demo_cache_at]
      by_cases e : t2 = t
      · subst e
        simp [demo_lists, demo_cache]
      · simp [demo_lists, demo_cache, e]
    · rw [demo_ctrl_at]
      simp [demo_lists, demo_ctrl]
  · intro c hc t2 p hp
    obtain ⟨rfl, rfl, rfl⟩ := demo_lists_mem t c t2 p hp
    rw [demo_slab_at]
    exact ⟨rfl, rfl⟩
  · intro c hc
    show _ ≤ demo_alloc.2.alloc_block_count
    rw [demo_blocks]
    simp only [demo_lists]
    cases t <;> simp <;> split_ifs <;> simp

theorem demo_hook : demo_alloc.1 = ⟨77824, 0⟩ := by decide!

theorem demo_hook_block :
    demo_alloc.1.addr = get_block demo_alloc.2 (get_index demo_alloc.2 demo_alloc.1.addr) := by
  decide!

theorem demo_slab_places (t : slab_type) (used bits : Nat) (flag : Int) :
    slab_places (demo_state t used bits flag) demo_caches (demo_lists t) [demo_alloc.1] := by
  refine ⟨?_, ?_, ?_, ?_, ?_, ?_, ?_⟩
  · intro c hc
    rcases demo_caches_cases c hc with rfl | rfl
    · rw [demo_cache_at]
      refine ⟨?_, ?_, ?_, ?_, ?_⟩ <;>
        simp [demo_cache, calc_bitmap_size, CACHE_L1_LINE_SIZE, SIZEOF_SLAB, BLOCK_SIZE]
    · rw [demo_ctrl_at]
      refine ⟨?_, ?_, ?_, ?_, ?_⟩ <;>
        simp [demo_ctrl, calc_bitmap_size, CACHE_L1_LINE_SIZE, SIZEOF_SLAB, BLOCK_SIZE,
          SIZEOF_KMEM_CACHE]
  · intro c hc t2 p hp
    obtain ⟨rfl, rfl, rfl⟩ := demo_lists_mem t c t2 p hp
    rw [demo_slab_at]
    simp [demo_slab]
  · intro c hc t2 p hp
    obtain ⟨rfl, rfl, rfl⟩ := demo_lists_mem t c t2 p hp
    rw [demo_slab_at, demo_cache_at]
    simp only [demo_slab, demo_cache]
    rw [demo_hook]
  · intro c hc t2 p hp
    obtain ⟨rfl, rfl, rfl⟩ := demo_lists_mem t c t2 p hp
    rw [demo_slab_at]
    exact demo_hook_block
  · intro c1 t1 p1 c2 t2 p2 _ _ h1 h2 _
    obtain ⟨_, _, rfl⟩ := demo_lists_mem t c1 t1 p1 h1
    obtain ⟨_, _, rfl⟩ := demo_lists_mem t c2 t2 p2 h2
    rfl
  · intro c hc t2 p hp
    obtain ⟨rfl, rfl, rfl⟩ := demo_lists_mem t c t2 p hp
    rw [demo_slab_at, demo_cache_at]
    simp only [demo_slab, demo_cache]
    rw [demo_hook]
    simp
  · intro c hc t2 p hp
    obtain ⟨rfl, rfl, rfl⟩ := demo_lists_mem t c t2 p hp
    rw [demo_slab_at, demo_cache_at]
    simp [demo_slab, demo_cache, SIZEOF_SLAB]

/-! ## `kmem_cache_shrink`: the claims -/

/-- C14: `kmem_cache_shrink` reclaims exactly when the flag `extended` is 0 and
the empty list holds a slab, or the flag is -1.  It then detaches every slab of
the empty list, returns the hooks to the buddy layer and returns the number of
freed slabs times `2 ^ slab_order`; otherwise it frees no slab and returns 0.
In every case the partial and the full list stay as they are and the flag
becomes 0. -/
theorem kmem_cache_shrink_reclaims (s : kmem_state) (cs : List Nat)
    (L : Nat → slab_type → List Nat) (out : List block_area) (lists : Nat → List Nat)
    (c : Nat) (hl : slab_lists s cs L) (hp : slab_places s cs L out)
    (hb : buddy_inv s.buddy out lists) (hc : c ∈ cs) :
    ((((s.caches c).extended = 0 ∧ slab_list s c slab_type.empty ≠ [])
        ∨ (s.caches c).extended = -1) →
      ∃ s1 lists1,
        kmem_cache_shrink s c
          = some ((((slab_list s c slab_type.empty).length * 2 ^ (s.caches c).slab_order : Nat)
              : Int), s1)
        ∧ slab_list s1 c slab_type.empty = []
        ∧ buddy_inv s1.buddy
            (out.diff ((slab_list s c slab_type.empty).map fun p => (s.slabs p).my_hook)) lists1
        ∧ s1.buddy.free_block_count = s.buddy.free_block_count
            + (slab_list s c slab_type.empty).length * 2 ^ (s.caches c).slab_order
        ∧ slab_list s1 c slab_type.part = slab_list s c slab_type.part
        ∧ slab_list s1 c slab_type.full = slab_list s c slab_type.full
        ∧ (s1.caches c).extended = 0)
    ∧ (¬ (((s.caches c).extended = 0 ∧ slab_list s c slab_type.empty ≠ [])
        ∨ (s.caches c).extended = -1) →
      ∃ s1, kmem_cache_shrink s c = some (0, s1)
        ∧ s1.buddy = s.buddy
        ∧ (∀ t, slab_list s1 c t = slab_list s c t)
        ∧ (s1.caches c).extended = 0) := by
  have hle : ∀ t, slab_list s c t = L c t := slab_list_eq s cs L hl c hc
  rw [hle slab_type.empty]
  constructor
  · intro hcond
    obtain ⟨s1, lists1, e1, e2, _, e4, e5, e6, _, _, _⟩ :=
      shrink_reclaim s cs L out lists c hl hp hb hc hcond
    have hle1 : ∀ t, slab_list s1 c t = set_list L c slab_type.empty [] c t :=
      slab_list_eq s1 cs _ e2 c hc
    refine ⟨s1, lists1, e1, ?_, e4, e5, ?_, ?_, e6⟩
    · rw [hle1, set_list_same]
    · rw [hle1, set_list_other_type L c _ _ _ (by decide), hle]
    · rw [hle1, set_list_other_type L c _ _ _ (by decide), hle]
  · intro hcond
    have hs := shrink_skip s cs L c hl hc hcond
    refine ⟨_, hs, rfl, ?_, ?_⟩
    · intro t
      have hl2 : slab_lists
          { s with caches := Function.update s.caches c { s.caches c with extended := 0 } }
          cs L := by
        refine slab_lists_off_list s _ cs L hl rfl ?_ ?_
        · intro d _
          by_cases hd : d = c
          · subst hd
            simp
          · simp [Function.update_noteq hd]
        · intro d _ t q _
          exact ⟨rfl, rfl, rfl⟩
      rw [slab_list_eq _ cs L hl2 c hc t, hle]
    · simp

/-- Witness of C14: a cache with flag -1 and one empty slab; the call returns
`1 = 1 * 2 ^ 0`. -/
theorem kmem_cache_shrink_reclaims_witness :
    slab_lists (demo_state slab_type.empty 0 0 (-1)) demo_caches (demo_lists slab_type.empty)
    ∧ slab_places (demo_state slab_type.empty 0 0 (-1)) demo_caches (demo_lists slab_type.empty)
        [demo_alloc.1]
    ∧ (∃ lists, buddy_inv (demo_state slab_type.empty 0 0 (-1)).buddy [demo_alloc.1] lists)
    ∧ (kmem_cache_shrink (demo_state slab_type.empty 0 0 (-1)) 66000).map (fun r => r.1)
        = some 1
    ∧ ∃ s1 lists1,
        kmem_cache_shrink (demo_state slab_type.empty 0 0 (-1)) 66000
          = some ((((slab_list (demo_state slab_type.empty 0 0 (-1)) 66000
                slab_type.empty).length
              * 2 ^ ((demo_state slab_type.empty 0 0 (-1)).caches 66000).slab_order : Nat)
              : Int), s1)
        ∧ slab_list s1 66000 slab_type.empty = []
        ∧ buddy_inv s1.buddy
            ([demo_alloc.1].diff
              ((slab_list (demo_state slab_type.empty 0 0 (-1)) 66000 slab_type.empty).map
                fun p => ((demo_state slab_type.empty 0 0 (-1)).slabs p).my_hook)) lists1
        ∧ s1.buddy.free_block_count
            = (demo_state slab_type.empty 0 0 (-1)).buddy.free_block_count
              + (slab_list (demo_state slab_type.empty 0 0 (-1)) 66000 slab_type.empty).length
                * 2 ^ ((demo_state slab_type.empty 0 0 (-1)).caches 66000).slab_order
        ∧ slab_list s1 66000 slab_type.part
            = slab_list (demo_state slab_type.empty 0 0 (-1)) 66000 slab_type.part
        ∧ slab_list s1 66000 slab_type.full
            = slab_list (demo_state slab_type.empty 0 0 (-1)) 66000 slab_type.full
        ∧ (s1.caches 66000).extended = 0 := by
  obtain ⟨lists, hb⟩ := demo_buddy_inv
  exact ⟨demo_slab_lists _ _ _ _, demo_slab_places _ _ _ _, ⟨lists, hb⟩, by decide!,
    (kmem_cache_shrink_reclaims (demo_state slab_type.empty 0 0 (-1)) demo_caches
      (demo_lists slab_type.empty) [demo_alloc.1] lists 66000 (demo_slab_lists _ _ _ _)
      (demo_slab_places _ _ _ _) hb (by decide)).1 (Or.inr rfl)⟩

/-- C15: on a cache whose flag `extended` is -1, a first `kmem_cache_shrink`
returns the number of empty slabs times `2 ^ slab_order`, and a second call right
after it returns 0 and leaves the state of both layers as it is. -/
theorem kmem_cache_shrink_twice (s : kmem_state) (cs : List Nat)
    (L : Nat → slab_type → List Nat) (out : List block_area) (lists : Nat → List Nat)
    (c : Nat) (hl : slab_lists s cs L) (hp : slab_places s cs L out)
    (hb : buddy_inv s.buddy out lists) (hc : c ∈ cs)
    (hflag : (s.caches c).extended = -1) :
    ∃ s1,
      kmem_cache_shrink s c
        = some ((((slab_list s c slab_type.empty).length * 2 ^ (s.caches c).slab_order : Nat)
            : Int), s1)
      ∧ kmem_cache_shrink s1 c = some (0, s1) := by
  rw [slab_list_eq s cs L hl c hc]
  obtain ⟨s1, lists1, e1, e2, _, _, _, e6, _, _, _⟩ :=
    shrink_reclaim s cs L out lists c hl hp hb hc (Or.inr hflag)
  refine ⟨s1, e1, ?_⟩
  have hs := shrink_skip s1 cs _ c e2 hc (by
    rw [set_list_same, e6]
    intro h
    rcases h with ⟨_, h⟩ | h
    · exact h rfl
    · exact absurd h (by decide))
  rw [hs, set_extended_same _ e6, update_caches_same]

/-- Witness of C15: a cache with flag -1 and one empty slab; the calls return 1
and then 0. -/
theorem kmem_cache_shrink_twice_witness :
    ((demo_state slab_type.empty 0 0 (-1)).caches 66000).extended = -1
    ∧ ((kmem_cache_shrink (demo_state slab_type.empty 0 0 (-1)) 66000).bind fun r =>
        (kmem_cache_shrink r.2 66000).map fun r2 => (r.1, r2.1)) = some (1, 0)
    ∧ ∃ s1,
        kmem_cache_shrink (demo_state slab_type.empty 0 0 (-1)) 66000
          = some ((((slab_list (demo_state slab_type.empty 0 0 (-1)) 66000
                slab_type.empty).length
              * 2 ^ ((demo_state slab_type.empty 0 0 (-1)).caches 66000).slab_order : Nat)
              : Int), s1)
        ∧ kmem_cache_shrink s1 66000 = some (0, s1) := by
  obtain ⟨lists, hb⟩ := demo_buddy_inv
  exact ⟨rfl, by decide!,
    kmem_cache_shrink_twice (demo_state slab_type.empty 0 0 (-1)) demo_caches
      (demo_lists slab_type.empty) [demo_alloc.1] lists 66000 (demo_slab_lists _ _ _ _)
      (demo_slab_places _ _ _ _) hb (by decide) rfl⟩

/-! ## Bits of the bitmaps -/

theorem and_shift_ne_zero (x j : Nat) : x &&& (1 <<< j) ≠ 0 ↔ x.testBit j = true := by
  rw [Nat.one_shiftLeft]
  constructor
  · intro h
    by_contra hc
    apply h
    apply Nat.eq_of_testBit_eq
    intro i
    rw [Nat.testBit_and, Nat.testBit_two_pow, Nat.zero_testBit]
    by_cases hij : j = i
    · subst hij
      simp only [Bool.not_eq_true] at hc
      rw [hc]
      rfl
    · simp [hij]
  · intro h h0
    have h1 := congrArg (fun y => y.testBit j) h0
    simp only [Nat.testBit_and, Nat.testBit_two_pow_self, h, Nat.zero_testBit] at h1
    exact absurd h1 (by decide)

theorem bit_scan_spec (x : Nat) : ∀ (fuel j k : Nat), j ≤ k → k < j + fuel →
    x.testBit k = false →
    ∃ r, bit_scan x fuel j = some r ∧ j ≤ r ∧ r ≤ k ∧ x.testBit r = false
      ∧ ∀ i, j ≤ i → i < r → x.testBit i = true := by
  intro fuel
  induction fuel with
  | zero => intro j k h1 h2; omega
  | succ n ih =>
    intro j k h1 h2 hk
    unfold bit_scan
    by_cases hb : x &&& (1 <<< j) ≠ 0
    · rw [if_pos hb]
      have hj : x.testBit j = true := (and_shift_ne_zero x j).1 hb
      have hjk : j ≠ k := by
        intro e
        rw [e, hk] at hj
        exact absurd hj (by decide)
      obtain ⟨r, e1, e2, e3, e4, e5⟩ := ih (j + 1) k (by omega) (by omega) hk
      refine ⟨r, e1, by omega, e3, e4, ?_⟩
      intro i hi1 hi2
      by_cases e : i = j
      · rw [e]; exact hj
      · exact e5 i (by omega) hi2
    · rw [if_neg hb]
      have hj : x.testBit j = false := by
        have := (and_shift_ne_zero x j).not.1 hb
        simpa using this
      exact ⟨j, rfl, le_refl _, h1, hj, fun i h3 h4 => by omega⟩

theorem byte_clear_bit (x : Nat) (h1 : x < BYTE) (h2 : x ≠ BITMAP_FULL) :
    ∃ k, k < BITMAP_ENTRY_BITS ∧ x.testBit k = false := by
  by_contra hc
  apply h2
  apply Nat.eq_of_testBit_eq
  intro i
  show x.testBit i = (2 ^ 8 - 1).testBit i
  rw [Nat.testBit_two_pow_sub_one]
  by_cases hi : i < 8
  · have : x.testBit i = true := by
      by_contra h
      exact hc ⟨i, hi, by simpa using h⟩
    rw [this]
    simp [hi]
  · have h3 : x < 2 ^ i := by
      have : (2:Nat) ^ 8 ≤ 2 ^ i := Nat.pow_le_pow_right (by norm_num) (by omega)
      simp only [BYTE] at h1
      omega
    rw [Nat.testBit_lt_two_pow h3]
    simp [hi]

theorem byte_full_bits (k : Nat) (hk : k < BITMAP_ENTRY_BITS) : BITMAP_FULL.testBit k = true := by
  show (2 ^ 8 - 1).testBit k = true
  rw [Nat.testBit_two_pow_sub_one]
  simpa using hk

/-- The scan over the bitmap entries returns the position of the first clear
bit from entry `i` on. -/
theorem entry_scan_spec (m : Nat → Nat) (b : Nat) (hm : ∀ a, m a < BYTE) :
    ∀ (n i idx : Nat), BITMAP_ENTRY_BITS * (i + n) < WORD →
    entry_scan m b n i = some idx →
    bit_at m b idx = false ∧ BITMAP_ENTRY_BITS * i ≤ idx
      ∧ idx < BITMAP_ENTRY_BITS * (i + n)
      ∧ ∀ k, BITMAP_ENTRY_BITS * i ≤ k → k < idx → bit_at m b k = true := by
  intro n
  induction n with
  | zero => intro i idx _ h; simp [entry_scan] at h
  | succ n ih =>
    intro i idx hw h
    unfold entry_scan at h
    have h8 : BITMAP_ENTRY_BITS = 8 := rfl
    by_cases hf : m (b + i) ≠ BITMAP_FULL
    · rw [if_pos hf] at h
      obtain ⟨k, hk, hkc⟩ := byte_clear_bit _ (hm (b + i)) hf
      obtain ⟨r, e1, _, e3, e4, e5⟩ := bit_scan_spec (m (b + i)) 32 0 k (Nat.zero_le _)
        (by rw [h8] at hk; omega) hkc
      rw [e1] at h
      simp only [Option.some_bind, Option.some.injEq] at h
      have hlt : i * BITMAP_ENTRY_BITS + r < WORD := by rw [h8] at hw hk ⊢; omega
      rw [Nat.mod_eq_of_lt hlt] at h
      subst h
      have hdiv : (i * BITMAP_ENTRY_BITS + r) / BITMAP_ENTRY_BITS = i := by
        rw [h8] at hk ⊢; omega
      have hmod : (i * BITMAP_ENTRY_BITS + r) % BITMAP_ENTRY_BITS = r := by
        rw [h8] at hk ⊢; omega
      refine ⟨?_, by rw [h8]; omega, by rw [h8] at hk ⊢; omega, ?_⟩
      · unfold bit_at
        rw [hdiv, hmod]
        exact e4
      · intro k1 hk1 hk2
        have hd : k1 / BITMAP_ENTRY_BITS = i := by rw [h8] at hk hk1 hk2 ⊢; omega
        unfold bit_at
        rw [hd]
        exact e5 _ (Nat.zero_le _) (by rw [h8] at hk hk1 hk2 ⊢; omega)
    · rw [if_neg hf] at h
      have hfull : m (b + i) = BITMAP_FULL := by
        by_contra hc
        exact hf hc
      obtain ⟨e1, e2, e3, e4⟩ := ih (i + 1) idx (by rw [h8] at hw ⊢; omega) h
      refine ⟨e1, by rw [h8] at e2 ⊢; omega, by rw [h8] at e3 ⊢; omega, ?_⟩
      intro k hk1 hk2
      by_cases hk3 : BITMAP_ENTRY_BITS * (i + 1) ≤ k
      · exact e4 k hk3 hk2
      · have hd : k / BITMAP_ENTRY_BITS = i := by rw [h8] at hk1 hk3 ⊢; omega
        unfold bit_at
        rw [hd, hfull]
        exact byte_full_bits _ (Nat.mod_lt _ (by decide))

theorem bit_at_set_used (m : Nat → Nat) (b idx k : Nat) :
    bit_at (bitmap_set_used m b idx) b k = (decide (k = idx) || bit_at m b k) := by
  have h8 : BITMAP_ENTRY_BITS = 8 := rfl
  unfold bit_at bitmap_set_used
  by_cases hd : k / BITMAP_ENTRY_BITS = idx / BITMAP_ENTRY_BITS
  · rw [hd, Function.update_same]
    show ((_ ||| _) % 2 ^ 8).testBit _ = _
    rw [Nat.testBit_mod_two_pow, Nat.testBit_or, Nat.one_shiftLeft, Nat.testBit_two_pow]
    have hlt : k % BITMAP_ENTRY_BITS < 8 := Nat.mod_lt _ (by decide)
    by_cases hm : idx % BITMAP_ENTRY_BITS = k % BITMAP_ENTRY_BITS
    · have hk : k = idx := by rw [h8] at hd hm; omega
      simp [hm, hlt, hk]
    · have hk : k ≠ idx := by intro e; rw [e] at hm; exact hm rfl
      simp [hm, hlt, hk]
  · have hk : k ≠ idx := by intro e; rw [e] at hd; exact hd rfl
    rw [Function.update_noteq (by omega)]
    simp [hk]

theorem bit_at_set_free (m : Nat → Nat) (b idx k : Nat) :
    bit_at (bitmap_set_free m b idx) b k = (!decide (k = idx) && bit_at m b k) := by
  have h8 : BITMAP_ENTRY_BITS = 8 := rfl
  unfold bit_at bitmap_set_free
  by_cases hd : k / BITMAP_ENTRY_BITS = idx / BITMAP_ENTRY_BITS
  · rw [hd, Function.update_same]
    show ((_ &&& ((2 ^ 32 - 1) ^^^ _)) % 2 ^ 8).testBit _ = _
    rw [Nat.testBit_mod_two_pow, Nat.testBit_and, Nat.testBit_xor, Nat.one_shiftLeft,
      Nat.testBit_two_pow, Nat.testBit_two_pow_sub_one]
    have hlt : k % BITMAP_ENTRY_BITS < 8 := Nat.mod_lt _ (by decide)
    have hlt2 : k % BITMAP_ENTRY_BITS < 32 := by omega
    by_cases hm : idx % BITMAP_ENTRY_BITS = k % BITMAP_ENTRY_BITS
    · have hk : k = idx := by rw [h8] at hd hm; omega
      simp [hm, hlt, hlt2, hk]
    · have hk : k ≠ idx := by intro e; rw [e] at hm; exact hm rfl
      simp [hm, hlt, hlt2, hk]
  · have hk : k ≠ idx := by intro e; rw [e] at hd; exact hd rfl
    rw [Function.update_noteq (by omega)]
    simp [hk]

theorem set_used_bytes (m : Nat → Nat) (b idx : Nat) (hm : ∀ a, m a < BYTE) :
    ∀ a, bitmap_set_used m b idx a < BYTE := by
  intro a
  unfold bitmap_set_used
  by_cases h : a = b + idx / BITMAP_ENTRY_BITS
  · rw [h, Function.update_same]
    exact Nat.mod_lt _ (by decide)
  · rw [Function.update_noteq h]
    exact hm a

theorem set_free_bytes (m : Nat → Nat) (b idx : Nat) (hm : ∀ a, m a < BYTE) :
    ∀ a, bitmap_set_free m b idx a < BYTE := by
  intro a
  unfold bitmap_set_free
  by_cases h : a = b + idx / BITMAP_ENTRY_BITS
  · rw [h, Function.update_same]
    exact Nat.mod_lt _ (by decide)
  · rw [Function.update_noteq h]
    exact hm a

theorem set_used_other (m : Nat → Nat) (b idx a : Nat) (h : a ≠ b + idx / BITMAP_ENTRY_BITS) :
    bitmap_set_used m b idx a = m a := by
  unfold bitmap_set_used
  rw [Function.update_noteq h]

theorem set_free_other (m : Nat → Nat) (b idx a : Nat) (h : a ≠ b + idx / BITMAP_ENTRY_BITS) :
    bitmap_set_free m b idx a = m a := by
  unfold bitmap_set_free
  rw [Function.update_noteq h]

/-- Setting a clear bit and clearing it again gives back the bitmap. -/
theorem set_free_set_used (m : Nat → Nat) (b idx : Nat) (hm : ∀ a, m a < BYTE)
    (hc : bit_at m b idx = false) :
    bitmap_set_free (bitmap_set_used m b idx) b idx = m := by
  funext a
  by_cases h : a = b + idx / BITMAP_ENTRY_BITS
  · have hb := bit_at_set_free (bitmap_set_used m b idx) b idx
    have hu := bit_at_set_used m b idx
    apply Nat.eq_of_testBit_eq
    intro i
    by_cases hi : i < 8
    · have e1 := hb (idx / BITMAP_ENTRY_BITS * BITMAP_ENTRY_BITS + i)
      have e2 := hu (idx / BITMAP_ENTRY_BITS * BITMAP_ENTRY_BITS + i)
      have h8 : BITMAP_ENTRY_BITS = 8 := rfl
      have hd : (idx / BITMAP_ENTRY_BITS * BITMAP_ENTRY_BITS + i) / BITMAP_ENTRY_BITS
          = idx / BITMAP_ENTRY_BITS := by rw [h8]; omega
      have hmod : (idx / BITMAP_ENTRY_BITS * BITMAP_ENTRY_BITS + i) % BITMAP_ENTRY_BITS = i := by
        rw [h8]; omega
      unfold bit_at at e1 e2
      rw [hd, hmod] at e1 e2
      rw [h, e1, e2]
      by_cases hk : idx / BITMAP_ENTRY_BITS * BITMAP_ENTRY_BITS + i = idx
      · have hci : (m (b + idx / BITMAP_ENTRY_BITS)).testBit i = false := by
          unfold bit_at at hc
          have : idx % BITMAP_ENTRY_BITS = i := by rw [h8] at hk ⊢; omega
          rw [this] at hc
          exact hc
        simp [hk, hci]
      · simp [hk]
    · have h3 : ∀ x, x < BYTE → x.testBit i = false := by
        intro x hx
        apply Nat.testBit_lt_two_pow
        have : (2:Nat) ^ 8 ≤ 2 ^ i := Nat.pow_le_pow_right (by norm_num) (by omega)
        simp only [BYTE] at hx
        omega
      rw [h3 _ (set_free_bytes _ b idx (set_used_bytes m b idx hm) a), h3 _ (hm a)]
  · rw [set_free_other _ _ _ _ h, set_used_other _ _ _ _ h]

theorem set_bits_succ (m : Nat → Nat) (b n : Nat) :
    set_bits m b (n + 1) = set_bits m b n + if bit_at m b n then 1 else 0 := by
  unfold set_bits
  rw [List.range_succ, List.countP_append, List.countP_singleton]

theorem set_bits_congr (m m1 : Nat → Nat) (b b1 : Nat) : ∀ n,
    (∀ i, i < n → bit_at m1 b1 i = bit_at m b i) → set_bits m1 b1 n = set_bits m b n := by
  intro n
  induction n with
  | zero => intro _; rfl
  | succ n ih =>
    intro h
    rw [set_bits_succ, set_bits_succ, ih (fun i hi => h i (by omega)), h n (by omega)]

theorem set_bits_le (m : Nat → Nat) (b n : Nat) : set_bits m b n ≤ n := by
  unfold set_bits
  have := List.countP_le_length (fun i => bit_at m b i) (l := List.range n)
  simpa using this

/-- A bitmap with fewer than `n` set bits among its first `n` has a clear one. -/
theorem exists_clear_bit (m : Nat → Nat) (b : Nat) : ∀ n, set_bits m b n < n →
    ∃ i, i < n ∧ bit_at m b i = false := by
  intro n
  induction n with
  | zero => intro h; omega
  | succ n ih =>
    intro h
    rw [set_bits_succ] at h
    by_cases hb : bit_at m b n = true
    · rw [if_pos hb] at h
      obtain ⟨i, hi, hc⟩ := ih (by omega)
      exact ⟨i, by omega, hc⟩
    · exact ⟨n, by omega, by simpa using hb⟩

theorem set_bits_flip_on (m m1 : Nat → Nat) (b idx : Nat)
    (h : ∀ k, bit_at m1 b k = (decide (k = idx) || bit_at m b k))
    (hc : bit_at m b idx = false) : ∀ n, idx < n → set_bits m1 b n = set_bits m b n + 1 := by
  intro n
  induction n with
  | zero => intro h; omega
  | succ n ih =>
    intro hn
    rw [set_bits_succ, set_bits_succ]
    by_cases e : idx = n
    · subst e
      rw [set_bits_congr m m1 b b idx (fun i hi => by rw [h i]; simp [Nat.ne_of_lt hi])]
      rw [h idx, hc]
      simp
    · rw [ih (by omega), h n]
      have : n ≠ idx := fun e2 => e e2.symm
      simp [this]
      omega

theorem set_bits_flip_off (m m1 : Nat → Nat) (b idx : Nat)
    (h : ∀ k, bit_at m1 b k = (!decide (k = idx) && bit_at m b k))
    (hc : bit_at m b idx = true) : ∀ n, idx < n → set_bits m1 b n + 1 = set_bits m b n := by
  intro n
  induction n with
  | zero => intro h; omega
  | succ n ih =>
    intro hn
    rw [set_bits_succ, set_bits_succ]
    by_cases e : idx = n
    · subst e
      rw [set_bits_congr m m1 b b idx (fun i hi => by rw [h i]; simp [Nat.ne_of_lt hi])]
      rw [h idx, hc]
      simp
    · have := ih (by omega)
      rw [h n]
      have : n ≠ idx := fun e2 => e e2.symm
      simp [this]
      omega

/-- Clearing a bit that is clear leaves the set bits as they are. -/
theorem set_bits_clear_again (m m1 : Nat → Nat) (b idx : Nat)
    (h : ∀ k, bit_at m1 b k = (!decide (k = idx) && bit_at m b k))
    (hc : bit_at m b idx = false) (n : Nat) : set_bits m1 b n = set_bits m b n := by
  apply set_bits_congr
  intro i _
  rw [h i]
  by_cases e : i = idx
  · subst e; simp [hc]
  · simp [e]

theorem set_bits_high (m : Nat → Nat) (b n : Nat) : ∀ d,
    (∀ i, n ≤ i → i < n + d → bit_at m b i = false) → set_bits m b (n + d) = set_bits m b n := by
  intro d
  induction d with
  | zero => intro _; rfl
  | succ d ih =>
    intro h
    rw [← Nat.add_assoc, set_bits_succ, ih (fun i h1 h2 => h i h1 (by omega)),
      h (n + d) (by omega) (by omega)]
    simp

theorem calc_bitmap_size_bounds (n : Nat) :
    n ≤ BITMAP_ENTRY_BITS * calc_bitmap_size n
      ∧ BITMAP_ENTRY_BITS * calc_bitmap_size n < n + BITMAP_ENTRY_BITS := by
  unfold calc_bitmap_size
  have h8 : BITMAP_ENTRY_BITS = 8 := rfl
  rw [h8]
  split_ifs <;> omega

/-! ## Where the slabs lie -/

theorem pairwise_apart (f : block_area → Nat × Nat) : ∀ (l : List block_area),
    (l.map f).Pairwise apart_runs → ∀ a b, a ∈ l → b ∈ l → a ≠ b →
    apart_runs (f a) (f b) := by
  intro l
  induction l with
  | nil => intro _ a b ha; simp at ha
  | cons x l ih =>
    intro hp a b ha hb hne
    rw [List.map_cons, List.pairwise_cons] at hp
    rcases List.mem_cons.1 ha with rfl | ha1
    · rcases List.mem_cons.1 hb with rfl | hb1
      · exact absurd rfl hne
      · exact hp.1 _ (List.mem_map_of_mem f hb1)
    · rcases List.mem_cons.1 hb with rfl | hb1
      · exact apart_runs_symm _ _ (hp.1 _ (List.mem_map_of_mem f ha1))
      · exact ih hp.2 a b ha1 hb1 hne

theorem listed_ne_null (s : kmem_state) (cs : List Nat) (L : Nat → slab_type → List Nat)
    (hl : slab_lists s cs L) (c : Nat) (hc : c ∈ cs) (t : slab_type) (p : Nat)
    (hp : p ∈ L c t) : p ≠ NULL :=
  slab_chain_ne_null s.slabs (L c t) _ (hl.chain c hc t) p hp

/-- The extent of a listed slab: its hook is the run of `2 ^ slab_order` blocks
from block `i` on, and header, bitmap and objects lie inside that run. -/
theorem slab_extent (s : kmem_state) (cs : List Nat) (L : Nat → slab_type → List Nat)
    (out : List block_area) (lists : Nat → List Nat) (hl : slab_lists s cs L)
    (hp : slab_places s cs L out) (hb : buddy_inv s.buddy out lists)
    (c : Nat) (hc : c ∈ cs) (t : slab_type) (p : Nat) (hm : p ∈ L c t) :
    1 ≤ get_index s.buddy (s.slabs p).my_hook.addr
    ∧ get_index s.buddy (s.slabs p).my_hook.addr + 2 ^ (s.caches c).slab_order
        ≤ s.buddy.alloc_block_count + 1
    ∧ (s.slabs p).my_hook.addr
        = s.buddy.mem_space + BLOCK_SIZE * get_index s.buddy (s.slabs p).my_hook.addr
    ∧ s.buddy.mem_space + BLOCK_SIZE * get_index s.buddy (s.slabs p).my_hook.addr ≤ p
    ∧ (s.slabs p).bitmap = p + SIZEOF_SLAB
    ∧ (s.slabs p).objects = p + SIZEOF_SLAB + (s.caches c).bitmap_length
    ∧ (s.slabs p).objects + (s.caches c).obj_per_slab * (s.caches c).object_size
        ≤ s.buddy.mem_space + BLOCK_SIZE
            * (get_index s.buddy (s.slabs p).my_hook.addr + 2 ^ (s.caches c).slab_order) := by
  have hout := hp.hook_out c hc t p hm
  have hord := hp.hook_order c hc t p hm
  have hblk := hp.hook_block c hc t p hm
  obtain ⟨hpl, hoff⟩ := hp.place c hc t p hm
  obtain ⟨hbm, hobj⟩ := hp.fields c hc t p hm
  have hroom := (hp.layout c hc).room
  have hfit := hb.runs.out_fit _ (List.mem_map_of_mem (hook_run s.buddy) hout)
  obtain ⟨_, h1, h2⟩ := hfit
  simp only [hook_run] at h1 h2
  rw [hord] at h2
  have hsm := hl.small
  have h20 : (2 : Nat) ^ 20 = 1048576 := by norm_num
  have hW : WORD = 4294967296 := rfl
  have hB : BLOCK_SIZE = 4096 := rfl
  have hp0 : 0 < 2 ^ (s.caches c).slab_order := Nat.pow_pos (by decide)
  have haddr : (s.slabs p).my_hook.addr
      = s.buddy.mem_space + BLOCK_SIZE * get_index s.buddy (s.slabs p).my_hook.addr := by
    have h3 := hblk
    unfold get_block at h3
    rw [Nat.mod_eq_of_lt (by rw [hW, hB]; omega)] at h3
    exact h3
  refine ⟨h1, h2, haddr, ?_, hbm, hobj, ?_⟩
  · rw [← haddr]; omega
  · rw [hobj, Nat.mul_add, ← Nat.add_assoc, ← haddr]
    generalize (s.slabs p).my_hook.addr = a at hpl haddr
    generalize (s.caches c).obj_per_slab * (s.caches c).object_size = w at hroom
    generalize ((s.caches c).max_alignments - 1) * CACHE_L1_LINE_SIZE = v at hroom hoff
    rw [hB] at hroom ⊢
    have : 4096 * 2 ^ (s.caches c).slab_order = 2 ^ (s.caches c).slab_order * 4096 :=
      Nat.mul_comm _ _
    omega

/-- The runs of two listed slabs do not meet. -/
theorem slab_apart (s : kmem_state) (cs : List Nat) (L : Nat → slab_type → List Nat)
    (out : List block_area) (lists : Nat → List Nat)
    (hp : slab_places s cs L out) (hb : buddy_inv s.buddy out lists)
    (c : Nat) (hc : c ∈ cs) (t : slab_type) (p : Nat) (hm : p ∈ L c t)
    (d : Nat) (hd : d ∈ cs) (t2 : slab_type) (q : Nat) (hq : q ∈ L d t2) (hne : p ≠ q) :
    get_index s.buddy (s.slabs p).my_hook.addr + 2 ^ (s.caches c).slab_order
        ≤ get_index s.buddy (s.slabs q).my_hook.addr
    ∨ get_index s.buddy (s.slabs q).my_hook.addr + 2 ^ (s.caches d).slab_order
        ≤ get_index s.buddy (s.slabs p).my_hook.addr := by
  have hhne : (s.slabs p).my_hook ≠ (s.slabs q).my_hook := fun e =>
    hne (hp.hook_inj c t p d t2 q hc hd hm hq e)
  have h := pairwise_apart (hook_run s.buddy) out hb.runs.out_out _ _
    (hp.hook_out c hc t p hm) (hp.hook_out d hd t2 q hq) hhne
  simp only [apart_runs, hook_run] at h
  rw [hp.hook_order c hc t p hm, hp.hook_order d hd t2 q hq] at h
  exact h

/-- The byte size of a listed slab is a 32-bit word. -/
theorem slab_bytes_small (s : kmem_state) (cs : List Nat) (L : Nat → slab_type → List Nat)
    (out : List block_area) (lists : Nat → List Nat) (hl : slab_lists s cs L)
    (hp : slab_places s cs L out) (hb : buddy_inv s.buddy out lists)
    (c : Nat) (hc : c ∈ cs) (t : slab_type) (p : Nat) (hm : p ∈ L c t) :
    2 ^ (s.caches c).slab_order * BLOCK_SIZE < WORD
    ∧ SIZEOF_SLAB + (s.caches c).bitmap_length
        + (s.caches c).obj_per_slab * (s.caches c).object_size
      ≤ 2 ^ (s.caches c).slab_order * BLOCK_SIZE := by
  obtain ⟨h1, h2, _⟩ := slab_extent s cs L out lists hl hp hb c hc t p hm
  have hsm := hl.small
  have hroom := (hp.layout c hc).room
  have h20 : (2 : Nat) ^ 20 = 1048576 := by norm_num
  have hW : WORD = 4294967296 := rfl
  have hB : BLOCK_SIZE = 4096 := rfl
  rw [hW, hB]
  rw [hB] at hroom
  constructor
  · omega
  · omega

/-! ## `slab_alloc_object` and `slab_free_object` on listed slabs -/

theorem move_list_same (L : Nat → slab_type → List Nat) (c : Nat) (t : slab_type) (p : Nat) :
    move_list L c t t p = L := by
  unfold move_list
  rw [if_pos rfl]

theorem move_list_ne (L : Nat → slab_type → List Nat) (c : Nat) (t t1 : slab_type) (p : Nat)
    (h : t1 ≠ t) :
    move_list L c t t1 p = set_list (set_list L c t ((L c t).erase p)) c t1 (p :: L c t1) := by
  unfold move_list
  rw [if_neg h]

/-- The slabs on the lists after a move: the moved slab on the list of its new
type, every other slab where it was. -/
theorem mem_move_list (s : kmem_state) (cs : List Nat) (L : Nat → slab_type → List Nat)
    (hl : slab_lists s cs L) (c : Nat) (hc : c ∈ cs) (t t1 : slab_type) (p : Nat)
    (hp : p ∈ L c t) (d : Nat) (hd : d ∈ cs) (t2 : slab_type) (q : Nat) :
    q ∈ move_list L c t t1 p d t2 ↔ (q = p ∧ d = c ∧ t2 = t1) ∨ (q ≠ p ∧ q ∈ L d t2) := by
  have hown : ∀ d2, d2 ∈ cs → ∀ t3, p ∈ L d2 t3 → d2 = c ∧ t3 = t := by
    intro d2 hd2 t3 h3
    obtain ⟨o1, o2⟩ := hl.owner d2 hd2 t3 p h3
    obtain ⟨o3, o4⟩ := hl.owner c hc t p hp
    exact ⟨o1.symm.trans o3, o2.symm.trans o4⟩
  by_cases h : t1 = t
  · subst h
    rw [move_list_same]
    constructor
    · intro hq
      by_cases e : q = p
      · subst e
        obtain ⟨e1, e2⟩ := hown d hd t2 hq
        exact Or.inl ⟨rfl, e1, e2⟩
      · exact Or.inr ⟨e, hq⟩
    · intro hq
      rcases hq with ⟨e1, e2, e3⟩ | ⟨_, hq⟩
      · rw [e1, e2, e3]; exact hp
      · exact hq
  · rw [move_list_ne _ _ _ _ _ h]
    rcases set_list_cases (set_list L c t ((L c t).erase p)) c d t1 t2 (p :: L c t1)
      with ⟨hdc, htt, e⟩ | ⟨hne, e⟩
    · rw [e]
      constructor
      · intro hq
        rcases List.mem_cons.1 hq with e1 | hq1
        · exact Or.inl ⟨e1, hdc, htt⟩
        · refine Or.inr ⟨?_, by rw [hdc, htt]; exact hq1⟩
          intro e1
          rw [e1] at hq1
          exact h (hown c hc t1 hq1).2
      · intro hq
        rcases hq with ⟨e1, _, _⟩ | ⟨_, hq⟩
        · rw [e1]; exact List.mem_cons_self _ _
        · rw [hdc, htt] at hq; exact List.mem_cons_of_mem _ hq
    · rw [e]
      rcases set_list_cases L c d t t2 ((L c t).erase p) with ⟨hdc, htt, e2⟩ | ⟨hne2, e2⟩
      · rw [e2]
        constructor
        · intro hq
          refine Or.inr ⟨?_, by rw [hdc, htt]; exact List.mem_of_mem_erase hq⟩
          intro e3
          rw [e3] at hq
          exact (List.Nodup.not_mem_erase (hl.nodup c hc t)) hq
        · intro hq
          rcases hq with ⟨_, _, e3⟩ | ⟨hqp, hq⟩
          · exact absurd (e3.symm.trans htt) h
          · rw [hdc, htt] at hq
            exact (List.mem_erase_of_ne hqp).2 hq
      · rw [e2]
        constructor
        · intro hq
          refine Or.inr ⟨?_, hq⟩
          intro e3
          rw [e3] at hq
          obtain ⟨e4, e5⟩ := hown d hd t2 hq
          rcases hne2 with h1 | h1
          · exact h1 e4
          · exact h1 e5
        · intro hq
          rcases hq with ⟨_, e3, e4⟩ | ⟨_, hq⟩
          · rcases hne with h1 | h1
            · exact absurd e3 h1
            · exact absurd e4 h1
          · exact hq

theorem recount_lists (s : kmem_state) (cs : List Nat) (L : Nat → slab_type → List Nat)
    (hl : slab_lists s cs L) (p : Nat) (m1 : Nat → Nat) (u1 : Nat) :
    slab_lists (recount s p m1 u1) cs L := by
  refine slab_lists_off_list s _ cs L hl rfl (fun d _ => ⟨rfl, rfl⟩) ?_
  intro d _ t2 q _
  show (Function.update s.slabs p _ q).next = _ ∧ (Function.update s.slabs p _ q).cache = _
    ∧ (Function.update s.slabs p _ q).type = _
  by_cases hq : q = p
  · subst hq
    simp only [Function.update_same, and_self]
  · simp only [Function.update_noteq hq, and_self]

theorem recount_slabs (s : kmem_state) (p : Nat) (m1 : Nat → Nat) (u1 : Nat) (q : Nat) :
    ((recount s p m1 u1).slabs q).cache = (s.slabs q).cache
    ∧ ((recount s p m1 u1).slabs q).my_hook = (s.slabs q).my_hook
    ∧ ((recount s p m1 u1).slabs q).offset = (s.slabs q).offset
    ∧ ((recount s p m1 u1).slabs q).bitmap = (s.slabs q).bitmap
    ∧ ((recount s p m1 u1).slabs q).objects = (s.slabs q).objects
    ∧ ((recount s p m1 u1).slabs q).type = (s.slabs q).type
    ∧ ((recount s p m1 u1).slabs q).used_count = if q = p then u1 else (s.slabs q).used_count := by
  show (Function.update s.slabs p _ q).cache = _ ∧ (Function.update s.slabs p _ q).my_hook = _
    ∧ (Function.update s.slabs p _ q).offset = _ ∧ (Function.update s.slabs p _ q).bitmap = _
    ∧ (Function.update s.slabs p _ q).objects = _ ∧ (Function.update s.slabs p _ q).type = _
    ∧ (Function.update s.slabs p _ q).used_count = _
  by_cases hq : q = p
  · subst hq
    simp only [Function.update_same, if_true, and_self]
  · simp only [Function.update_noteq hq, if_neg hq, and_self]

/-- The change of type that follows the write of the bitmap and of the used
count: it returns, the slab moves to the head of the list of its new type, and
nothing else changes. -/
theorem recount_change (s : kmem_state) (cs : List Nat) (L : Nat → slab_type → List Nat)
    (hl : slab_lists s cs L) (c : Nat) (hc : c ∈ cs) (t : slab_type) (p : Nat)
    (hp : p ∈ L c t) (m1 : Nat → Nat) (u1 : Nat) (t1 : slab_type) :
    ∃ s1, (if t1 = t then some (recount s p m1 u1)
        else (slab_change_type (recount s p m1 u1) p t1).bind fun r => some r.2) = some s1
      ∧ slab_lists s1 cs (move_list L c t t1 p)
      ∧ rewritten s s1 c p m1 u1 t1 := by
  have hl1 := recount_lists s cs L hl p m1 u1
  have hsl := recount_slabs s p m1 u1
  by_cases h : t1 = t
  · rw [if_pos h, h, move_list_same]
    refine ⟨_, rfl, hl1, rfl, rfl, rfl, rfl, ?_, ?_, ?_, fun d => same_cache_refl _,
      fun d _ => rfl⟩
    · intro q
      obtain ⟨a1, a2, a3, a4, a5, _, _⟩ := hsl q
      exact ⟨a1, a2, a3, a4, a5⟩
    · intro q
      exact (hsl q).2.2.2.2.2.2
    · intro q
      rw [(hsl q).2.2.2.2.2.1]
      by_cases hq : q = p
      · rw [if_pos hq, hq]
        exact (hl.owner c hc t p hp).2
      · rw [if_neg hq]
  · rw [if_neg h, move_list_ne _ _ _ _ _ h]
    obtain ⟨s1, e1, e2, e3, e4, e5⟩ := slab_change_type_spec (recount s p m1 u1) cs L hl1 c t t1 p
      hc hp h
    rw [e1]
    refine ⟨s1, rfl, e2, e3.buddy, e3.records.kmem_ctrl, e3.records.used, e3.records.bitmaps,
      ?_, ?_, ?_, e3.records.caches, e5⟩
    · intro q
      obtain ⟨a1, a2, a3, a4, a5, _, _⟩ := hsl q
      have b := e3.records.slabs q
      exact ⟨b.cache.trans a1, b.my_hook.trans a2, b.offset.trans a3, b.bitmap.trans a4,
        b.objects.trans a5⟩
    · intro q
      rw [(e3.records.slabs q).used_count]
      exact (hsl q).2.2.2.2.2.2
    · intro q
      rw [e4 q, (hsl q).2.2.2.2.2.1]

/-- The types match the used counts after a slab got the used count `u1` and
moved to the list of the type `t1` that matches it. -/
theorem states_moved (s s1 : kmem_state) (cs : List Nat) (L : Nat → slab_type → List Nat)
    (hl : slab_lists s cs L) (hs : slab_states s cs L) (c : Nat) (hc : c ∈ cs)
    (t t1 : slab_type) (p : Nat) (hp : p ∈ L c t) (u1 : Nat)
    (hu : ∀ q, (s1.slabs q).used_count = if q = p then u1 else (s.slabs q).used_count)
    (hcs : ∀ d, (s1.caches d).obj_per_slab = (s.caches d).obj_per_slab)
    (h1 : u1 ≤ (s.caches c).obj_per_slab)
    (h2 : t1 = slab_type.empty ↔ u1 = 0)
    (h3 : t1 = slab_type.full ↔ u1 = (s.caches c).obj_per_slab) :
    slab_states s1 cs (move_list L c t t1 p) := by
  refine ⟨?_, ?_, ?_⟩
  · intro d hd t2 q hq
    rw [hu q, hcs d]
    rcases (mem_move_list s cs L hl c hc t t1 p hp d hd t2 q).1 hq with ⟨e1, e2, _⟩ | ⟨e1, e2⟩
    · rw [if_pos e1, e2]; exact h1
    · rw [if_neg e1]; exact hs.used_le d hd t2 q e2
  · intro d hd t2 q hq
    rw [hu q]
    rcases (mem_move_list s cs L hl c hc t t1 p hp d hd t2 q).1 hq with ⟨e1, _, e3⟩ | ⟨e1, e2⟩
    · rw [if_pos e1, e3]; exact h2
    · rw [if_neg e1]; exact hs.empty_iff d hd t2 q e2
  · intro d hd t2 q hq
    rw [hu q, hcs d]
    rcases (mem_move_list s cs L hl c hc t t1 p hp d hd t2 q).1 hq with ⟨e1, e2, e3⟩ | ⟨e1, e2⟩
    · rw [if_pos e1, e3, e2]; exact h3
    · rw [if_neg e1]; exact hs.full_iff d hd t2 q e2

/-- On a listed slab that is not full `slab_alloc_object` sets the bit the scan
found, raises the used count and moves the slab to the list of the type that
matches it. -/
theorem slab_alloc_object_spec (s : kmem_state) (cs : List Nat) (L : Nat → slab_type → List Nat)
    (hl : slab_lists s cs L) (hs : slab_states s cs L) (c : Nat) (hc : c ∈ cs) (t : slab_type)
    (p : Nat) (hp : p ∈ L c t) (ht : t ≠ slab_type.full)
    (hn : (s.caches c).obj_per_slab < WORD) (idx : Nat)
    (hscan : entry_scan s.bitmaps (s.slabs p).bitmap (s.caches c).bitmap_length 0 = some idx)
    (t1 : slab_type)
    (ht1 : t1 = if (s.slabs p).used_count + 1 = (s.caches c).obj_per_slab then slab_type.full
      else slab_type.part) :
    ∃ s1, slab_alloc_object s p
        = some ((s.slabs p).objects + (idx * (s.caches c).object_size) % WORD, s1)
      ∧ slab_lists s1 cs (move_list L c t t1 p)
      ∧ slab_states s1 cs (move_list L c t t1 p)
      ∧ rewritten s s1 c p (bitmap_set_used s.bitmaps (s.slabs p).bitmap idx)
          ((s.slabs p).used_count + 1) t1 := by
  obtain ⟨hown, htype⟩ := hl.owner c hc t p hp
  have hpne := listed_ne_null s cs L hl c hc t p hp
  have hcne := hl.cache_ne c hc
  have hule := hs.used_le c hc t p hp
  have hfull := hs.full_iff c hc t p hp
  have hempty := hs.empty_iff c hc t p hp
  have hu : (s.slabs p).used_count < (s.caches c).obj_per_slab := by
    rcases Nat.lt_or_ge (s.slabs p).used_count (s.caches c).obj_per_slab with h | h
    · exact h
    · exact absurd (hfull.2 (Nat.le_antisymm hule h)) ht
  have hmod : ((s.slabs p).used_count + 1) % WORD = (s.slabs p).used_count + 1 :=
    Nat.mod_eq_of_lt (by omega)
  obtain ⟨s1, e1, e2, e3⟩ := recount_change s cs L hl c hc t p hp
    (bitmap_set_used s.bitmaps (s.slabs p).bitmap idx) ((s.slabs p).used_count + 1) t1
  have hst : slab_states s1 cs (move_list L c t t1 p) := by
    refine states_moved s s1 cs L hl hs c hc t t1 p hp _ e3.used_count
      (fun d => (e3.caches d).obj_per_slab)
      (by omega) ?_ ?_
    · rw [ht1]
      split_ifs <;> simp
    · rw [ht1]
      split_ifs with h
      · simp [h]
      · simp [h]
  refine ⟨s1, ?_, e2, hst, e3⟩
  have hchg : (if (s.slabs p).used_count + 1 < (s.caches c).obj_per_slab ∧ t ≠ slab_type.part then
        (slab_change_type (recount s p (bitmap_set_used s.bitmaps (s.slabs p).bitmap idx)
          ((s.slabs p).used_count + 1)) p slab_type.part).bind fun r => some r.2
      else if (s.slabs p).used_count + 1 = (s.caches c).obj_per_slab then
        (slab_change_type (recount s p (bitmap_set_used s.bitmaps (s.slabs p).bitmap idx)
          ((s.slabs p).used_count + 1)) p slab_type.full).bind fun r => some r.2
      else some (recount s p (bitmap_set_used s.bitmaps (s.slabs p).bitmap idx)
          ((s.slabs p).used_count + 1))) = some s1 := by
    rw [← e1]
    by_cases ha : (s.slabs p).used_count + 1 < (s.caches c).obj_per_slab ∧ t ≠ slab_type.part
    · have h1 : t1 = slab_type.part := by rw [ht1, if_neg (by omega)]
      rw [if_pos ha, h1, if_neg (fun e => ha.2 e.symm)]
    · rw [if_neg ha]
      by_cases hb : (s.slabs p).used_count + 1 = (s.caches c).obj_per_slab
      · have h1 : t1 = slab_type.full := by rw [ht1, if_pos hb]
        rw [if_pos hb, h1, if_neg (fun e => ht e.symm)]
      · have h1 : t1 = slab_type.part := by rw [ht1, if_neg hb]
        have : t = slab_type.part := by
          by_contra hc2
          exact ha ⟨by omega, hc2⟩
        rw [if_neg hb, h1, if_pos this.symm]
  have hobj : (s1.slabs p).objects = (s.slabs p).objects := (e3.frame p).2.2.2.2
  have hcache : (s1.slabs p).cache = c := (e3.frame p).1.trans hown
  have hsize : (s1.caches c).object_size = (s.caches c).object_size :=
    (e3.caches c).object_size
  subst hown htype
  unfold slab_alloc_object
  rw [if_neg hpne]
  simp only []
  rw [if_neg hcne, hscan]
  simp only [Option.some_bind, hmod]
  show (Option.bind (if _ then _ else _) _) = _
  unfold recount at hchg
  rw [hchg]
  simp only [Option.some_bind]
  rw [hobj, hcache, hsize]

theorem slab_free_object_reject (s : kmem_state) (cs : List Nat)
    (L : Nat → slab_type → List Nat) (hl : slab_lists s cs L) (c : Nat) (hc : c ∈ cs)
    (t : slab_type) (p : Nat) (hp : p ∈ L c t) (objp : Nat) (h : ¬ in_range s p objp) :
    slab_free_object s p objp = some (-1, s) := by
  obtain ⟨hown, _⟩ := hl.owner c hc t p hp
  have hpne := listed_ne_null s cs L hl c hc t p hp
  have hcne := hl.cache_ne c hc
  subst hown
  unfold slab_free_object
  rw [if_neg hpne]
  simp only []
  rw [if_neg hcne]
  unfold in_range at h
  rw [if_pos h]

/-- On a listed slab that is not empty `slab_free_object` with a pointer that
passes the range check clears the bit of the index it computes, lowers the used
count and moves the slab to the list of the type that matches it. -/
theorem slab_free_object_spec (s : kmem_state) (cs : List Nat) (L : Nat → slab_type → List Nat)
    (hl : slab_lists s cs L) (hs : slab_states s cs L) (c : Nat) (hc : c ∈ cs) (t : slab_type)
    (p : Nat) (hp : p ∈ L c t) (ht : t ≠ slab_type.empty)
    (hn : (s.caches c).obj_per_slab < WORD) (hsz : (s.caches c).object_size ≠ 0)
    (objp : Nat) (hr : in_range s p objp) (t1 : slab_type)
    (ht1 : t1 = if (s.slabs p).used_count - 1 = 0 then slab_type.empty else slab_type.part) :
    ∃ s1, slab_free_object s p objp = some (0, s1)
      ∧ slab_lists s1 cs (move_list L c t t1 p)
      ∧ slab_states s1 cs (move_list L c t t1 p)
      ∧ rewritten s s1 c p (bitmap_set_free s.bitmaps (s.slabs p).bitmap (free_index s p objp))
          ((s.slabs p).used_count - 1) t1 := by
  obtain ⟨hown, htype⟩ := hl.owner c hc t p hp
  have hpne := listed_ne_null s cs L hl c hc t p hp
  have hcne := hl.cache_ne c hc
  have hule := hs.used_le c hc t p hp
  have hempty := hs.empty_iff c hc t p hp
  have hu : 1 ≤ (s.slabs p).used_count := by
    rcases Nat.eq_zero_or_pos (s.slabs p).used_count with h | h
    · exact absurd (hempty.2 h) ht
    · exact h
  have hmod : ((s.slabs p).used_count + WORD - 1) % WORD = (s.slabs p).used_count - 1 := by
    have : (s.slabs p).used_count + WORD - 1 = (s.slabs p).used_count - 1 + WORD := by omega
    rw [this, Nat.add_mod_right]
    exact Nat.mod_eq_of_lt (by omega)
  obtain ⟨s1, e1, e2, e3⟩ := recount_change s cs L hl c hc t p hp
    (bitmap_set_free s.bitmaps (s.slabs p).bitmap (free_index s p objp))
    ((s.slabs p).used_count - 1) t1
  have hst : slab_states s1 cs (move_list L c t t1 p) := by
    refine states_moved s s1 cs L hl hs c hc t t1 p hp _ e3.used_count
      (fun d => (e3.caches d).obj_per_slab)
      (by omega) ?_ ?_
    · rw [ht1]
      split_ifs with h
      · simp [h]
      · simp [h]
    · rw [ht1]
      split_ifs with h
      · simp; omega
      · simp; omega
  refine ⟨s1, ?_, e2, hst, e3⟩
  have hchg : (if (s.slabs p).used_count - 1 = 0 then
        (slab_change_type (recount s p (bitmap_set_free s.bitmaps (s.slabs p).bitmap
          (free_index s p objp)) ((s.slabs p).used_count - 1)) p slab_type.empty).bind
          fun r => some r.2
      else if t ≠ slab_type.part then
        (slab_change_type (recount s p (bitmap_set_free s.bitmaps (s.slabs p).bitmap
          (free_index s p objp)) ((s.slabs p).used_count - 1)) p slab_type.part).bind
          fun r => some r.2
      else some (recount s p (bitmap_set_free s.bitmaps (s.slabs p).bitmap
          (free_index s p objp)) ((s.slabs p).used_count - 1))) = some s1 := by
    rw [← e1]
    by_cases ha : (s.slabs p).used_count - 1 = 0
    · have h1 : t1 = slab_type.empty := by rw [ht1, if_pos ha]
      rw [if_pos ha, h1, if_neg (fun e => ht e.symm)]
    · have h1 : t1 = slab_type.part := by rw [ht1, if_neg ha]
      rw [if_neg ha, h1]
      by_cases hb : t ≠ slab_type.part
      · rw [if_pos hb, if_neg (fun e => hb e.symm)]
      · rw [if_neg hb, if_pos (by simpa using hb : t = slab_type.part).symm]
  subst hown htype
  unfold slab_free_object
  rw [if_neg hpne]
  simp only []
  rw [if_neg hcne]
  unfold in_range at hr
  rw [if_neg (not_not.2 hr), if_neg hsz]
  simp only [hmod]
  unfold recount free_index at hchg
  rw [hchg]
  rfl

/-! ## `kmem_cache_free_obj` -/

theorem exists_first (P : Nat → Prop) : ∀ l : List Nat, (∃ q, q ∈ l ∧ P q) →
    ∃ pre q post, l = pre ++ q :: post ∧ P q ∧ ∀ x, x ∈ pre → ¬ P x := by
  intro l
  induction l with
  | nil =>
    intro h
    obtain ⟨q, hq, _⟩ := h
    simp at hq
  | cons a l ih =>
    intro h
    by_cases ha : P a
    · exact ⟨[], a, l, rfl, ha, fun x hx => by simp at hx⟩
    · obtain ⟨q, hq, hP⟩ := h
      rcases List.mem_cons.1 hq with e | hq1
      · rw [e] at hP
        exact absurd hP ha
      · obtain ⟨pre, q1, post, e, h1, h2⟩ := ih ⟨q, hq1, hP⟩
        refine ⟨a :: pre, q1, post, by rw [e]; rfl, h1, ?_⟩
        intro x hx
        rcases List.mem_cons.1 hx with e2 | hx1
        · rw [e2]; exact ha
        · exact h2 x hx1

theorem free_walk_none (s : kmem_state) (objp : Nat) : ∀ (l : List Nat) (fuel head : Nat),
    slab_chain s.slabs head l → l.length < fuel →
    (∀ q, q ∈ l → slab_free_object s q objp = some (-1, s)) →
    free_walk s objp fuel head = some none := by
  intro l
  induction l with
  | nil =>
    intro fuel head hch hf _
    cases fuel with
    | zero => simp at hf
    | succ n =>
      have hnull : head = NULL := hch
      unfold free_walk
      rw [if_neg (not_not.2 hnull)]
  | cons a l ih =>
    intro fuel head hch hf hrej
    obtain ⟨h1, h2, h3⟩ := hch
    cases fuel with
    | zero => simp at hf
    | succ n =>
      unfold free_walk
      rw [h1, if_pos h2, hrej a (List.mem_cons_self _ _)]
      simp only [Option.some_bind]
      rw [if_neg (by decide)]
      exact ih n _ h3 (by simpa using hf) (fun q hq => hrej q (List.mem_cons_of_mem _ hq))

theorem free_walk_some (s s1 : kmem_state) (objp q : Nat) (post : List Nat) :
    ∀ (pre : List Nat) (fuel head : Nat),
    slab_chain s.slabs head (pre ++ q :: post) → (pre ++ q :: post).length < fuel →
    (∀ x, x ∈ pre → slab_free_object s x objp = some (-1, s)) →
    slab_free_object s q objp = some (0, s1) →
    free_walk s objp fuel head = some (some s1) := by
  intro pre
  induction pre with
  | nil =>
    intro fuel head hch hf _ hq
    obtain ⟨h1, h2, _⟩ := hch
    cases fuel with
    | zero => simp at hf
    | succ n =>
      unfold free_walk
      rw [h1, if_pos h2, hq]
      rfl
  | cons a pre ih =>
    intro fuel head hch hf hrej hq
    obtain ⟨h1, h2, h3⟩ := hch
    cases fuel with
    | zero => simp at hf
    | succ n =>
      unfold free_walk
      rw [h1, if_pos h2, hrej a (List.mem_cons_self _ _)]
      simp only [Option.some_bind]
      rw [if_neg (by decide)]
      exact ih n _ h3 (by simpa using hf) (fun x hx => hrej x (List.mem_cons_of_mem _ hx)) hq

theorem list_fuel (s : kmem_state) (cs : List Nat) (L : Nat → slab_type → List Nat)
    (hl : slab_lists s cs L) (c : Nat) (hc : c ∈ cs) (t : slab_type) :
    (L c t).length < walk_fuel s := by
  have h := hl.short c hc
  unfold walk_fuel
  have hB : BLOCK_SIZE = 4096 := rfl
  rw [hB]
  cases t <;> omega

/-- The object count of a cache with a listed slab is a 32-bit word. -/
theorem objs_small (s : kmem_state) (cs : List Nat) (L : Nat → slab_type → List Nat)
    (out : List block_area) (lists : Nat → List Nat) (inv : kmem_inv s cs L out lists)
    (c : Nat) (hc : c ∈ cs) (t : slab_type) (p : Nat) (hm : p ∈ L c t) :
    (s.caches c).obj_per_slab < WORD
    ∧ (s.caches c).obj_per_slab * (s.caches c).object_size < WORD := by
  obtain ⟨h1, h2⟩ := slab_bytes_small s cs L out lists inv.slabs_ok inv.places_ok inv.buddy_ok
    c hc t p hm
  have hsz := (inv.places_ok.layout c hc).size
  have h3 : (s.caches c).obj_per_slab ≤ (s.caches c).obj_per_slab * (s.caches c).object_size :=
    Nat.le_mul_of_pos_right _ hsz
  constructor <;> omega

/-- The invariant carries over to a state that `rewritten` describes, for the
lists after the move of the slab. -/
theorem inv_rewritten (s s1 : kmem_state) (cs : List Nat) (L : Nat → slab_type → List Nat)
    (out : List block_area) (lists : Nat → List Nat) (inv : kmem_inv s cs L out lists)
    (c : Nat) (hc : c ∈ cs) (t t1 : slab_type) (p : Nat) (hp : p ∈ L c t)
    (m : Nat → Nat) (u : Nat) (hr : rewritten s s1 c p m u t1)
    (hl1 : slab_lists s1 cs (move_list L c t t1 p))
    (hs1 : slab_states s1 cs (move_list L c t t1 p)) :
    kmem_inv s1 cs (move_list L c t t1 p) out lists := by
  refine ⟨hl1, hs1, ?_, by rw [hr.buddy]; exact inv.buddy_ok⟩
  have hmem : ∀ d, d ∈ cs → ∀ t2 q, q ∈ move_list L c t t1 p d t2 → ∃ t0, q ∈ L d t0 := by
    intro d hd t2 q hq
    rcases (mem_move_list s cs L inv.slabs_ok c hc t t1 p hp d hd t2 q).1 hq
      with ⟨e1, e2, _⟩ | ⟨_, e2⟩
    · rw [e1, e2]; exact ⟨t, hp⟩
    · exact ⟨t2, e2⟩
  refine slab_places_frame s s1 cs L _ out out inv.places_ok
    (fun q => (hr.frame q).2)
    (fun d => ⟨(hr.caches d).object_size, (hr.caches d).bitmap_length,
      (hr.caches d).slab_order, (hr.caches d).obj_per_slab, (hr.caches d).max_alignments⟩)
    (by rw [hr.buddy]) hmem ?_
  intro d hd t2 q hq
  obtain ⟨t0, h0⟩ := hmem d hd t2 q hq
  exact inv.places_ok.hook_out d hd t0 q h0

/-- The invariant carries over to a state that differs in fields of one cache
other than the list heads, the slab counts and the layout. -/
theorem inv_cache_fields (s : kmem_state) (cs : List Nat) (L : Nat → slab_type → List Nat)
    (out : List block_area) (lists : Nat → List Nat) (inv : kmem_inv s cs L out lists)
    (c : Nat) (v : kmem_cache_t) (hh : v.heads = (s.caches c).heads)
    (hn : v.slab_count = (s.caches c).slab_count)
    (h1 : v.object_size = (s.caches c).object_size)
    (h2 : v.bitmap_length = (s.caches c).bitmap_length)
    (h3 : v.slab_order = (s.caches c).slab_order)
    (h4 : v.obj_per_slab = (s.caches c).obj_per_slab)
    (h5 : v.max_alignments = (s.caches c).max_alignments) :
    kmem_inv { s with caches := Function.update s.caches c v } cs L out lists := by
  have hf : ∀ d, (Function.update s.caches c v d).heads = (s.caches d).heads
      ∧ (Function.update s.caches c v d).slab_count = (s.caches d).slab_count
      ∧ (Function.update s.caches c v d).object_size = (s.caches d).object_size
      ∧ (Function.update s.caches c v d).bitmap_length = (s.caches d).bitmap_length
      ∧ (Function.update s.caches c v d).slab_order = (s.caches d).slab_order
      ∧ (Function.update s.caches c v d).obj_per_slab = (s.caches d).obj_per_slab
      ∧ (Function.update s.caches c v d).max_alignments = (s.caches d).max_alignments := by
    intro d
    by_cases hd : d = c
    · rw [hd, Function.update_same]
      exact ⟨hh, hn, h1, h2, h3, h4, h5⟩
    · rw [Function.update_noteq hd]
      exact ⟨rfl, rfl, rfl, rfl, rfl, rfl, rfl⟩
  refine ⟨?_, ?_, ?_, inv.buddy_ok⟩
  · exact slab_lists_off_list s _ cs L inv.slabs_ok rfl (fun d _ => ⟨(hf d).1, (hf d).2.1⟩)
      (fun d _ t q _ => ⟨rfl, rfl, rfl⟩)
  · refine ⟨?_, ?_, ?_⟩
    · intro d hd t q hq
      show _ ≤ (Function.update s.caches c v d).obj_per_slab
      rw [(hf d).2.2.2.2.2.1]
      exact inv.states_ok.used_le d hd t q hq
    · intro d hd t q hq
      exact inv.states_ok.empty_iff d hd t q hq
    · intro d hd t q hq
      show _ ↔ _ = (Function.update s.caches c v d).obj_per_slab
      rw [(hf d).2.2.2.2.2.1]
      exact inv.states_ok.full_iff d hd t q hq
  · exact slab_places_frame s _ cs L L out out inv.places_ok (fun q => ⟨rfl, rfl, rfl, rfl⟩)
      (fun d => ⟨(hf d).2.2.1, (hf d).2.2.2.1, (hf d).2.2.2.2.1, (hf d).2.2.2.2.2.1,
        (hf d).2.2.2.2.2.2⟩) rfl (fun d _ t q hq => ⟨t, hq⟩)
      (fun d hd t q hq => inv.places_ok.hook_out d hd t q hq)

/-- What `kmem_cache_free_obj` does: either a slab `p` of the partial or of the
full list passes the range check, the call returns 0, clears the bit of the
index it computes in `p`, lowers its used count and moves it to the list that
matches; or no such slab passes, and the call returns -1 and latches the error
code. -/
theorem free_obj_spec (s : kmem_state) (cs : List Nat) (L : Nat → slab_type → List Nat)
    (out : List block_area) (lists : Nat → List Nat) (inv : kmem_inv s cs L out lists)
    (c : Nat) (hc : c ∈ cs) (objp : Nat) :
    (∃ t p s1 t1, t ≠ slab_type.empty ∧ p ∈ L c t ∧ in_range s p objp
        ∧ t1 = (if (s.slabs p).used_count - 1 = 0 then slab_type.empty else slab_type.part)
        ∧ kmem_cache_free_obj s c objp = some (0, s1)
        ∧ kmem_inv s1 cs (move_list L c t t1 p) out lists
        ∧ rewritten s s1 c p
            (bitmap_set_free s.bitmaps (s.slabs p).bitmap (free_index s p objp))
            ((s.slabs p).used_count - 1) t1)
    ∨ ((∀ t p, t ≠ slab_type.empty → p ∈ L c t → ¬ in_range s p objp)
        ∧ kmem_cache_free_obj s c objp = some (-1,
          { s with
            caches := Function.update s.caches c
              { s.caches c with error := err_cache_obj_free } })) := by
  have hl := inv.slabs_ok
  have hcne := hl.cache_ne c hc
  have hsz : (s.caches c).object_size ≠ 0 := by
    have := (inv.places_ok.layout c hc).size
    omega
  have accept : ∀ t, t ≠ slab_type.empty → ∀ pre q post, L c t = pre ++ q :: post →
      in_range s q objp → (∀ x, x ∈ pre → ¬ in_range s x objp) →
      ∃ s1 t1,
        t1 = (if (s.slabs q).used_count - 1 = 0 then slab_type.empty else slab_type.part)
        ∧ free_walk s objp (walk_fuel s) ((s.caches c).heads t) = some (some s1)
        ∧ kmem_inv s1 cs (move_list L c t t1 q) out lists
        ∧ rewritten s s1 c q
            (bitmap_set_free s.bitmaps (s.slabs q).bitmap (free_index s q objp))
            ((s.slabs q).used_count - 1) t1 := by
    intro t ht pre q post hsplit hq hpre
    have hqm : q ∈ L c t := by rw [hsplit]; simp
    obtain ⟨s1, e1, e2, e3, e4⟩ := slab_free_object_spec s cs L hl inv.states_ok c hc t q hqm ht
      (objs_small s cs L out lists inv c hc t q hqm).1 hsz objp hq _ rfl
    refine ⟨s1, _, rfl, ?_, inv_rewritten s s1 cs L out lists inv c hc t _ q hqm _ _ e4 e2 e3, e4⟩
    refine free_walk_some s s1 objp q post pre _ _ (hsplit ▸ hl.chain c hc t)
      (hsplit ▸ list_fuel s cs L hl c hc t) ?_ e1
    intro x hx
    exact slab_free_object_reject s cs L hl c hc t x (by rw [hsplit]; simp [hx]) objp (hpre x hx)
  have reject : ∀ t, (∀ q, q ∈ L c t → ¬ in_range s q objp) →
      free_walk s objp (walk_fuel s) ((s.caches c).heads t) = some none := by
    intro t h
    exact free_walk_none s objp (L c t) _ _ (hl.chain c hc t) (list_fuel s cs L hl c hc t)
      (fun q hq => slab_free_object_reject s cs L hl c hc t q hq objp (h q hq))
  by_cases h1 : ∃ q, q ∈ L c slab_type.part ∧ in_range s q objp
  · obtain ⟨pre, q, post, hsplit, hq, hpre⟩ := exists_first _ _ h1
    obtain ⟨s1, t1, e1, e2, e3, e4⟩ := accept slab_type.part (by decide) pre q post hsplit hq hpre
    refine Or.inl ⟨slab_type.part, q, s1, t1, by decide, by rw [hsplit]; simp, hq, e1, ?_, e3, e4⟩
    unfold kmem_cache_free_obj
    rw [if_neg hcne]
    simp only []
    rw [e2]
    rfl
  · have hr1 := reject slab_type.part (fun q hq hin => h1 ⟨q, hq, hin⟩)
    by_cases h2 : ∃ q, q ∈ L c slab_type.full ∧ in_range s q objp
    · obtain ⟨pre, q, post, hsplit, hq, hpre⟩ := exists_first _ _ h2
      obtain ⟨s1, t1, e1, e2, e3, e4⟩ :=
        accept slab_type.full (by decide) pre q post hsplit hq hpre
      refine Or.inl ⟨slab_type.full, q, s1, t1, by decide, by rw [hsplit]; simp, hq, e1, ?_,
        e3, e4⟩
      unfold kmem_cache_free_obj
      rw [if_neg hcne]
      simp only []
      rw [hr1]
      simp only [Option.some_bind]
      rw [e2]
      rfl
    · have hr2 := reject slab_type.full (fun q hq hin => h2 ⟨q, hq, hin⟩)
      refine Or.inr ⟨?_, ?_⟩
      · intro t p ht hp hin
        cases t with
        | empty => exact ht rfl
        | part => exact h1 ⟨p, hp, hin⟩
        | full => exact h2 ⟨p, hp, hin⟩
      · unfold kmem_cache_free_obj
        rw [if_neg hcne]
        simp only []
        rw [hr1]
        simp only [Option.some_bind]
        rw [hr2]
        rfl

/-- The call `kmem_cache_free` returns and keeps the invariant, whatever the
pointer. -/
theorem free_step (s : kmem_state) (cs : List Nat) (L : Nat → slab_type → List Nat)
    (out : List block_area) (lists : Nat → List Nat) (inv : kmem_inv s cs L out lists)
    (c : Nat) (hc : c ∈ cs) (objp : Nat) :
    ∃ s1 L1, kmem_cache_free s c objp = some s1 ∧ kmem_inv s1 cs L1 out lists
      ∧ s1.buddy = s.buddy := by
  have hcne := inv.slabs_ok.cache_ne c hc
  have hk : kmem_cache_free s c objp = (kmem_cache_free_obj s c objp).bind fun r => some r.2 := by
    unfold kmem_cache_free
    rw [if_neg (fun h => hcne h.1)]
  rcases free_obj_spec s cs L out lists inv c hc objp with
    ⟨t, p, s1, t1, _, _, _, _, e1, e2, e3⟩ | ⟨_, e1⟩
  · exact ⟨s1, _, by rw [hk, e1]; rfl, e2, e3.buddy⟩
  · refine ⟨{ s with
        caches := Function.update s.caches c
          { s.caches c with error := err_cache_obj_free } }, L, by rw [hk, e1]; rfl, ?_, rfl⟩
    exact inv_cache_fields s cs L out lists inv c _ rfl rfl rfl rfl rfl rfl rfl

/-! ## `kmem_cache_new_slab` and `kmem_cache_alloc` -/

theorem get_block_get_index (s : buddy_state) (i : Nat) :
    get_block s (get_index s (get_block s i)) = get_block s i := by
  unfold get_index get_block
  have hW : WORD = 4294967296 := rfl
  have hB : BLOCK_SIZE = 4096 := rfl
  rw [hW, hB]
  omega

theorem fresh_hook (b : buddy_state) (out : List block_area) (lists : Nat → List Nat)
    (h : block_area) (inv : buddy_inv b (h :: out) lists) : h ∉ out := by
  intro hm
  have hp := inv.runs.out_out
  rw [List.map_cons, List.pairwise_cons] at hp
  have := hp.1 _ (List.mem_map_of_mem (hook_run b) hm)
  have hp0 : 0 < 2 ^ (hook_run b h).2 := Nat.pow_pos (by decide)
  simp only [apart_runs] at this
  omega

theorem fresh_apart (b : buddy_state) (out : List block_area) (lists : Nat → List Nat)
    (h : block_area) (inv : buddy_inv b (h :: out) lists) (g : block_area) (hg : g ∈ out) :
    get_index b h.addr + 2 ^ h.order ≤ get_index b g.addr
    ∨ get_index b g.addr + 2 ^ g.order ≤ get_index b h.addr := by
  have hp := inv.runs.out_out
  rw [List.map_cons, List.pairwise_cons] at hp
  exact hp.1 _ (List.mem_map_of_mem (hook_run b) hg)

/-- A cache has room for one more slab when the buddy layer hands out a new run. -/
theorem room_for_one (s : kmem_state) (cs : List Nat) (L : Nat → slab_type → List Nat)
    (out : List block_area) (hl : slab_lists s cs L) (hp : slab_places s cs L out)
    (b1 : buddy_state) (h : block_area) (lists1 : Nat → List Nat)
    (inv1 : buddy_inv b1 (h :: out) lists1) (c : Nat) (hc : c ∈ cs) :
    (L c slab_type.empty).length + (L c slab_type.part).length
      + (L c slab_type.full).length + 1 ≤ b1.alloc_block_count := by
  have hnot := fresh_hook b1 out lists1 h inv1
  have hdis : ∀ t1 t2, t1 ≠ t2 → ∀ q, q ∈ L c t1 → q ∉ L c t2 := by
    intro t1 t2 hne q h1 h2
    exact hne ((hl.owner c hc t1 q h1).2.symm.trans (hl.owner c hc t2 q h2).2)
  have hnd : (L c slab_type.empty ++ (L c slab_type.part ++ L c slab_type.full)).Nodup := by
    rw [List.nodup_append]
    refine ⟨hl.nodup c hc _, ?_, ?_⟩
    · rw [List.nodup_append]
      exact ⟨hl.nodup c hc _, hl.nodup c hc _, fun q h1 h2 =>
        hdis slab_type.part slab_type.full (by decide) q h1 h2⟩
    · intro q h1 h2
      rcases List.mem_append.1 h2 with h3 | h3
      · exact hdis slab_type.empty slab_type.part (by decide) q h1 h3
      · exact hdis slab_type.empty slab_type.full (by decide) q h1 h3
  have hmem : ∀ q, q ∈ L c slab_type.empty ++ (L c slab_type.part ++ L c slab_type.full) →
      ∃ t, q ∈ L c t := by
    intro q hq
    rcases List.mem_append.1 hq with h3 | h3
    · exact ⟨_, h3⟩
    · rcases List.mem_append.1 h3 with h4 | h4
      · exact ⟨_, h4⟩
      · exact ⟨_, h4⟩
  have hnd2 : ((L c slab_type.empty ++ (L c slab_type.part ++ L c slab_type.full)).map
      fun p => (s.slabs p).my_hook).Nodup := by
    apply List.Nodup.map_on _ hnd
    intro p1 h1 p2 h2 e
    obtain ⟨t1, m1⟩ := hmem p1 h1
    obtain ⟨t2, m2⟩ := hmem p2 h2
    exact hp.hook_inj c t1 p1 c t2 p2 hc hc m1 m2 e
  have hsub : ∀ g, g ∈ (L c slab_type.empty ++ (L c slab_type.part ++ L c slab_type.full)).map
      (fun p => (s.slabs p).my_hook) → g ∈ out := by
    intro g hg
    obtain ⟨q, hq, rfl⟩ := List.mem_map.1 hg
    obtain ⟨t, hm⟩ := hmem q hq
    exact hp.hook_out c hc t q hm
  have hall := held_le b1 (h :: out) lists1 inv1
    (h :: (L c slab_type.empty ++ (L c slab_type.part ++ L c slab_type.full)).map
      fun p => (s.slabs p).my_hook)
    (List.nodup_cons.2 ⟨fun hm => hnot (hsub h hm), hnd2⟩)
    (by
      intro g hg
      rcases List.mem_cons.1 hg with e | hg1
      · rw [e]; exact List.mem_cons_self _ _
      · exact List.mem_cons_of_mem _ (hsub g hg1))
  have hlen := length_le_sum_pow
    (h :: (L c slab_type.empty ++ (L c slab_type.part ++ L c slab_type.full)).map
      fun p => (s.slabs p).my_hook)
  simp only [List.length_cons, List.length_map, List.length_append] at hlen
  omega

theorem clear_bitmap_in (b : Nat) : ∀ (n : Nat) (m : Nat → Nat) (a : Nat), b ≤ a → a < b + n →
    clear_bitmap b n m a = BITMAP_EMPTY := by
  intro n
  induction n with
  | zero => intro m a h1 h2; omega
  | succ n ih =>
    intro m a h1 h2
    unfold clear_bitmap
    by_cases h : a = b + n
    · rw [h, Function.update_same]
    · rw [Function.update_noteq h]
      exact ih m a h1 (by omega)

theorem clear_bitmap_out (b : Nat) : ∀ (n : Nat) (m : Nat → Nat) (a : Nat),
    (a < b ∨ b + n ≤ a) → clear_bitmap b n m a = m a := by
  intro n
  induction n with
  | zero => intro m a _; rfl
  | succ n ih =>
    intro m a h
    unfold clear_bitmap
    rw [Function.update_noteq (by omega)]
    exact ih m a (by omega)

/-- The slab record that `slab_alloc` writes and the state it leaves when the
buddy layer hands out the hook `h`. -/
theorem slab_alloc_some (s : kmem_state) (c index : Nat) (h : block_area) (b1 : buddy_state)
    (hcne : c ≠ NULL)
    (ha : buddy_alloc s.buddy (s.caches c).slab_order = some (h, b1))
    (hane : h.addr ≠ NULL) (hal : (s.caches c).max_alignments ≠ 0) :
    slab_alloc s c index
      = some (h.addr + ((index % (s.caches c).max_alignments) * CACHE_L1_LINE_SIZE) % WORD,
          { s with
            buddy := b1
            slabs := Function.update s.slabs
              (h.addr + ((index % (s.caches c).max_alignments) * CACHE_L1_LINE_SIZE) % WORD)
              { cache := c
                type := slab_type.empty
                my_hook := h
                used_count := 0
                offset := ((index % (s.caches c).max_alignments) * CACHE_L1_LINE_SIZE) % WORD
                bitmap := h.addr
                  + ((index % (s.caches c).max_alignments) * CACHE_L1_LINE_SIZE) % WORD
                  + SIZEOF_SLAB
                objects := h.addr
                  + ((index % (s.caches c).max_alignments) * CACHE_L1_LINE_SIZE) % WORD
                  + SIZEOF_SLAB + (s.caches c).bitmap_length * 1
                next := NULL }
            bitmaps := clear_bitmap
              (h.addr + ((index % (s.caches c).max_alignments) * CACHE_L1_LINE_SIZE) % WORD
                + SIZEOF_SLAB)
              (s.caches c).bitmap_length s.bitmaps }) := by
  unfold slab_alloc
  rw [if_neg hcne]
  simp only []
  unfold block_alloc
  rw [ha]
  simp only [Option.some_bind]
  rw [if_neg hane, if_neg hal]

theorem slab_alloc_null (s : kmem_state) (c index : Nat) (hcne : c ≠ NULL)
    (hg : ¬ (s.buddy.free_block_count ≥ power_of_two (s.caches c).slab_order
      ∧ (s.caches c).slab_order ≤ s.buddy.max_order)) :
    slab_alloc s c index = some (NULL, s) := by
  have ha : buddy_alloc s.buddy (s.caches c).slab_order
      = some (⟨NULL, (s.caches c).slab_order⟩, s.buddy) := by
    unfold buddy_alloc
    simp only []
    rw [if_neg hg]
  unfold slab_alloc
  rw [if_neg hcne]
  simp only []
  unfold block_alloc
  rw [ha]
  simp only [Option.some_bind]
  rw [if_pos trivial]

theorem mem_set_list_cons (L : Nat → slab_type → List Nat) (c : Nat) (t : slab_type)
    (p d : Nat) (t2 : slab_type) (q : Nat) :
    q ∈ set_list L c t (p :: L c t) d t2 ↔ (q = p ∧ d = c ∧ t2 = t) ∨ q ∈ L d t2 := by
  rcases set_list_cases L c d t t2 (p :: L c t) with ⟨e1, e2, e3⟩ | ⟨hne, e3⟩
  · rw [e3, List.mem_cons, e1, e2]
    constructor
    · intro h
      rcases h with h | h
      · exact Or.inl ⟨h, rfl, rfl⟩
      · exact Or.inr h
    · intro h
      rcases h with ⟨h, _, _⟩ | h
      · exact Or.inl h
      · exact Or.inr h
  · rw [e3]
    constructor
    · intro h
      exact Or.inr h
    · intro h
      rcases h with ⟨_, h1, h2⟩ | h
      · rcases hne with h3 | h3
        · exact absurd h1 h3
        · exact absurd h2 h3
      · exact h

/-- Attaching a slab that was built in a run the buddy layer just handed out:
the slab is none of the listed slabs, its bitmap lies apart from theirs, the
call returns, and the invariant holds with the slab at the head of the empty
list. -/
theorem attach_fresh (s sB : kmem_state) (cs : List Nat) (L : Nat → slab_type → List Nat)
    (out : List block_area) (lists : Nat → List Nat) (inv : kmem_inv s cs L out lists)
    (c : Nat) (hc : c ∈ cs) (h : block_area) (lists1 : Nat → List Nat) (p1 : Nat)
    (hb1 : buddy_inv sB.buddy (h :: out) lists1)
    (hm : sB.buddy.mem_space = s.buddy.mem_space)
    (hn : sB.buddy.alloc_block_count = s.buddy.alloc_block_count)
    (hcaches : ∀ d, (sB.caches d).heads = (s.caches d).heads
      ∧ (sB.caches d).slab_count = (s.caches d).slab_count
      ∧ same_cache (s.caches d) (sB.caches d))
    (hslabs : ∀ q, q ≠ p1 → sB.slabs q = s.slabs q)
    (hrec : (sB.slabs p1).cache = c ∧ (sB.slabs p1).type = slab_type.empty
      ∧ (sB.slabs p1).my_hook = h ∧ (sB.slabs p1).used_count = 0
      ∧ (sB.slabs p1).bitmap = p1 + SIZEOF_SLAB
      ∧ (sB.slabs p1).objects = p1 + SIZEOF_SLAB + (s.caches c).bitmap_length)
    (hplace : p1 = h.addr + (sB.slabs p1).offset
      ∧ (sB.slabs p1).offset ≤ ((s.caches c).max_alignments - 1) * CACHE_L1_LINE_SIZE)
    (hane : h.addr ≠ NULL) (hord : h.order = (s.caches c).slab_order)
    (hblk : h.addr = get_block sB.buddy (get_index sB.buddy h.addr)) :
    (∀ d, d ∈ cs → ∀ t q, q ∈ L d t →
        q + SIZEOF_SLAB + (s.caches d).bitmap_length ≤ p1
        ∨ p1 + SIZEOF_SLAB + (s.caches c).bitmap_length ≤ q)
    ∧ ∃ s1, slab_attach sB p1 = some s1
      ∧ kmem_inv s1 cs (set_list L c slab_type.empty (p1 :: L c slab_type.empty)) (h :: out)
          lists1
      ∧ relinked sB s1
      ∧ (∀ q, q ≠ p1 → s1.slabs q = sB.slabs q)
      ∧ (∀ d, d ≠ c → s1.caches d = sB.caches d) := by
  have hl := inv.slabs_ok
  have hp := inv.places_ok
  have hb := inv.buddy_ok
  have hW : WORD = 4294967296 := rfl
  have hB : BLOCK_SIZE = 4096 := rfl
  have hS : SIZEOF_SLAB = 40 := rfl
  have h20 : (2 : Nat) ^ 20 = 1048576 := by norm_num
  have hsm := hl.small
  have hgi : ∀ a, get_index sB.buddy a = get_index s.buddy a := by
    intro a; simp only [get_index, hm]
  have hgb : ∀ a, get_block sB.buddy a = get_block s.buddy a := by
    intro a; simp only [get_block, hm]
  -- the run of the new hook
  obtain ⟨_, f1, f2⟩ := hb1.runs.out_fit _ (List.mem_map_of_mem (hook_run sB.buddy)
    (List.mem_cons_self h out))
  simp only [hook_run] at f1 f2
  rw [hord, hn, hgi] at f2
  rw [hgi] at f1
  have hp0 : 0 < 2 ^ (s.caches c).slab_order := Nat.pow_pos (by decide)
  have haddr : h.addr = s.buddy.mem_space + BLOCK_SIZE * get_index s.buddy h.addr := by
    have h3 := hblk
    rw [hgb, hgi] at h3
    unfold get_block at h3
    rw [Nat.mod_eq_of_lt (by rw [hW, hB]; omega)] at h3
    exact h3
  have hroom := (hp.layout c hc).room
  have hapart : ∀ d, d ∈ cs → ∀ t q, q ∈ L d t →
      q + SIZEOF_SLAB + (s.caches d).bitmap_length ≤ p1
      ∨ p1 + SIZEOF_SLAB + (s.caches c).bitmap_length ≤ q := by
    intro d hd t q hq
    obtain ⟨x1, x2, x3, x4, x5, x6, x7⟩ := slab_extent s cs L out lists hl hp hb d hd t q hq
    have hap := fresh_apart sB.buddy out lists1 h hb1 _ (hp.hook_out d hd t q hq)
    rw [hgi, hgi, hord, hp.hook_order d hd t q hq] at hap
    obtain ⟨y1, y2⟩ := hplace
    generalize (sB.slabs p1).offset = off at y1 y2
    generalize ((s.caches c).max_alignments - 1) * CACHE_L1_LINE_SIZE = v at hroom y2
    generalize (s.caches c).obj_per_slab * (s.caches c).object_size = w at hroom
    generalize (s.caches d).obj_per_slab * (s.caches d).object_size = w2 at x7
    generalize get_index s.buddy h.addr = ih at haddr hap f1 f2
    generalize get_index s.buddy (s.slabs q).my_hook.addr = iq at x1 x2 x3 x4 x7 hap
    generalize (2 : Nat) ^ (s.caches c).slab_order = X at hap hroom f2 hp0
    generalize (2 : Nat) ^ (s.caches d).slab_order = Y at hap x2 x7
    rw [x6] at x7
    rw [hB] at haddr x7 x4 hroom
    rw [hS]
    rw [hS] at x7 hroom
    rcases hap with hap | hap
    · right; omega
    · left; omega
  have hnew : ∀ d, d ∈ cs → ∀ t, p1 ∉ L d t := by
    intro d hd t hq
    have := hapart d hd t p1 hq
    omega
  have hpne : p1 ≠ NULL := by
    have := hplace.1
    simp only [NULL] at hane ⊢
    omega
  have hlB : slab_lists sB cs L := by
    refine slab_lists_off_list s sB cs L hl hn (fun d _ => ⟨(hcaches d).1, (hcaches d).2.1⟩) ?_
    intro d hd t q hq
    have hq1 : q ≠ p1 := fun e => hnew d hd t (e ▸ hq)
    rw [hslabs q hq1]
    exact ⟨rfl, rfl, rfl⟩
  have hroom1 := room_for_one s cs L out hl hp sB.buddy h lists1 hb1 c hc
  obtain ⟨s1, a1, a2, a3, a4, a5, a6⟩ := slab_attach_spec sB cs L hlB c slab_type.empty p1 hc hpne
    hrec.1 hrec.2.1 hnew hroom1
  refine ⟨hapart, s1, a1, ?_, a3, a5, a6⟩
  have hcs : ∀ d, same_cache (s.caches d) (s1.caches d) := fun d =>
    same_cache_trans _ _ _ (hcaches d).2.2 (a3.records.caches d)
  have hold : ∀ q, q ≠ p1 → same_slab (s.slabs q) (s1.slabs q) := by
    intro q hq
    have := a3.records.slabs q
    rw [hslabs q hq] at this
    exact this
  have hnewr := a3.records.slabs p1
  have hmem := mem_set_list_cons L c slab_type.empty p1
  have hne1 : ∀ d, d ∈ cs → ∀ t q, q ∈ L d t → q ≠ p1 :=
    fun d hd t q hq e => hnew d hd t (e ▸ hq)
  have hgi1 : ∀ a, get_index s1.buddy a = get_index s.buddy a := by
    intro a; rw [a3.buddy]; exact hgi a
  have hgb1 : ∀ a, get_block s1.buddy a = get_block s.buddy a := by
    intro a; rw [a3.buddy]; exact hgb a
  refine ⟨a2, ?_, ?_, by rw [a3.buddy]; exact hb1⟩
  · refine ⟨?_, ?_, ?_⟩
    · intro d hd t q hq
      rcases (hmem d t q).1 hq with ⟨e1, e2, _⟩ | hq1
      · rw [e1, hnewr.used_count, hrec.2.2.2.1]; exact Nat.zero_le _
      · rw [(hold q (hne1 d hd t q hq1)).used_count, (hcs d).obj_per_slab]
        exact inv.states_ok.used_le d hd t q hq1
    · intro d hd t q hq
      rcases (hmem d t q).1 hq with ⟨e1, _, e3⟩ | hq1
      · rw [e1, hnewr.used_count, hrec.2.2.2.1, e3]; simp
      · rw [(hold q (hne1 d hd t q hq1)).used_count]
        exact inv.states_ok.empty_iff d hd t q hq1
    · intro d hd t q hq
      rcases (hmem d t q).1 hq with ⟨e1, e2, e3⟩ | hq1
      · rw [e1, hnewr.used_count, hrec.2.2.2.1, e3, e2, (hcs c).obj_per_slab]
        have := (hp.layout c hc).objs
        constructor
        · intro h1; exact absurd h1 (by decide)
        · intro h1; omega
      · rw [(hold q (hne1 d hd t q hq1)).used_count, (hcs d).obj_per_slab]
        exact inv.states_ok.full_iff d hd t q hq1
  · refine ⟨?_, ?_, ?_, ?_, ?_, ?_, ?_⟩
    · intro d hd
      have x := hcs d
      have y := hp.layout d hd
      exact ⟨by rw [x.obj_per_slab]; exact y.objs, by rw [x.object_size]; exact y.size,
        by rw [x.obj_per_slab, x.bitmap_length]; exact y.bits,
        by rw [x.max_alignments]; exact y.aligns,
        by rw [x.max_alignments, x.bitmap_length, x.obj_per_slab, x.object_size, x.slab_order]
           exact y.room⟩
    · intro d hd t q hq
      rcases (hmem d t q).1 hq with ⟨e1, _, _⟩ | hq1
      · rw [e1, hnewr.my_hook, hrec.2.2.1]; exact List.mem_cons_self _ _
      · rw [(hold q (hne1 d hd t q hq1)).my_hook]
        exact List.mem_cons_of_mem _ (hp.hook_out d hd t q hq1)
    · intro d hd t q hq
      rcases (hmem d t q).1 hq with ⟨e1, e2, _⟩ | hq1
      · rw [e1, hnewr.my_hook, hrec.2.2.1, e2, (hcs c).slab_order]; exact hord
      · rw [(hold q (hne1 d hd t q hq1)).my_hook, (hcs d).slab_order]
        exact hp.hook_order d hd t q hq1
    · intro d hd t q hq
      rcases (hmem d t q).1 hq with ⟨e1, _, _⟩ | hq1
      · rw [e1, hnewr.my_hook, hrec.2.2.1, a3.buddy]; exact hblk
      · rw [(hold q (hne1 d hd t q hq1)).my_hook, hgb1, hgi1]
        exact hp.hook_block d hd t q hq1
    · intro c1 t1 q1 c2 t2 q2 hc1 hc2 h1 h2 he
      have hfresh := fresh_hook sB.buddy out lists1 h hb1
      rcases (hmem c1 t1 q1).1 h1 with ⟨e1, _, _⟩ | hq1
      · rcases (hmem c2 t2 q2).1 h2 with ⟨e2, _, _⟩ | hq2
        · rw [e1, e2]
        · rw [e1, hnewr.my_hook, hrec.2.2.1, (hold q2 (hne1 c2 hc2 t2 q2 hq2)).my_hook] at he
          exact absurd (he ▸ hp.hook_out c2 hc2 t2 q2 hq2) hfresh
      · rcases (hmem c2 t2 q2).1 h2 with ⟨e2, _, _⟩ | hq2
        · rw [e2, hnewr.my_hook, hrec.2.2.1, (hold q1 (hne1 c1 hc1 t1 q1 hq1)).my_hook] at he
          exact absurd (he.symm ▸ hp.hook_out c1 hc1 t1 q1 hq1) hfresh
        · rw [(hold q1 (hne1 c1 hc1 t1 q1 hq1)).my_hook,
            (hold q2 (hne1 c2 hc2 t2 q2 hq2)).my_hook] at he
          exact hp.hook_inj c1 t1 q1 c2 t2 q2 hc1 hc2 hq1 hq2 he
    · intro d hd t q hq
      rcases (hmem d t q).1 hq with ⟨e1, e2, _⟩ | hq1
      · rw [e1, hnewr.my_hook, hnewr.offset, hrec.2.2.1, e2, (hcs c).max_alignments]
        exact hplace
      · rw [(hold q (hne1 d hd t q hq1)).my_hook, (hold q (hne1 d hd t q hq1)).offset,
          (hcs d).max_alignments]
        exact hp.place d hd t q hq1
    · intro d hd t q hq
      rcases (hmem d t q).1 hq with ⟨e1, e2, _⟩ | hq1
      · rw [e1, hnewr.bitmap, hnewr.objects, e2, (hcs c).bitmap_length]
        exact ⟨hrec.2.2.2.2.1, hrec.2.2.2.2.2⟩
      · rw [(hold q (hne1 d hd t q hq1)).bitmap, (hold q (hne1 d hd t q hq1)).objects,
          (hcs d).bitmap_length]
        exact hp.fields d hd t q hq1

/-- A `kmem_cache_new_slab` that the buddy layer serves: it returns 0 and the
invariant holds with the new slab at the head of the empty list and its hook
among the hooks handed out; the bitmap of the new slab is cleared and lies apart
from the bitmaps of the listed slabs. -/
theorem new_slab_grows (s : kmem_state) (cs : List Nat) (L : Nat → slab_type → List Nat)
    (out : List block_area) (lists : Nat → List Nat) (inv : kmem_inv s cs L out lists)
    (c : Nat) (hc : c ∈ cs)
    (hg : s.buddy.free_block_count ≥ power_of_two (s.caches c).slab_order
      ∧ (s.caches c).slab_order ≤ s.buddy.max_order)
    (hserved : served s.buddy (s.caches c).slab_order) :
    ∃ h lists1 p1 s1,
      kmem_cache_new_slab s c = some (0, s1)
      ∧ kmem_inv s1 cs (set_list L c slab_type.empty (p1 :: L c slab_type.empty)) (h :: out)
          lists1
      ∧ (∀ d, d ∈ cs → ∀ t q, q ∈ L d t →
          q + SIZEOF_SLAB + (s.caches d).bitmap_length ≤ p1
          ∨ p1 + SIZEOF_SLAB + (s.caches c).bitmap_length ≤ q)
      ∧ s1.bitmaps = clear_bitmap (p1 + SIZEOF_SLAB) (s.caches c).bitmap_length s.bitmaps
      ∧ (s1.slabs p1).used_count = 0 ∧ (s1.slabs p1).bitmap = p1 + SIZEOF_SLAB
      ∧ (∀ q, q ≠ p1 → s1.slabs q = s.slabs q)
      ∧ (∀ d, same_cache (s.caches d) (s1.caches d))
      ∧ (∀ d, d ≠ c → s1.caches d = s.caches d)
      ∧ s1.used = s.used ∧ s1.kmem_ctrl = s.kmem_ctrl := by
  have hl := inv.slabs_ok
  have hp := inv.places_ok
  have hb := inv.buddy_ok
  have hcne := hl.cache_ne c hc
  have lay := hp.layout c hc
  have hal : (s.caches c).max_alignments ≠ 0 := by have := lay.aligns; omega
  obtain ⟨k, hk1, hk2, hk3⟩ := hserved hg.1 hg.2
  obtain ⟨h, b1, lists1, ha, hane, hord, inv1⟩ :=
    buddy_alloc_inv s.buddy out lists hb _ k hg.1 hk1 hk2 hk3
  obtain ⟨r1, r2, r3, _, _, r6⟩ := buddy_alloc_region s.buddy b1 _ h ha
  have hblk : h.addr = get_block b1 (get_index b1 h.addr) := by
    rcases r6 with ⟨e, _⟩ | ⟨⟨i, e⟩, _⟩
    · exact absurd e hane
    · rw [e, get_block_get_index]
  have hW : WORD = 4294967296 := rfl
  have hB : BLOCK_SIZE = 4096 := rfl
  have hC : CACHE_L1_LINE_SIZE = 64 := rfl
  have h20 : (2 : Nat) ^ 20 = 1048576 := by norm_num
  -- the colouring offset
  have hmodlt := Nat.mod_lt (s.caches c).next_offset (lay.aligns : 0 < (s.caches c).max_alignments)
  have hoffle : ((s.caches c).next_offset % (s.caches c).max_alignments) * CACHE_L1_LINE_SIZE
      ≤ ((s.caches c).max_alignments - 1) * CACHE_L1_LINE_SIZE :=
    Nat.mul_le_mul_right _ (by omega)
  have hordle : 2 ^ (s.caches c).slab_order * BLOCK_SIZE < WORD := by
    have h1 : 2 ^ (s.caches c).slab_order ≤ 2 ^ s.buddy.max_order :=
      Nat.pow_le_pow_right (by decide) hg.2
    have h2 := hb.ok.top_bit
    have h3 := hl.small
    rw [hW, hB]
    omega
  have hoff : (((s.caches c).next_offset % (s.caches c).max_alignments) * CACHE_L1_LINE_SIZE)
      % WORD = ((s.caches c).next_offset % (s.caches c).max_alignments) * CACHE_L1_LINE_SIZE := by
    apply Nat.mod_eq_of_lt
    have := lay.room
    omega
  have hsa := slab_alloc_some s c (s.caches c).next_offset h b1 hcne ha hane hal
  rw [hoff] at hsa
  generalize hp1 : h.addr
    + ((s.caches c).next_offset % (s.caches c).max_alignments) * CACHE_L1_LINE_SIZE = p1 at hsa
  have hpne : p1 ≠ NULL := by
    simp only [NULL] at hane ⊢
    omega
  obtain ⟨sA, hsa1, hA1, hA2, hA3, hA4, hA5, hA6⟩ : ∃ sA,
      slab_alloc s c (s.caches c).next_offset = some (p1, sA)
      ∧ sA.buddy = b1 ∧ sA.caches = s.caches
      ∧ sA.slabs = Function.update s.slabs p1
          { cache := c
            type := slab_type.empty
            my_hook := h
            used_count := 0
            offset := ((s.caches c).next_offset % (s.caches c).max_alignments)
              * CACHE_L1_LINE_SIZE
            bitmap := p1 + SIZEOF_SLAB
            objects := p1 + SIZEOF_SLAB + (s.caches c).bitmap_length * 1
            next := NULL }
      ∧ sA.bitmaps = clear_bitmap (p1 + SIZEOF_SLAB) (s.caches c).bitmap_length s.bitmaps
      ∧ sA.used = s.used ∧ sA.kmem_ctrl = s.kmem_ctrl :=
    ⟨_, hsa, rfl, rfl, rfl, rfl, rfl, rfl⟩
  obtain ⟨hap, s1, a1, a2, a3, a4, a5⟩ := attach_fresh s
    { sA with
      caches := Function.update sA.caches c
        { sA.caches c with
          next_offset := (((sA.caches c).next_offset + 1) % WORD) % (sA.caches c).max_alignments } }
    cs L out lists inv c hc h lists1 p1
    (by show buddy_inv sA.buddy _ _; rw [hA1]; exact inv1)
    (by show sA.buddy.mem_space = _; rw [hA1]; exact r1)
    (by show sA.buddy.alloc_block_count = _; rw [hA1]; exact r2)
    (by
      intro d
      show (Function.update sA.caches c _ d).heads = _
        ∧ (Function.update sA.caches c _ d).slab_count = _
        ∧ same_cache (s.caches d) (Function.update sA.caches c _ d)
      rw [hA2]
      by_cases hd : d = c
      · rw [hd, Function.update_same]
        exact ⟨rfl, rfl, ⟨rfl, rfl, rfl, rfl, rfl, rfl, rfl, rfl, rfl⟩⟩
      · rw [Function.update_noteq hd]
        exact ⟨rfl, rfl, same_cache_refl _⟩)
    (by
      intro q hq
      show sA.slabs q = _
      rw [hA3, Function.update_noteq hq])
    (by
      show (sA.slabs p1).cache = c ∧ (sA.slabs p1).type = _ ∧ (sA.slabs p1).my_hook = _
        ∧ (sA.slabs p1).used_count = _ ∧ (sA.slabs p1).bitmap = _ ∧ (sA.slabs p1).objects = _
      rw [hA3, Function.update_same]
      exact ⟨rfl, rfl, rfl, rfl, rfl, by rw [Nat.mul_one]⟩)
    (by
      show p1 = h.addr + (sA.slabs p1).offset ∧ (sA.slabs p1).offset ≤ _
      rw [hA3, Function.update_same]
      exact ⟨hp1.symm, hoffle⟩)
    hane hord
    (by show h.addr = get_block sA.buddy (get_index sA.buddy h.addr); rw [hA1]; exact hblk)
  refine ⟨h, lists1, p1, s1, ?_, a2, hap, ?_, ?_, ?_, ?_, ?_, ?_, ?_, ?_⟩
  · unfold kmem_cache_new_slab
    rw [if_neg hcne, hsa1]
    simp only [Option.some_bind]
    rw [if_neg (by rw [hA2]; exact hal), if_neg hpne, a1]
    rfl
  · rw [a3.records.bitmaps]
    exact hA4
  · rw [(a3.records.slabs p1).used_count]
    show (sA.slabs p1).used_count = 0
    rw [hA3, Function.update_same]
  · rw [(a3.records.slabs p1).bitmap]
    show (sA.slabs p1).bitmap = _
    rw [hA3, Function.update_same]
  · intro q hq
    rw [a4 q hq]
    show sA.slabs q = _
    rw [hA3, Function.update_noteq hq]
  · intro d
    refine same_cache_trans _ _ _ ?_ (a3.records.caches d)
    show same_cache (s.caches d) (Function.update sA.caches c _ d)
    rw [hA2]
    by_cases hd : d = c
    · rw [hd, Function.update_same]
      exact ⟨rfl, rfl, rfl, rfl, rfl, rfl, rfl, rfl, rfl⟩
    · rw [Function.update_noteq hd]
      exact same_cache_refl _
  · intro d hd
    rw [a5 d hd]
    show Function.update sA.caches c _ d = _
    rw [Function.update_noteq hd, hA2]
  · rw [a3.records.used]
    exact hA5
  · rw [a3.records.kmem_ctrl]
    exact hA6

/-- A `kmem_cache_new_slab` whose request fails the guard of `buddy_alloc`: it
returns -1, latches `err_cache_expand` and moves the colouring cursor. -/
theorem new_slab_fails (s : kmem_state) (cs : List Nat) (L : Nat → slab_type → List Nat)
    (out : List block_area) (lists : Nat → List Nat) (inv : kmem_inv s cs L out lists)
    (c : Nat) (hc : c ∈ cs)
    (hg : ¬ (s.buddy.free_block_count ≥ power_of_two (s.caches c).slab_order
      ∧ (s.caches c).slab_order ≤ s.buddy.max_order)) :
    ∃ s1, kmem_cache_new_slab s c = some (-1, s1)
      ∧ kmem_inv s1 cs L out lists
      ∧ s1.bitmaps = s.bitmaps ∧ s1.slabs = s.slabs ∧ s1.buddy = s.buddy
      ∧ (∀ d, same_cache (s.caches d) (s1.caches d)) := by
  have hcne := inv.slabs_ok.cache_ne c hc
  have hal : (s.caches c).max_alignments ≠ 0 := by
    have := (inv.places_ok.layout c hc).aligns
    omega
  have hsa := slab_alloc_null s c (s.caches c).next_offset hcne hg
  have inv1 := inv_cache_fields s cs L out lists inv c
    { s.caches c with
      next_offset := (((s.caches c).next_offset + 1) % WORD) % (s.caches c).max_alignments }
    rfl rfl rfl rfl rfl rfl rfl
  have inv2 := inv_cache_fields _ cs L out lists inv1 c
    { s.caches c with
      next_offset := (((s.caches c).next_offset + 1) % WORD) % (s.caches c).max_alignments
      error := err_cache_expand }
    (by simp) (by simp) (by simp) (by simp) (by simp) (by simp) (by simp)
  refine ⟨_, ?_, inv2, rfl, rfl, rfl, ?_⟩
  · unfold kmem_cache_new_slab
    rw [if_neg hcne, hsa]
    simp only [Option.some_bind]
    rw [if_neg hal]
    rfl
  · intro d
    show same_cache (s.caches d) (Function.update (Function.update s.caches c _) c _ d)
    by_cases hd : d = c
    · rw [hd, Function.update_same]
      exact ⟨rfl, rfl, rfl, rfl, rfl, rfl, rfl, rfl, rfl⟩
    · rw [Function.update_noteq hd, Function.update_noteq hd]
      exact same_cache_refl _

/-- A `slab_alloc_object` on a listed slab that is not full, when it returns:
the scan found an index, the pointer is the object of that index, and the
invariant holds with the slab on the list that matches its new used count. -/
theorem alloc_object_step (s : kmem_state) (cs : List Nat) (L : Nat → slab_type → List Nat)
    (out : List block_area) (lists : Nat → List Nat) (inv : kmem_inv s cs L out lists)
    (c : Nat) (hc : c ∈ cs) (t : slab_type) (q : Nat) (hq : q ∈ L c t)
    (ht : t ≠ slab_type.full) (p : Nat) (s1 : kmem_state)
    (hcall : slab_alloc_object s q = some (p, s1)) :
    ∃ idx t1, entry_scan s.bitmaps (s.slabs q).bitmap (s.caches c).bitmap_length 0 = some idx
      ∧ t1 = (if (s.slabs q).used_count + 1 = (s.caches c).obj_per_slab then slab_type.full
          else slab_type.part)
      ∧ p = (s.slabs q).objects + (idx * (s.caches c).object_size) % WORD
      ∧ kmem_inv s1 cs (move_list L c t t1 q) out lists
      ∧ rewritten s s1 c q (bitmap_set_used s.bitmaps (s.slabs q).bitmap idx)
          ((s.slabs q).used_count + 1) t1 := by
  have hl := inv.slabs_ok
  cases hscan : entry_scan s.bitmaps (s.slabs q).bitmap (s.caches c).bitmap_length 0 with
  | none =>
    exfalso
    obtain ⟨hown, _⟩ := hl.owner c hc t q hq
    have hqne := listed_ne_null s cs L hl c hc t q hq
    have hcne := hl.cache_ne c hc
    subst hown
    unfold slab_alloc_object at hcall
    rw [if_neg hqne] at hcall
    simp only [] at hcall
    rw [if_neg hcne, hscan] at hcall
    simp at hcall
  | some idx =>
    obtain ⟨s2, e1, e2, e3, e4⟩ := slab_alloc_object_spec s cs L hl inv.states_ok c hc t q hq ht
      (objs_small s cs L out lists inv c hc t q hq).1 idx hscan _ rfl
    rw [e1] at hcall
    simp only [Option.some.injEq, Prod.mk.injEq] at hcall
    obtain ⟨hp1, hs1⟩ := hcall
    subst hs1
    exact ⟨idx, _, rfl, rfl, hp1.symm, inv_rewritten s s2 cs L out lists inv c hc t _ q hq _ _
      e4 e2 e3, e4⟩

/-! ## Bitmaps and used counts along the calls -/

/-- The bitmaps of two listed slabs lie apart. -/
theorem bitmaps_apart (s : kmem_state) (cs : List Nat) (L : Nat → slab_type → List Nat)
    (out : List block_area) (lists : Nat → List Nat) (inv : kmem_inv s cs L out lists)
    (c : Nat) (hc : c ∈ cs) (t : slab_type) (q : Nat) (hq : q ∈ L c t)
    (d : Nat) (hd : d ∈ cs) (t2 : slab_type) (x : Nat) (hx : x ∈ L d t2) (hne : q ≠ x) :
    (s.slabs q).objects + (s.caches c).obj_per_slab * (s.caches c).object_size ≤ x
    ∨ (s.slabs x).objects + (s.caches d).obj_per_slab * (s.caches d).object_size ≤ q := by
  obtain ⟨x1, x2, x3, x4, x5, x6, x7⟩ := slab_extent s cs L out lists inv.slabs_ok inv.places_ok
    inv.buddy_ok c hc t q hq
  obtain ⟨y1, y2, y3, y4, y5, y6, y7⟩ := slab_extent s cs L out lists inv.slabs_ok inv.places_ok
    inv.buddy_ok d hd t2 x hx
  have hap := slab_apart s cs L out lists inv.places_ok inv.buddy_ok c hc t q hq d hd t2 x hx hne
  have hB : BLOCK_SIZE = 4096 := rfl
  generalize (s.caches c).obj_per_slab * (s.caches c).object_size = w at x7 ⊢
  generalize (s.caches d).obj_per_slab * (s.caches d).object_size = w2 at y7 ⊢
  generalize get_index s.buddy (s.slabs q).my_hook.addr = iq at x1 x2 x3 x4 x7 hap
  generalize get_index s.buddy (s.slabs x).my_hook.addr = ix at y1 y2 y3 y4 y7 hap
  generalize (2 : Nat) ^ (s.caches c).slab_order = X at hap x2 x7
  generalize (2 : Nat) ^ (s.caches d).slab_order = Y at hap y2 y7
  rw [hB] at x4 x7 y4 y7
  rcases hap with hap | hap
  · left; omega
  · right; omega

theorem bits_le_bitmap (c : kmem_cache_t) (lay : cache_layout c) :
    c.obj_per_slab ≤ BITMAP_ENTRY_BITS * c.bitmap_length
    ∧ BITMAP_ENTRY_BITS * c.bitmap_length < c.obj_per_slab + BITMAP_ENTRY_BITS := by
  rw [lay.bits]
  exact calc_bitmap_size_bounds _

/-- Consistent bitmaps after a write of one entry in the bitmap of a listed slab
`q` that keeps the bits of `q` consistent with its used count. -/
theorem slab_bits_change (s s1 : kmem_state) (cs : List Nat)
    (L L1 : Nat → slab_type → List Nat) (out : List block_area) (lists : Nat → List Nat)
    (inv : kmem_inv s cs L out lists) (hbits : slab_bits s cs L)
    (c : Nat) (hc : c ∈ cs) (t : slab_type) (q : Nat) (hq : q ∈ L c t)
    (hL1 : ∀ d, d ∈ cs → ∀ t2 x, x ∈ L1 d t2 → ∃ t0, x ∈ L d t0)
    (a0 v : Nat) (hv : v < BYTE)
    (ha0 : q + SIZEOF_SLAB ≤ a0 ∧ a0 < q + SIZEOF_SLAB + (s.caches c).bitmap_length)
    (hm : s1.bitmaps = Function.update s.bitmaps a0 v)
    (hrec : ∀ x, (s1.slabs x).bitmap = (s.slabs x).bitmap)
    (hused : ∀ x, x ≠ q → (s1.slabs x).used_count = (s.slabs x).used_count)
    (hcs : ∀ d, same_cache (s.caches d) (s1.caches d))
    (hhigh : ∀ i, (s.caches c).obj_per_slab ≤ i →
      i < BITMAP_ENTRY_BITS * (s.caches c).bitmap_length →
      bit_at s1.bitmaps (s.slabs q).bitmap i = false)
    (hcount : (s1.slabs q).used_count
      = set_bits s1.bitmaps (s.slabs q).bitmap (s.caches c).obj_per_slab) :
    slab_bits s1 cs L1 := by
  have h8 : BITMAP_ENTRY_BITS = 8 := rfl
  have hsame : ∀ d, d ∈ cs → ∀ t2 x, x ∈ L d t2 → x ≠ q → ∀ k,
      k < BITMAP_ENTRY_BITS * (s.caches d).bitmap_length →
      bit_at s1.bitmaps (s.slabs x).bitmap k = bit_at s.bitmaps (s.slabs x).bitmap k := by
    intro d hd t2 x hx hne k hk
    have hap := bitmaps_apart s cs L out lists inv c hc t q hq d hd t2 x hx (fun e => hne e.symm)
    obtain ⟨f1, f2⟩ := inv.places_ok.fields d hd t2 x hx
    obtain ⟨g1, g2⟩ := inv.places_ok.fields c hc t q hq
    unfold bit_at
    rw [hm, Function.update_noteq]
    rw [f1]
    rw [f2] at hap
    rw [g2] at hap
    rw [h8] at hk ⊢
    have : k / 8 < (s.caches d).bitmap_length := by omega
    omega
  refine ⟨?_, ?_, ?_⟩
  · intro a
    rw [hm]
    by_cases h : a = a0
    · rw [h, Function.update_same]; exact hv
    · rw [Function.update_noteq h]; exact hbits.bytes a
  · intro d hd t2 x hx i hi1 hi2
    obtain ⟨t0, h0⟩ := hL1 d hd t2 x hx
    rw [(hcs d).obj_per_slab] at hi1
    rw [(hcs d).bitmap_length] at hi2
    rw [hrec x]
    by_cases hxq : x = q
    · have hdc : d = c := (inv.slabs_ok.owner d hd t0 x h0).1.symm.trans
        (hxq ▸ (inv.slabs_ok.owner c hc t q hq).1)
      rw [hdc] at hi1 hi2
      rw [hxq]
      exact hhigh i hi1 hi2
    · rw [hsame d hd t0 x h0 hxq i hi2]
      exact hbits.high d hd t0 x h0 i hi1 hi2
  · intro d hd t2 x hx
    obtain ⟨t0, h0⟩ := hL1 d hd t2 x hx
    rw [(hcs d).obj_per_slab, hrec x]
    by_cases hxq : x = q
    · have hdc : d = c := (inv.slabs_ok.owner d hd t0 x h0).1.symm.trans
        (hxq ▸ (inv.slabs_ok.owner c hc t q hq).1)
      rw [hdc, hxq]
      exact hcount
    · rw [hused x hxq, hbits.count d hd t0 x h0]
      symm
      apply set_bits_congr
      intro i hi
      have := (bits_le_bitmap _ (inv.places_ok.layout d hd)).1
      exact hsame d hd t0 x h0 hxq i (by omega)

/-- In a slab that is not full the scan of `slab_alloc_object` finds a clear bit
below `obj_per_slab`, and setting it keeps the bitmaps consistent. -/
theorem alloc_object_bits (s : kmem_state) (cs : List Nat) (L : Nat → slab_type → List Nat)
    (out : List block_area) (lists : Nat → List Nat) (inv : kmem_inv s cs L out lists)
    (hbits : slab_bits s cs L) (c : Nat) (hc : c ∈ cs) (t : slab_type) (q : Nat)
    (hq : q ∈ L c t) (ht : t ≠ slab_type.full) (idx : Nat)
    (hscan : entry_scan s.bitmaps (s.slabs q).bitmap (s.caches c).bitmap_length 0 = some idx) :
    idx < (s.caches c).obj_per_slab ∧ bit_at s.bitmaps (s.slabs q).bitmap idx = false
    ∧ ∀ s1 t1 L1, rewritten s s1 c q (bitmap_set_used s.bitmaps (s.slabs q).bitmap idx)
          ((s.slabs q).used_count + 1) t1 →
        (∀ d, d ∈ cs → ∀ t2 x, x ∈ L1 d t2 → ∃ t0, x ∈ L d t0) →
        slab_bits s1 cs L1 := by
  have h8 : BITMAP_ENTRY_BITS = 8 := rfl
  have hW : WORD = 4294967296 := rfl
  have lay := inv.places_ok.layout c hc
  obtain ⟨hb1, hb2⟩ := bits_le_bitmap _ lay
  obtain ⟨o1, o2⟩ := objs_small s cs L out lists inv c hc t q hq
  obtain ⟨w1, w2⟩ := slab_bytes_small s cs L out lists inv.slabs_ok inv.places_ok inv.buddy_ok
    c hc t q hq
  have hnw : (s.caches c).obj_per_slab
      ≤ (s.caches c).obj_per_slab * (s.caches c).object_size :=
    Nat.le_mul_of_pos_right _ lay.size
  have hsmall : BITMAP_ENTRY_BITS * (0 + (s.caches c).bitmap_length) < WORD := by
    rw [h8] at hb2 ⊢
    rw [hW] at w1 ⊢
    have hS : SIZEOF_SLAB = 40 := rfl
    rw [hS] at w2
    omega
  obtain ⟨e1, _, e3, e4⟩ := entry_scan_spec s.bitmaps (s.slabs q).bitmap hbits.bytes _ 0 idx
    hsmall hscan
  have hu : (s.slabs q).used_count < (s.caches c).obj_per_slab := by
    have hule := inv.states_ok.used_le c hc t q hq
    rcases Nat.lt_or_ge (s.slabs q).used_count (s.caches c).obj_per_slab with h | h
    · exact h
    · exact absurd ((inv.states_ok.full_iff c hc t q hq).2 (Nat.le_antisymm hule h)) ht
  have hcnt := hbits.count c hc t q hq
  obtain ⟨i0, hi0, hc0⟩ := exists_clear_bit s.bitmaps (s.slabs q).bitmap _ (hcnt ▸ hu)
  have hidx : idx < (s.caches c).obj_per_slab := by
    by_contra hge
    have := e4 i0 (by omega) (by omega)
    rw [hc0] at this
    exact absurd this (by decide)
  refine ⟨hidx, e1, ?_⟩
  intro s1 t1 L1 hr hL1
  obtain ⟨g1, g2⟩ := inv.places_ok.fields c hc t q hq
  have hbit := bit_at_set_used s.bitmaps (s.slabs q).bitmap idx
  refine slab_bits_change s s1 cs L L1 out lists inv hbits c hc t q hq hL1
    ((s.slabs q).bitmap + idx / BITMAP_ENTRY_BITS) _ (Nat.mod_lt _ (by decide)) ?_
    (by rw [hr.bitmaps]; rfl) (fun x => (hr.frame x).2.2.2.1) ?_ hr.caches ?_ ?_
  · rw [g1, h8]
    rw [h8] at hb1
    constructor <;> omega
  · intro x hx
    rw [hr.used_count x, if_neg hx]
  · intro i hi1 _
    rw [hr.bitmaps, hbit i, hbits.high c hc t q hq i hi1 (by assumption)]
    have : i ≠ idx := by omega
    simp [this]
  · rw [hr.used_count q, if_pos rfl, hr.bitmaps, hcnt]
    exact (set_bits_flip_on s.bitmaps _ _ idx hbit e1 _ hidx).symm

theorem set_bits_pos (m : Nat → Nat) (b n i : Nat) (hi : i < n) (hb : bit_at m b i = true) :
    0 < set_bits m b n := by
  unfold set_bits
  rw [List.countP_pos_iff]
  exact ⟨i, List.mem_range.2 hi, hb⟩

theorem moved_listed (s : kmem_state) (cs : List Nat) (L : Nat → slab_type → List Nat)
    (hl : slab_lists s cs L) (c : Nat) (hc : c ∈ cs) (t t1 : slab_type) (p : Nat)
    (hp : p ∈ L c t) :
    ∀ d, d ∈ cs → ∀ t2 x, x ∈ move_list L c t t1 p d t2 → ∃ t0, x ∈ L d t0 := by
  intro d hd t2 x hx
  rcases (mem_move_list s cs L hl c hc t t1 p hp d hd t2 x).1 hx with ⟨e1, e2, _⟩ | ⟨_, e2⟩
  · rw [e1, e2]; exact ⟨t, hp⟩
  · exact ⟨t2, e2⟩

/-- The object `i` of a listed slab passes the range check of that slab, which
computes the index `i`, and of no other slab of the cache. -/
theorem object_slab (s : kmem_state) (cs : List Nat) (L : Nat → slab_type → List Nat)
    (out : List block_area) (lists : Nat → List Nat) (inv : kmem_inv s cs L out lists)
    (c : Nat) (hc : c ∈ cs) (t : slab_type) (p : Nat) (hp : p ∈ L c t) (i : Nat)
    (hi : i < (s.caches c).obj_per_slab) :
    in_range s p ((s.slabs p).objects + i * (s.caches c).object_size)
    ∧ free_index s p ((s.slabs p).objects + i * (s.caches c).object_size) = i
    ∧ ∀ t2 x, x ∈ L c t2 →
        in_range s x ((s.slabs p).objects + i * (s.caches c).object_size) → x = p := by
  have hW : WORD = 4294967296 := rfl
  have lay := inv.places_ok.layout c hc
  obtain ⟨o1, o2⟩ := objs_small s cs L out lists inv c hc t p hp
  have hown := (inv.slabs_ok.owner c hc t p hp).1
  have hn1 : ((s.caches c).obj_per_slab + WORD - 1) % WORD = (s.caches c).obj_per_slab - 1 := by
    have := lay.objs
    have e : (s.caches c).obj_per_slab + WORD - 1 = (s.caches c).obj_per_slab - 1 + WORD := by
      omega
    rw [e, Nat.add_mod_right]
    exact Nat.mod_eq_of_lt (by omega)
  have hle1 : ((s.caches c).obj_per_slab - 1) * (s.caches c).object_size + (s.caches c).object_size
      = (s.caches c).obj_per_slab * (s.caches c).object_size := by
    rw [← Nat.succ_mul, Nat.succ_eq_add_one, Nat.sub_add_cancel lay.objs]
  have hsz := lay.size
  have hle2 : i * (s.caches c).object_size
      ≤ ((s.caches c).obj_per_slab - 1) * (s.caches c).object_size :=
    Nat.mul_le_mul_right _ (by omega)
  have hend : ∀ x, (s.slabs x).cache = c →
      (s.slabs x).objects + ((((s.caches (s.slabs x).cache).obj_per_slab + WORD - 1) % WORD)
            * (s.caches (s.slabs x).cache).object_size) % WORD
        = (s.slabs x).objects
          + ((s.caches c).obj_per_slab - 1) * (s.caches c).object_size := by
    intro x hx
    rw [hx, hn1, Nat.mod_eq_of_lt (by omega)]
  refine ⟨?_, ?_, ?_⟩
  · unfold in_range
    rw [hend p hown]
    constructor
    · exact Nat.le_add_right _ _
    · exact Nat.add_le_add_left hle2 _
  · unfold free_index
    have h1 : i * (s.caches c).object_size < WORD := by omega
    rw [hown, Nat.add_sub_cancel_left, Nat.mod_eq_of_lt h1,
      Nat.mul_div_cancel _ hsz, Nat.mod_eq_of_lt (by omega)]
  · intro t2 x hx hin
    by_contra hne
    have hap := bitmaps_apart s cs L out lists inv c hc t p hp c hc t2 x hx (fun e => hne e.symm)
    unfold in_range at hin
    rw [hend x (inv.slabs_ok.owner c hc t2 x hx).1] at hin
    obtain ⟨f1, f2⟩ := inv.places_ok.fields c hc t2 x hx
    obtain ⟨g1, g2⟩ := inv.places_ok.fields c hc t p hp
    generalize (s.caches c).obj_per_slab * (s.caches c).object_size = w at hap hle1 o2
    generalize ((s.caches c).obj_per_slab - 1) * (s.caches c).object_size = w1 at hin hle1 hle2
    generalize i * (s.caches c).object_size = w2 at hin hle2
    rw [f2] at hin hap
    rw [g2] at hin hap
    omega

/-- The call `kmem_cache_free_obj` with an object in use: it returns 0, clears
the bit of the object, lowers the used count of its slab and keeps the invariant
and the consistency of the bitmaps. -/
theorem free_allocated (s : kmem_state) (cs : List Nat) (L : Nat → slab_type → List Nat)
    (out : List block_area) (lists : Nat → List Nat) (inv : kmem_inv s cs L out lists)
    (hbits : slab_bits s cs L) (c : Nat) (hc : c ∈ cs) (t : slab_type) (p i : Nat)
    (hp : p ∈ L c t) (hi : i < (s.caches c).obj_per_slab)
    (hset : bit_at s.bitmaps (s.slabs p).bitmap i = true) :
    t ≠ slab_type.empty
    ∧ ∃ s1 t1,
      t1 = (if (s.slabs p).used_count - 1 = 0 then slab_type.empty else slab_type.part)
      ∧ kmem_cache_free_obj s c ((s.slabs p).objects + i * (s.caches c).object_size)
          = some (0, s1)
      ∧ kmem_inv s1 cs (move_list L c t t1 p) out lists
      ∧ rewritten s s1 c p (bitmap_set_free s.bitmaps (s.slabs p).bitmap i)
          ((s.slabs p).used_count - 1) t1
      ∧ slab_bits s1 cs (move_list L c t t1 p) := by
  have h8 : BITMAP_ENTRY_BITS = 8 := rfl
  obtain ⟨r1, r2, r3⟩ := object_slab s cs L out lists inv c hc t p hp i hi
  have hcnt := hbits.count c hc t p hp
  have hpos := set_bits_pos s.bitmaps (s.slabs p).bitmap _ i hi hset
  have hte : t ≠ slab_type.empty := by
    intro e
    have := (inv.states_ok.empty_iff c hc t p hp).1 e
    omega
  refine ⟨hte, ?_⟩
  rcases free_obj_spec s cs L out lists inv c hc
      ((s.slabs p).objects + i * (s.caches c).object_size) with
    ⟨t2, q, s1, t1, a1, a2, a3, a4, a5, a6, a7⟩ | ⟨b1, _⟩
  · have hqp : q = p := r3 t2 q a2 a3
    subst hqp
    have htt : t2 = t := (inv.slabs_ok.owner c hc t2 q a2).2.symm.trans
      (inv.slabs_ok.owner c hc t q hp).2
    subst htt
    rw [r2] at a7
    refine ⟨s1, t1, a4, a5, a6, a7, ?_⟩
    obtain ⟨g1, g2⟩ := inv.places_ok.fields c hc t2 q hp
    have hbit := bit_at_set_free s.bitmaps (s.slabs q).bitmap i
    obtain ⟨hb1, hb2⟩ := bits_le_bitmap _ (inv.places_ok.layout c hc)
    refine slab_bits_change s s1 cs L _ out lists inv hbits c hc t2 q hp
      (moved_listed s cs L inv.slabs_ok c hc t2 t1 q hp)
      ((s.slabs q).bitmap + i / BITMAP_ENTRY_BITS) _ (Nat.mod_lt _ (by decide)) ?_
      (by rw [a7.bitmaps]; rfl) (fun x => (a7.frame x).2.2.2.1) ?_ a7.caches ?_ ?_
    · rw [g1, h8]
      rw [h8] at hb1
      constructor <;> omega
    · intro x hx
      rw [a7.used_count x, if_neg hx]
    · intro k hk1 hk2
      rw [a7.bitmaps, hbit k, hbits.high c hc t2 q hp k hk1 hk2]
      simp
    · rw [a7.used_count q, if_pos rfl, a7.bitmaps, hcnt]
      have := set_bits_flip_off s.bitmaps _ _ i hbit hset _ hi
      omega
  · exact absurd r1 (b1 t p hte hp)

/-- Consistent bitmaps carry over to a state with the same bitmaps, bitmap
pointers, used counts and layout parameters, for lists of slabs listed before. -/
theorem slab_bits_frame (s s1 : kmem_state) (cs : List Nat)
    (L L1 : Nat → slab_type → List Nat) (hbits : slab_bits s cs L)
    (hL1 : ∀ d, d ∈ cs → ∀ t x, x ∈ L1 d t → ∃ t0, x ∈ L d t0)
    (hm : s1.bitmaps = s.bitmaps)
    (hrec : ∀ x, (s1.slabs x).bitmap = (s.slabs x).bitmap
      ∧ (s1.slabs x).used_count = (s.slabs x).used_count)
    (hcs : ∀ d, (s1.caches d).obj_per_slab = (s.caches d).obj_per_slab
      ∧ (s1.caches d).bitmap_length = (s.caches d).bitmap_length) :
    slab_bits s1 cs L1 := by
  refine ⟨?_, ?_, ?_⟩
  · intro a
    rw [hm]
    exact hbits.bytes a
  · intro d hd t x hx i hi1 hi2
    obtain ⟨t0, h0⟩ := hL1 d hd t x hx
    rw [(hcs d).1] at hi1
    rw [(hcs d).2] at hi2
    rw [hm, (hrec x).1]
    exact hbits.high d hd t0 x h0 i hi1 hi2
  · intro d hd t x hx
    obtain ⟨t0, h0⟩ := hL1 d hd t x hx
    rw [hm, (hrec x).1, (hrec x).2, (hcs d).1]
    exact hbits.count d hd t0 x h0

theorem set_bits_clear (m : Nat → Nat) (b n : Nat) (h : ∀ i, i < n → bit_at m b i = false) :
    set_bits m b n = 0 := by
  unfold set_bits
  rw [List.countP_eq_zero]
  intro i hi
  rw [h i (List.mem_range.1 hi)]
  decide

/-- An allocation from the slab at the head of the partial or of the empty list,
when it returns, keeps the invariant and the consistency of the bitmaps. -/
theorem alloc_from_head (s : kmem_state) (cs : List Nat) (L : Nat → slab_type → List Nat)
    (out : List block_area) (lists : Nat → List Nat) (inv : kmem_inv s cs L out lists)
    (c : Nat) (hc : c ∈ cs) (t : slab_type) (ht : t ≠ slab_type.full)
    (hh : (s.caches c).heads t ≠ NULL) (p : Nat) (s1 : kmem_state)
    (hcall : slab_alloc_object s ((s.caches c).heads t) = some (p, s1)) :
    ∃ L1, kmem_inv s1 cs L1 out lists ∧ (slab_bits s cs L → slab_bits s1 cs L1) := by
  obtain ⟨l1, hl1, _⟩ := slab_chain_head s.slabs (L c t) _ (inv.slabs_ok.chain c hc t) hh
  have hq : (s.caches c).heads t ∈ L c t := by rw [hl1]; exact List.mem_cons_self _ _
  obtain ⟨idx, t1, e1, e2, e3, e4, e5⟩ := alloc_object_step s cs L out lists inv c hc t _ hq ht
    p s1 hcall
  refine ⟨_, e4, ?_⟩
  intro hbits
  exact (alloc_object_bits s cs L out lists inv hbits c hc t _ hq ht idx e1).2.2 s1 t1 _ e5
    (moved_listed s cs L inv.slabs_ok c hc t t1 _ hq)

/-- The call `kmem_cache_alloc`, when it returns and a new slab it asks for is
served, keeps the invariant and the consistency of the bitmaps. -/
theorem alloc_step (s : kmem_state) (cs : List Nat) (L : Nat → slab_type → List Nat)
    (out : List block_area) (lists : Nat → List Nat) (inv : kmem_inv s cs L out lists)
    (c : Nat) (hc : c ∈ cs) (hserved : growth_served s c) (p : Nat) (s1 : kmem_state)
    (hcall : kmem_cache_alloc s c = some (p, s1)) :
    ∃ L1 out1 lists1, kmem_inv s1 cs L1 out1 lists1
      ∧ (slab_bits s cs L → slab_bits s1 cs L1) := by
  have hl := inv.slabs_ok
  have hcne := hl.cache_ne c hc
  have h8 : BITMAP_ENTRY_BITS = 8 := rfl
  unfold kmem_cache_alloc at hcall
  rw [if_neg hcne] at hcall
  unfold kmem_cache_alloc_obj at hcall
  rw [if_neg hcne] at hcall
  simp only [] at hcall
  by_cases h1 : (s.caches c).heads slab_type.part ≠ NULL
  · rw [if_pos h1] at hcall
    obtain ⟨L1, a1, a2⟩ := alloc_from_head s cs L out lists inv c hc slab_type.part (by decide)
      h1 p s1 hcall
    exact ⟨L1, out, lists, a1, a2⟩
  · rw [if_neg h1] at hcall
    by_cases h2 : (s.caches c).heads slab_type.empty = NULL
    · rw [if_pos h2] at hcall
      by_cases hg : s.buddy.free_block_count ≥ power_of_two (s.caches c).slab_order
          ∧ (s.caches c).slab_order ≤ s.buddy.max_order
      · obtain ⟨h, lists1, p1, sC, g1, g2, g3, g4, g5, g6, g7, g8, g9, g10, g11⟩ :=
          new_slab_grows s cs L out lists inv c hc hg (hserved (not_not.1 h1) h2)
        rw [g1] at hcall
        simp only [Option.some_bind] at hcall
        rw [if_neg (by decide)] at hcall
        have hbC : slab_bits s cs L →
            slab_bits sC cs (set_list L c slab_type.empty (p1 :: L c slab_type.empty)) := by
          intro hbits
          have hin : ∀ k, k < BITMAP_ENTRY_BITS * (s.caches c).bitmap_length →
              bit_at sC.bitmaps (p1 + SIZEOF_SLAB) k = false := by
            intro k hk
            unfold bit_at
            rw [g4, clear_bitmap_in _ _ _ _ (Nat.le_add_right _ _)
              (by rw [h8] at hk ⊢; omega)]
            exact Nat.zero_testBit _
          have hmem := mem_set_list_cons L c slab_type.empty p1
          have hne : ∀ d, d ∈ cs → ∀ t x, x ∈ L d t → x ≠ p1 := by
            intro d hd t x hx e
            have := g3 d hd t x hx
            have hS : SIZEOF_SLAB = 40 := rfl
            rw [hS] at this
            omega
          have hout : ∀ d, d ∈ cs → ∀ t x, x ∈ L d t → ∀ k,
              k < BITMAP_ENTRY_BITS * (s.caches d).bitmap_length →
              bit_at sC.bitmaps (s.slabs x).bitmap k = bit_at s.bitmaps (s.slabs x).bitmap k := by
            intro d hd t x hx k hk
            have hap := g3 d hd t x hx
            unfold bit_at
            rw [g4, clear_bitmap_out]
            rw [(inv.places_ok.fields d hd t x hx).1]
            rw [h8] at hk ⊢
            omega
          refine ⟨?_, ?_, ?_⟩
          · intro a
            rw [g4]
            by_cases ha : p1 + SIZEOF_SLAB ≤ a ∧ a < p1 + SIZEOF_SLAB + (s.caches c).bitmap_length
            · rw [clear_bitmap_in _ _ _ _ ha.1 ha.2]; decide
            · rw [clear_bitmap_out _ _ _ _ (by omega)]; exact hbits.bytes a
          · intro d hd t x hx i hi1 hi2
            rw [(g8 d).obj_per_slab] at hi1
            rw [(g8 d).bitmap_length] at hi2
            rcases (hmem d t x).1 hx with ⟨e1, e2, _⟩ | hx1
            · rw [e1, g6]
              rw [e2] at hi2
              exact hin i hi2
            · rw [g7 x (hne d hd t x hx1), hout d hd t x hx1 i hi2]
              exact hbits.high d hd t x hx1 i hi1 hi2
          · intro d hd t x hx
            rw [(g8 d).obj_per_slab]
            rcases (hmem d t x).1 hx with ⟨e1, e2, _⟩ | hx1
            · rw [e1, g5, g6, e2]
              symm
              apply set_bits_clear
              intro i hi
              exact hin i (by have := (bits_le_bitmap _ (inv.places_ok.layout c hc)).1; omega)
            · rw [g7 x (hne d hd t x hx1), hbits.count d hd t x hx1]
              symm
              apply set_bits_congr
              intro i hi
              exact hout d hd t x hx1 i
                (by have := (bits_le_bitmap _ (inv.places_ok.layout d hd)).1; omega)
        have key : ∀ sD : kmem_state,
            kmem_inv sD cs (set_list L c slab_type.empty (p1 :: L c slab_type.empty)) (h :: out)
              lists1 →
            (slab_bits s cs L →
              slab_bits sD cs (set_list L c slab_type.empty (p1 :: L c slab_type.empty))) →
            slab_alloc_object sD ((sD.caches c).heads slab_type.empty) = some (p, s1) →
            ∃ L1 out1 lists1, kmem_inv s1 cs L1 out1 lists1
              ∧ (slab_bits s cs L → slab_bits s1 cs L1) := by
          intro sD invD hbD hcallD
          have hhead : (sD.caches c).heads slab_type.empty ≠ NULL := by
            have hch := invD.slabs_ok.chain c hc slab_type.empty
            rw [set_list_same] at hch
            rw [hch.1]
            exact hch.2.1
          obtain ⟨L1, a1, a2⟩ := alloc_from_head sD cs _ (h :: out) lists1 invD c hc
            slab_type.empty (by decide) hhead p s1 hcallD
          exact ⟨L1, h :: out, lists1, a1, fun hb => a2 (hbD hb)⟩
        by_cases hx : (sC.caches c).extended ≠ -1
        · rw [if_pos hx] at hcall
          refine key _ (inv_cache_fields sC cs _ (h :: out) lists1 g2 c
            { sC.caches c with extended := 1 } rfl rfl rfl rfl rfl rfl rfl) ?_ hcall
          intro hb
          refine slab_bits_frame sC _ cs _ _ (hbC hb) (fun d _ t x hx => ⟨t, hx⟩) rfl
            (fun x => ⟨rfl, rfl⟩) ?_
          intro d
          show (Function.update sC.caches c _ d).obj_per_slab = _
            ∧ (Function.update sC.caches c _ d).bitmap_length = _
          by_cases hd : d = c
          · rw [hd, Function.update_same]; exact ⟨rfl, rfl⟩
          · rw [Function.update_noteq hd]; exact ⟨rfl, rfl⟩
        · rw [if_neg hx] at hcall
          exact key sC g2 hbC hcall
      · obtain ⟨s2, g1, g2, g3, g4, g5, g6⟩ := new_slab_fails s cs L out lists inv c hc hg
        rw [g1] at hcall
        simp only [Option.some_bind] at hcall
        rw [if_pos (by decide)] at hcall
        simp only [Option.some.injEq, Prod.mk.injEq] at hcall
        obtain ⟨_, hs1⟩ := hcall
        subst hs1
        refine ⟨L, out, lists, inv_cache_fields s2 cs L out lists g2 c
          { s2.caches c with error := err_cache_obj_alloc } rfl rfl rfl rfl rfl rfl rfl, ?_⟩
        intro hb
        refine slab_bits_frame s _ cs L L hb (fun d _ t x hx => ⟨t, hx⟩) g3
          (fun x => by show (s2.slabs x).bitmap = _ ∧ (s2.slabs x).used_count = _; rw [g4]
                       exact ⟨rfl, rfl⟩) ?_
        intro d
        show (Function.update s2.caches c _ d).obj_per_slab = _
          ∧ (Function.update s2.caches c _ d).bitmap_length = _
        by_cases hd : d = c
        · rw [hd, Function.update_same]
          exact ⟨(g6 c).obj_per_slab, (g6 c).bitmap_length⟩
        · rw [Function.update_noteq hd]
          exact ⟨(g6 d).obj_per_slab, (g6 d).bitmap_length⟩
    · rw [if_neg h2] at hcall
      obtain ⟨L1, a1, a2⟩ := alloc_from_head s cs L out lists inv c hc slab_type.empty
        (by decide) h2 p s1 hcall
      exact ⟨L1, out, lists, a1, a2⟩

/-! ## The invariant along call sequences -/

theorem slab_states_frame (s s1 : kmem_state) (cs : List Nat)
    (L L1 : Nat → slab_type → List Nat) (hs : slab_states s cs L)
    (hL1 : ∀ d, d ∈ cs → ∀ t x, x ∈ L1 d t → x ∈ L d t)
    (hrec : ∀ x, (s1.slabs x).used_count = (s.slabs x).used_count)
    (hcs : ∀ d, (s1.caches d).obj_per_slab = (s.caches d).obj_per_slab) :
    slab_states s1 cs L1 := by
  refine ⟨?_, ?_, ?_⟩
  · intro d hd t x hx
    rw [hrec x, hcs d]
    exact hs.used_le d hd t x (hL1 d hd t x hx)
  · intro d hd t x hx
    rw [hrec x]
    exact hs.empty_iff d hd t x (hL1 d hd t x hx)
  · intro d hd t x hx
    rw [hrec x, hcs d]
    exact hs.full_iff d hd t x (hL1 d hd t x hx)

/-- The call `kmem_cache_shrink` returns and keeps the invariant and the
consistency of the bitmaps. -/
theorem shrink_step (s : kmem_state) (cs : List Nat) (L : Nat → slab_type → List Nat)
    (out : List block_area) (lists : Nat → List Nat) (inv : kmem_inv s cs L out lists)
    (c : Nat) (hc : c ∈ cs) :
    ∃ r s1 L1 out1 lists1, kmem_cache_shrink s c = some (r, s1)
      ∧ kmem_inv s1 cs L1 out1 lists1
      ∧ (slab_bits s cs L → slab_bits s1 cs L1) := by
  by_cases hcond : ((s.caches c).extended = 0 ∧ L c slab_type.empty ≠ [])
      ∨ (s.caches c).extended = -1
  · obtain ⟨s1, lists1, e1, e2, e3, e4, _, _, e7, _, _⟩ :=
      shrink_reclaim s cs L out lists c inv.slabs_ok inv.places_ok inv.buddy_ok hc hcond
    have hsub : ∀ d, d ∈ cs → ∀ t x, x ∈ set_list L c slab_type.empty [] d t → x ∈ L d t :=
      fun d _ t x hx => mem_set_list_sub L c slab_type.empty [] (fun a ha => by simp at ha) d t x hx
    refine ⟨_, s1, _, _, lists1, e1, ⟨e2, ?_, e3, e4⟩, ?_⟩
    · exact slab_states_frame s s1 cs L _ inv.states_ok hsub
        (fun x => (e7.slabs x).used_count) (fun d => (e7.caches d).obj_per_slab)
    · intro hb
      exact slab_bits_frame s s1 cs L _ hb (fun d hd t x hx => ⟨t, hsub d hd t x hx⟩) e7.bitmaps
        (fun x => ⟨(e7.slabs x).bitmap, (e7.slabs x).used_count⟩)
        (fun d => ⟨(e7.caches d).obj_per_slab, (e7.caches d).bitmap_length⟩)
  · have e1 := shrink_skip s cs L c inv.slabs_ok hc hcond
    refine ⟨_, _, L, out, lists, e1, inv_cache_fields s cs L out lists inv c
      { s.caches c with extended := 0 } rfl rfl rfl rfl rfl rfl rfl, ?_⟩
    intro hb
    refine slab_bits_frame s _ cs L L hb (fun d _ t x hx => ⟨t, hx⟩) rfl (fun x => ⟨rfl, rfl⟩) ?_
    intro d
    show (Function.update s.caches c _ d).obj_per_slab = _
      ∧ (Function.update s.caches c _ d).bitmap_length = _
    by_cases hd : d = c
    · rw [hd, Function.update_same]; exact ⟨rfl, rfl⟩
    · rw [Function.update_noteq hd]; exact ⟨rfl, rfl⟩

/-- The call `kmem_cache_free` with an object in use returns and keeps the
invariant and the consistency of the bitmaps. -/
theorem free_step_bits (s : kmem_state) (cs : List Nat) (L : Nat → slab_type → List Nat)
    (out : List block_area) (lists : Nat → List Nat) (inv : kmem_inv s cs L out lists)
    (hbits : slab_bits s cs L) (c : Nat) (hc : c ∈ cs) (objp : Nat)
    (hall : allocated s c objp) :
    ∃ s1 L1, kmem_cache_free s c objp = some s1 ∧ kmem_inv s1 cs L1 out lists
      ∧ slab_bits s1 cs L1 := by
  obtain ⟨t, p, i, h1, h2, h3, h4⟩ := hall
  rw [slab_list_eq s cs L inv.slabs_ok c hc t] at h1
  obtain ⟨_, s1, t1, _, e2, e3, _, e5⟩ := free_allocated s cs L out lists inv hbits c hc t p i
    h1 h2 h4
  have hcne := inv.slabs_ok.cache_ne c hc
  refine ⟨s1, _, ?_, e3, e5⟩
  unfold kmem_cache_free
  rw [if_neg (fun h => hcne h.1), h3, e2]
  rfl

/-- Every state reached by calls that return, with served growth and arbitrary
pointers, satisfies the invariant. -/
theorem reach_inv (cs : List Nat) (ok : kmem_state → Nat → Nat → Prop) (s0 s : kmem_state)
    (L0 : Nat → slab_type → List Nat) (out0 : List block_area) (lists0 : Nat → List Nat)
    (inv0 : kmem_inv s0 cs L0 out0 lists0) (hr : calls_reach cs ok s0 s) :
    ∃ L out lists, kmem_inv s cs L out lists := by
  induction hr with
  | start => exact ⟨L0, out0, lists0, inv0⟩
  | alloc s s1 c p _ hc hserved hcall ih =>
    obtain ⟨L, out, lists, inv⟩ := ih
    obtain ⟨L1, out1, lists1, inv1, _⟩ := alloc_step s cs L out lists inv c hc hserved p s1 hcall
    exact ⟨L1, out1, lists1, inv1⟩
  | free s s1 c p _ hc _ hcall ih =>
    obtain ⟨L, out, lists, inv⟩ := ih
    obtain ⟨s2, L1, e1, inv1, _⟩ := free_step s cs L out lists inv c hc p
    rw [e1] at hcall
    cases hcall
    exact ⟨L1, out, lists, inv1⟩
  | shrink s s1 c r _ hc hcall ih =>
    obtain ⟨L, out, lists, inv⟩ := ih
    obtain ⟨r2, s2, L1, out1, lists1, e1, inv1, _⟩ := shrink_step s cs L out lists inv c hc
    rw [e1] at hcall
    cases hcall
    exact ⟨L1, out1, lists1, inv1⟩

/-- Every state reached by calls that return, with served growth and frees of
objects in use, satisfies the invariant and has consistent bitmaps. -/
theorem reach_bits (cs : List Nat) (s0 s : kmem_state)
    (L0 : Nat → slab_type → List Nat) (out0 : List block_area) (lists0 : Nat → List Nat)
    (inv0 : kmem_inv s0 cs L0 out0 lists0) (hbits0 : slab_bits s0 cs L0)
    (hr : calls_reach cs allocated s0 s) :
    ∃ L out lists, kmem_inv s cs L out lists ∧ slab_bits s cs L := by
  induction hr with
  | start => exact ⟨L0, out0, lists0, inv0, hbits0⟩
  | alloc s s1 c p _ hc hserved hcall ih =>
    obtain ⟨L, out, lists, inv, hb⟩ := ih
    obtain ⟨L1, out1, lists1, inv1, hb1⟩ := alloc_step s cs L out lists inv c hc hserved p s1
      hcall
    exact ⟨L1, out1, lists1, inv1, hb1 hb⟩
  | free s s1 c p _ hc hok hcall ih =>
    obtain ⟨L, out, lists, inv, hb⟩ := ih
    obtain ⟨s2, L1, e1, inv1, hb1⟩ := free_step_bits s cs L out lists inv hb c hc p hok
    rw [e1] at hcall
    cases hcall
    exact ⟨L1, out, lists, inv1, hb1⟩
  | shrink s s1 c r _ hc hcall ih =>
    obtain ⟨L, out, lists, inv, hb⟩ := ih
    obtain ⟨r2, s2, L1, out1, lists1, e1, inv1, hb1⟩ := shrink_step s cs L out lists inv c hc
    rw [e1] at hcall
    cases hcall
    exact ⟨L1, out1, lists1, inv1, hb1 hb⟩

/-! ## A call sequence from the small state -/

theorem demo_slab_states (t : slab_type) (used bits : Nat) (flag : Int) (h1 : used ≤ 4)
    (h2 : t = slab_type.empty ↔ used = 0) (h3 : t = slab_type.full ↔ used = 4) :
    slab_states (demo_state t used bits flag) demo_caches (demo_lists t) := by
  refine ⟨?_, ?_, ?_⟩
  · intro c hc t2 p hp
    obtain ⟨rfl, rfl, rfl⟩ := demo_lists_mem t c t2 p hp
    rw [demo_slab_at, demo_cache_at]
    exact h1
  · intro c hc t2 p hp
    obtain ⟨rfl, rfl, rfl⟩ := demo_lists_mem t c t2 p hp
    rw [demo_slab_at]
    exact h2
  · intro c hc t2 p hp
    obtain ⟨rfl, rfl, rfl⟩ := demo_lists_mem t c t2 p hp
    rw [demo_slab_at, demo_cache_at]
    exact h3

theorem demo_inv (t : slab_type) (used bits : Nat) (flag : Int) (h1 : used ≤ 4)
    (h2 : t = slab_type.empty ↔ used = 0) (h3 : t = slab_type.full ↔ used = 4) :
    ∃ lists, kmem_inv (demo_state t used bits flag) demo_caches (demo_lists t) [demo_alloc.1]
      lists := by
  obtain ⟨lists, hb⟩ := demo_buddy_inv
  exact ⟨lists, demo_slab_lists _ _ _ _, demo_slab_states _ _ _ _ h1 h2 h3,
    demo_slab_places _ _ _ _, hb⟩

theorem demo_part_inv :
    ∃ lists, kmem_inv demo_part demo_caches (demo_lists slab_type.part) [demo_alloc.1] lists :=
  demo_inv slab_type.part 1 1 (-1) (by decide) (by decide) (by decide)

theorem demo_part_bits : slab_bits demo_part demo_caches (demo_lists slab_type.part) := by
  refine ⟨?_, ?_, ?_⟩
  · intro a
    show Function.update zero_mem.bitmaps 77864 1 a < BYTE
    by_cases h : a = 77864
    · rw [h, Function.update_same]; decide
    · rw [Function.update_noteq h]; exact (by decide : (0 : Nat) < 256)
  · intro c hc t2 p hp i hi1 hi2
    obtain ⟨rfl, rfl, rfl⟩ := demo_lists_mem _ c t2 p hp
    have e1 : (demo_part.caches 66000).obj_per_slab = 4 := by decide!
    have e2 : BITMAP_ENTRY_BITS * (demo_part.caches 66000).bitmap_length = 8 := by decide!
    rw [e1] at hi1
    rw [e2] at hi2
    interval_cases i <;> decide!
  · intro c hc t2 p hp
    obtain ⟨rfl, rfl, rfl⟩ := demo_lists_mem _ c t2 p hp
    decide!

theorem getD_of_isSome (α : Type) (o : Option α) (d : α) (h : o.isSome = true) :
    o = some (o.getD d) := by
  cases o with
  | none => simp at h
  | some a => rfl

theorem demo_step1_eq : kmem_cache_alloc demo_part 66000 = some demo_step1 :=
  getD_of_isSome _ _ _ (by decide!)

theorem demo_step2_eq : kmem_cache_free demo_step1.2 66000 demo_step1.1 = some demo_step2 :=
  getD_of_isSome _ _ _ (by decide!)

theorem demo_step3_eq : kmem_cache_shrink demo_step2 66000 = some demo_step3 :=
  getD_of_isSome _ _ _ (by decide!)

theorem demo_growth_served : growth_served demo_part 66000 := by
  intro h
  exact absurd h (by decide!)

theorem demo_allocated : allocated demo_step1.2 66000 demo_step1.1 :=
  ⟨slab_type.part, 77824, 1, by decide!, by decide!, by decide!, by decide!⟩

/-- The calls of `demo_step1`, `demo_step2`, `demo_step3` form a call sequence
from `demo_part`, whatever is asked of the freed pointer, when the pointer
freed satisfies it. -/
theorem demo_reach (ok : kmem_state → Nat → Nat → Prop)
    (h : ok demo_step1.2 66000 demo_step1.1) :
    calls_reach demo_caches ok demo_part demo_step3.2 :=
  calls_reach.shrink demo_step2 demo_step3.2 66000 demo_step3.1
    (calls_reach.free demo_step1.2 demo_step2 66000 demo_step1.1
      (calls_reach.alloc demo_part demo_step1.2 66000 demo_step1.1 calls_reach.start
        (by decide) demo_growth_served demo_step1_eq)
      (by decide) h demo_step2_eq)
    (by decide) demo_step3_eq

/-! ## The list and state invariant and the bitmaps along call sequences -/

/-- The list and state invariant on served sequences: along every sequence of
`kmem_cache_alloc`, `kmem_cache_free` (with any pointer) and `kmem_cache_shrink`
calls that starts in a state with well-formed lists and in which every request
for a new slab is served by the buddy layer from a list of an order up to
`max_order`, every slab of a cache is on exactly one of its three lists, the one
of its `type` field; no list holds a slab twice; `slab_count[t]` is the length
of list `t`; and the type is empty iff `used_count` is 0, full iff it is
`obj_per_slab`, partial otherwise. -/
theorem slab_list_state_invariant (cs : List Nat) (s0 s : kmem_state)
    (L0 : Nat → slab_type → List Nat) (out0 : List block_area) (lists0 : Nat → List Nat)
    (inv0 : kmem_inv s0 cs L0 out0 lists0)
    (hr : calls_reach cs (fun _ _ _ => True) s0 s) (c : Nat) (hc : c ∈ cs) :
    (∀ t, (slab_list s c t).Nodup)
    ∧ (∀ t p, p ∈ slab_list s c t → (s.slabs p).cache = c ∧ (s.slabs p).type = t)
    ∧ (∀ t t2 p, p ∈ slab_list s c t → p ∈ slab_list s c t2 → t2 = t)
    ∧ (∀ t, (s.caches c).slab_count t = (slab_list s c t).length)
    ∧ (∀ t p, p ∈ slab_list s c t →
        ((s.slabs p).type = slab_type.empty ↔ (s.slabs p).used_count = 0)
        ∧ ((s.slabs p).type = slab_type.full
            ↔ (s.slabs p).used_count = (s.caches c).obj_per_slab)
        ∧ (s.slabs p).used_count ≤ (s.caches c).obj_per_slab) := by
  obtain ⟨L, out, lists, inv⟩ := reach_inv cs _ s0 s L0 out0 lists0 inv0 hr
  have hle : ∀ t, slab_list s c t = L c t := slab_list_eq s cs L inv.slabs_ok c hc
  refine ⟨?_, ?_, ?_, ?_, ?_⟩
  · intro t
    rw [hle]
    exact inv.slabs_ok.nodup c hc t
  · intro t p hp
    rw [hle] at hp
    exact inv.slabs_ok.owner c hc t p hp
  · intro t t2 p h1 h2
    rw [hle] at h1 h2
    exact (inv.slabs_ok.owner c hc t2 p h2).2.symm.trans (inv.slabs_ok.owner c hc t p h1).2
  · intro t
    rw [hle]
    exact inv.slabs_ok.count c hc t
  · intro t p hp
    rw [hle] at hp
    rw [(inv.slabs_ok.owner c hc t p hp).2]
    exact ⟨inv.states_ok.empty_iff c hc t p hp, inv.states_ok.full_iff c hc t p hp,
      inv.states_ok.used_le c hc t p hp⟩

/-- An instance of `slab_list_state_invariant`: the calls alloc, free, shrink from
the small state. -/
theorem slab_list_state_invariant_witness :
    (∃ lists, kmem_inv demo_part demo_caches (demo_lists slab_type.part) [demo_alloc.1] lists)
    ∧ calls_reach demo_caches (fun _ _ _ => True) demo_part demo_step3.2
    ∧ (∀ t, (slab_list demo_step3.2 66000 t).Nodup)
    ∧ (∀ t p, p ∈ slab_list demo_step3.2 66000 t →
        (demo_step3.2.slabs p).cache = 66000 ∧ (demo_step3.2.slabs p).type = t)
    ∧ (∀ t t2 p, p ∈ slab_list demo_step3.2 66000 t → p ∈ slab_list demo_step3.2 66000 t2 →
        t2 = t)
    ∧ (∀ t, (demo_step3.2.caches 66000).slab_count t = (slab_list demo_step3.2 66000 t).length)
    ∧ (∀ t p, p ∈ slab_list demo_step3.2 66000 t →
        ((demo_step3.2.slabs p).type = slab_type.empty ↔ (demo_step3.2.slabs p).used_count = 0)
        ∧ ((demo_step3.2.slabs p).type = slab_type.full
            ↔ (demo_step3.2.slabs p).used_count = (demo_step3.2.caches 66000).obj_per_slab)
        ∧ (demo_step3.2.slabs p).used_count ≤ (demo_step3.2.caches 66000).obj_per_slab) := by
  obtain ⟨lists, inv⟩ := demo_part_inv
  exact ⟨⟨lists, inv⟩, demo_reach _ trivial,
    slab_list_state_invariant demo_caches demo_part demo_step3.2 _ _ lists inv
      (demo_reach _ trivial) 66000 (by decide)⟩

/-- C18 (amended): along every sequence of `kmem_cache_alloc` calls,
`kmem_cache_free` calls on objects that are in use and `kmem_cache_shrink` calls
that starts in a state with well-formed lists and consistent bitmaps, every slab
of a cache has a `used_count` equal to the number of set bits of its bitmap, and
no bit at a position from `obj_per_slab` on is set. -/
theorem bitmap_matches_used_count (cs : List Nat) (s0 s : kmem_state)
    (L0 : Nat → slab_type → List Nat) (out0 : List block_area) (lists0 : Nat → List Nat)
    (inv0 : kmem_inv s0 cs L0 out0 lists0) (hbits0 : slab_bits s0 cs L0)
    (hr : calls_reach cs allocated s0 s) (c : Nat) (hc : c ∈ cs) (t : slab_type) (p : Nat)
    (hp : p ∈ slab_list s c t) :
    (s.slabs p).used_count
      = set_bits s.bitmaps (s.slabs p).bitmap (BITMAP_ENTRY_BITS * (s.caches c).bitmap_length)
    ∧ ∀ i, (s.caches c).obj_per_slab ≤ i →
        i < BITMAP_ENTRY_BITS * (s.caches c).bitmap_length →
        bit_at s.bitmaps (s.slabs p).bitmap i = false := by
  obtain ⟨L, out, lists, inv, hb⟩ := reach_bits cs s0 s L0 out0 lists0 inv0 hbits0 hr
  rw [slab_list_eq s cs L inv.slabs_ok c hc t] at hp
  refine ⟨?_, hb.high c hc t p hp⟩
  obtain ⟨h1, _⟩ := bits_le_bitmap _ (inv.places_ok.layout c hc)
  obtain ⟨d, hd⟩ := Nat.exists_eq_add_of_le h1
  rw [hd, set_bits_high _ _ _ d, hb.count c hc t p hp]
  intro i hi1 hi2
  exact hb.high c hc t p hp i hi1 (by rw [hd]; exact hi2)

/-- Witness of C18: the calls alloc, free of the object returned, shrink from the
small state; the slab 77824 is on the partial list at the end. -/
theorem bitmap_matches_used_count_witness :
    (∃ lists, kmem_inv demo_part demo_caches (demo_lists slab_type.part) [demo_alloc.1] lists)
    ∧ slab_bits demo_part demo_caches (demo_lists slab_type.part)
    ∧ calls_reach demo_caches allocated demo_part demo_step3.2
    ∧ 77824 ∈ slab_list demo_step3.2 66000 slab_type.part
    ∧ (demo_step3.2.slabs 77824).used_count
      = set_bits demo_step3.2.bitmaps (demo_step3.2.slabs 77824).bitmap
          (BITMAP_ENTRY_BITS * (demo_step3.2.caches 66000).bitmap_length)
    ∧ ∀ i, (demo_step3.2.caches 66000).obj_per_slab ≤ i →
        i < BITMAP_ENTRY_BITS * (demo_step3.2.caches 66000).bitmap_length →
        bit_at demo_step3.2.bitmaps (demo_step3.2.slabs 77824).bitmap i = false := by
  obtain ⟨lists, inv⟩ := demo_part_inv
  exact ⟨⟨lists, inv⟩, demo_part_bits, demo_reach _ demo_allocated, by decide!,
    bitmap_matches_used_count demo_caches demo_part demo_step3.2 _ _ lists inv demo_part_bits
      (demo_reach _ demo_allocated) 66000 (by decide) slab_type.part 77824 (by decide!)⟩

/-- C18 (counterexample): after `kmem_init`, create "T" (1000-byte objects),
two allocations and a free of the first pointer, the slab is on the partial list
with `used_count` 1 and bitmap entry 2 (one set bit); a second free of the same
pointer passes the range check and leaves the slab on the empty list with
`used_count` 0 while the bitmap entry is still 2 (one set bit). -/
theorem double_free_breaks_count : double_free = some [[1, 2, 1], [0, 2, 1]] := by
  decide!

/-! ## `calc_block_order` and the layout of `kmem_cache_init` -/

theorem size_in_blocks_le (size m : Nat) : size_in_blocks size ≤ m ↔ size ≤ m * BLOCK_SIZE := by
  unfold size_in_blocks
  have hB : BLOCK_SIZE = 4096 := rfl
  rw [hB]
  split_ifs <;> omega

theorem calc_block_order_loop_spec (size : Nat) : ∀ (fuel order : Nat),
    size_in_blocks size ≤ 2 ^ (order + fuel - 1) → 1 ≤ fuel →
    (∀ j, j < order → 2 ^ j < size_in_blocks size) →
    ∃ k, calc_block_order_loop size fuel order = k ∧ order ≤ k
      ∧ size_in_blocks size ≤ 2 ^ k ∧ ∀ j, j < k → 2 ^ j < size_in_blocks size := by
  intro fuel
  induction fuel with
  | zero => intro order _ h; omega
  | succ n ih =>
    intro order hs _ hlow
    unfold calc_block_order_loop
    by_cases hlt : power_of_two order < size_in_blocks size
    · rw [if_pos hlt]
      have hn : 1 ≤ n := by
        rcases Nat.eq_zero_or_pos n with h0 | h0
        · subst h0
          simp only [power_of_two] at hlt
          simp only [Nat.zero_add, Nat.add_sub_cancel] at hs
          omega
        · exact h0
      obtain ⟨k, hk, hle, hsz, hl⟩ := ih (order + 1) (by
        have : order + 1 + n - 1 = order + (n + 1) - 1 := by omega
        rw [this]; exact hs) hn (by
        intro j hj
        rcases Nat.lt_succ_iff_lt_or_eq.1 hj with h1 | h1
        · exact hlow j h1
        · rw [h1]; exact hlt)
      exact ⟨k, hk, by omega, hsz, hl⟩
    · rw [if_neg hlt]
      simp only [power_of_two] at hlt
      exact ⟨order, rfl, le_refl _, by omega, hlow⟩

/-- The order that `calc_block_order` returns for a 32-bit size: the bytes of
`2 ^ k` blocks cover the size, and those of no smaller power of two do. -/
theorem calc_block_order_spec (size : Nat) (h : size < WORD) :
    size ≤ 2 ^ calc_block_order size * BLOCK_SIZE
    ∧ ∀ j, j < calc_block_order size → 2 ^ j * BLOCK_SIZE < size := by
  have hB : BLOCK_SIZE = 4096 := rfl
  have hW : WORD = 4294967296 := rfl
  unfold calc_block_order
  by_cases hs : size > BLOCK_SIZE
  · rw [if_pos hs]
    obtain ⟨k, hk, _, h1, h2⟩ := calc_block_order_loop_spec size 32 1
      (by
        rw [size_in_blocks_le]
        have : (2 : Nat) ^ (1 + 32 - 1) * BLOCK_SIZE = 17592186044416 := by rw [hB]; norm_num
        omega)
      (by norm_num)
      (by
        intro j hj
        have : j = 0 := by omega
        subst this
        have := (size_in_blocks_le size 1).not.2 (by omega)
        simpa using this)
    rw [hk]
    refine ⟨(size_in_blocks_le size _).1 h1, ?_⟩
    intro j hj
    have := h2 j hj
    have h3 := (size_in_blocks_le size (2 ^ j)).not.1 (by omega)
    omega
  · rw [if_neg hs]
    refine ⟨by simp only [pow_zero, Nat.one_mul]; omega, ?_⟩
    intro j hj
    omega

/-- C21: for every 32-bit byte size, `calc_block_order(size)` is the smallest
order `k` with `2 ^ k * BLOCK_SIZE >= size`, and it is 0 for every size up to
`BLOCK_SIZE`, zero included. -/
theorem calc_block_order_smallest (size : Nat) (h : size < WORD) :
    size ≤ 2 ^ calc_block_order size * BLOCK_SIZE
    ∧ (∀ k, size ≤ 2 ^ k * BLOCK_SIZE → calc_block_order size ≤ k)
    ∧ (size ≤ BLOCK_SIZE → calc_block_order size = 0) := by
  obtain ⟨h1, h2⟩ := calc_block_order_spec size h
  refine ⟨h1, ?_, ?_⟩
  · intro k hk
    by_contra hc
    have := h2 k (by omega)
    omega
  · intro hs
    unfold calc_block_order
    rw [if_neg (by omega)]

/-- Witness of C21: a size of 10000 bytes needs three blocks, order 2. -/
theorem calc_block_order_smallest_witness :
    (10000 : Nat) < WORD
    ∧ 10000 ≤ 2 ^ calc_block_order 10000 * BLOCK_SIZE
    ∧ (∀ k, 10000 ≤ 2 ^ k * BLOCK_SIZE → calc_block_order 10000 ≤ k)
    ∧ (10000 ≤ BLOCK_SIZE → calc_block_order 10000 = 0)
    ∧ calc_block_order 10000 = 2 :=
  ⟨by decide, (calc_block_order_smallest 10000 (by decide)).1,
    (calc_block_order_smallest 10000 (by decide)).2.1,
    (calc_block_order_smallest 10000 (by decide)).2.2, by decide⟩

theorem calc_bitmap_size_mono (i j : Nat) (h : i ≤ j) :
    calc_bitmap_size i ≤ calc_bitmap_size j ∧ calc_bitmap_size (i + 1) ≤ calc_bitmap_size i + 1 := by
  unfold calc_bitmap_size
  split_ifs <;> omega

theorem layout_loop_spec (sz free J : Nat) (hJ : free < calc_bitmap_size J + J * sz)
    (hlow : ∀ i, i < J → calc_bitmap_size i + i * sz ≤ free)
    (hw : calc_bitmap_size J + J * sz < WORD) (hJW : J < WORD) :
    ∀ (fuel j : Nat), j ≤ J → J - j < fuel →
    layout_loop sz free fuel j (calc_bitmap_size j) = some (J, calc_bitmap_size J) := by
  intro fuel
  induction fuel with
  | zero => intro j _ h; omega
  | succ n ih =>
    intro j hj hf
    have hmul : j * sz ≤ J * sz := Nat.mul_le_mul_right _ hj
    have hcb := (calc_bitmap_size_mono j J hj).1
    have h1 : (j * sz) % WORD = j * sz := Nat.mod_eq_of_lt (by omega)
    have h2 : (calc_bitmap_size j + j * sz) % WORD = calc_bitmap_size j + j * sz :=
      Nat.mod_eq_of_lt (by omega)
    unfold layout_loop
    rw [h1, h2]
    by_cases hlt : j < J
    · rw [if_pos (hlow j hlt), Nat.mod_eq_of_lt (by omega : j + 1 < WORD)]
      exact ih (j + 1) hlt (by omega)
    · have : j = J := by omega
      subst this
      rw [if_neg (by omega)]

/-- The layout that `kmem_cache_init` computes for an object size `sz > 0` with
`sizeof(slab_t) + sz + 1 <= 2 ^ 31`. -/
theorem init_layout_spec (s : kmem_state) (cache : Nat) (text : List Nat) (sz ctor dtor : Nat)
    (hc : cache ≠ NULL) (h0 : 0 < sz) (hsz : SIZEOF_SLAB + sz + 1 ≤ 2 ^ 31)
    (hname : text.length < CACHE_NAME_LEN) :
    ∃ s1 n, kmem_cache_init s cache (some text) sz ctor dtor = some s1
      ∧ (s1.caches cache).slab_order = calc_block_order (SIZEOF_SLAB + sz + 1)
      ∧ (s1.caches cache).object_size = sz
      ∧ (s1.caches cache).obj_per_slab = n ∧ 1 ≤ n
      ∧ (s1.caches cache).bitmap_length = calc_bitmap_size n
      ∧ SIZEOF_SLAB + calc_bitmap_size n + n * sz
          ≤ 2 ^ calc_block_order (SIZEOF_SLAB + sz + 1) * BLOCK_SIZE
      ∧ (∀ m, SIZEOF_SLAB + calc_bitmap_size m + m * sz
          ≤ 2 ^ calc_block_order (SIZEOF_SLAB + sz + 1) * BLOCK_SIZE → m ≤ n)
      ∧ (s1.caches cache).max_alignments
          = (2 ^ calc_block_order (SIZEOF_SLAB + sz + 1) * BLOCK_SIZE - SIZEOF_SLAB
              - calc_bitmap_size n - n * sz) / CACHE_L1_LINE_SIZE + 1 := by
  have hW : WORD = 4294967296 := rfl
  have hB : BLOCK_SIZE = 4096 := rfl
  have hS : SIZEOF_SLAB = 40 := rfl
  have h31 : (2 : Nat) ^ 31 = 2147483648 := by norm_num
  have hso : calc_slab_order sz = calc_block_order (SIZEOF_SLAB + sz + 1) := by
    unfold calc_slab_order
    have : MIN_OBJ_CNT = 1 := rfl
    rw [this, Nat.mul_one, Nat.mod_eq_of_lt (by omega : sz < WORD),
      Nat.mod_eq_of_lt (by omega : SIZEOF_SLAB + sz + 1 < WORD)]
  obtain ⟨o1, o2⟩ := calc_block_order_spec (SIZEOF_SLAB + sz + 1) (by omega)
  -- the run is at most 2 ^ 31 bytes
  have hrun : 2 ^ calc_block_order (SIZEOF_SLAB + sz + 1) * BLOCK_SIZE ≤ 2 ^ 31 := by
    by_contra hcon
    have h19 : ¬ calc_block_order (SIZEOF_SLAB + sz + 1) ≤ 19 := by
      intro hle
      have := Nat.pow_le_pow_right (by decide : 1 ≤ 2) hle
      have e : (2 : Nat) ^ 19 = 524288 := by norm_num
      rw [hB] at hcon
      omega
    have := o2 19 (by omega)
    have e : (2 : Nat) ^ 19 = 524288 := by norm_num
    rw [hB, e] at this
    omega
  generalize calc_block_order (SIZEOF_SLAB + sz + 1) = k at hso o1 o2 hrun ⊢
  generalize hR : 2 ^ k * BLOCK_SIZE = R at o1 hrun ⊢
  have hfree : ((power_of_two (calc_slab_order sz) * BLOCK_SIZE) % WORD + WORD - SIZEOF_SLAB)
      % WORD = R - SIZEOF_SLAB := by
    rw [hso]
    unfold power_of_two
    rw [hR, Nat.mod_eq_of_lt (show R < WORD by omega)]
    have : R + WORD - SIZEOF_SLAB = R - SIZEOF_SLAB + WORD := by omega
    rw [this, Nat.add_mod_right]
    exact Nat.mod_eq_of_lt (by omega)
  -- the first count that does not fit
  have hex : ∃ j, R - SIZEOF_SLAB < calc_bitmap_size j + j * sz := by
    refine ⟨R - SIZEOF_SLAB + 1, ?_⟩
    have : R - SIZEOF_SLAB + 1 ≤ (R - SIZEOF_SLAB + 1) * sz := Nat.le_mul_of_pos_right _ h0
    omega
  have hJ := Nat.find_spec hex
  have hmin : ∀ i, i < Nat.find hex → calc_bitmap_size i + i * sz ≤ R - SIZEOF_SLAB := by
    intro i hi
    have := Nat.find_min hex hi
    omega
  generalize Nat.find hex = J at hJ hmin
  have hJ2 : 2 ≤ J := by
    by_contra hcon
    have hJ1 : J ≤ 1 := by omega
    have hm := Nat.mul_le_mul_right sz hJ1
    have hcb := (calc_bitmap_size_mono J 1 hJ1).1
    have e1 : calc_bitmap_size 1 = 1 := by decide
    rw [e1] at hcb
    omega
  obtain ⟨n, hn⟩ : ∃ n, J = n + 1 := ⟨J - 1, by omega⟩
  subst hn
  have hfit := hmin n (by omega)
  have hstep := (calc_bitmap_size_mono n n (le_refl _)).2
  have hmulJ : (n + 1) * sz = n * sz + sz := by rw [Nat.add_mul, Nat.one_mul]
  have hnle : n ≤ n * sz := Nat.le_mul_of_pos_right _ h0
  have hloop := layout_loop_spec sz (R - SIZEOF_SLAB) (n + 1) hJ hmin (by omega) (by omega)
    (8 * (R - SIZEOF_SLAB) + 9) 0 (by omega) (by omega)
  have hcnt : (n + 1 + WORD - 1) % WORD = n := by
    have : n + 1 + WORD - 1 = n + WORD := by omega
    rw [this, Nat.add_mod_right]
    exact Nat.mod_eq_of_lt (by omega)
  have hwaste : (R - SIZEOF_SLAB + WORD - (calc_bitmap_size n + (n * sz) % WORD) % WORD) % WORD
      = R - SIZEOF_SLAB - calc_bitmap_size n - n * sz := by
    rw [Nat.mod_eq_of_lt (by omega : n * sz < WORD),
      Nat.mod_eq_of_lt (by omega : calc_bitmap_size n + n * sz < WORD)]
    have : R - SIZEOF_SLAB + WORD - (calc_bitmap_size n + n * sz)
        = R - SIZEOF_SLAB - calc_bitmap_size n - n * sz + WORD := by omega
    rw [this, Nat.add_mod_right]
    exact Nat.mod_eq_of_lt (by omega)
  have hinit : kmem_cache_init s cache (some text) sz ctor dtor
      = some { s with
          caches := Function.update s.caches cache
            { name := text
              heads := fun _ => NULL
              object_size := sz
              bitmap_length := calc_bitmap_size n / 1
              slab_order := k
              slab_count := fun _ => 0
              next_offset := 0
              obj_per_slab := n
              max_alignments :=
                (R - SIZEOF_SLAB - calc_bitmap_size n - n * sz) / CACHE_L1_LINE_SIZE + 1
              ctor := ctor
              dtor := dtor
              extended := -1
              error := 0
              next := NULL } } := by
    unfold kmem_cache_init
    rw [if_neg hc]
    simp only []
    rw [hfree]
    change layout_loop sz (R - SIZEOF_SLAB) (8 * (R - SIZEOF_SLAB) + 9) 0 0 = _ at hloop
    rw [hloop]
    simp only [Option.some_bind]
    rw [hcnt, hwaste, if_neg (by omega), hso]
  refine ⟨_, n, hinit, ?_, ?_, ?_, by omega, ?_, by omega, ?_, ?_⟩
  · simp only [Function.update_same]
  · simp only [Function.update_same]
  · simp only [Function.update_same]
  · simp only [Function.update_same, Nat.div_one]
  · intro m hm
    by_contra hcon
    have hle : n + 1 ≤ m := by omega
    have h1 := (calc_bitmap_size_mono (n + 1) m hle).1
    have h2 : (n + 1) * sz ≤ m * sz := Nat.mul_le_mul_right _ hle
    omega
  · simp only [Function.update_same]

/-! ## The slab layout: the claims -/

theorem calc_bitmap_size_ceil (n : Nat) : calc_bitmap_size n = (n + 7) / 8 := by
  unfold calc_bitmap_size
  split_ifs <;> omega

/-- C22 (amended): for every object size `sz > 0` with
`sizeof(slab_t) + sz + 1 <= 2 ^ 31`, `kmem_cache_init` sets `slab_order` to
`calc_block_order(sizeof(slab_t) + sz + 1)`, `obj_per_slab` to the largest `n`
with `ceil(n / 8) + n * sz <= free`, where `free` is the bytes of the
`2 ^ slab_order` blocks less the slab header, `bitmap_length` to
`ceil(obj_per_slab / 8)` and `max_alignments` to
`(free - bitmap_length - obj_per_slab * sz) / CACHE_L1_LINE_SIZE + 1`; and
`obj_per_slab >= 1`. -/
theorem kmem_cache_init_layout (s : kmem_state) (cache : Nat) (text : List Nat)
    (sz ctor dtor : Nat) (hc : cache ≠ NULL) (h0 : 0 < sz)
    (hsz : SIZEOF_SLAB + sz + 1 ≤ 2 ^ 31) (hname : text.length < CACHE_NAME_LEN) :
    ∃ s1, kmem_cache_init s cache (some text) sz ctor dtor = some s1
      ∧ (s1.caches cache).slab_order = calc_block_order (SIZEOF_SLAB + sz + 1)
      ∧ SIZEOF_SLAB ≤ 2 ^ (s1.caches cache).slab_order * BLOCK_SIZE
      ∧ ((s1.caches cache).obj_per_slab + 7) / 8 + (s1.caches cache).obj_per_slab * sz
          ≤ 2 ^ (s1.caches cache).slab_order * BLOCK_SIZE - SIZEOF_SLAB
      ∧ (∀ m, (m + 7) / 8 + m * sz
          ≤ 2 ^ (s1.caches cache).slab_order * BLOCK_SIZE - SIZEOF_SLAB →
          m ≤ (s1.caches cache).obj_per_slab)
      ∧ (s1.caches cache).bitmap_length = ((s1.caches cache).obj_per_slab + 7) / 8
      ∧ (s1.caches cache).max_alignments
          = (2 ^ (s1.caches cache).slab_order * BLOCK_SIZE - SIZEOF_SLAB
              - (s1.caches cache).bitmap_length - (s1.caches cache).obj_per_slab * sz)
            / CACHE_L1_LINE_SIZE + 1
      ∧ 1 ≤ (s1.caches cache).obj_per_slab := by
  obtain ⟨s1, n, e1, e2, _, e4, e5, e6, e7, e8, e9⟩ :=
    init_layout_spec s cache text sz ctor dtor hc h0 hsz hname
  refine ⟨s1, e1, e2, ?_, ?_, ?_, ?_, ?_, ?_⟩
  · rw [e2]; omega
  · rw [e2, e4, ← calc_bitmap_size_ceil]; omega
  · intro m hm
    rw [e2, ← calc_bitmap_size_ceil] at hm
    rw [e4]
    exact e8 m (by omega)
  · rw [e6, e4, calc_bitmap_size_ceil]
  · rw [e9, e2, e6, e4]
  · rw [e4]; exact e5

/-- Witness of C22: objects of 1000 bytes; the layout is order 0, four objects,
one bitmap entry, one colouring offset. -/
theorem kmem_cache_init_layout_witness :
    (4096 : Nat) ≠ NULL ∧ 0 < 1000 ∧ SIZEOF_SLAB + 1000 + 1 ≤ 2 ^ 31
    ∧ [84].length < CACHE_NAME_LEN
    ∧ init_layout 1000 = some [0, 4, 1, 1]
    ∧ ∃ s1, kmem_cache_init zero_mem 4096 (some [84]) 1000 NULL NULL = some s1
      ∧ (s1.caches 4096).slab_order = calc_block_order (SIZEOF_SLAB + 1000 + 1)
      ∧ SIZEOF_SLAB ≤ 2 ^ (s1.caches 4096).slab_order * BLOCK_SIZE
      ∧ ((s1.caches 4096).obj_per_slab + 7) / 8 + (s1.caches 4096).obj_per_slab * 1000
          ≤ 2 ^ (s1.caches 4096).slab_order * BLOCK_SIZE - SIZEOF_SLAB
      ∧ (∀ m, (m + 7) / 8 + m * 1000
          ≤ 2 ^ (s1.caches 4096).slab_order * BLOCK_SIZE - SIZEOF_SLAB →
          m ≤ (s1.caches 4096).obj_per_slab)
      ∧ (s1.caches 4096).bitmap_length = ((s1.caches 4096).obj_per_slab + 7) / 8
      ∧ (s1.caches 4096).max_alignments
          = (2 ^ (s1.caches 4096).slab_order * BLOCK_SIZE - SIZEOF_SLAB
              - (s1.caches 4096).bitmap_length - (s1.caches 4096).obj_per_slab * 1000)
            / CACHE_L1_LINE_SIZE + 1
      ∧ 1 ≤ (s1.caches 4096).obj_per_slab :=
  ⟨by decide, by decide, by decide, by decide, by decide!,
    kmem_cache_init_layout zero_mem 4096 [84] 1000 NULL NULL (by decide) (by decide) (by decide)
      (by decide)⟩

/-- C22 (counterexample): for the object size `2 ^ 32 - 41` the sum
`sizeof(slab_t) + size + 1` wraps to 0; `kmem_cache_init` returns with
`slab_order` 0 and `obj_per_slab` 0. -/
theorem kmem_cache_init_no_object : init_layout 4294967255 = some [0, 0, 0, 64] := by
  decide!

/-- C24 (amended): for every object size `sz > 0` with
`sizeof(slab_t) + sz + 1 <= 2 ^ 31` and every colouring index below the
`max_alignments` that `kmem_cache_init` computes, the colouring offset, the slab
header, the bitmap and the objects fit in the `2 ^ slab_order` blocks of the run;
so they do at the offset `(index % max_alignments) * CACHE_L1_LINE_SIZE` that
`slab_alloc` uses. -/
theorem slab_fits_run (s : kmem_state) (cache : Nat) (text : List Nat)
    (sz ctor dtor : Nat) (hc : cache ≠ NULL) (h0 : 0 < sz)
    (hsz : SIZEOF_SLAB + sz + 1 ≤ 2 ^ 31) (hname : text.length < CACHE_NAME_LEN) :
    ∃ s1, kmem_cache_init s cache (some text) sz ctor dtor = some s1
      ∧ (s1.caches cache).object_size = sz
      ∧ (∀ index, index < (s1.caches cache).max_alignments →
          layout_bytes (s1.caches cache) index
            ≤ 2 ^ (s1.caches cache).slab_order * BLOCK_SIZE)
      ∧ (∀ index,
          ((index % (s1.caches cache).max_alignments) * CACHE_L1_LINE_SIZE) % WORD
              + SIZEOF_SLAB + (s1.caches cache).bitmap_length
              + (s1.caches cache).obj_per_slab * (s1.caches cache).object_size
            ≤ 2 ^ (s1.caches cache).slab_order * BLOCK_SIZE) := by
  obtain ⟨s1, n, e1, e2, e3, e4, e5, e6, e7, e8, e9⟩ :=
    init_layout_spec s cache text sz ctor dtor hc h0 hsz hname
  have hC : CACHE_L1_LINE_SIZE = 64 := rfl
  have hfit : ∀ index, index < (s1.caches cache).max_alignments →
      layout_bytes (s1.caches cache) index
        ≤ 2 ^ (s1.caches cache).slab_order * BLOCK_SIZE := by
    intro index hi
    unfold layout_bytes
    rw [e9] at hi
    rw [e2, e3, e4, e6]
    generalize 2 ^ calc_block_order (SIZEOF_SLAB + sz + 1) * BLOCK_SIZE = R at e7 hi ⊢
    generalize n * sz = w at e7 hi ⊢
    rw [hC] at hi ⊢
    omega
  refine ⟨s1, e1, e3, hfit, ?_⟩
  intro index
  have hpos : 0 < (s1.caches cache).max_alignments := by rw [e9]; exact Nat.succ_pos _
  have hlt := Nat.mod_lt index hpos
  have h1 := hfit _ hlt
  unfold layout_bytes at h1
  have hle := Nat.mod_le ((index % (s1.caches cache).max_alignments) * CACHE_L1_LINE_SIZE) WORD
  omega

/-- Witness of C24: objects of 152 bytes, two colouring offsets. -/
theorem slab_fits_run_witness :
    (4096 : Nat) ≠ NULL ∧ 0 < 152 ∧ SIZEOF_SLAB + 152 + 1 ≤ 2 ^ 31
    ∧ [84].length < CACHE_NAME_LEN
    ∧ init_layout 152 = some [0, 26, 4, 2]
    ∧ init_fit 152 1 = some [4060, 4096]
    ∧ ∃ s1, kmem_cache_init zero_mem 4096 (some [84]) 152 NULL NULL = some s1
      ∧ (s1.caches 4096).object_size = 152
      ∧ (∀ index, index < (s1.caches 4096).max_alignments →
          layout_bytes (s1.caches 4096) index
            ≤ 2 ^ (s1.caches 4096).slab_order * BLOCK_SIZE)
      ∧ (∀ index,
          ((index % (s1.caches 4096).max_alignments) * CACHE_L1_LINE_SIZE) % WORD
              + SIZEOF_SLAB + (s1.caches 4096).bitmap_length
              + (s1.caches 4096).obj_per_slab * (s1.caches 4096).object_size
            ≤ 2 ^ (s1.caches 4096).slab_order * BLOCK_SIZE) :=
  ⟨by decide, by decide, by decide, by decide, by decide!, by decide!,
    slab_fits_run zero_mem 4096 [84] 152 NULL NULL (by decide) (by decide) (by decide)
      (by decide)⟩

/-- C24 (counterexample): for the object size 2863311530 the run has order 20,
whose byte count `(1 << 20) * BLOCK_SIZE` wraps to 0 in a 32-bit word, and the
products `obj_count * obj_size` of the loop wrap; `kmem_cache_init` returns
`obj_per_slab` 2, and header, bitmap and objects take 5726623101 bytes while the
`2 ^ 20` blocks of the run have 4294967296. -/
theorem slab_exceeds_run :
    init_layout 2863311530 = some [20, 2, 1, 44739243]
    ∧ init_fit 2863311530 0 = some [5726623101, 4294967296] := by
  decide!

/-! ## `slab_alloc_object`: the bit it picks -/

/-- The scan over the bitmap entries returns when one of the bits it covers is
clear. -/
theorem entry_scan_finds (m : Nat → Nat) (b : Nat) (hm : ∀ a, m a < BYTE) :
    ∀ (n i k : Nat), BITMAP_ENTRY_BITS * i ≤ k → k < BITMAP_ENTRY_BITS * (i + n) →
    bit_at m b k = false → ∃ idx, entry_scan m b n i = some idx := by
  have h8 : BITMAP_ENTRY_BITS = 8 := rfl
  intro n
  induction n with
  | zero => intro i k h1 h2; rw [h8] at h1 h2; omega
  | succ n ih =>
    intro i k h1 h2 hk
    unfold entry_scan
    by_cases hf : m (b + i) ≠ BITMAP_FULL
    · rw [if_pos hf]
      obtain ⟨k0, hk0, hkc⟩ := byte_clear_bit _ (hm (b + i)) hf
      obtain ⟨r, e1, _⟩ := bit_scan_spec (m (b + i)) 32 0 k0 (Nat.zero_le _)
        (by rw [h8] at hk0; omega) hkc
      rw [e1]
      exact ⟨_, rfl⟩
    · rw [if_neg hf]
      have hfull : m (b + i) = BITMAP_FULL := by
        by_contra hc
        exact hf hc
      refine ih (i + 1) k ?_ (by rw [h8] at h2 ⊢; omega) hk
      by_contra hlt
      have hd : k / BITMAP_ENTRY_BITS = i := by rw [h8] at h1 hlt ⊢; omega
      unfold bit_at at hk
      rw [hd, hfull, byte_full_bits _ (Nat.mod_lt _ (by decide))] at hk
      exact absurd hk (by decide)

/-- C23: on a slab that is not full and whose `used_count` is the number of set
bits among the first `obj_per_slab` of its bitmap, `slab_alloc_object` returns;
the bit `j` it picks is the lowest clear bit of the bitmap (bit `j % 8` of the
entry `j / 8`), `j < obj_per_slab`, the call sets that bit and no other, raises
`used_count` by one and returns the address `objects + j * object_size`. -/
theorem slab_alloc_object_lowest (s : kmem_state) (cs : List Nat)
    (L : Nat → slab_type → List Nat) (out : List block_area) (lists : Nat → List Nat)
    (inv : kmem_inv s cs L out lists) (c : Nat) (hc : c ∈ cs) (t : slab_type) (q : Nat)
    (hq : q ∈ L c t) (ht : t ≠ slab_type.full) (hbytes : ∀ a, s.bitmaps a < BYTE)
    (hcount : (s.slabs q).used_count
      = set_bits s.bitmaps (s.slabs q).bitmap (s.caches c).obj_per_slab) :
    ∃ j s1, slab_alloc_object s q
        = some ((s.slabs q).objects + j * (s.caches c).object_size, s1)
      ∧ j < (s.caches c).obj_per_slab
      ∧ bit_at s.bitmaps (s.slabs q).bitmap j = false
      ∧ (∀ k, k < j → bit_at s.bitmaps (s.slabs q).bitmap k = true)
      ∧ (∀ k, bit_at s1.bitmaps (s.slabs q).bitmap k
          = (decide (k = j) || bit_at s.bitmaps (s.slabs q).bitmap k))
      ∧ (∀ a, a ≠ (s.slabs q).bitmap + j / BITMAP_ENTRY_BITS → s1.bitmaps a = s.bitmaps a)
      ∧ (s1.slabs q).used_count = (s.slabs q).used_count + 1 := by
  have h8 : BITMAP_ENTRY_BITS = 8 := rfl
  have hW : WORD = 4294967296 := rfl
  have hS : SIZEOF_SLAB = 40 := rfl
  have lay := inv.places_ok.layout c hc
  obtain ⟨hb1, hb2⟩ := bits_le_bitmap _ lay
  obtain ⟨o1, o2⟩ := objs_small s cs L out lists inv c hc t q hq
  obtain ⟨w1, w2⟩ := slab_bytes_small s cs L out lists inv.slabs_ok inv.places_ok inv.buddy_ok
    c hc t q hq
  have hnw : (s.caches c).obj_per_slab
      ≤ (s.caches c).obj_per_slab * (s.caches c).object_size :=
    Nat.le_mul_of_pos_right _ lay.size
  have hsmall : BITMAP_ENTRY_BITS * (0 + (s.caches c).bitmap_length) < WORD := by
    rw [h8] at hb2 ⊢
    rw [hW] at w1 ⊢
    rw [hS] at w2
    omega
  have hu : (s.slabs q).used_count < (s.caches c).obj_per_slab := by
    have hule := inv.states_ok.used_le c hc t q hq
    rcases Nat.lt_or_ge (s.slabs q).used_count (s.caches c).obj_per_slab with h | h
    · exact h
    · exact absurd ((inv.states_ok.full_iff c hc t q hq).2 (Nat.le_antisymm hule h)) ht
  obtain ⟨i0, hi0, hc0⟩ := exists_clear_bit s.bitmaps (s.slabs q).bitmap _ (hcount ▸ hu)
  obtain ⟨j, hscan⟩ := entry_scan_finds s.bitmaps (s.slabs q).bitmap hbytes
    (s.caches c).bitmap_length 0 i0 (Nat.zero_le _) (by rw [h8] at hb1 ⊢; omega) hc0
  obtain ⟨e1, _, _, e4⟩ := entry_scan_spec s.bitmaps (s.slabs q).bitmap hbytes _ 0 j
    hsmall hscan
  have hj : j < (s.caches c).obj_per_slab := by
    by_contra hge
    have := e4 i0 (by omega) (by omega)
    rw [hc0] at this
    exact absurd this (by decide)
  obtain ⟨s1, r1, _, _, r4⟩ := slab_alloc_object_spec s cs L inv.slabs_ok inv.states_ok c hc t q
    hq ht o1 j hscan _ rfl
  have hjs : j * (s.caches c).object_size < WORD :=
    lt_of_le_of_lt (Nat.mul_le_mul_right _ (Nat.le_of_lt hj)) o2
  rw [Nat.mod_eq_of_lt hjs] at r1
  refine ⟨j, s1, r1, hj, e1, fun k hk => e4 k (by omega) hk, ?_, ?_, ?_⟩
  · intro k
    rw [r4.bitmaps]
    exact bit_at_set_used _ _ _ _
  · intro a ha
    rw [r4.bitmaps]
    exact set_used_other _ _ _ _ ha
  · rw [r4.used_count q, if_pos rfl]

/-- Witness of C23: the slab of `demo_part`, with bit 0 set; the call picks bit 1
and returns the address of object 1. -/
theorem slab_alloc_object_lowest_witness :
    (66000 ∈ demo_caches) ∧ (77824 ∈ demo_lists slab_type.part 66000 slab_type.part)
    ∧ slab_type.part ≠ slab_type.full
    ∧ ((slab_alloc_object demo_part 77824).map fun r => r.1) = some 78865
    ∧ ∃ j s1, slab_alloc_object demo_part 77824
        = some ((demo_part.slabs 77824).objects + j * (demo_part.caches 66000).object_size, s1)
      ∧ j < (demo_part.caches 66000).obj_per_slab
      ∧ bit_at demo_part.bitmaps (demo_part.slabs 77824).bitmap j = false
      ∧ (∀ k, k < j → bit_at demo_part.bitmaps (demo_part.slabs 77824).bitmap k = true)
      ∧ (∀ k, bit_at s1.bitmaps (demo_part.slabs 77824).bitmap k
          = (decide (k = j) || bit_at demo_part.bitmaps (demo_part.slabs 77824).bitmap k))
      ∧ (∀ a, a ≠ (demo_part.slabs 77824).bitmap + j / BITMAP_ENTRY_BITS →
          s1.bitmaps a = demo_part.bitmaps a)
      ∧ (s1.slabs 77824).used_count = (demo_part.slabs 77824).used_count + 1 :=
  ⟨by decide, by decide, by decide, by decide!,
    demo_part_inv.elim fun lists inv =>
      slab_alloc_object_lowest demo_part demo_caches (demo_lists slab_type.part) [demo_alloc.1]
        lists inv 66000 (by decide) slab_type.part 77824 (by decide) (by decide)
        demo_part_bits.bytes
        (demo_part_bits.count 66000 (by decide) slab_type.part 77824 (by decide))⟩

/-! ## Allocation and release of one object -/

/-- A slab moved from the head of its list to the head of another and back is
where it was. -/
theorem move_list_back (L : Nat → slab_type → List Nat) (c : Nat) (t t1 : slab_type)
    (q : Nat) (l : List Nat) (h : L c t = q :: l) :
    move_list (move_list L c t t1 q) c t1 t q = L := by
  by_cases e : t1 = t
  · subst e
    rw [move_list_same, move_list_same]
  · rw [move_list_ne L c t t1 q e, move_list_ne _ c t1 t q (Ne.symm e)]
    funext d t2
    simp only [set_list, Function.update_apply]
    by_cases hd : d = c
    · subst hd
      by_cases h2 : t2 = t
      · subst h2
        simp [e, Ne.symm e, h]
      · by_cases h3 : t2 = t1
        · subst h3
          simp [h2]
        · simp [h2, h3]
    · simp [hd]

/-- An allocation from the slab at the head of the list of type `t` followed by
the release of the pointer it returned. -/
theorem round_trip_head (s : kmem_state) (cs : List Nat) (L : Nat → slab_type → List Nat)
    (out : List block_area) (lists : Nat → List Nat) (inv : kmem_inv s cs L out lists)
    (hbits : slab_bits s cs L) (c : Nat) (hc : c ∈ cs) (t : slab_type)
    (ht : t ≠ slab_type.full) (hh : (s.caches c).heads t ≠ NULL) (p : Nat) (s1 : kmem_state)
    (hcall : slab_alloc_object s ((s.caches c).heads t) = some (p, s1)) :
    ∃ s2, kmem_cache_free s1 c p = some s2
      ∧ (∀ t2, slab_list s2 c t2 = slab_list s c t2)
      ∧ (∀ t2, (s2.caches c).slab_count t2 = (s.caches c).slab_count t2)
      ∧ s2.bitmaps = s.bitmaps
      ∧ (∀ x, (s2.slabs x).used_count = (s.slabs x).used_count
          ∧ (s2.slabs x).type = (s.slabs x).type) := by
  obtain ⟨l1, hl1, _⟩ := slab_chain_head s.slabs (L c t) _ (inv.slabs_ok.chain c hc t) hh
  generalize hqd : (s.caches c).heads t = q at hcall hl1
  have hq : q ∈ L c t := by rw [hl1]; exact List.mem_cons_self _ _
  have hcne := inv.slabs_ok.cache_ne c hc
  obtain ⟨idx, t1, e1, e2, e3, inv1, r1⟩ := alloc_object_step s cs L out lists inv c hc t q hq ht
    p s1 hcall
  obtain ⟨b1, b2, b3⟩ := alloc_object_bits s cs L out lists inv hbits c hc t q hq ht idx e1
  have hbits1 := b3 s1 t1 _ r1 (moved_listed s cs L inv.slabs_ok c hc t t1 q hq)
  obtain ⟨o1, o2⟩ := objs_small s cs L out lists inv c hc t q hq
  have hjs : idx * (s.caches c).object_size < WORD :=
    lt_of_le_of_lt (Nat.mul_le_mul_right _ (Nat.le_of_lt b1)) o2
  rw [Nat.mod_eq_of_lt hjs] at e3
  have hq1 : q ∈ move_list L c t t1 q c t1 :=
    (mem_move_list s cs L inv.slabs_ok c hc t t1 q hq c hc t1 q).2 (Or.inl ⟨rfl, rfl, rfl⟩)
  have hn1 : (s1.caches c).obj_per_slab = (s.caches c).obj_per_slab := (r1.caches c).obj_per_slab
  have hz1 : (s1.caches c).object_size = (s.caches c).object_size := (r1.caches c).object_size
  have hbm : (s1.slabs q).bitmap = (s.slabs q).bitmap := (r1.frame q).2.2.2.1
  have hob : (s1.slabs q).objects = (s.slabs q).objects := (r1.frame q).2.2.2.2
  have hu1 : (s1.slabs q).used_count = (s.slabs q).used_count + 1 := by
    rw [r1.used_count q, if_pos rfl]
  have hset : bit_at s1.bitmaps (s1.slabs q).bitmap idx = true := by
    rw [r1.bitmaps, hbm, bit_at_set_used]
    simp
  obtain ⟨_, s2, t2, f1, f2, inv2, r2, _⟩ := free_allocated s1 cs _ out lists inv1 hbits1 c hc t1
    q idx hq1 (by rw [hn1]; exact b1) hset
  rw [hob, hz1, ← e3] at f2
  have htt : t2 = t := by
    rw [f1, hu1, Nat.add_sub_cancel]
    have hempty := inv.states_ok.empty_iff c hc t q hq
    by_cases hu : (s.slabs q).used_count = 0
    · rw [if_pos hu, hempty.2 hu]
    · rw [if_neg hu]
      cases t with
      | empty => exact absurd (hempty.1 rfl) hu
      | part => rfl
      | full => exact absurd rfl ht
  subst htt
  rw [move_list_back L c t2 t1 q l1 hl1] at inv2
  have hfree : kmem_cache_free s1 c p = some s2 := by
    unfold kmem_cache_free
    rw [if_neg (fun h => hcne h.1), f2]
    rfl
  refine ⟨s2, hfree, ?_, ?_, ?_, ?_⟩
  · intro t3
    rw [slab_list_eq s2 cs L inv2.slabs_ok c hc t3, slab_list_eq s cs L inv.slabs_ok c hc t3]
  · intro t3
    rw [inv2.slabs_ok.count c hc t3, inv.slabs_ok.count c hc t3]
  · rw [r2.bitmaps, r1.bitmaps, hbm]
    exact set_free_set_used _ _ _ hbits.bytes b2
  · intro x
    constructor
    · rw [r2.used_count x, r1.used_count x]
      by_cases hx : x = q
      · rw [if_pos hx, hu1, hx, Nat.add_sub_cancel]
      · rw [if_neg hx, if_neg hx]
    · rw [r2.type x, r1.type x]
      by_cases hx : x = q
      · rw [if_pos hx, hx, (inv.slabs_ok.owner c hc t2 q hq).2]
      · rw [if_neg hx, if_neg hx]

/-- C16 (amended): in a state of well-formed caches with consistent bitmaps, on a
cache that has a partial or an empty slab, when `kmem_cache_alloc(cache)` returns
the pointer `p`, the call `kmem_cache_free(cache, p)` that follows returns and
leaves the cache as it was before the allocation: the same three slab lists in
the same order, the same three slab counters, the same bitmaps, and for every
slab the same `used_count` and the same type. -/
theorem cache_alloc_free_round_trip (s : kmem_state) (cs : List Nat)
    (L : Nat → slab_type → List Nat) (out : List block_area) (lists : Nat → List Nat)
    (inv : kmem_inv s cs L out lists) (hbits : slab_bits s cs L) (c : Nat) (hc : c ∈ cs)
    (hh : (s.caches c).heads slab_type.part ≠ NULL ∨ (s.caches c).heads slab_type.empty ≠ NULL)
    (p : Nat) (s1 : kmem_state) (hcall : kmem_cache_alloc s c = some (p, s1)) :
    ∃ s2, kmem_cache_free s1 c p = some s2
      ∧ (∀ t, slab_list s2 c t = slab_list s c t)
      ∧ (∀ t, (s2.caches c).slab_count t = (s.caches c).slab_count t)
      ∧ s2.bitmaps = s.bitmaps
      ∧ (∀ x, (s2.slabs x).used_count = (s.slabs x).used_count
          ∧ (s2.slabs x).type = (s.slabs x).type) := by
  have hcne := inv.slabs_ok.cache_ne c hc
  unfold kmem_cache_alloc at hcall
  rw [if_neg hcne] at hcall
  unfold kmem_cache_alloc_obj at hcall
  rw [if_neg hcne] at hcall
  simp only [] at hcall
  by_cases h1 : (s.caches c).heads slab_type.part ≠ NULL
  · rw [if_pos h1] at hcall
    exact round_trip_head s cs L out lists inv hbits c hc slab_type.part (by decide) h1 p s1 hcall
  · rw [if_neg h1] at hcall
    have h2 : (s.caches c).heads slab_type.empty ≠ NULL := hh.resolve_left h1
    rw [if_neg h2] at hcall
    exact round_trip_head s cs L out lists inv hbits c hc slab_type.empty (by decide) h2 p s1
      hcall

/-- Witness of C16: the cache of `demo_part`, whose slab is on the partial list
with object 0 in use. -/
theorem cache_alloc_free_round_trip_witness :
    (66000 ∈ demo_caches)
    ∧ ((demo_part.caches 66000).heads slab_type.part ≠ NULL
        ∨ (demo_part.caches 66000).heads slab_type.empty ≠ NULL)
    ∧ kmem_cache_alloc demo_part 66000 = some demo_step1
    ∧ ∃ s2, kmem_cache_free demo_step1.2 66000 demo_step1.1 = some s2
      ∧ (∀ t, slab_list s2 66000 t = slab_list demo_part 66000 t)
      ∧ (∀ t, (s2.caches 66000).slab_count t = (demo_part.caches 66000).slab_count t)
      ∧ s2.bitmaps = demo_part.bitmaps
      ∧ (∀ x, (s2.slabs x).used_count = (demo_part.slabs x).used_count
          ∧ (s2.slabs x).type = (demo_part.slabs x).type) :=
  ⟨by decide, Or.inl (by decide), demo_step1_eq,
    demo_part_inv.elim fun lists inv =>
      cache_alloc_free_round_trip demo_part demo_caches (demo_lists slab_type.part)
        [demo_alloc.1] lists inv demo_part_bits 66000 (by decide)
        (Or.inl (by decide)) demo_step1.1 demo_step1.2 demo_step1_eq⟩

/-- C16 (counterexample): after `kmem_init(space, 64)` and
`c = kmem_cache_create("T", 1000, NULL, NULL)` the cache has no slab; the call
`p = kmem_cache_alloc(c)` returns 315433 and `kmem_cache_free(c, p)` leaves the
cache with one slab on the empty list, at address 315392, and with the counter of
empty slabs 1. -/
theorem cache_round_trip_grows :
    grow_round_trip = some [[0, 0, 0, 0, 0, 0], [315433], [1, 0, 0, 315392, 0, 0]] := by
  decide!

/-! ## The global cache list and `kmem_cache_destroy` -/

theorem cache_chain_congr (m m1 : Nat → kmem_cache_t) : ∀ (l : List Nat) (head : Nat),
    (∀ a, a ∈ l → (m1 a).next = (m a).next) → cache_chain m head l → cache_chain m1 head l := by
  intro l
  induction l with
  | nil => intro head _ h; exact h
  | cons a l ih =>
    intro head hn h
    obtain ⟨h1, h2, h3⟩ := h
    refine ⟨h1, h2, ?_⟩
    rw [hn a (List.mem_cons_self a l)]
    exact ih _ (fun b hb => hn b (List.mem_cons_of_mem a hb)) h3

theorem cache_chain_ne_null (m : Nat → kmem_cache_t) : ∀ (l : List Nat) (head : Nat),
    cache_chain m head l → ∀ a, a ∈ l → a ≠ NULL := by
  intro l
  induction l with
  | nil => intro head _ a ha; cases ha
  | cons b l ih =>
    intro head h a ha
    obtain ⟨_, h2, h3⟩ := h
    rcases List.mem_cons.1 ha with rfl | hm
    · exact h2
    · exact ih _ h3 a hm

theorem cache_chain_null (m : Nat → kmem_cache_t) (l : List Nat) (h : cache_chain m NULL l) :
    l = [] := by
  cases l with
  | nil => rfl
  | cons a l =>
    obtain ⟨h1, h2, _⟩ := h
    exact absurd h1.symm h2

theorem cache_walk_chain (s : kmem_state) : ∀ (l : List Nat) (fuel head : Nat),
    cache_chain s.caches head l → l.length ≤ fuel → cache_walk s fuel head = l := by
  intro l
  induction l with
  | nil =>
    intro fuel head h _
    have : head = NULL := h
    subst this
    cases fuel <;> simp [cache_walk]
  | cons a l ih =>
    intro fuel head h hlen
    obtain ⟨h1, h2, h3⟩ := h
    subst h1
    cases fuel with
    | zero => simp at hlen
    | succ n =>
      unfold cache_walk
      rw [if_neg h2, ih n _ h3 (by simpa using hlen)]

/-- Unlinking the cache `p` from the cache list: the cache before it takes over its
`next` link (or the head becomes that link), and the list holds the other
caches. -/
theorem cache_chain_skip (m m1 : Nat → kmem_cache_t) (p : Nat) (post : List Nat) :
    ∀ (pre : List Nat) (head : Nat),
    cache_chain m head (pre ++ p :: post) → (pre ++ p :: post).Nodup →
    (∀ a, a ∈ pre ++ post → a ≠ pre.getLastD NULL → (m1 a).next = (m a).next) →
    (pre ≠ [] → (m1 (pre.getLastD NULL)).next = (m p).next) →
    cache_chain m1 (if pre = [] then (m p).next else head) (pre ++ post) := by
  intro pre
  induction pre with
  | nil =>
    intro head h hn hother _
    obtain ⟨_, _, h3⟩ := h
    simp only [List.nil_append, if_true]
    refine cache_chain_congr m m1 post _ ?_ h3
    intro a ha
    apply hother a (by simpa using ha)
    intro e
    simp only [List.getLastD_nil] at e
    have hnn := cache_chain_ne_null m post _ h3 a ha
    exact hnn e
  | cons a pre ih =>
    intro head h hn hother hlast
    obtain ⟨h1, h2, h3⟩ := h
    subst h1
    have hn2 : (pre ++ p :: post).Nodup := (List.nodup_cons.1 hn).2
    have hnotin : head ∉ pre ++ p :: post := (List.nodup_cons.1 hn).1
    simp only [List.cons_append, reduceCtorEq, if_false]
    refine ⟨rfl, h2, ?_⟩
    cases pre with
    | nil =>
      simp only [List.nil_append]
      have e1 : (m1 head).next = (m p).next := by
        have := hlast (by simp)
        simpa using this
      rw [e1]
      obtain ⟨_, _, h4⟩ := h3
      refine cache_chain_congr m m1 post _ ?_ h4
      intro b hb
      apply hother b (by simp [hb])
      simp only [List.getLastD_cons, List.getLastD_nil]
      intro e
      apply hnotin
      rw [← e]
      simp [hb]
    | cons b pre =>
      have hne : head ≠ (b :: pre).getLastD NULL := by
        intro e
        apply hnotin
        rw [e]
        have : (b :: pre).getLastD NULL ∈ b :: pre := by
          rw [List.getLastD_cons]
          exact List.getLastD_mem_cons pre b
        exact List.mem_append_left _ this
      have e1 : (m1 head).next = (m head).next := by
        apply hother head (by simp)
        simpa using hne
      rw [e1]
      have := ih (m head).next h3 hn2 (by
        intro c hc hcl
        apply hother c (by
          simp only [List.cons_append, List.mem_cons] at hc ⊢
          exact Or.inr hc)
        simpa using hcl) (by
        intro _
        have := hlast (by simp)
        simpa using this)
      simpa using this

/-- The walk of `kmem_cache_list_remove` along a list that holds the cache ends
at the cache, with `prev` the cache before it (or the initial `prev` for the
first cache). -/
theorem list_remove_walk_spec (s : kmem_state) (c : Nat) : ∀ (pre post : List Nat)
    (fuel prev cur : Nat), cache_chain s.caches cur (pre ++ c :: post) → c ∉ pre →
    pre.length < fuel →
    list_remove_walk s c fuel prev cur = some (pre.getLastD prev, c) := by
  intro pre
  induction pre with
  | nil =>
    intro post fuel prev cur h _ hf
    obtain ⟨h1, _, _⟩ := h
    subst h1
    cases fuel with
    | zero => simp at hf
    | succ n =>
      unfold list_remove_walk
      rw [if_neg (by simp)]
      rfl
  | cons a pre ih =>
    intro post fuel prev cur h hp hf
    obtain ⟨h1, h2, h3⟩ := h
    subst h1
    cases fuel with
    | zero => simp at hf
    | succ n =>
      have hne : cur ≠ c := by
        intro e
        exact hp (by rw [e]; exact List.mem_cons_self _ _)
      unfold list_remove_walk
      rw [if_pos hne, if_neg h2]
      rw [ih post n cur _ h3 (fun hm => hp (List.mem_cons_of_mem _ hm))
        (by simpa using hf)]
      cases pre <;> rfl

/-- The caches after `kmem_cache_list_remove` wrote the link of the cache `y`
before the cache `c` and cleared the link of `c`. -/
theorem unlinked_caches (m : Nat → kmem_cache_t) (c y ctrl : Nat) (pre post : List Nat)
    (hG : cache_chain m (m ctrl).next (pre ++ c :: post)) (hnd : (pre ++ c :: post).Nodup)
    (hkG : ctrl ∉ pre ++ c :: post)
    (hy : (pre = [] ∧ y = ctrl) ∨ (pre ≠ [] ∧ y = pre.getLastD NULL)) :
    cache_chain
        (Function.update (Function.update m y { m y with next := (m c).next }) c
          { m c with next := NULL })
        ((Function.update (Function.update m y { m y with next := (m c).next }) c
          { m c with next := NULL }) ctrl).next (pre ++ post)
      ∧ y ≠ c
      ∧ ∀ d, ∃ n, (Function.update (Function.update m y { m y with next := (m c).next }) c
          { m c with next := NULL }) d = { m d with next := n } := by
  have hcc : ctrl ≠ c := by
    intro e
    apply hkG
    rw [e]
    simp
  have hcpre : c ∉ pre := by
    intro h
    have := List.nodup_append.1 hnd
    exact this.2.2 h (List.mem_cons_self _ _) 
  have hcpost : c ∉ post := by
    have := (List.nodup_append.1 hnd).2.1
    exact (List.nodup_cons.1 this).1
  have hyc : y ≠ c := by
    rcases hy with ⟨_, e⟩ | ⟨hp, e⟩
    · rw [e]; exact hcc
    · intro e2
      apply hcpre
      rw [← e2, e]
      cases pre with
      | nil => exact absurd rfl hp
      | cons b pre =>
        rw [List.getLastD_cons]
        exact List.getLastD_mem_cons pre b
  refine ⟨?_, hyc, ?_⟩
  · have hskip := cache_chain_skip m
      (Function.update (Function.update m y { m y with next := (m c).next }) c
        { m c with next := NULL }) c post pre _ hG hnd
    rcases hy with ⟨hp, e⟩ | ⟨hp, e⟩
    · subst hp
      subst e
      rw [Function.update_noteq hcc, Function.update_same]
      have := hskip (by
        intro a ha _
        have hac : a ≠ c := by
          intro e; rw [e] at ha; exact hcpost (by simpa using ha)
        have hay : a ≠ y := by
          intro e; apply hkG; rw [← e]; simp at ha; simp [ha]
        rw [Function.update_noteq hac, Function.update_noteq hay]) (by intro h; exact absurd rfl h)
      simpa using this
    · have hyk : ctrl ≠ y := by
        intro e2
        apply hkG
        rw [e2, e]
        cases pre with
        | nil => exact absurd rfl hp
        | cons b pre =>
          rw [List.getLastD_cons]
          exact List.mem_append_left _ (List.getLastD_mem_cons pre b)
      rw [Function.update_noteq hcc, Function.update_noteq hyk]
      have := hskip (by
        intro a ha hal
        have hac : a ≠ c := by
          intro e3
          rw [e3] at ha
          rcases List.mem_append.1 ha with h | h
          · exact hcpre h
          · exact hcpost h
        rw [Function.update_noteq hac, Function.update_noteq (by rw [e]; exact hal)]) (by
        intro _
        rw [← e, Function.update_noteq hyc, Function.update_same])
      rw [if_neg hp] at this
      exact this
  · intro d
    by_cases hd : d = c
    · subst hd
      rw [Function.update_same]
      exact ⟨_, rfl⟩
    · rw [Function.update_noteq hd]
      by_cases hd2 : d = y
      · subst hd2
        rw [Function.update_same]
        exact ⟨_, rfl⟩
      · rw [Function.update_noteq hd2]
        exact ⟨(m d).next, rfl⟩

/-- The call `kmem_cache_list_remove` on a cache of the global list returns 0
and unlinks the cache; it writes `next` fields of caches only. -/
theorem kmem_cache_list_remove_spec (s : kmem_state) (c : Nat) (G : List Nat)
    (hk : s.kmem_ctrl ≠ NULL)
    (hG : cache_chain s.caches (s.caches s.kmem_ctrl).next G) (hnd : G.Nodup)
    (hc : c ∈ G) (hkG : s.kmem_ctrl ∉ G) (hlen : G.length < walk_fuel s) :
    ∃ s1, kmem_cache_list_remove s c = some (0, s1)
      ∧ cache_chain s1.caches (s1.caches s1.kmem_ctrl).next (G.erase c)
      ∧ s1.buddy = s.buddy ∧ s1.slabs = s.slabs ∧ s1.bitmaps = s.bitmaps
      ∧ s1.kmem_ctrl = s.kmem_ctrl ∧ s1.used = s.used
      ∧ ∀ d, ∃ n, s1.caches d = { s.caches d with next := n } := by
  obtain ⟨pre, post, hsplit⟩ := List.append_of_mem hc
  subst hsplit
  have hcpre : c ∉ pre := by
    intro h
    exact (List.nodup_append.1 hnd).2.2 h (List.mem_cons_self _ _)
  have hcne : c ≠ NULL := cache_chain_ne_null s.caches _ _ hG c hc
  have herase : (pre ++ c :: post).erase c = pre ++ post := by
    rw [List.erase_append_right _ hcpre, List.erase_cons_head]
  have hwalk := list_remove_walk_spec s c pre post (walk_fuel s) NULL _ hG hcpre (by
    simp only [List.length_append, List.length_cons] at hlen
    omega)
  rw [herase]
  unfold kmem_cache_list_remove
  rw [if_neg hk, hwalk]
  simp only [Option.some_bind]
  rw [if_neg hcne]
  by_cases hp : pre = []
  · obtain ⟨u1, u2, u3⟩ := unlinked_caches s.caches c s.kmem_ctrl s.kmem_ctrl pre post hG hnd hkG
      (Or.inl ⟨hp, rfl⟩)
    subst hp
    rw [if_neg (by simp)]
    refine ⟨_, rfl, ?_, rfl, rfl, rfl, rfl, rfl, ?_⟩
    · simp only [Function.update_noteq (Ne.symm u2), List.getLastD_nil] at u1 ⊢
      exact u1
    · simp only [Function.update_noteq (Ne.symm u2), List.getLastD_nil] at u3 ⊢
      exact u3
  · obtain ⟨u1, u2, u3⟩ := unlinked_caches s.caches c (pre.getLastD NULL) s.kmem_ctrl pre post
      hG hnd hkG (Or.inr ⟨hp, rfl⟩)
    have hx : pre.getLastD NULL ≠ NULL := by
      apply cache_chain_ne_null s.caches _ _ hG
      cases pre with
      | nil => exact absurd rfl hp
      | cons b pre =>
        rw [List.getLastD_cons]
        exact List.mem_append_left _ (List.getLastD_mem_cons pre b)
    rw [if_pos hx]
    refine ⟨_, rfl, ?_, rfl, rfl, rfl, rfl, rfl, ?_⟩
    · simp only [Function.update_noteq (Ne.symm u2)] at u1 ⊢
      exact u1
    · simp only [Function.update_noteq (Ne.symm u2)] at u3 ⊢
      exact u3

/-- The invariant carries over to a state that differs in `next` fields of
caches. -/
theorem inv_next_frame (s s1 : kmem_state) (cs : List Nat) (L : Nat → slab_type → List Nat)
    (out : List block_area) (lists : Nat → List Nat) (inv : kmem_inv s cs L out lists)
    (hb : s1.buddy = s.buddy) (hsl : s1.slabs = s.slabs)
    (hcs : ∀ d, ∃ n, s1.caches d = { s.caches d with next := n }) :
    kmem_inv s1 cs L out lists := by
  have hf : ∀ d, (s1.caches d).heads = (s.caches d).heads
      ∧ (s1.caches d).slab_count = (s.caches d).slab_count
      ∧ (s1.caches d).object_size = (s.caches d).object_size
      ∧ (s1.caches d).bitmap_length = (s.caches d).bitmap_length
      ∧ (s1.caches d).slab_order = (s.caches d).slab_order
      ∧ (s1.caches d).obj_per_slab = (s.caches d).obj_per_slab
      ∧ (s1.caches d).max_alignments = (s.caches d).max_alignments := by
    intro d
    obtain ⟨n, e⟩ := hcs d
    rw [e]
    exact ⟨rfl, rfl, rfl, rfl, rfl, rfl, rfl⟩
  refine ⟨?_, ?_, ?_, ?_⟩
  · exact slab_lists_off_list s s1 cs L inv.slabs_ok (by rw [hb])
      (fun d _ => ⟨(hf d).1, (hf d).2.1⟩) (fun d _ t q _ => by rw [hsl]; exact ⟨rfl, rfl, rfl⟩)
  · exact slab_states_frame s s1 cs L L inv.states_ok (fun _ _ _ _ h => h)
      (fun x => by rw [hsl]) (fun d => (hf d).2.2.2.2.2.1)
  · exact slab_places_frame s s1 cs L L out out inv.places_ok
      (fun q => by rw [hsl]; exact ⟨rfl, rfl, rfl, rfl⟩) (fun d => (hf d).2.2)
      (by rw [hb]) (fun d _ t q hq => ⟨t, hq⟩)
      (fun d hd t q hq => inv.places_ok.hook_out d hd t q hq)
  · rw [hb]
    exact inv.buddy_ok

/-- The three loops of `kmem_cache_destroy`: every slab of the cache is detached
and its hook returned to the buddy layer; the other caches keep their lists. -/
theorem destroy_loops (s : kmem_state) (cs : List Nat) (L : Nat → slab_type → List Nat)
    (out : List block_area) (lists : Nat → List Nat) (inv : kmem_inv s cs L out lists)
    (c : Nat) (hc : c ∈ cs) :
    ∃ s1 s2 s3 L3 out3 lists3,
      free_slabs_loop 1 (walk_fuel s) s ((s.caches c).heads slab_type.empty) 0
        = some (s1, (L c slab_type.empty).length)
      ∧ free_slabs_loop 1 (walk_fuel s) s1 ((s1.caches c).heads slab_type.part) 0
        = some (s2, (L c slab_type.part).length)
      ∧ free_slabs_loop 1 (walk_fuel s) s2 ((s2.caches c).heads slab_type.full) 0
        = some (s3, (L c slab_type.full).length)
      ∧ kmem_inv s3 cs L3 out3 lists3
      ∧ s3.buddy.free_block_count = s.buddy.free_block_count
          + ((L c slab_type.empty).length + (L c slab_type.part).length
              + (L c slab_type.full).length) * 2 ^ (s.caches c).slab_order
      ∧ s3.buddy.alloc_block_count = s.buddy.alloc_block_count
      ∧ same_records s s3 := by
  have hl := inv.slabs_ok
  have hsmall := hl.small
  have hshort := hl.short c hc
  have hfuel : ∀ n, n ≤ s.buddy.alloc_block_count → n < walk_fuel s := by
    intro n hn
    simp only [walk_fuel, BLOCK_SIZE]
    omega
  have hword : ∀ n, n ≤ s.buddy.alloc_block_count → 0 + n < WORD := by
    intro n hn
    simp only [WORD]
    omega
  obtain ⟨s1, lists1, a1, a2, a3, a4, a5, _, a7, _, _, a10, _, _⟩ :=
    free_slabs_loop_spec cs c slab_type.empty hc 1 (L c slab_type.empty) (walk_fuel s) s L
      out lists 0 hl inv.places_ok inv.buddy_ok rfl (hfuel _ (by omega)) (hword _ (by omega))
  obtain ⟨s2, lists2, b1, b2, b3, b4, b5, _, b7, _, _, b10, _, _⟩ :=
    free_slabs_loop_spec cs c slab_type.part hc 1 (L c slab_type.part) (walk_fuel s) s1 _
      _ lists1 0 a2 a3 a4 (set_list_other_type L c _ _ _ (by decide)) (hfuel _ (by omega))
      (hword _ (by omega))
  obtain ⟨s3, lists3, c1, c2, c3, c4, c5, _, c7, _, _, c10, _, _⟩ :=
    free_slabs_loop_spec cs c slab_type.full hc 1 (L c slab_type.full) (walk_fuel s) s2 _
      _ lists2 0 b2 b3 b4
      ((set_list_other_type _ c _ _ _ (by decide)).trans
        (set_list_other_type L c _ _ _ (by decide)))
      (hfuel _ (by omega)) (hword _ (by omega))
  have hrec : same_records s s3 :=
    same_records_trans s s2 s3 (same_records_trans s s1 s2 a10 b10) c10
  have ho1 : (s1.caches c).slab_order = (s.caches c).slab_order := (a10.caches c).slab_order
  have ho2 : (s2.caches c).slab_order = (s1.caches c).slab_order := (b10.caches c).slab_order
  simp only [Nat.zero_add] at a1 b1 c1
  refine ⟨s1, s2, s3, _, _, lists3, a1, b1, c1, ⟨c2, ?_, c3, c4⟩, ?_, ?_, hrec⟩
  · refine slab_states_frame s s3 cs L _ inv.states_ok ?_ (fun x => (hrec.slabs x).used_count)
      (fun d => (hrec.caches d).obj_per_slab)
    intro d hd t x hx
    have h1 := mem_set_list_sub _ c slab_type.full [] (by simp) d t x hx
    have h2 := mem_set_list_sub _ c slab_type.part [] (by simp) d t x h1
    exact mem_set_list_sub _ c slab_type.empty [] (by simp) d t x h2
  · rw [c5, b5, a5, ho2, ho1]
    ring
  · rw [c7, b7, a7]

/-- The last step of `kmem_cache_destroy`, the release of the cache record to the
cache of caches: it returns, whatever the pointer, and writes neither the buddy
layer nor a `next` field of a cache. -/
theorem free_obj_keeps_links (s : kmem_state) (cs : List Nat) (L : Nat → slab_type → List Nat)
    (out : List block_area) (lists : Nat → List Nat) (inv : kmem_inv s cs L out lists)
    (c : Nat) (hc : c ∈ cs) (objp : Nat) :
    ∃ r s1, kmem_cache_free_obj s c objp = some (r, s1) ∧ s1.buddy = s.buddy
      ∧ s1.kmem_ctrl = s.kmem_ctrl ∧ ∀ d, (s1.caches d).next = (s.caches d).next := by
  rcases free_obj_spec s cs L out lists inv c hc objp with
    ⟨t, p, s1, t1, _, _, _, _, e1, _, e3⟩ | ⟨_, e1⟩
  · exact ⟨0, s1, e1, e3.buddy, e3.kmem_ctrl, fun d => (e3.caches d).next⟩
  · refine ⟨-1, _, e1, rfl, rfl, ?_⟩
    intro d
    show (Function.update s.caches c _ d).next = _
    by_cases hd : d = c
    · rw [hd, Function.update_same]
    · rw [Function.update_noteq hd]

/-- C17: `kmem_cache_destroy` on a cache of the global cache list, in a state of
well-formed caches that holds the cache and the cache of caches, returns; after
it the buddy `free_block_count` is larger by `(e + p + f) * 2 ^ slab_order`, for
the counters `e`, `p`, `f` of empty, partial and full slabs of the cache, which
are the lengths of its three slab lists, and the cache is no longer on the
global cache list, which holds the other caches as before. -/
theorem kmem_cache_destroy_returns_blocks (s : kmem_state) (cs : List Nat)
    (L : Nat → slab_type → List Nat) (out : List block_area) (lists : Nat → List Nat)
    (inv : kmem_inv s cs L out lists) (c : Nat) (hc : c ∈ cs) (hk : s.kmem_ctrl ∈ cs)
    (G : List Nat) (hG : cache_chain s.caches (s.caches s.kmem_ctrl).next G) (hnd : G.Nodup)
    (hcG : c ∈ G) (hkG : s.kmem_ctrl ∉ G) (hlen : G.length < walk_fuel s) :
    ∃ s1, kmem_cache_destroy s c = some s1
      ∧ s1.buddy.free_block_count = s.buddy.free_block_count
          + ((s.caches c).slab_count slab_type.empty + (s.caches c).slab_count slab_type.part
              + (s.caches c).slab_count slab_type.full) * 2 ^ (s.caches c).slab_order
      ∧ (∀ t, (s.caches c).slab_count t = (slab_list s c t).length)
      ∧ cache_list s = G
      ∧ cache_list s1 = G.erase c
      ∧ c ∉ cache_list s1 := by
  have hcne := inv.slabs_ok.cache_ne c hc
  have hkne := inv.slabs_ok.cache_ne _ hk
  obtain ⟨s1, s2, s3, L3, out3, lists3, l1, l2, l3, inv3, hfbc, habc, hrec⟩ :=
    destroy_loops s cs L out lists inv c hc
  have hk3 : s3.kmem_ctrl = s.kmem_ctrl := hrec.kmem_ctrl
  have hG3 : cache_chain s3.caches (s3.caches s3.kmem_ctrl).next G := by
    rw [hk3, (hrec.caches _).next]
    exact cache_chain_congr s.caches s3.caches G _ (fun a _ => (hrec.caches a).next) hG
  have hf3 : walk_fuel s3 = walk_fuel s := by
    unfold walk_fuel
    rw [habc]
  obtain ⟨s4, r1, chain4, buddy4, slabs4, _, ctrl4, _, caches4⟩ :=
    kmem_cache_list_remove_spec s3 c G (by rw [hk3]; exact hkne) hG3 hnd hcG
      (by rw [hk3]; exact hkG) (by rw [hf3]; exact hlen)
  have inv4 := inv_next_frame s3 s4 cs L3 out3 lists3 inv3 buddy4 slabs4 caches4
  obtain ⟨r, s5, f1, fb, fk, fn⟩ := free_obj_keeps_links s4 cs L3 out3 lists3 inv4 s4.kmem_ctrl
    (by rw [ctrl4, hk3]; exact hk) c
  have hcall : kmem_cache_destroy s c = some s5 := by
    unfold kmem_cache_destroy
    rw [if_neg hcne, l1]
    simp only [Option.some_bind]
    rw [l2]
    simp only [Option.some_bind]
    rw [l3]
    simp only [Option.some_bind]
    rw [r1]
    simp only [Option.some_bind]
    rw [if_neg (by decide), f1]
    rfl
  have hchain5 : cache_chain s5.caches (s5.caches s5.kmem_ctrl).next (G.erase c) := by
    rw [fk, fn]
    exact cache_chain_congr s4.caches s5.caches _ _ (fun a _ => fn a) chain4
  have hf5 : walk_fuel s5 = walk_fuel s := by
    unfold walk_fuel
    rw [fb, buddy4, habc]
  have hlist5 : cache_list s5 = G.erase c := by
    unfold cache_list
    apply cache_walk_chain s5 _ _ _ hchain5
    rw [hf5]
    exact le_trans (List.length_erase_le c G) (Nat.le_of_lt hlen)
  have hcount : ∀ t, (s.caches c).slab_count t = (slab_list s c t).length := by
    intro t
    rw [slab_list_eq s cs L inv.slabs_ok c hc t]
    exact inv.slabs_ok.count c hc t
  refine ⟨s5, hcall, ?_, hcount, ?_, hlist5, ?_⟩
  · rw [fb, buddy4, hfbc, inv.slabs_ok.count c hc, inv.slabs_ok.count c hc,
      inv.slabs_ok.count c hc]
  · unfold cache_list
    exact cache_walk_chain s G _ _ hG (Nat.le_of_lt hlen)
  · rw [hlist5]
    exact hnd.not_mem_erase

theorem demo_cache_chain : cache_chain demo_part.caches (demo_part.caches demo_part.kmem_ctrl).next
    [66000] := by
  have h1 : demo_part.kmem_ctrl = 65664 := rfl
  have h2 : demo_part.caches 65664 = demo_ctrl := demo_ctrl_at _ _ _ _
  have h3 : demo_part.caches 66000 = demo_cache slab_type.part (-1) := demo_cache_at _ _ _ _
  rw [h1, h2]
  refine ⟨rfl, by decide, ?_⟩
  rw [h3]
  rfl

theorem demo_walk_fuel : [66000].length < walk_fuel demo_part := by
  decide!

/-- Witness of C17: the cache 66000 of `demo_part`, which holds one partial slab
of one block and is the only cache of the global cache list. -/
theorem kmem_cache_destroy_returns_blocks_witness :
    (66000 ∈ demo_caches) ∧ (demo_part.kmem_ctrl ∈ demo_caches)
    ∧ cache_chain demo_part.caches (demo_part.caches demo_part.kmem_ctrl).next [66000]
    ∧ [66000].Nodup ∧ (66000 ∈ [66000]) ∧ (demo_part.kmem_ctrl ∉ [66000])
    ∧ [66000].length < walk_fuel demo_part
    ∧ ∃ s1, kmem_cache_destroy demo_part 66000 = some s1
      ∧ s1.buddy.free_block_count = demo_part.buddy.free_block_count
          + ((demo_part.caches 66000).slab_count slab_type.empty
              + (demo_part.caches 66000).slab_count slab_type.part
              + (demo_part.caches 66000).slab_count slab_type.full)
            * 2 ^ (demo_part.caches 66000).slab_order
      ∧ (∀ t, (demo_part.caches 66000).slab_count t = (slab_list demo_part 66000 t).length)
      ∧ cache_list demo_part = [66000]
      ∧ cache_list s1 = [66000].erase 66000
      ∧ 66000 ∉ cache_list s1 :=
  ⟨by decide, by decide, demo_cache_chain, by decide, by decide, by decide, demo_walk_fuel,
    demo_part_inv.elim fun lists inv =>
      kmem_cache_destroy_returns_blocks demo_part demo_caches (demo_lists slab_type.part)
        [demo_alloc.1] lists inv 66000 (by decide) (by decide) [66000] demo_cache_chain
        (by decide) (by decide) (by decide) demo_walk_fuel⟩

/-- The scenario of C17 with objects of 1000 bytes: after `kmem_init` on 64 blocks
62 blocks are free; five allocations leave the cache with a partial and a full
slab of one block each and 60 free blocks; `kmem_cache_destroy` leaves 62 free
blocks and the global cache list without the cache. -/
theorem destroy_two_slabs_eq :
    destroy_two_slabs = some [[62, 60, 62], [0, 1, 1, 0], [323628], [], [323628]] := by
  decide!

/-! ## A slab handed to two caches -/

/-- C19: on a region that held 5 where `free_heads[4]` lies, the calls of
`slab_taken_twice` all return.  After the shrink four blocks are free, 1, 3, 5
and 7, no two of them buddies; `q1 = kmem_cache_alloc(c)` asks for a slab of two
blocks, passes the guard of `buddy_alloc` with the lists of the orders 1 to 3
empty, and the upward scan runs past `max_order` and pushes a run that starts at
block 2; `q2 = kmem_cache_alloc(b)` is served that run and lays its slab at
address 73792, the slab of `a` that holds the object `p2`.  At the end `q2` is
the pointer `p2`, which was never freed; `slab_count[full]` of `a` is 4 while
five slabs are linked from `heads[full]` of `a`; the last two of them have the
`cache` field `b`, and the slab 73792 is linked from `heads[full]` of both `a`
and `b`. -/
theorem slab_on_two_caches :
    slab_taken_twice (stale_region 4 5)
      = some [[4, 2, 0], [69673, 73833, 77993, 82153, 86313, 90473, 94633, 98793],
          [65641, 73833], [4], [98752, 90432, 82112, 73792, 102400],
          [118828, 118828, 118828, 118980, 118980], [73792, 102400],
          [118828, 118980, 119132]] := by
  decide!

/-- On a region whose words are all zero the same calls have no defined result:
the upward scan of `buddy_alloc` reads past the end of `free_heads`. -/
theorem slab_taken_twice_zero : slab_taken_twice zero_region = none := by
  decide!

end KernelAllocator
